import Mathlib

/-!
# IEC 61937-13 packetizer for MPEG-H access units

A shallow embedding of `src/src/iec61937_enc.cpp` and `src/src/iec61937_dec.cpp`
(the encoder's accumulate-and-emit machine and the decoder's sync-search and
reassembly machine), followed by theorems about them.

Conventions of the embedding:

* a byte buffer is a `List Nat`; the C array it stands for is that list followed
  by zero bytes (both state structures are allocated with `calloc`), so a read
  beyond the list yields `0`;
* `uint32_t` arithmetic that can wrap is written with `u32` / `sub32`;
  `int32_t` quantities are `Int`;
* the `*outputBuffer++ = ...` writes of the encoder are collected, in order, in
  the list of bytes the function returns.
-/

namespace Iec61937

/-! ## Wire constants -/

/-- Modelled from the spec: the wire constants `SYNC_PREAMBLE_0..3` and
`IEC_BURST_SPACING_SIZE_BYTES` come from `iec61937_common.h`, which is not among
the sources. The spec fixes no value for them (the preamble is "the four-byte
sequence P0 P1 P2 P3", the spacing "MUST be nonzero"), so every definition takes
them as a parameter. -/
structure WireConsts where
  SYNC_PREAMBLE_0 : Nat
  SYNC_PREAMBLE_1 : Nat
  SYNC_PREAMBLE_2 : Nat
  SYNC_PREAMBLE_3 : Nat
  IEC_BURST_SPACING_SIZE_BYTES : Nat
deriving DecidableEq, Repr

/-- Modelled from the spec: `IEC_HEADER_SIZE_BYTES = 8` (preamble 4 + Pc 2 + Pd 2),
a constant of `iec61937_common.h`. -/
def IEC_HEADER_SIZE_BYTES : Nat := 8

/-- The value of `IEC60958_FRAME_SIZE_BYTES` in both public headers. -/
def IEC60958_FRAME_SIZE_BYTES : Nat := 4

/-- The value of `IEC61937_AUDIOFRAME_LENGTH` in `iec61937_enc.h`. -/
def IEC61937_AUDIOFRAME_LENGTH : Nat := 1024

/-- The value of `MAX_NUM_MPEGH_FRAMES` in `iec61937_enc.cpp`. -/
def MAX_NUM_MPEGH_FRAMES : Nat := 5

/-- The value of `MAX_MPEGH_FRAME_SIZE` in `iec61937_enc.cpp` and `iec61937_dec.h`. -/
def MAX_MPEGH_FRAME_SIZE : Nat := 65536

/-- The value of `MAX_MPEGH_FRAME_DURATION` in `iec61937_enc.cpp`. -/
def MAX_MPEGH_FRAME_DURATION : Nat := 4096

/-- The encoder's `WORKBUFFER_SIZE_BYTES`: `MAX_MPEGH_FRAME_SIZE * MAX_NUM_MPEGH_FRAMES`. -/
def ENC_WORKBUFFER_SIZE_BYTES : Nat := 327680

/-- The decoder's `WORKBUFFER_SIZE_BYTES`: `4096 * 16 * 4 * 3`. -/
def DEC_WORKBUFFER_SIZE_BYTES : Nat := 786432

/-- An instance of the wire constants used to evaluate the model on concrete
streams: the IEC 61937 preamble Pa = F872h, Pb = 4E1Fh and eight bytes of burst
spacing. -/
def refConsts : WireConsts :=
  { SYNC_PREAMBLE_0 := 248, SYNC_PREAMBLE_1 := 114, SYNC_PREAMBLE_2 := 78,
    SYNC_PREAMBLE_3 := 31, IEC_BURST_SPACING_SIZE_BYTES := 8 }

/-! ## Machine arithmetic and memory -/

/-- Truncation to `uint32_t`. -/
def u32 (x : Nat) : Nat := x % 4294967296

/-- Subtraction of two `uint32_t` values, wrapping modulo `2^32`. -/
def sub32 (a b : Nat) : Nat := (a % 4294967296 + 4294967296 - b % 4294967296) % 4294967296

/-- The cast `(uint8_t)x` of an unsigned value. -/
def u8 (x : Nat) : Nat := x % 256

/-- The cast `(uint8_t)x` of an `int32_t` value. -/
def u8i (x : Int) : Nat := (x % 256).toNat

/-- The cell `a[i]` of a zero-initialised array. -/
def peek (a : List Nat) (i : Nat) : Nat := a.getD i 0

/-- The `n` cells of a zero-initialised array starting at `off`. -/
def memRead (a : List Nat) (off n : Nat) : List Nat :=
  (a.drop off ++ List.replicate n 0).take n

/-- The array after `memcpy(a + off, d, d.length)`. -/
def memWrite (a : List Nat) (off : Nat) (d : List Nat) : List Nat :=
  (a ++ List.replicate (off - a.length) 0).take off ++ d ++ a.drop (off + d.length)

/-- The array after `memmove(a + dst, a + src, n)`. -/
def memMove (a : List Nat) (dst src n : Nat) : List Nat :=
  memWrite a dst (memRead a src n)

/-- Sum of the first `n` cells of an array (the `for (i = 0; i < n; i++) acc += a[i]`
loops of the encoder), in `uint32_t`. -/
def sumCells (a : List Nat) : Nat → Nat
  | 0 => 0
  | n + 1 => u32 (sumCells a n + peek a n)

/-! ## Encoder (`iec61937_enc.cpp`) -/

/-- The type `IECENC_RESULT` (the null-pointer result has no counterpart: the
embedding has no null arguments). -/
inductive IECENC_RESULT where
  | IECENC_OK
  | IECENC_BUFFER_ERROR
  | IECENC_DURATION_ERROR
deriving DecidableEq, Repr

/-- The structure `iec61937_encoder_state`. The two cursors are offsets into
`workBuffer`. -/
structure EncState where
  rateFactor : Nat
  audioMode : Nat
  burstRepetitionPeriod : Nat
  payloadHeaderSize : Nat
  audioFrameLength : Int
  pcmOffset : Int
  overallDuration : Int
  workBuffer : List Nat
  pWorkBufferWrite : Nat
  pWorkBufferRead : Nat
  framesStoredCount : Nat
  frameLength : List Nat
  frameDuration : List Nat
  auPending : Bool
deriving DecidableEq, Repr

/-- The state `iec61937_encode_open` builds once its `switch` has chosen the audio
mode and the rate code: counters and buffers reset, sub-header size and burst
repetition period derived. -/
def encInit (audioMode rateCode : Nat) : EncState :=
  let payloadHeaderSize := if audioMode = 0 then 6 else 8
  let audioFrameLength := IEC61937_AUDIOFRAME_LENGTH
  let period := audioFrameLength * IEC60958_FRAME_SIZE_BYTES
  let period := if audioMode = 1 then u32 (period * 2 ^ (rateCode + 1)) else period
  { rateFactor := rateCode, audioMode := audioMode, burstRepetitionPeriod := period,
    payloadHeaderSize := payloadHeaderSize, audioFrameLength := audioFrameLength,
    pcmOffset := 0, overallDuration := 0,
    workBuffer := [], pWorkBufferWrite := 0, pWorkBufferRead := 0,
    framesStoredCount := 0,
    frameLength := List.replicate MAX_NUM_MPEGH_FRAMES 0,
    frameDuration := List.replicate MAX_NUM_MPEGH_FRAMES 0,
    auPending := false }

/-- The function `iec61937_encode_open`: `none` is the `NULL` return. -/
def iec61937_encode_open (rateFactor : Nat) : Option EncState :=
  if rateFactor = 4 then some (encInit 1 1)
  else if rateFactor = 16 then some (encInit 1 3)
  else none

/-- The `while` loop of `getNumBuffersToWrite`, from the state `(i, writeLength,
duration)`; the first argument bounds the iterations left (the loop stops at
`i = framesStoredCount` at the latest). -/
def getNumBuffersLoop (h : EncState) (availableBytes : Nat) : Nat → Nat → Nat → Int → Nat
  | 0, i, _, _ => i
  | n + 1, i, writeLength, duration =>
    if writeLength < availableBytes ∧ duration ≤ h.overallDuration ∧ i ≠ h.framesStoredCount then
      getNumBuffersLoop h availableBytes n (i + 1)
        (u32 (writeLength + (peek h.frameLength i + h.payloadHeaderSize)))
        (duration + peek h.frameDuration i)
    else i

/-- The bytes a burst offers before any selected frame's sub-header is accounted
for: `burstRepetitionPeriod - (IEC_HEADER_SIZE_BYTES + IEC_BURST_SPACING_SIZE_BYTES)`,
less one sub-header (the terminator) unless an AU is pending. -/
def availableBytes (k : WireConsts) (h : EncState) : Nat :=
  let a := sub32 h.burstRepetitionPeriod (IEC_HEADER_SIZE_BYTES + k.IEC_BURST_SPACING_SIZE_BYTES)
  if h.auPending then a else sub32 a h.payloadHeaderSize

/-- The function `getNumBuffersToWrite`. -/
def getNumBuffersToWrite (k : WireConsts) (h : EncState) : Nat :=
  getNumBuffersLoop h (availableBytes k h) h.framesStoredCount 0 0 0

/-- The bytes of one payload sub-header written by `writeIecFrame`. -/
def payloadHeaderBytes (audioMode dataOffset frameLength : Nat) (pcmOffset : Int) : List Nat :=
  (if audioMode = 1 then [u8 (dataOffset / 65536)] else []) ++
  [u8 (dataOffset / 256), u8 dataOffset] ++
  (if audioMode = 1 then [u8 (frameLength / 65536)] else []) ++
  [u8 (frameLength / 256), u8 frameLength] ++
  [u8i (pcmOffset / 256), u8i pcmOffset]

/-- The `for (j = 0; j < numPayloadHeaders; j++)` loop of `writeIecFrame`, from the
state `(i, dataOffset, pcmOffset)`: the bytes written and the final `pcmOffset`. -/
def writePayloadHeaders (h : EncState) : Nat → Nat → Nat → Int → List Nat × Int
  | 0, _, _, pcmOffset => ([], pcmOffset)
  | n + 1, i, dataOffset, pcmOffset =>
    let hdr := payloadHeaderBytes h.audioMode dataOffset (peek h.frameLength i) pcmOffset
    let rest := writePayloadHeaders h n (i + 1) (u32 (dataOffset + peek h.frameLength i))
      (pcmOffset + peek h.frameDuration i)
    (hdr ++ rest.1, rest.2)

/-- The local `numPayloadHeaders` of `writeIecFrame`: `numBuffersToWrite`, less one
when an AU is pending. -/
def numPayloadHeaders (h : EncState) (numBuffersToWrite : Nat) : Nat :=
  if h.auPending then sub32 numBuffersToWrite 1 else numBuffersToWrite

/-- The local `payloadDataLength` of `writeIecFrame`: the number of work-buffer bytes
copied into the burst. -/
def payloadDataLength (payloadLength numAvailableBytes : Nat) : Nat :=
  if payloadLength < numAvailableBytes then payloadLength else numAvailableBytes

/-- The local `dataBurstLength` of `writeIecFrame`, the value of the `Pd` field. -/
def dataBurstLength (h : EncState) (payloadLength numAvailableBytes numBuffersToWrite : Nat) : Nat :=
  let dataBurstLengthBytes :=
    u32 (payloadDataLength payloadLength numAvailableBytes +
      u32 ((numPayloadHeaders h numBuffersToWrite + 1) * h.payloadHeaderSize))
  if h.audioMode = 1 then u32 (dataBurstLengthBytes + 7) / 8 else dataBurstLengthBytes

/-- The eight bytes `writeIecFrame` writes first: the preamble, `Pc` and `Pd`. -/
def burstHeader (k : WireConsts) (h : EncState)
    (payloadLength numAvailableBytes numBuffersToWrite : Nat) : List Nat :=
  let dataBurstLength := dataBurstLength h payloadLength numAvailableBytes numBuffersToWrite
  [k.SYNC_PREAMBLE_0, k.SYNC_PREAMBLE_1, k.SYNC_PREAMBLE_2, k.SYNC_PREAMBLE_3,
    u8 (h.rateFactor * 8), u8 (h.audioMode * 32 + 25),
    u8 (dataBurstLength / 256), u8 dataBurstLength]

/-- The block "write payload headers" of `writeIecFrame`: the sub-header bytes and the
value of `pcmOffset` afterwards. -/
def burstSubHeaders (h : EncState) (numBuffersToWrite : Nat) : List Nat × Int :=
  let numPayloadHeaders := numPayloadHeaders h numBuffersToWrite
  let dataOffset := u32 (8 + u32 ((numPayloadHeaders + 1) * h.payloadHeaderSize))
  let i := if h.auPending then 1 else 0
  let dataOffset := if h.auPending then u32 (dataOffset + peek h.frameLength 0) else dataOffset
  writePayloadHeaders h numPayloadHeaders i dataOffset h.pcmOffset

/-- The function `writeIecFrame`: the bytes written to the output buffer, the value
returned, and the state afterwards (`pcmOffset` and the read cursor move). -/
def writeIecFrame (k : WireConsts) (h : EncState)
    (payloadLength numAvailableBytes numBuffersToWrite : Nat) : List Nat × Nat × EncState :=
  let payloadDataLength := payloadDataLength payloadLength numAvailableBytes
  let subs := burstSubHeaders h numBuffersToWrite
  let terminator := List.replicate h.payloadHeaderSize 0
  let payload := memRead h.workBuffer h.pWorkBufferRead payloadDataLength
  let padding := List.replicate (numAvailableBytes - payloadLength) 0
  let spacing := List.replicate k.IEC_BURST_SPACING_SIZE_BYTES 0
  (burstHeader k h payloadLength numAvailableBytes numBuffersToWrite ++ subs.1 ++ terminator ++
      payload ++ padding ++ spacing,
   h.burstRepetitionPeriod,
   { h with pcmOffset := subs.2, pWorkBufferRead := h.pWorkBufferRead + payloadDataLength })

/-- The loop `for (i = 0; i < numBuffersToWrite; i++) numAvailableBytes -= payloadHeaderSize`
of `iec61937_encode_process`. -/
def subHeaderSizes (payloadHeaderSize : Nat) : Nat → Nat → Nat
  | 0, numAvailableBytes => numAvailableBytes
  | n + 1, numAvailableBytes => subHeaderSizes payloadHeaderSize n (sub32 numAvailableBytes payloadHeaderSize)

/-- The loop "adjust the written data" of `iec61937_encode_process`, iterations
`i, i+1, ..` (the first argument counts the iterations left), on the state
`(auPending, frameLength, frameDuration, buffersToDelete)`. -/
def adjustLoop (numBuffersToWrite payloadDataLength numAvailableBytes : Nat) :
    Nat → Nat → Bool × List Nat × List Nat × Nat → Bool × List Nat × List Nat × Nat
  | 0, _, st => st
  | n + 1, i, (_, fl, fd, del) =>
    if i = sub32 numBuffersToWrite 1 ∧ payloadDataLength > numAvailableBytes then
      adjustLoop numBuffersToWrite payloadDataLength numAvailableBytes n (i + 1)
        (true, fl.set i (sub32 payloadDataLength numAvailableBytes), fd.set i 0, del)
    else
      adjustLoop numBuffersToWrite payloadDataLength numAvailableBytes n (i + 1)
        (false, fl.set i 0, fd.set i 0, del + 1)

/-- What one call of `iec61937_encode_process` hands back: the result code,
`*fInputBufferProcessed`, the bytes written to `outputBuffer` and
`*pOutputBufferLength`. -/
structure EncOut where
  result : IECENC_RESULT
  inputBufferProcessed : Bool
  outputBuffer : List Nat
  outputBufferLength : Nat
deriving DecidableEq, Repr

/-- The local `numAvailableBytes` of `iec61937_encode_process`: the bytes of the burst
left for payload data once the header, the burst spacing, the terminator (unless an
AU is pending) and one sub-header per selected frame are taken off. -/
def numAvailableBytes (k : WireConsts) (h : EncState) (numBuffersToWrite : Nat) : Nat :=
  subHeaderSizes h.payloadHeaderSize numBuffersToWrite (availableBytes k h)

/-- The second half of `iec61937_encode_process` (from "calculate the number of
bytes available in the work buffer" on): one burst is written and the stored
frames are adjusted. -/
def emitBurst (k : WireConsts) (h : EncState) (numBuffersToWrite : Nat)
    (inputBufferProcessed : Bool) : EncOut × EncState :=
  let currentWorkbufferBytes := sumCells h.frameLength h.framesStoredCount
  let payloadDataLength := sumCells h.frameLength numBuffersToWrite
  let numAvailableBytes := numAvailableBytes k h numBuffersToWrite
  -- write an IEC61937-13 frame
  let w := writeIecFrame k h payloadDataLength numAvailableBytes numBuffersToWrite
  -- adjust the written data
  let adj := adjustLoop numBuffersToWrite payloadDataLength numAvailableBytes
    numBuffersToWrite 0 (h.auPending, h.frameLength, h.frameDuration, 0)
  let buffersToDelete := adj.2.2.2
  -- remove/adjust processed frame info
  let count :=
    if buffersToDelete > 0 then sub32 h.framesStoredCount buffersToDelete else h.framesStoredCount
  let payloadDataToDelete :=
    if payloadDataLength > numAvailableBytes then numAvailableBytes else payloadDataLength
  let payloadDataToKeep := sub32 currentWorkbufferBytes payloadDataToDelete
  ({ result := .IECENC_OK, inputBufferProcessed := inputBufferProcessed,
     outputBuffer := w.1, outputBufferLength := w.2.1 },
   { h with
     overallDuration := h.overallDuration - h.audioFrameLength,
     pcmOffset := w.2.2.pcmOffset - h.audioFrameLength,
     auPending := adj.1,
     framesStoredCount := count,
     frameLength := if buffersToDelete > 0 then memMove adj.2.1 0 buffersToDelete count else adj.2.1,
     frameDuration :=
       if buffersToDelete > 0 then memMove adj.2.2.1 0 buffersToDelete count else adj.2.2.1,
     workBuffer :=
       if payloadDataToKeep > 0 then
         memMove h.workBuffer 0 w.2.2.pWorkBufferRead payloadDataToKeep
       else h.workBuffer,
     pWorkBufferRead := 0,
     pWorkBufferWrite := payloadDataToKeep })

/-- The function `iec61937_encode_process` on non-null arguments: `inputBuffer` is
the AU (`inputBufferLength` its length), `outputCapacity` the value of
`*pOutputBufferLength` on entry. -/
def iec61937_encode_process (k : WireConsts) (h : EncState) (inputBuffer : List Nat)
    (duration : Nat) (outputCapacity : Nat) : EncOut × EncState :=
  if outputCapacity < h.burstRepetitionPeriod then
    ({ result := .IECENC_BUFFER_ERROR, inputBufferProcessed := false, outputBuffer := [],
       outputBufferLength := outputCapacity }, h)
  else if duration > MAX_MPEGH_FRAME_DURATION then
    ({ result := .IECENC_DURATION_ERROR, inputBufferProcessed := false, outputBuffer := [],
       outputBufferLength := outputCapacity }, h)
  else
    let inputBufferLength :=
      if h.overallDuration ≥ h.audioFrameLength then 0 else inputBuffer.length
    if inputBufferLength ≠ 0 then
      if h.framesStoredCount + 1 ≥ MAX_NUM_MPEGH_FRAMES then
        ({ result := .IECENC_BUFFER_ERROR, inputBufferProcessed := false, outputBuffer := [],
           outputBufferLength := 0 }, h)
      else if h.pWorkBufferWrite + inputBufferLength > ENC_WORKBUFFER_SIZE_BYTES then
        ({ result := .IECENC_BUFFER_ERROR, inputBufferProcessed := false, outputBuffer := [],
           outputBufferLength := 0 }, h)
      else
        let h := { h with
          overallDuration := h.overallDuration + duration,
          workBuffer := memWrite h.workBuffer h.pWorkBufferWrite inputBuffer,
          pWorkBufferWrite := h.pWorkBufferWrite + inputBufferLength,
          frameLength := h.frameLength.set h.framesStoredCount inputBufferLength,
          frameDuration := h.frameDuration.set h.framesStoredCount duration,
          framesStoredCount := h.framesStoredCount + 1 }
        let numBuffersToWrite := getNumBuffersToWrite k h
        if h.overallDuration < h.audioFrameLength ∨ numBuffersToWrite = 0 then
          ({ result := .IECENC_OK, inputBufferProcessed := true, outputBuffer := [],
             outputBufferLength := 0 }, h)
        else emitBurst k h numBuffersToWrite true
    else
      emitBurst k h (getNumBuffersToWrite k h) false

/-! ## Decoder (`iec61937_dec.cpp`) -/

/-- The type `IECDEC_RESULT` (the null-pointer result has no counterpart: the
embedding has no null arguments). -/
inductive IECDEC_RESULT where
  | IECDEC_OK
  | IECDEC_FEED_MORE_DATA
  | IECDEC_PENDINGDATA_ERROR
  | IECDEC_BUFFER_ERROR
deriving DecidableEq, Repr

/-- The structure `iec61937_decoder_state`. The list `frameBufferPending` stands for the
array `frameBufferPending[MAX_MPEGH_FRAME_SIZE]` as long as no cell from index
`MAX_MPEGH_FRAME_SIZE` on is written: in C such a write runs into the fields declared
behind the array (`frameBytesPending`, `frameBytesMissing`, `pcmOffsetPending`, the sync
state, the parser state), which a list cannot show. `pcmOffsetPending` stands for the
`int32_t` field as long as its value is in the range of `int32_t`. -/
structure DecState where
  workBuffer : List Nat
  workBufferBytesAvailable : Nat
  frameBufferPending : List Nat
  frameBytesPending : Nat
  frameBytesMissing : Nat
  pcmOffsetPending : Int
  syncFound : Bool
  syncCandidateFound : Bool
  syncCandidateIndex : Nat
  dataType : Nat
  audioMode : Nat
  rateFactor : Nat
  frameLength : Nat
  payloadLength : Nat
  burstRepetitionPeriod : Nat
  payloadHeaderSize : Nat
  numPayloadHeaders : Nat
  payloadHeaderIndex : Nat
deriving DecidableEq, Repr

/-- The function `resetSyncState`. -/
def resetSyncState (h : DecState) : DecState :=
  { h with syncCandidateFound := false, syncCandidateIndex := 0, syncFound := false }

/-- The function `resetParsingState`. -/
def resetParsingState (h : DecState) : DecState :=
  { h with dataType := 0, audioMode := 0, rateFactor := 0, frameLength := 0, payloadLength := 0,
           burstRepetitionPeriod := 0, payloadHeaderSize := 0, numPayloadHeaders := 0,
           payloadHeaderIndex := 0 }

/-- The function `resetPendingState`. -/
def resetPendingState (h : DecState) : DecState :=
  { h with frameBytesPending := 0, frameBytesMissing := 0, pcmOffsetPending := 0 }

/-- The function `iec61937_decode_open`. -/
def iec61937_decode_open : DecState :=
  { workBuffer := [], workBufferBytesAvailable := 0, frameBufferPending := [],
    frameBytesPending := 0, frameBytesMissing := 0, pcmOffsetPending := 0,
    syncFound := false, syncCandidateFound := false, syncCandidateIndex := 0,
    dataType := 0, audioMode := 0, rateFactor := 0, frameLength := 0, payloadLength := 0,
    burstRepetitionPeriod := 0, payloadHeaderSize := 0, numPayloadHeaders := 0,
    payloadHeaderIndex := 0 }

/-- The `switch (frameLengthCode)` of `parseIecFrameData`. -/
def frameLengthOfCode (frameLengthCode : Nat) : Nat :=
  if frameLengthCode = 0 then 1024
  else if frameLengthCode = 1 then 2048
  else if frameLengthCode = 2 then 4096
  else if frameLengthCode = 3 then 768
  else if frameLengthCode = 4 then 1536
  else if frameLengthCode = 5 then 3072
  else 0

/-- The function `parseIecFrameData`: the value returned and the state afterwards.
The masks `& 0x1f`, `& 0x7`, `& 0x3` and the shifts `>> 5`, `>> 3` are written as
remainders and quotients. -/
def parseIecFrameData (k : WireConsts) (h : DecState) : Nat × DecState :=
  let b4 := peek h.workBuffer (h.syncCandidateIndex + 4)
  let b5 := peek h.workBuffer (h.syncCandidateIndex + 5)
  let b6 := peek h.workBuffer (h.syncCandidateIndex + 6)
  let b7 := peek h.workBuffer (h.syncCandidateIndex + 7)
  let dataType := b5 % 32
  let audioMode := (b5 / 32) % 4
  let frameLengthCode := b4 % 8
  let rateFactor := (b4 / 8) % 4
  let payloadLength := (b6 * 256) % 65536 + b7 % 65536
  if dataType ≠ 25 then (1, h)
  else if audioMode > 1 then (1, h)
  else
    let frameLength := frameLengthOfCode frameLengthCode
    if frameLength = 0 then (1, h)
    else
      let burstRepetitionPeriod := frameLength * IEC60958_FRAME_SIZE_BYTES
      let burstRepetitionPeriod :=
        if audioMode = 1 then u32 (burstRepetitionPeriod * 2 ^ (rateFactor + 1))
        else burstRepetitionPeriod
      let payloadLength := if audioMode = 1 then payloadLength * 8 else payloadLength
      if payloadLength >
          sub32 (sub32 burstRepetitionPeriod IEC_HEADER_SIZE_BYTES) k.IEC_BURST_SPACING_SIZE_BYTES then
        (1, h)
      else
        let payloadHeaderSize := if audioMode = 0 then 6 else 8
        (0, { h with dataType := dataType, audioMode := audioMode, rateFactor := rateFactor,
                     frameLength := frameLength, payloadLength := payloadLength,
                     burstRepetitionPeriod := burstRepetitionPeriod,
                     payloadHeaderSize := payloadHeaderSize })

/-- The function `parsePayloadHeader` on the sub-header at work-buffer index `p`:
`(dataOffset, dataLength, pcmOffset)`. The buffer cells are bytes, so `<<` and `|`
are written as products and sums. -/
def parsePayloadHeader (h : DecState) (p : Nat) : Nat × Nat × Int :=
  let d := fun (i : Nat) => peek h.workBuffer (p + i)
  if h.audioMode = 0 then
    (d 0 * 256 + d 1, d 2 * 256 + d 3, ((d 4 * 256 + d 5 : Nat) : Int))
  else
    (d 0 * 65536 + d 1 * 256 + d 2, d 3 * 65536 + d 4 * 256 + d 5, ((d 6 * 256 + d 7 : Nat) : Int))

/-- The `while (true)` loop of `checkPayloadHeaders`, from the state
`(*numPayloadHeaders, payloadHeadersLength, headerPointer, firstPayloadOffset,
previousPayloadOffset)`; the first argument bounds the iterations, `none` means the
bound was not enough. On `true` the number of sub-headers is returned with it. -/
def checkPayloadHeadersLoop (h : DecState) : Nat → Nat → Nat → Nat → Nat → Nat → Option (Bool × Nat)
  | 0, _, _, _, _, _ => none
  | fuel + 1, numPayloadHeaders, payloadHeadersLength, headerPointer, firstPayloadOffset,
      previousPayloadOffset =>
    let hdr := parsePayloadHeader h headerPointer
    let dataOffset := hdr.1
    let dataLength := hdr.2.1
    if dataLength > 0 ∧ numPayloadHeaders ≠ 0 ∧ dataOffset ≤ previousPayloadOffset then
      some (false, numPayloadHeaders)
    else if dataLength > 0 ∧ dataOffset > h.payloadLength then
      some (false, numPayloadHeaders)
    else
      let firstPayloadOffset :=
        if dataLength > 0 ∧ numPayloadHeaders = 0 then dataOffset else firstPayloadOffset
      let previousPayloadOffset := if dataLength > 0 then dataOffset else previousPayloadOffset
      let payloadHeadersLength := u32 (payloadHeadersLength + h.payloadHeaderSize)
      let headerPointer := headerPointer + h.payloadHeaderSize
      if dataLength = 0 then
        if numPayloadHeaders > 0 ∧
            firstPayloadOffset <
              u32 (payloadHeadersLength + IEC_HEADER_SIZE_BYTES + h.frameBytesMissing) then
          some (false, numPayloadHeaders)
        else some (true, numPayloadHeaders)
      else
        checkPayloadHeadersLoop h fuel (u32 (numPayloadHeaders + 1)) payloadHeadersLength
          headerPointer firstPayloadOffset previousPayloadOffset

/-- The function `checkPayloadHeaders` called with `*numPayloadHeaders = 0`. Accepted
data offsets increase strictly and are at most `payloadLength`, so the loop is given
`payloadLength + 2` iterations. -/
def checkPayloadHeaders (h : DecState) : Option (Bool × Nat) :=
  checkPayloadHeadersLoop h (h.payloadLength + 2) 0 0
    (h.syncCandidateIndex + IEC_HEADER_SIZE_BYTES) 0 0

/-- The `for` loop of `checkBurstSpacing`: `n` cells from index `i` on are zero. -/
def allZeroFrom (a : List Nat) : Nat → Nat → Bool
  | 0, _ => true
  | n + 1, i => if peek a i ≠ 0 then false else allZeroFrom a n (i + 1)

/-- The function `checkBurstSpacing`: the loop runs from
`syncCandidateIndex + burstRepetitionPeriod - IEC_BURST_SPACING_SIZE_BYTES` up to
`syncCandidateIndex + burstRepetitionPeriod`. -/
def checkBurstSpacing (k : WireConsts) (h : DecState) : Bool :=
  let stop := u32 (h.syncCandidateIndex + h.burstRepetitionPeriod)
  let start := sub32 stop k.IEC_BURST_SPACING_SIZE_BYTES
  allZeroFrom h.workBuffer (stop - start) start

/-- The `for` loop of the sync search in `iec61937_decode_process`, from index `i`
with `n` iterations left: stops at the first preamble whose `Pc`/`Pd` pass
`parseIecFrameData`. -/
def scanLoop (k : WireConsts) : Nat → Nat → DecState → DecState
  | 0, _, h => h
  | n + 1, i, h =>
    if peek h.workBuffer (i + 0) = k.SYNC_PREAMBLE_0 ∧ peek h.workBuffer (i + 1) = k.SYNC_PREAMBLE_1 ∧
        peek h.workBuffer (i + 2) = k.SYNC_PREAMBLE_2 ∧ peek h.workBuffer (i + 3) = k.SYNC_PREAMBLE_3 then
      let r := parseIecFrameData k { h with syncCandidateIndex := i }
      if r.1 > 0 then scanLoop k n (i + 1) r.2
      else { r.2 with syncCandidateFound := true }
    else scanLoop k n (i + 1) h

/-- The body of the inner `while` loop of `iec61937_decode_process`: one scan of the
work buffer and the compaction that follows it. -/
def candidateSearchBody (k : WireConsts) (h : DecState) : DecState :=
  let h := scanLoop k (h.workBufferBytesAvailable - IEC_HEADER_SIZE_BYTES) 0 h
  let h :=
    if h.syncCandidateFound then
      { h with
        workBuffer := memMove h.workBuffer 0 h.syncCandidateIndex
          (h.workBufferBytesAvailable - h.syncCandidateIndex),
        workBufferBytesAvailable := h.workBufferBytesAvailable - h.syncCandidateIndex }
    else
      { h with
        workBuffer := memMove h.workBuffer 0 (h.workBufferBytesAvailable - IEC_HEADER_SIZE_BYTES)
          IEC_HEADER_SIZE_BYTES,
        workBufferBytesAvailable := IEC_HEADER_SIZE_BYTES }
  { h with syncCandidateIndex := 0 }

/-- The inner loop `while (!syncCandidateFound && workBufferBytesAvailable > 8)`. Its
body leaves a candidate or exactly 8 bytes, so it runs at most once
(`candidateSearchBody_done`). -/
def candidateSearch (k : WireConsts) (h : DecState) : DecState :=
  if !h.syncCandidateFound ∧ h.workBufferBytesAvailable > IEC_HEADER_SIZE_BYTES then
    candidateSearchBody k h
  else h

/-- The two branches "remove everything before the syncCandidateIndex and restart
syncing": the `memmove` past the header and `workBufferBytesAvailable -= syncCandidateIndex`. -/
def dropCandidate (h : DecState) : DecState :=
  { h with
    workBuffer := memMove h.workBuffer 0 (h.syncCandidateIndex + IEC_HEADER_SIZE_BYTES)
      (sub32 (sub32 h.workBufferBytesAvailable h.syncCandidateIndex) IEC_HEADER_SIZE_BYTES),
    workBufferBytesAvailable := sub32 h.workBufferBytesAvailable h.syncCandidateIndex }

/-- The outer loop `while (!syncFound && workBufferBytesAvailable > 8)` of
`iec61937_decode_process`. The first argument bounds the iterations; `none` means
that the loop has not ended within the bound. -/
def syncLoop (k : WireConsts) : Nat → DecState → Option DecState
  | 0, _ => none
  | fuel + 1, h =>
    if !h.syncFound ∧ h.workBufferBytesAvailable > IEC_HEADER_SIZE_BYTES then
      let h := candidateSearch k h
      if h.syncCandidateFound then
        if h.workBufferBytesAvailable ≥ h.syncCandidateIndex + h.burstRepetitionPeriod then
          if checkBurstSpacing k h then
            match checkPayloadHeaders h with
            | none => none
            | some (true, numPayloadHeaders) =>
              syncLoop k fuel
                { h with syncFound := true, numPayloadHeaders := numPayloadHeaders,
                         payloadHeaderIndex := 0 }
            | some (false, _) =>
              syncLoop k fuel (resetPendingState (resetParsingState (resetSyncState (dropCandidate h))))
          else syncLoop k fuel (resetSyncState (dropCandidate h))
        else some h
      else syncLoop k fuel h
    else some h

/-- What one call of `iec61937_decode_process` hands back: the result code, the bytes
written to `outputBuffer`, `*pOutputBufferLength`, `*pPcmOffset`, `*pIecFrameLength`
and `*pIecFrameProcessed`. -/
structure DecOut where
  result : IECDEC_RESULT
  outputBuffer : List Nat
  outputBufferLength : Nat
  pcmOffset : Int
  iecFrameLength : Nat
  iecFrameProcessed : Bool
deriving DecidableEq, Repr

/-- The last two blocks of `iec61937_decode_process` ("perform parsing of payload and
write MPEG-H AU to output" and "the complete IEC frame has been processed"). The branch
"frame is split across IEC frames" copies `numAuBytesAvailable` bytes to the start of
`frameBufferPending`; the source guards the copy with `dataLength <= outputBufferLength`
only, so the definition follows the source as long as `numAuBytesAvailable` is at most
`MAX_MPEGH_FRAME_SIZE`, and `pcmOffset - (int32_t)h->frameLength` as long as both
operands are `int32_t` values. -/
def emitPayload (h : DecState) (outputBufferLength : Nat) : DecOut × DecState :=
  let step : Option (List Nat × Nat × Int × DecState) :=
    if h.payloadHeaderIndex < h.numPayloadHeaders then
      let headerIndex := h.syncCandidateIndex + IEC_HEADER_SIZE_BYTES +
        h.payloadHeaderIndex * h.payloadHeaderSize
      let hdr := parsePayloadHeader h headerIndex
      let dataOffset := hdr.1
      let dataLength := hdr.2.1
      let pcmOffset := hdr.2.2
      if dataLength > outputBufferLength then none
      else if dataOffset + dataLength > IEC_HEADER_SIZE_BYTES + h.payloadLength then
        let numAuBytesMissing :=
          sub32 dataLength (u32 (sub32 h.payloadLength dataOffset + IEC_HEADER_SIZE_BYTES))
        let numAuBytesAvailable := sub32 dataLength numAuBytesMissing
        some ([], 0, 0,
          { h with frameBytesPending := numAuBytesAvailable, frameBytesMissing := numAuBytesMissing,
                   frameBufferPending := memWrite h.frameBufferPending 0
                     (memRead h.workBuffer (h.syncCandidateIndex + dataOffset) numAuBytesAvailable),
                   pcmOffsetPending := pcmOffset - (h.frameLength : Int),
                   payloadHeaderIndex := h.payloadHeaderIndex + 1 })
      else
        some (memRead h.workBuffer (h.syncCandidateIndex + dataOffset) dataLength, dataLength,
          pcmOffset, { h with payloadHeaderIndex := h.payloadHeaderIndex + 1 })
    else some ([], 0, 0, h)
  match step with
  | none =>
    ({ result := .IECDEC_BUFFER_ERROR, outputBuffer := [], outputBufferLength := 0, pcmOffset := 0,
       iecFrameLength := h.frameLength, iecFrameProcessed := false }, h)
  | some (out, outLen, pcmOffset, h1) =>
    if h1.payloadHeaderIndex = h1.numPayloadHeaders then
      ({ result := .IECDEC_OK, outputBuffer := out, outputBufferLength := outLen,
         pcmOffset := pcmOffset, iecFrameLength := h.frameLength, iecFrameProcessed := true },
       resetParsingState (resetSyncState
        { h1 with
          workBuffer := memMove h1.workBuffer 0 (h1.syncCandidateIndex + h1.burstRepetitionPeriod)
            (sub32 h1.workBufferBytesAvailable h1.burstRepetitionPeriod),
          workBufferBytesAvailable := sub32 h1.workBufferBytesAvailable h1.burstRepetitionPeriod }))
    else
      ({ result := .IECDEC_OK, outputBuffer := out, outputBufferLength := outLen,
         pcmOffset := pcmOffset, iecFrameLength := h.frameLength, iecFrameProcessed := false }, h1)

/-- The part of `iec61937_decode_process` that follows the sync loop, for a state
with `syncFound` set: "Handle pending data", then `emitPayload`. The branch "the pending
data cannot be completed" copies `payloadBytesAvailable` bytes to
`frameBufferPending + frameBytesPending` without a check against the size of the array,
and `pcmOffsetPending -= frameLength` subtracts a `uint32_t` from an `int32_t`; the
definition follows the source as long as
`frameBytesPending + payloadBytesAvailable` is at most `MAX_MPEGH_FRAME_SIZE` and
`pcmOffsetPending - frameLength` is in the range of `int32_t`. -/
def processSynced (h : DecState) (outputBufferLength : Nat) : DecOut × DecState :=
  let fail (r : IECDEC_RESULT) (h1 : DecState) : DecOut × DecState :=
    ({ result := r, outputBuffer := [], outputBufferLength := 0, pcmOffset := 0,
       iecFrameLength := h.frameLength, iecFrameProcessed := false }, h1)
  if h.frameBytesMissing > 0 then
    if h.numPayloadHeaders = 0 then
      let payloadBytesAvailable := sub32 h.payloadLength h.payloadHeaderSize
      let dataIndex := h.syncCandidateIndex + IEC_HEADER_SIZE_BYTES + h.payloadHeaderSize
      if h.frameBytesMissing > payloadBytesAvailable then
        emitPayload
          { h with
            frameBufferPending := memWrite h.frameBufferPending h.frameBytesPending
              (memRead h.workBuffer dataIndex payloadBytesAvailable),
            frameBytesPending := u32 (h.frameBytesPending + payloadBytesAvailable),
            frameBytesMissing := sub32 h.frameBytesMissing payloadBytesAvailable,
            pcmOffsetPending := h.pcmOffsetPending - (h.frameLength : Int) }
          outputBufferLength
      else if h.frameBytesMissing < payloadBytesAvailable then
        fail .IECDEC_PENDINGDATA_ERROR h
      else if u32 (h.frameBytesPending + h.frameBytesMissing) > outputBufferLength then
        fail .IECDEC_BUFFER_ERROR h
      else
        ({ result := .IECDEC_OK,
           outputBuffer := memRead h.frameBufferPending 0 h.frameBytesPending ++
             memRead h.workBuffer dataIndex h.frameBytesMissing,
           outputBufferLength := u32 (h.frameBytesPending + h.frameBytesMissing),
           pcmOffset := h.pcmOffsetPending, iecFrameLength := h.frameLength,
           iecFrameProcessed := false },
         resetPendingState h)
    else
      if u32 (h.frameBytesPending + h.frameBytesMissing) > outputBufferLength then
        fail .IECDEC_BUFFER_ERROR h
      else
        let headerIndex := h.syncCandidateIndex + IEC_HEADER_SIZE_BYTES
        let dataOffset := (parsePayloadHeader h headerIndex).1
        if u32 (h.syncCandidateIndex + dataOffset) < h.frameBytesMissing then
          fail .IECDEC_PENDINGDATA_ERROR
            (resetPendingState (resetParsingState (resetSyncState h)))
        else
          let dataIndex := sub32 (u32 (h.syncCandidateIndex + dataOffset)) h.frameBytesMissing
          ({ result := .IECDEC_OK,
             outputBuffer := memRead h.frameBufferPending 0 h.frameBytesPending ++
               memRead h.workBuffer dataIndex h.frameBytesMissing,
             outputBufferLength := u32 (h.frameBytesPending + h.frameBytesMissing),
             pcmOffset := h.pcmOffsetPending, iecFrameLength := h.frameLength,
             iecFrameProcessed := false },
           resetPendingState h)
  else emitPayload h outputBufferLength

/-- The function `iec61937_decode_process` on non-null arguments; `outputBufferLength`
is the value of `*pOutputBufferLength` on entry, `fuel` bounds the iterations of the
sync loop and `none` means that the call has not returned within that bound. -/
def iec61937_decode_process (k : WireConsts) (fuel : Nat) (h : DecState)
    (outputBufferLength : Nat) : Option (DecOut × DecState) :=
  match syncLoop k fuel h with
  | none => none
  | some h =>
    if !h.syncFound then
      some ({ result := .IECDEC_FEED_MORE_DATA, outputBuffer := [], outputBufferLength := 0,
              pcmOffset := 0, iecFrameLength := 0, iecFrameProcessed := false }, h)
    else some (processSynced h outputBufferLength)

/-- The function `iec61937_decode_feed` on non-null arguments. -/
def iec61937_decode_feed (h : DecState) (inputBuffer : List Nat) : IECDEC_RESULT × DecState :=
  if h.workBufferBytesAvailable > 4294967295 - inputBuffer.length ∨
      h.workBufferBytesAvailable + inputBuffer.length > DEC_WORKBUFFER_SIZE_BYTES then
    (.IECDEC_BUFFER_ERROR, h)
  else
    (.IECDEC_OK,
     { h with workBuffer := memWrite h.workBuffer h.workBufferBytesAvailable inputBuffer,
              workBufferBytesAvailable := h.workBufferBytesAvailable + inputBuffer.length })

/-! ## Encoder: reachable states -/

/-- Sum of the first `n` cells of an array, as a natural number. -/
def psum (a : List Nat) : Nat → Nat
  | 0 => 0
  | n + 1 => psum a n + peek a n

/-- The encoder states reachable from `iec61937_encode_open` through calls of
`iec61937_encode_process` with non-empty AUs (any duration, any output capacity;
calls that return an error included). -/
inductive EncReachable (k : WireConsts) : EncState → Prop
  | opened (rateFactor : Nat) (h : EncState) :
      iec61937_encode_open rateFactor = some h → EncReachable k h
  | step (h : EncState) (au : List Nat) (duration cap : Nat) :
      EncReachable k h → au ≠ [] →
      EncReachable k (iec61937_encode_process k h au duration cap).2

/-- The invariant of the reachable encoder states: the configuration chosen by
`iec61937_encode_open`, at most four stored frames, each of at least one byte, the
write cursor at the sum of their lengths, a non-negative `overallDuration`, and a
stored frame whenever an AU is pending. -/
structure EncInv (h : EncState) : Prop where
  mode : h.audioMode = 1
  hs : h.payloadHeaderSize = 8
  rate : (h.rateFactor = 1 ∧ h.burstRepetitionPeriod = 16384) ∨
    (h.rateFactor = 3 ∧ h.burstRepetitionPeriod = 65536)
  afl : h.audioFrameLength = 1024
  count : h.framesStoredCount ≤ 4
  flLen : h.frameLength.length = 5
  fdLen : h.frameDuration.length = 5
  flPos : ∀ i, i < h.framesStoredCount → 1 ≤ peek h.frameLength i
  wr : h.pWorkBufferWrite = psum h.frameLength h.framesStoredCount
  wrLe : h.pWorkBufferWrite ≤ 327680
  rd : h.pWorkBufferRead = 0
  dur : 0 ≤ h.overallDuration
  pend : h.auPending = true → 1 ≤ h.framesStoredCount

/-- The state of `iec61937_encode_process` once a non-empty AU has been stored. -/
def storeFrame (h : EncState) (inputBuffer : List Nat) (duration : Nat) : EncState :=
  { h with
    overallDuration := h.overallDuration + duration,
    workBuffer := memWrite h.workBuffer h.pWorkBufferWrite inputBuffer,
    pWorkBufferWrite := h.pWorkBufferWrite + inputBuffer.length,
    frameLength := h.frameLength.set h.framesStoredCount inputBuffer.length,
    frameDuration := h.frameDuration.set h.framesStoredCount duration,
    framesStoredCount := h.framesStoredCount + 1 }


/-! ## Burst layout -/

/-- The sub-headers `writePayloadHeaders` writes, as triples `(data_offset,
data_length, pcm_offset)`: `n` entries for the frames `i, i+1, ..` of the table. -/
def subHeaderEntries (frameLength frameDuration : List Nat) : Nat → Nat → Nat → Int → List (Nat × Nat × Int)
  | 0, _, _, _ => []
  | n + 1, i, dataOffset, pcmOffset =>
    (dataOffset, peek frameLength i, pcmOffset) ::
      subHeaderEntries frameLength frameDuration n (i + 1) (dataOffset + peek frameLength i)
        (pcmOffset + peek frameDuration i)

/-- The bytes of a list of HBR sub-headers (8 bytes each), in order. -/
def subHeaderBytes : List (Nat × Nat × Int) → List Nat
  | [] => []
  | s :: rest => payloadHeaderBytes 1 s.1 s.2.1 s.2.2 ++ subHeaderBytes rest

/-- The value of the `Pd` field of an HBR burst with `n` sub-headers and `m` payload
bytes: the data burst length in units of 8 bytes, rounded up. -/
def pdField (n m : Nat) : Nat := (m + (n + 1) * 8 + 7) / 8

/-- The layout of an HBR burst of `period` bytes: the 8 header bytes (preamble, `Pc`
with the rate code, audio mode 1 and data type 25, `Pd`), the sub-headers, the
all-zero terminator, the payload bytes, and zeros up to the end of the burst. -/
def hbrBurst (k : WireConsts) (rateCode period : Nat) (subs : List (Nat × Nat × Int))
    (payload : List Nat) : List Nat :=
  [k.SYNC_PREAMBLE_0, k.SYNC_PREAMBLE_1, k.SYNC_PREAMBLE_2, k.SYNC_PREAMBLE_3,
    rateCode * 8, 57, pdField subs.length payload.length / 256,
    pdField subs.length payload.length % 256] ++
  subHeaderBytes subs ++ List.replicate 8 0 ++ payload ++
  List.replicate (period - (8 + (subs.length + 1) * 8 + payload.length)) 0

/-- The state from which `iec61937_encode_process` plans and writes a burst when it is
offered a non-empty AU: the state on entry when the AU is deferred
(`overallDuration >= audioFrameLength`), the state with the AU stored otherwise. -/
def burstState (h : EncState) (inputBuffer : List Nat) (duration : Nat) : EncState :=
  if h.overallDuration ≥ h.audioFrameLength then h else storeFrame h inputBuffer duration

/-- The `j`-th sub-header of a burst, read as the decoder reads it
(`parsePayloadHeader` at burst offset `IEC_HEADER_SIZE_BYTES + j * payloadHeaderSize`). -/
def burstSubHeader (audioMode : Nat) (burst : List Nat) (j : Nat) : Nat × Nat × Int :=
  parsePayloadHeader { iec61937_decode_open with workBuffer := burst, audioMode := audioMode }
    (IEC_HEADER_SIZE_BYTES + j * (if audioMode = 0 then 6 else 8))

/-! ## Streams used in the scenarios -/

/-- The byte string `p` repeated `n` times. -/
def repeatBytes (p : List Nat) : Nat → List Nat
  | 0 => []
  | n + 1 => p ++ repeatBytes p n

/-- A burst header announcing data type 25, audio mode 0, frame length code 3 (768
samples, hence a burst repetition period of 3072 bytes) and a data burst length of 1. -/
def loopHeader (k : WireConsts) : List Nat :=
  [k.SYNC_PREAMBLE_0, k.SYNC_PREAMBLE_1, k.SYNC_PREAMBLE_2, k.SYNC_PREAMBLE_3, 3, 25, 0, 1]

/-- A stream of 3072 bytes: `loopHeader` 384 times over. -/
def loopStream (k : WireConsts) : List Nat := repeatBytes (loopHeader k) 384

/-- The decoder states in which the sync loop is caught on `loopStream`: the stream
fills the work buffer and no sync or candidate is held. -/
structure Stuck (k : WireConsts) (s : DecState) : Prop where
  buf : s.workBuffer = loopStream k
  avail : s.workBufferBytesAvailable = 3072
  noSync : s.syncFound = false
  noCandidate : s.syncCandidateFound = false
  index : s.syncCandidateIndex = 0

/-- The state one iteration of the sync loop leaves behind when it starts in a `Stuck`
state: the header fields parsed from `loopHeader`, everything else as before. -/
def stuckNext (s : DecState) : DecState :=
  { s with dataType := 25, audioMode := 0, rateFactor := 0, frameLength := 768,
           payloadLength := 1, burstRepetitionPeriod := 3072, payloadHeaderSize := 6 }

/-! ## Driving the decoder -/

/-- The inner loop of the decoder demo (`CProcessor::process`): `iec61937_decode_process`
is called until it returns something other than `IECDEC_OK`. The results of the `Ok`
calls are collected in order, together with the result that ended the loop and the
final state. `fuel` bounds the number of calls and the iterations of each sync loop;
`none` means that a call has not returned or that the loop has not ended within it. -/
def decodeDrain (k : WireConsts) (cap : Nat) : Nat → DecState → Option (List DecOut × DecOut × DecState)
  | 0, _ => none
  | fuel + 1, h =>
    match iec61937_decode_process k (fuel + 1) h cap with
    | none => none
    | some (o, h1) =>
      if o.result = .IECDEC_OK then
        match decodeDrain k cap fuel h1 with
        | none => none
        | some (os, last, h2) => some (o :: os, last, h2)
      else some ([], o, h1)

/-- The outer loop of the decoder demo: every chunk is fed and the decoder drained
until it asks for more data. The `Ok` results of all calls, in order, and the final
state; `none` when a feed fails, when a call returns an error, or when `fuel` is not
enough. -/
def decodeChunks (k : WireConsts) (cap fuel : Nat) :
    DecState → List (List Nat) → Option (List DecOut × DecState)
  | h, [] => some ([], h)
  | h, chunk :: rest =>
    let f := iec61937_decode_feed h chunk
    if f.1 ≠ .IECDEC_OK then none
    else
      match decodeDrain k cap fuel f.2 with
      | none => none
      | some (os, last, h1) =>
        if last.result ≠ .IECDEC_FEED_MORE_DATA then none
        else
          match decodeChunks k cap fuel h1 rest with
          | none => none
          | some (os2, h2) => some (os ++ os2, h2)

/-- A burst candidate of 3072 bytes (audio mode 0, frame length code 3) whose last
eight bytes are not zero: `P1 P2 P3 03 19 00 00 P0`. -/
def chunkF (k : WireConsts) : List Nat :=
  [k.SYNC_PREAMBLE_0, k.SYNC_PREAMBLE_1, k.SYNC_PREAMBLE_2, k.SYNC_PREAMBLE_3, 3, 25, 0, 0] ++
  List.replicate 3056 0 ++
  [k.SYNC_PREAMBLE_1, k.SYNC_PREAMBLE_2, k.SYNC_PREAMBLE_3, 3, 25, 0, 0, k.SYNC_PREAMBLE_0]

/-- Three zero bytes followed by a well-formed burst of 3072 bytes (audio mode 0, frame
length code 3, data burst length 20) that carries the AU `01 02 03 04` at data offset 20
with pcm offset 0. -/
def chunkG (k : WireConsts) : List Nat :=
  [0, 0, 0] ++
  [k.SYNC_PREAMBLE_0, k.SYNC_PREAMBLE_1, k.SYNC_PREAMBLE_2, k.SYNC_PREAMBLE_3, 3, 25, 0, 20] ++
  [0, 20, 0, 4, 0, 0] ++ [0, 0, 0, 0, 0, 0] ++ [1, 2, 3, 4] ++ List.replicate 3048 0

/-! ## Decoder states between and inside bursts -/

/-- A decoder state that holds neither sync nor candidate and whose parser state is
reset: the state after `iec61937_decode_open` and after every completed burst. -/
def idleState (wb : List Nat) (avail : Nat) (fb : List Nat) (fp fm : Nat) (pcm : Int) : DecState :=
  { workBuffer := wb, workBufferBytesAvailable := avail, frameBufferPending := fb,
    frameBytesPending := fp, frameBytesMissing := fm, pcmOffsetPending := pcm,
    syncFound := false, syncCandidateFound := false, syncCandidateIndex := 0,
    dataType := 0, audioMode := 0, rateFactor := 0, frameLength := 0, payloadLength := 0,
    burstRepetitionPeriod := 0, payloadHeaderSize := 0, numPayloadHeaders := 0,
    payloadHeaderIndex := 0 }

/-- A decoder state that holds sync on an HBR burst at the start of the work buffer:
rate code `rc`, data burst length `pd` (units of 8 bytes), `n` sub-headers, cursor `i`. -/
def syncedState (wb : List Nat) (avail : Nat) (fb : List Nat) (fp fm : Nat) (pcm : Int)
    (rc pd n i : Nat) : DecState :=
  { workBuffer := wb, workBufferBytesAvailable := avail, frameBufferPending := fb,
    frameBytesPending := fp, frameBytesMissing := fm, pcmOffsetPending := pcm,
    syncFound := true, syncCandidateFound := true, syncCandidateIndex := 0,
    dataType := 25, audioMode := 1, rateFactor := rc, frameLength := 1024,
    payloadLength := pd * 8, burstRepetitionPeriod := 4096 * 2 ^ (rc + 1),
    payloadHeaderSize := 8, numPayloadHeaders := n, payloadHeaderIndex := i }

/-- Sub-headers as `checkPayloadHeaders` accepts them: data offsets above `prev` and
strictly increasing, data lengths and offsets that fit their 24-bit fields, no
zero length. -/
def subsChain : Nat → List (Nat × Nat × Int) → Prop
  | _, [] => True
  | prev, s :: rest =>
    prev < s.1 ∧ s.1 < 16777216 ∧ 1 ≤ s.2.1 ∧ s.2.1 < 16777216 ∧ subsChain s.1 rest

/-! ## Driving the encoder -/

/-- The macro `MAX_IEC61937_FRAME_SIZE_BYTES` of `iec61937_enc.h`: `1024 * 16 * 4`, the
output capacity the encoder demo offers with every call. -/
def MAX_IEC61937_FRAME_SIZE_BYTES : Nat := 65536

/-- The inner loop of the encoder demo (`CProcessor::process`): the AU is presented to
`iec61937_encode_process` until a call reports it consumed; a call that returns an
error ends the loop (the demo throws). One entry per call, in order: the state from
which the call plans its burst (`burstState`) and what the call returned; and the
final encoder state. `fuel` bounds the number of calls, `none` means that the AU has
not been consumed within it. -/
def encodeAu (k : WireConsts) : Nat → EncState → List Nat → Nat →
    Option (List (EncState × EncOut) × EncState)
  | 0, _, _, _ => none
  | fuel + 1, h, au, duration =>
    let r := iec61937_encode_process k h au duration MAX_IEC61937_FRAME_SIZE_BYTES
    if r.1.result ≠ .IECENC_OK ∨ r.1.inputBufferProcessed = true then
      some ([(burstState h au duration, r.1)], r.2)
    else
      match encodeAu k fuel r.2 au duration with
      | none => none
      | some (t, h1) => some ((burstState h au duration, r.1) :: t, h1)

/-- The outer loop of the encoder demo over a sequence of `(AU, duration)` pairs: the
calls of all AUs in order. The loop ends with the first call that returns an error. -/
def encodeAll (k : WireConsts) (fuel : Nat) :
    EncState → List (List Nat × Nat) → Option (List (EncState × EncOut) × EncState)
  | h, [] => some ([], h)
  | h, p :: rest =>
    match encodeAu k fuel h p.1 p.2 with
    | none => none
    | some (t, h1) =>
      if t.all (fun e => decide (e.2.result = .IECENC_OK)) then
        match encodeAll k fuel h1 rest with
        | none => none
        | some (t2, h2) => some (t ++ t2, h2)
      else some (t, h1)

/-- The bursts written by a run of encoder calls: the outputs of the calls that
returned a non-zero length, in order. -/
def burstsOf (t : List (EncState × EncOut)) : List (List Nat) :=
  (t.filter (fun e => decide (e.2.outputBufferLength ≠ 0))).map (fun e => e.2.outputBuffer)

/-- The AUs a run of decoder calls returned: the outputs of non-zero length, in order. -/
def ausOf (os : List DecOut) : List (List Nat) :=
  (os.filter (fun o => decide (o.outputBufferLength ≠ 0))).map (fun o => o.outputBuffer)

/-- A burst plan the decoder follows: with `nb` frames selected in state `h`, `n` of
them listed in sub-headers and `m` payload bytes in the burst, (a) the AU bytes in
front of the last listed frame, plus 8, do not exceed `m` rounded up to a multiple
of 8 (the last `data_offset` is at most `8 * Pd`), and (b) a burst without
sub-headers that carries the end of the pending AU carries a multiple of 8 bytes. -/
def regularBurst (k : WireConsts) (h : EncState) : Prop :=
  (1 ≤ getNumBuffersToWrite k h - (if h.auPending then 1 else 0) →
    psum h.frameLength (getNumBuffersToWrite k h - 1) + 8 ≤
      8 * ((min (psum h.frameLength (getNumBuffersToWrite k h))
        (numAvailableBytes k h (getNumBuffersToWrite k h)) + 7) / 8)) ∧
  (getNumBuffersToWrite k h - (if h.auPending then 1 else 0) = 0 → h.auPending = true →
    psum h.frameLength (getNumBuffersToWrite k h) ≤
      numAvailableBytes k h (getNumBuffersToWrite k h) →
    psum h.frameLength (getNumBuffersToWrite k h) % 8 = 0)

instance (k : WireConsts) (h : EncState) : Decidable (regularBurst k h) := by
  unfold regularBurst
  infer_instance

/-- Every burst of a run of encoder calls has a regular plan. -/
def regularRun (k : WireConsts) (t : List (EncState × EncOut)) : Prop :=
  ∀ e, e ∈ t → e.2.outputBufferLength ≠ 0 → regularBurst k e.1

/-- The bytes of the `i`-th stored frame of the encoder. -/
def frameBytes (h : EncState) (i : Nat) : List Nat :=
  memRead h.workBuffer (psum h.frameLength i) (peek h.frameLength i)

/-- The `i`-th AU in flight between an encoder state and a decoder that holds `fp`
pending bytes in `fb`: the encoder's `i`-th stored frame, preceded for `i = 0` by the
decoder's pending bytes (the part of a split AU that has been sent). -/
def heldAu (h : EncState) (fb : List Nat) (fp : Nat) (i : Nat) : List Nat :=
  (if i = 0 then memRead fb 0 fp else []) ++ frameBytes h i

/-- The AUs in flight between an encoder state and a decoder that holds `fp` pending
bytes in `fb` and misses `fm`: one AU per stored frame, in order, none longer than
`MAX_MPEGH_FRAME_SIZE`; the decoder holds pending bytes only of a split AU, whose
missing bytes are the encoder's first frame. -/
structure Held (h : EncState) (fb : List Nat) (fp fm : Nat) (q : List (List Nat)) : Prop where
  eq : q = (List.range h.framesStoredCount).map (heldAu h fb fp)
  size : ∀ i, i < h.framesStoredCount → (heldAu h fb fp i).length ≤ 65536
  idle : h.auPending = false → fp = 0 ∧ fm = 0
  pend : h.auPending = true → fm = peek h.frameLength 0
  dur : h.overallDuration ≤ 5119

/-- The encoder state `h` and the decoder state `d` agree between two bursts: the
decoder has consumed all it was fed and `q` are the AUs in flight. -/
def Sim (h : EncState) (d : DecState) (q : List (List Nat)) : Prop :=
  ∃ wd fb fp fm pcm, d = idleState wd 0 fb fp fm pcm ∧ wd.length ≤ h.burstRepetitionPeriod ∧
    Held h fb fp fm q

/-- The result of a call that returns the AU of sub-header `s`, the `j`-th of `n`. -/
def listedOut (W : List Nat) (n : Nat) (s : Nat × Nat × Int) (j : Nat) : DecOut :=
  DecOut.mk .IECDEC_OK (memRead W s.1 s.2.1) s.2.1 (s.2.2 % 65536) 1024 (decide (j + 1 = n))

/-- The result of a call that finishes a burst without returning an AU. -/
def doneOut : DecOut := DecOut.mk .IECDEC_OK [] 0 0 1024 true

/-- The result of a call that asks for more data. -/
def feedMoreOut : DecOut := DecOut.mk .IECDEC_FEED_MORE_DATA [] 0 0 0 false

/-- A call of `iec61937_decode_process` that hands nothing back: no bytes, length 0, pcm
offset 0, and the IEC frame not reported as processed. -/
def NoOutput (o : DecOut) : Prop :=
  o.outputBuffer = [] ∧ o.outputBufferLength = 0 ∧ o.pcmOffset = 0 ∧ o.iecFrameProcessed = false

/-! ## The burst header as the spec describes it -/

/-- What an accepted burst header stores. -/
structure HeaderFields where
  dataType : Nat
  audioMode : Nat
  rateFactor : Nat
  frameLength : Nat
  payloadLength : Nat
  burstRepetitionPeriod : Nat
  payloadHeaderSize : Nat
deriving DecidableEq, Repr

/-- The reference header decode, following the spec's words, on the bytes 4..7 of a
candidate (`Pc` high, `Pc` low, `Pd` high, `Pd` low): data type = low 5 bits of byte 5,
audio mode = bits 5-6 of byte 5, frame length code = low 3 bits of byte 4, rate factor =
bits 3-4 of byte 4. The candidate is accepted iff data type = 25, audio mode <= 1, the
frame length code is in 0..5 and the payload length in bytes is at most
`period - IEC_HEADER_SIZE_BYTES - IEC_BURST_SPACING_SIZE_BYTES`; frame lengths are 1024,
2048, 4096, 768, 1536, 3072 for the codes 0..5, the period is `frame_length * 4`,
shifted left by `rate_factor + 1` in audio mode 1, the payload length is `Pd` (times 8
in audio mode 1) and the sub-header size is 6 (mode 0) or 8 (mode 1). -/
def referenceHeaderDecode (k : WireConsts) (b4 b5 b6 b7 : Nat) : Option HeaderFields :=
  let dataType := b5 % 32
  let audioMode := b5 / 32 % 4
  let frameLengthCode := b4 % 8
  let rateFactor := b4 / 8 % 4
  let pd := b6 * 256 + b7
  if dataType = 25 ∧ audioMode ≤ 1 ∧ frameLengthCode ≤ 5 then
    let frameLength := [1024, 2048, 4096, 768, 1536, 3072].getD frameLengthCode 0
    let period :=
      if audioMode = 1 then frameLength * 4 * 2 ^ (rateFactor + 1) else frameLength * 4
    let payloadLength := if audioMode = 1 then pd * 8 else pd
    if payloadLength ≤ period - IEC_HEADER_SIZE_BYTES - k.IEC_BURST_SPACING_SIZE_BYTES then
      some { dataType := dataType, audioMode := audioMode, rateFactor := rateFactor,
             frameLength := frameLength, payloadLength := payloadLength,
             burstRepetitionPeriod := period,
             payloadHeaderSize := if audioMode = 0 then 6 else 8 }
    else none
  else none

/-- An encoder state with four stored AUs of one byte and no accumulated duration:
the state after four calls with duration 0 on a fresh factor-4 encoder. -/
def fourStored : EncState :=
  (iec61937_encode_process refConsts
    (iec61937_encode_process refConsts
      (iec61937_encode_process refConsts
        (iec61937_encode_process refConsts (encInit 1 1) [1] 0 16384).2 [2] 0 16384).2
      [3] 0 16384).2 [4] 0 16384).2

/-! ## Definitions for the decoder and encoder contracts -/

/-- A big-endian unsigned number, most significant byte first. -/
def bigEndian : List Nat → Nat
  | [] => 0
  | b :: rest => b * 256 ^ rest.length + bigEndian rest

/-- A 16-bit field read as a two's complement number. -/
def signed16 (x : Nat) : Int := if x < 32768 then (x : Int) else (x : Int) - 65536

/-- The sub-header decode as the spec describes it, on the bytes of one sub-header: in
audio mode 0 a 2-byte `data_offset`, a 2-byte `data_length` and a 2-byte `pcm_offset`, in
audio mode 1 a 3-byte `data_offset`, a 3-byte `data_length` and a 2-byte `pcm_offset`;
all fields big-endian, the first two unsigned, `pcm_offset` signed 16-bit two's
complement. -/
def referenceSubHeader (audioMode : Nat) (data : List Nat) : Nat × Nat × Int :=
  if audioMode = 0 then
    (bigEndian (data.take 2), bigEndian ((data.drop 2).take 2),
      signed16 (bigEndian ((data.drop 4).take 2)))
  else
    (bigEndian (data.take 3), bigEndian ((data.drop 3).take 3),
      signed16 (bigEndian ((data.drop 6).take 2)))

/-- A decoder state whose work buffer holds the HBR sub-header `00 00 20 00 00 64 FE 00`:
data offset 32, data length 100 and the pcm offset field `FE 00`. -/
def negativePcmState : DecState :=
  { iec61937_decode_open with workBuffer := [0, 0, 32, 0, 0, 100, 254, 0], audioMode := 1 }

/-- The first burst of a split AU at the reference constants: an AU of 16452 bytes `01`
under the sub-header (24, 16452, 0), of which the burst carries the first 16352. -/
def splitBurst : List Nat :=
  hbrBurst refConsts 1 16384 [(24, 16452, 0)] (List.replicate 16352 1)

/-- The value of the `Pd` field as the spec computes it for a burst planned from state
`h` with `nb` selected frames: `ceil(data_burst_length_bytes / 8)` with
`data_burst_length_bytes = payload_data_length + (num_sub_headers + 1) * sub_header_size`,
`num_sub_headers = nb - (au_pending ? 1 : 0)`,
`payload_data_length = min(sum of the selected frame lengths, available_payload_bytes)`
and `available_payload_bytes = burst_repetition_period - IEC_HEADER_SIZE_BYTES -
IEC_BURST_SPACING_SIZE_BYTES - (au_pending ? 0 : sub_header_size)`. -/
def claimedPd (k : WireConsts) (h : EncState) (nb : Nat) : Nat :=
  let availablePayloadBytes :=
    h.burstRepetitionPeriod - IEC_HEADER_SIZE_BYTES - k.IEC_BURST_SPACING_SIZE_BYTES -
      (if h.auPending then 0 else h.payloadHeaderSize)
  let payloadDataLength := min (psum h.frameLength nb) availablePayloadBytes
  let numSubHeaders := nb - (if h.auPending then 1 else 0)
  let dataBurstLengthBytes := payloadDataLength + (numSubHeaders + 1) * h.payloadHeaderSize
  (dataBurstLengthBytes + 7) / 8

/-- The largest `j <= n` with `P j`, and 0 when there is none. -/
def largestUpTo (P : Nat → Bool) : Nat → Nat
  | 0 => 0
  | n + 1 => if P (n + 1) then n + 1 else largestUpTo P n

/-- The `available_payload_bytes` of the spec: `burst_repetition_period -
IEC_HEADER_SIZE_BYTES - IEC_BURST_SPACING_SIZE_BYTES - (au_pending ? 0 : sub_header_size)`. -/
def availablePayloadBytes (k : WireConsts) (h : EncState) : Nat :=
  h.burstRepetitionPeriod - IEC_HEADER_SIZE_BYTES - k.IEC_BURST_SPACING_SIZE_BYTES -
    (if h.auPending then 0 else h.payloadHeaderSize)

/-- The plan of the spec: the largest `j <= framesStoredCount` such that the first `j`
stored frames with their sub-headers fit `available_payload_bytes` and their durations
do not exceed `overall_duration`. -/
def referenceNumBuffers (k : WireConsts) (h : EncState) : Nat :=
  largestUpTo (fun j =>
    decide (psum h.frameLength j + j * h.payloadHeaderSize ≤ availablePayloadBytes k h ∧
      ((psum h.frameDuration j : Nat) : Int) ≤ h.overallDuration)) h.framesStoredCount

/-- The encoder after a factor-4 encoder has accepted an AU of 16350 bytes with
duration 512: the AU is stored, no burst is due yet. -/
def misSplitState : EncState :=
  (iec61937_encode_process refConsts (encInit 1 1) (List.replicate 16350 1) 512 16384).2

/-- The decoder state in which the sync loop holds the candidate at the start of
`loopStream` (reference constants): the 3072 bytes are buffered, the header
(data type 25, audio mode 0, frame length code 3, `Pd` = 1) has been parsed. -/
def heldLoop : DecState :=
  { iec61937_decode_open with
    workBuffer := loopStream refConsts, workBufferBytesAvailable := 3072,
    syncCandidateFound := true, dataType := 25, audioMode := 0, frameLength := 768,
    payloadLength := 1, burstRepetitionPeriod := 3072, payloadHeaderSize := 6 }

/-- The `j`-th sub-header of the burst at the sync candidate, as `checkPayloadHeaders`
reads it: `parsePayloadHeader` at burst offset `IEC_HEADER_SIZE_BYTES + j *
payloadHeaderSize`. -/
def subHeaderAt (h : DecState) (j : Nat) : Nat × Nat × Int :=
  parsePayloadHeader h (h.syncCandidateIndex + IEC_HEADER_SIZE_BYTES + j * h.payloadHeaderSize)

/-- The acceptance condition of the spec for a burst with `n` sub-headers: entry `n` is
the first one with `data_length = 0`; every entry after the first has a `data_offset`
greater than its predecessor's; every entry has `data_offset <= payloadLength`; and,
when `n >= 1`, the first `data_offset` is at least `(n + 1) * payloadHeaderSize +
IEC_HEADER_SIZE_BYTES + frameBytesMissing`. -/
def headersAccepted (h : DecState) (n : Nat) : Prop :=
  (subHeaderAt h n).2.1 = 0 ∧
  (∀ j, j < n → (subHeaderAt h j).2.1 > 0) ∧
  (∀ j, j < n → 0 < j → (subHeaderAt h j).1 > (subHeaderAt h (j - 1)).1) ∧
  (∀ j, j < n → (subHeaderAt h j).1 ≤ h.payloadLength) ∧
  (1 ≤ n → (subHeaderAt h 0).1 ≥
    (n + 1) * h.payloadHeaderSize + IEC_HEADER_SIZE_BYTES + h.frameBytesMissing)

/-- A decoder state holding a burst with two sub-headers (data offsets 32 and 36, four
bytes each) and the terminator; `payloadLength` is 40. -/
def twoHeaderState : DecState :=
  { iec61937_decode_open with
    workBuffer := [248, 114, 78, 31, 1, 57, 0, 5,
      0, 0, 32, 0, 0, 4, 0, 0,
      0, 0, 36, 0, 0, 4, 4, 0,
      0, 0, 0, 0, 0, 0, 0, 0,
      1, 2, 3, 4, 5, 6, 7, 8],
    workBufferBytesAvailable := 40,
    audioMode := 1,
    payloadHeaderSize := 8,
    payloadLength := 40 }

instance headersAcceptedDecidable (h : DecState) (n : Nat) : Decidable (headersAccepted h n) := by
  unfold headersAccepted
  infer_instance

/-- The block "the complete IEC frame has been processed" of `iec61937_decode_process`:
the burst is removed from the work buffer, sync state and parser state are reset. -/
def finishBurst (h : DecState) : DecState :=
  resetParsingState (resetSyncState
    { h with
      workBuffer := memMove h.workBuffer 0 (h.syncCandidateIndex + h.burstRepetitionPeriod)
        (sub32 h.workBufferBytesAvailable h.burstRepetitionPeriod),
      workBufferBytesAvailable := sub32 h.workBufferBytesAvailable h.burstRepetitionPeriod })

/-- The sub-header under the cursor of a decoder that holds sync, as `parsePayloadHeader`
reads it: `(data_offset, data_length, pcm_offset)`. -/
def currentSubHeader (h : DecState) : Nat × Nat × Int :=
  parsePayloadHeader h
    (h.syncCandidateIndex + IEC_HEADER_SIZE_BYTES + h.payloadHeaderIndex * h.payloadHeaderSize)

/-- The S1 burst at the reference constants: one sub-header (24, 100, 0) and an AU of
100 bytes `01`. -/
def s1Burst : List Nat := hbrBurst refConsts 1 16384 [(24, 100, 0)] (List.replicate 100 1)

/-- The decoder state once the sync loop has accepted `s1Burst`. -/
def s1Synced : DecState := syncedState s1Burst 16384 [] 0 0 0 1 15 1 0

/-- The decoder state once the sync loop has accepted `splitBurst`. -/
def splitSynced : DecState := syncedState splitBurst 16384 [] 0 0 0 1 2046 1 0

/-- The second burst of an AU of 40000 bytes `01` at the reference constants: no
sub-header, 16360 payload bytes. -/
def contBurst : List Nat := hbrBurst refConsts 1 16384 [] (List.replicate 16360 1)

/-- The decoder state once the sync loop has accepted `contBurst` while the first 16352
bytes of the AU are pending and 23648 are missing. -/
def contSynced : DecState :=
  syncedState contBurst 16384 (List.replicate 16352 1) 16352 23648 (-1024) 1 2046 0 0

/-! ## Definitions for the decoder invariants and the validation agreement -/

/-- A decoder state that holds sync on a burst without sub-headers whose 8 payload bytes
complete a pending AU: 4 bytes are pending, 8 are missing. -/
def pendingDoneState : DecState :=
  syncedState [248, 114, 78, 31, 8, 57, 0, 2, 0, 0, 0, 0, 0, 0, 0, 0, 1, 2, 3, 4, 5, 6, 7, 8]
    16384 [9, 9, 9, 9] 4 8 (-1024) 1 2 0 0

/-- Offset `i` of the work buffer is a sync candidate: the four preamble bytes stand at
`i` and `parseIecFrameData` accepts the `Pc`/`Pd` bytes behind them. -/
def acceptedAt (k : WireConsts) (h : DecState) (i : Nat) : Prop :=
  peek h.workBuffer (i + 0) = k.SYNC_PREAMBLE_0 ∧ peek h.workBuffer (i + 1) = k.SYNC_PREAMBLE_1 ∧
  peek h.workBuffer (i + 2) = k.SYNC_PREAMBLE_2 ∧ peek h.workBuffer (i + 3) = k.SYNC_PREAMBLE_3 ∧
  (parseIecFrameData k { h with syncCandidateIndex := i }).1 = 0

instance acceptedAtDecidable (k : WireConsts) (h : DecState) (i : Nat) :
    Decidable (acceptedAt k h i) := by
  unfold acceptedAt
  infer_instance

/-- A stream of 25 bytes: a preamble with data type 10 at offset 0, one byte, and a
valid header (data type 25, audio mode 0, frame length code 3) at offset 9. -/
def searchState : DecState :=
  { iec61937_decode_open with
    workBuffer := [248, 114, 78, 31, 0, 10, 0, 0, 1, 248, 114, 78, 31, 3, 25, 0, 1,
      2, 3, 4, 5, 6, 7, 8, 9],
    workBufferBytesAvailable := 25 }

/-- A buffer of 12 bytes without an acceptable candidate. -/
def noCandidateState : DecState :=
  { iec61937_decode_open with
    workBuffer := [248, 114, 78, 31, 0, 10, 0, 0, 1, 2, 3, 4],
    workBufferBytesAvailable := 12 }

/-- The loop of `checkPayloadHeaders` (`checkPayloadHeadersLoop`) together with the
work-buffer indices at which it calls `parsePayloadHeader`, in order. -/
def checkPayloadHeadersTrace (h : DecState) :
    Nat → Nat → Nat → Nat → Nat → Nat → Option (Bool × Nat) × List Nat
  | 0, _, _, _, _, _ => (none, [])
  | fuel + 1, numPayloadHeaders, payloadHeadersLength, headerPointer, firstPayloadOffset,
      previousPayloadOffset =>
    let hdr := parsePayloadHeader h headerPointer
    let dataOffset := hdr.1
    let dataLength := hdr.2.1
    if dataLength > 0 ∧ numPayloadHeaders ≠ 0 ∧ dataOffset ≤ previousPayloadOffset then
      (some (false, numPayloadHeaders), [headerPointer])
    else if dataLength > 0 ∧ dataOffset > h.payloadLength then
      (some (false, numPayloadHeaders), [headerPointer])
    else
      let firstPayloadOffset :=
        if dataLength > 0 ∧ numPayloadHeaders = 0 then dataOffset else firstPayloadOffset
      let previousPayloadOffset := if dataLength > 0 then dataOffset else previousPayloadOffset
      let payloadHeadersLength := u32 (payloadHeadersLength + h.payloadHeaderSize)
      let nextPointer := headerPointer + h.payloadHeaderSize
      if dataLength = 0 then
        if numPayloadHeaders > 0 ∧
            firstPayloadOffset <
              u32 (payloadHeadersLength + IEC_HEADER_SIZE_BYTES + h.frameBytesMissing) then
          (some (false, numPayloadHeaders), [headerPointer])
        else (some (true, numPayloadHeaders), [headerPointer])
      else
        let r := checkPayloadHeadersTrace h fuel (u32 (numPayloadHeaders + 1))
          payloadHeadersLength nextPointer firstPayloadOffset previousPayloadOffset
        (r.1, headerPointer :: r.2)

/-- The work-buffer indices at which `checkPayloadHeaders` reads a sub-header. -/
def checkPayloadHeadersReads (h : DecState) : List Nat :=
  (checkPayloadHeadersTrace h (h.payloadLength + 2) 0 0
    (h.syncCandidateIndex + IEC_HEADER_SIZE_BYTES) 0 0).2

/-- What `parseIecFrameData` has established of the header fields it stored: a
supported audio mode with its sub-header size, a burst repetition period that is a
multiple of 8 and at most 262144, and a payload length that leaves room for the
header and the burst spacing. -/
structure ParsedHeader (k : WireConsts) (h : DecState) : Prop where
  mode : h.audioMode ≤ 1
  hs : h.payloadHeaderSize = if h.audioMode = 0 then 6 else 8
  period8 : h.burstRepetitionPeriod % 8 = 0
  periodLe : h.burstRepetitionPeriod ≤ 262144
  room : h.payloadLength + IEC_HEADER_SIZE_BYTES + k.IEC_BURST_SPACING_SIZE_BYTES ≤
    h.burstRepetitionPeriod

/-- A candidate burst of 3072 bytes in audio mode 0 whose sub-headers all have a
non-zero length and strictly increasing offsets (`00 00 00 01 00 00` and
`00 01 00 01 00 00`) up to the payload length 1 : the walk is stopped by the third
sub-header. -/
def walkState : DecState :=
  { iec61937_decode_open with
    workBuffer := [248, 114, 78, 31, 3, 25, 0, 1,
      0, 0, 0, 1, 0, 0,
      0, 1, 0, 1, 0, 0,
      0, 2, 0, 1, 0, 0],
    workBufferBytesAvailable := 3072,
    syncCandidateFound := true, dataType := 25, audioMode := 0, frameLength := 768,
    payloadLength := 1, burstRepetitionPeriod := 3072, payloadHeaderSize := 6 }

/-- The decoder state after the candidate search when the work buffer holds exactly
`burst`, nothing is pending but `fm` missing bytes of a split AU. -/
def candidateOf (k : WireConsts) (burst : List Nat) (fm : Nat) : DecState :=
  candidateSearch k (idleState burst burst.length [] 0 fm 0)

/-- The encoder after a factor-4 encoder has accepted a one-byte AU with duration 512. -/
def oneByteStored : EncState :=
  (iec61937_encode_process refConsts (encInit 1 1) [7] 512 16384).2

/-- The effect of the block "the complete IEC frame has been processed" on the work
buffer, the sync state and the parser state, from the state `s` before it to the state
`t` after it: `burstRepetitionPeriod` bytes fewer are available, the cells behind the
burst have moved to the front in order, and sync state and parser state are reset. -/
def burstRemoved (s t : DecState) : Prop :=
  t.workBufferBytesAvailable = s.workBufferBytesAvailable - s.burstRepetitionPeriod ∧
  (∀ i, i < s.workBufferBytesAvailable - s.burstRepetitionPeriod →
    peek t.workBuffer i = peek s.workBuffer (s.syncCandidateIndex + s.burstRepetitionPeriod + i)) ∧
  t.syncFound = false ∧ t.syncCandidateFound = false ∧ t.syncCandidateIndex = 0 ∧
  t.dataType = 0 ∧ t.audioMode = 0 ∧ t.rateFactor = 0 ∧ t.frameLength = 0 ∧
  t.payloadLength = 0 ∧ t.burstRepetitionPeriod = 0 ∧ t.payloadHeaderSize = 0 ∧
  t.numPayloadHeaders = 0 ∧ t.payloadHeaderIndex = 0

/-- One junk byte followed by an HBR burst with two sub-headers, (32, 8, 0) and
(40, 8, 1024), and their two AUs of 8 bytes. -/
def junkStream2 : List Nat :=
  0 :: hbrBurst refConsts 1 16384 [(32, 8, 0), (40, 8, 1024)]
    [1, 2, 3, 4, 5, 6, 7, 8, 9, 10, 11, 12, 13, 14, 15, 16]

/-- The decoder state once the sync loop has dropped the junk byte of `junkStream2` and
accepted the burst. -/
def junkSynced2 : DecState :=
  syncedState (hbrBurst refConsts 1 16385 [(32, 8, 0), (40, 8, 1024)]
    [1, 2, 3, 4, 5, 6, 7, 8, 9, 10, 11, 12, 13, 14, 15, 16]) 16384 [] 0 0 0 1 5 2 0

/-- One junk byte followed by the S1 burst. -/
def junkStream1 : List Nat := 0 :: s1Burst

/-- The decoder state once the sync loop has dropped the junk byte of `junkStream1` and
accepted the burst. -/
def junkSynced1 : DecState :=
  syncedState (hbrBurst refConsts 1 16385 [(24, 100, 0)] (List.replicate 100 1)) 16384
    [] 0 0 0 1 15 1 0

/-- What the decoder has established of the sub-headers of a burst on which it holds
sync (the checks of `checkPayloadHeaders` that the later reads rely on): every listed
`data_offset` is at most `payloadLength`, and the first one lies behind the sub-header
table with its terminator. -/
def headersValidated (h : DecState) : Prop :=
  (∀ j, j < h.numPayloadHeaders → (subHeaderAt h j).1 ≤ h.payloadLength) ∧
  (1 ≤ h.numPayloadHeaders →
    IEC_HEADER_SIZE_BYTES + (h.numPayloadHeaders + 1) * h.payloadHeaderSize ≤
      (subHeaderAt h 0).1)

/-- The invariant of the decoder states reachable with output capacities of at most `M`:
the work buffer holds bytes, at most `DEC_WORKBUFFER_SIZE_BYTES` of them are available; a
candidate sits at index 0 with header fields accepted by `parseIecFrameData`; with sync
held the whole burst is available and its sub-headers are validated; the bytes of a
pending AU, collected and missing, are at most `M` and fewer than `2^24`; and the
pending buffer has not been written beyond `M` cells. -/
structure DecInv (k : WireConsts) (M : Nat) (h : DecState) : Prop where
  bytes : ∀ i, peek h.workBuffer i < 256
  avail : h.workBufferBytesAvailable ≤ DEC_WORKBUFFER_SIZE_BYTES
  cand : h.syncCandidateFound = true → ParsedHeader k h ∧ h.syncCandidateIndex = 0
  sync : h.syncFound = true → h.syncCandidateFound = true ∧
    h.burstRepetitionPeriod ≤ h.workBufferBytesAvailable ∧ headersValidated h
  pend : h.frameBytesPending + h.frameBytesMissing ≤ M
  pend24 : h.frameBytesPending + h.frameBytesMissing < 16777216
  fbuf : h.frameBufferPending.length ≤ M

/-- The decoder states a caller can reach: `iec61937_decode_open`, then calls of
`iec61937_decode_feed` with bytes and calls of `iec61937_decode_process` that return, with
an output capacity of at most `M`. -/
inductive DecReachable (k : WireConsts) (M : Nat) : DecState → Prop
  | opened : DecReachable k M iec61937_decode_open
  | feed (h : DecState) (input : List Nat) :
      DecReachable k M h → (∀ b, b ∈ input → b < 256) →
      DecReachable k M (iec61937_decode_feed h input).2
  | process (h : DecState) (fuel cap : Nat) (r : DecOut × DecState) :
      DecReachable k M h → cap ≤ M → iec61937_decode_process k fuel h cap = some r →
      DecReachable k M r.2

/-- The state in which the branch "frame is split across IEC frames" of
`iec61937_decode_process` leaves the decoder: the bytes of the AU that the burst holds
are copied to the start of the pending buffer, the pending state is set, and the
sub-header cursor is advanced. -/
def splitState (h : DecState) : DecState :=
  let hdr := currentSubHeader h
  let numAuBytesMissing :=
    sub32 hdr.2.1 (u32 (sub32 h.payloadLength hdr.1 + IEC_HEADER_SIZE_BYTES))
  let numAuBytesAvailable := sub32 hdr.2.1 numAuBytesMissing
  { h with frameBytesPending := numAuBytesAvailable, frameBytesMissing := numAuBytesMissing,
           frameBufferPending := memWrite h.frameBufferPending 0
             (memRead h.workBuffer (h.syncCandidateIndex + hdr.1) numAuBytesAvailable),
           pcmOffsetPending := hdr.2.2 - (h.frameLength : Int),
           payloadHeaderIndex := h.payloadHeaderIndex + 1 }

/-- The payload block of `iec61937_decode_process` (`emitPayload`) together with the
work-buffer ranges `(start, length)` that `parsePayloadHeader` and the `memcpy` calls of
the block read, in order. The `memmove` of the completion, which moves the bytes that
follow the burst, is not listed. -/
def emitPayloadTrace (h : DecState) (outputBufferLength : Nat) :
    (DecOut × DecState) × List (Nat × Nat) :=
  let step : Option (List Nat × Nat × Int × DecState) × List (Nat × Nat) :=
    if h.payloadHeaderIndex < h.numPayloadHeaders then
      let headerIndex := h.syncCandidateIndex + IEC_HEADER_SIZE_BYTES +
        h.payloadHeaderIndex * h.payloadHeaderSize
      let hdr := parsePayloadHeader h headerIndex
      let hdrRead := (headerIndex, if h.audioMode = 0 then 6 else 8)
      let dataOffset := hdr.1
      let dataLength := hdr.2.1
      let pcmOffset := hdr.2.2
      if dataLength > outputBufferLength then (none, [hdrRead])
      else if dataOffset + dataLength > IEC_HEADER_SIZE_BYTES + h.payloadLength then
        let numAuBytesMissing :=
          sub32 dataLength (u32 (sub32 h.payloadLength dataOffset + IEC_HEADER_SIZE_BYTES))
        let numAuBytesAvailable := sub32 dataLength numAuBytesMissing
        (some ([], 0, 0,
          { h with frameBytesPending := numAuBytesAvailable, frameBytesMissing := numAuBytesMissing,
                   frameBufferPending := memWrite h.frameBufferPending 0
                     (memRead h.workBuffer (h.syncCandidateIndex + dataOffset) numAuBytesAvailable),
                   pcmOffsetPending := pcmOffset - (h.frameLength : Int),
                   payloadHeaderIndex := h.payloadHeaderIndex + 1 }),
          [hdrRead, (h.syncCandidateIndex + dataOffset, numAuBytesAvailable)])
      else
        (some (memRead h.workBuffer (h.syncCandidateIndex + dataOffset) dataLength, dataLength,
          pcmOffset, { h with payloadHeaderIndex := h.payloadHeaderIndex + 1 }),
          [hdrRead, (h.syncCandidateIndex + dataOffset, dataLength)])
    else (some ([], 0, 0, h), [])
  match step.1 with
  | none =>
    (({ result := .IECDEC_BUFFER_ERROR, outputBuffer := [], outputBufferLength := 0, pcmOffset := 0,
        iecFrameLength := h.frameLength, iecFrameProcessed := false }, h), step.2)
  | some (out, outLen, pcmOffset, h1) =>
    if h1.payloadHeaderIndex = h1.numPayloadHeaders then
      (({ result := .IECDEC_OK, outputBuffer := out, outputBufferLength := outLen,
          pcmOffset := pcmOffset, iecFrameLength := h.frameLength, iecFrameProcessed := true },
        resetParsingState (resetSyncState
         { h1 with
           workBuffer := memMove h1.workBuffer 0 (h1.syncCandidateIndex + h1.burstRepetitionPeriod)
             (sub32 h1.workBufferBytesAvailable h1.burstRepetitionPeriod),
           workBufferBytesAvailable :=
             sub32 h1.workBufferBytesAvailable h1.burstRepetitionPeriod })), step.2)
    else
      (({ result := .IECDEC_OK, outputBuffer := out, outputBufferLength := outLen,
          pcmOffset := pcmOffset, iecFrameLength := h.frameLength, iecFrameProcessed := false },
        h1), step.2)

/-- The part of `iec61937_decode_process` that follows the sync loop (`processSynced`)
together with the work-buffer ranges `(start, length)` that `parsePayloadHeader` and the
`memcpy` calls read while the burst is handled, in order. -/
def processSyncedTrace (h : DecState) (outputBufferLength : Nat) :
    (DecOut × DecState) × List (Nat × Nat) :=
  let fail (r : IECDEC_RESULT) (h1 : DecState) : DecOut × DecState :=
    ({ result := r, outputBuffer := [], outputBufferLength := 0, pcmOffset := 0,
       iecFrameLength := h.frameLength, iecFrameProcessed := false }, h1)
  if h.frameBytesMissing > 0 then
    if h.numPayloadHeaders = 0 then
      let payloadBytesAvailable := sub32 h.payloadLength h.payloadHeaderSize
      let dataIndex := h.syncCandidateIndex + IEC_HEADER_SIZE_BYTES + h.payloadHeaderSize
      if h.frameBytesMissing > payloadBytesAvailable then
        let r := emitPayloadTrace
          { h with
            frameBufferPending := memWrite h.frameBufferPending h.frameBytesPending
              (memRead h.workBuffer dataIndex payloadBytesAvailable),
            frameBytesPending := u32 (h.frameBytesPending + payloadBytesAvailable),
            frameBytesMissing := sub32 h.frameBytesMissing payloadBytesAvailable,
            pcmOffsetPending := h.pcmOffsetPending - (h.frameLength : Int) }
          outputBufferLength
        (r.1, (dataIndex, payloadBytesAvailable) :: r.2)
      else if h.frameBytesMissing < payloadBytesAvailable then
        (fail .IECDEC_PENDINGDATA_ERROR h, [])
      else if u32 (h.frameBytesPending + h.frameBytesMissing) > outputBufferLength then
        (fail .IECDEC_BUFFER_ERROR h, [])
      else
        (({ result := .IECDEC_OK,
            outputBuffer := memRead h.frameBufferPending 0 h.frameBytesPending ++
              memRead h.workBuffer dataIndex h.frameBytesMissing,
            outputBufferLength := u32 (h.frameBytesPending + h.frameBytesMissing),
            pcmOffset := h.pcmOffsetPending, iecFrameLength := h.frameLength,
            iecFrameProcessed := false },
          resetPendingState h), [(dataIndex, h.frameBytesMissing)])
    else
      if u32 (h.frameBytesPending + h.frameBytesMissing) > outputBufferLength then
        (fail .IECDEC_BUFFER_ERROR h, [])
      else
        let headerIndex := h.syncCandidateIndex + IEC_HEADER_SIZE_BYTES
        let hdrRead := (headerIndex, if h.audioMode = 0 then 6 else 8)
        let dataOffset := (parsePayloadHeader h headerIndex).1
        if u32 (h.syncCandidateIndex + dataOffset) < h.frameBytesMissing then
          (fail .IECDEC_PENDINGDATA_ERROR
            (resetPendingState (resetParsingState (resetSyncState h))), [hdrRead])
        else
          let dataIndex := sub32 (u32 (h.syncCandidateIndex + dataOffset)) h.frameBytesMissing
          (({ result := .IECDEC_OK,
              outputBuffer := memRead h.frameBufferPending 0 h.frameBytesPending ++
                memRead h.workBuffer dataIndex h.frameBytesMissing,
              outputBufferLength := u32 (h.frameBytesPending + h.frameBytesMissing),
              pcmOffset := h.pcmOffsetPending, iecFrameLength := h.frameLength,
              iecFrameProcessed := false },
            resetPendingState h), [hdrRead, (dataIndex, h.frameBytesMissing)])
  else emitPayloadTrace h outputBufferLength

/-- The encoder after a factor-4 encoder has accepted an AU of 16452 bytes with
duration 0: the AU is stored, no burst is due. -/
def zeroLenState1 : EncState :=
  (iec61937_encode_process refConsts (encInit 1 1) (List.replicate 16452 1) 0 16384).2

/-- The encoder after a call with a zero-length AU in `zeroLenState1`: a burst with the
first 16352 bytes has been written, 100 bytes are pending and `overallDuration` is
-1024. -/
def zeroLenState2 : EncState :=
  (iec61937_encode_process refConsts zeroLenState1 [] 0 16384).2

/-! ## The limits of the pending state -/

/-- The store of the branch "frame is split across IEC frames" of
`iec61937_decode_process` on `h` stays inside the objects of the decoder state: the part
of the AU that the burst holds has at most `MAX_MPEGH_FRAME_SIZE` bytes, the size of the
array `frameBufferPending` that the `memcpy` of the branch fills from its start, and
`pcmOffset - (int32_t)h->frameLength` is formed from two `int32_t` values (frame length
and parsed pcm offset at most `2^31 - 1`). Beyond these limits the list
`frameBufferPending` and the integer `pcmOffsetPending` of a `DecState` no longer stand
for the array and the `int32_t` field. -/
def splitStoreFits (h : DecState) : Prop :=
  (splitState h).frameBytesPending ≤ MAX_MPEGH_FRAME_SIZE ∧
  h.frameLength ≤ 2147483647 ∧ (currentSubHeader h).2.2 ≤ 2147483647

instance splitStoreFitsDecidable (h : DecState) : Decidable (splitStoreFits h) := by
  unfold splitStoreFits
  infer_instance

/-- The store of the branch "the pending data cannot be completed" of
`iec61937_decode_process` on `h` stays inside the objects of the decoder state: the
payload bytes appended at `frameBufferPending + frameBytesPending` end inside the
`MAX_MPEGH_FRAME_SIZE` bytes of the array, and `pcmOffsetPending -= frameLength`, an
`int32_t` less a `uint32_t`, does not leave the range of `int32_t`. -/
def appendStoreFits (h : DecState) : Prop :=
  h.frameBytesPending + sub32 h.payloadLength h.payloadHeaderSize ≤ MAX_MPEGH_FRAME_SIZE ∧
  -2147483648 ≤ h.pcmOffsetPending - (h.frameLength : Int) ∧
  h.pcmOffsetPending ≤ 2147483647

instance appendStoreFitsDecidable (h : DecState) : Decidable (appendStoreFits h) := by
  unfold appendStoreFits
  infer_instance

/-! ## Machine arithmetic and memory: basic facts -/

theorem u32_of_lt {x : Nat} (h : x < 4294967296) : u32 x = x := by
  unfold u32; omega

theorem sub32_of_le {a b : Nat} (h : b ≤ a) (ha : a < 4294967296) : sub32 a b = a - b := by
  unfold sub32; omega

theorem peek_append_left {a b : List Nat} {i : Nat} (h : i < a.length) :
    peek (a ++ b) i = peek a i := by
  unfold peek
  simp [List.getD_eq_getElem?_getD, List.getElem?_append_left h]

theorem peek_append_right {a b : List Nat} {i : Nat} (h : a.length ≤ i) :
    peek (a ++ b) i = peek b (i - a.length) := by
  unfold peek
  simp [List.getD_eq_getElem?_getD, List.getElem?_append_right h]

theorem peek_of_length_le {a : List Nat} {i : Nat} (h : a.length ≤ i) : peek a i = 0 := by
  unfold peek
  simp [List.getD_eq_getElem?_getD, List.getElem?_eq_none h]

theorem peek_replicate (n i : Nat) : peek (List.replicate n 0) i = 0 := by
  unfold peek
  by_cases h : i < n
  · simp [List.getD_eq_getElem?_getD, List.getElem?_replicate, h]
  · simp [List.getD_eq_getElem?_getD, List.getElem?_replicate, h]

theorem memRead_length (a : List Nat) (off n : Nat) : (memRead a off n).length = n := by
  unfold memRead
  simp

theorem peek_memRead {a : List Nat} {off n j : Nat} (h : j < n) :
    peek (memRead a off n) j = peek a (off + j) := by
  unfold memRead peek
  simp only [List.getD_eq_getElem?_getD]
  rw [List.getElem?_take_of_lt h]
  by_cases hj : j < (a.drop off).length
  · rw [List.getElem?_append_left hj]
    simp
  · have hj' : (a.drop off).length ≤ j := by omega
    rw [List.getElem?_append_right hj']
    have : a.length ≤ off + j := by simp at hj'; omega
    rw [List.getElem?_eq_none this]
    simp only [List.getElem?_replicate, List.length_drop]
    split <;> rfl

theorem memRead_eq_take_drop {a : List Nat} {off n : Nat} (h : off + n ≤ a.length) :
    memRead a off n = (a.drop off).take n := by
  unfold memRead
  rw [List.take_append_of_le_length]
  simp; omega

theorem memRead_append_mid (x y z : List Nat) :
    memRead (x ++ y ++ z) x.length y.length = y := by
  rw [memRead_eq_take_drop (by simp)]
  simp

theorem memRead_zero (a : List Nat) (off : Nat) : memRead a off 0 = [] := by
  simp [memRead]

theorem memWrite_of_le {a : List Nat} {off : Nat} (d : List Nat) (h : off ≤ a.length) :
    memWrite a off d = a.take off ++ d ++ a.drop (off + d.length) := by
  unfold memWrite
  have : off - a.length = 0 := by omega
  simp [this]

theorem memWrite_length (a : List Nat) (off : Nat) (d : List Nat) :
    (memWrite a off d).length = max a.length (off + d.length) := by
  unfold memWrite
  simp
  omega

theorem peek_memWrite (a : List Nat) (off : Nat) (d : List Nat) (i : Nat) :
    peek (memWrite a off d) i =
      if i < off then peek a i else if i < off + d.length then peek d (i - off) else peek a i := by
  unfold memWrite
  have hl : ((a ++ List.replicate (off - a.length) 0).take off).length = off := by
    simp; omega
  by_cases h1 : i < off
  · simp only [h1, if_true]
    rw [List.append_assoc, peek_append_left (by omega)]
    unfold peek
    simp only [List.getD_eq_getElem?_getD]
    rw [List.getElem?_take_of_lt h1]
    by_cases h2 : i < a.length
    · rw [List.getElem?_append_left h2]
    · rw [List.getElem?_append_right (by omega), List.getElem?_eq_none (by omega : a.length ≤ i)]
      simp only [List.getElem?_replicate]
      split <;> rfl
  · simp only [h1, if_false]
    rw [List.append_assoc, peek_append_right (by omega), hl]
    by_cases h2 : i < off + d.length
    · simp only [h2, if_true]
      rw [peek_append_left (by omega)]
    · simp only [h2, if_false]
      rw [peek_append_right (by omega)]
      unfold peek
      simp only [List.getD_eq_getElem?_getD, List.getElem?_drop]
      congr 2
      omega

/-! ## Encoder: loops -/

theorem peek_set (a : List Nat) (i v j : Nat) (hi : i < a.length) :
    peek (a.set i v) j = if j = i then v else peek a j := by
  unfold peek
  simp only [List.getD_eq_getElem?_getD, List.getElem?_set]
  by_cases h : i = j
  · subst h; simp [hi]
  · have h' : ¬ j = i := fun e => h e.symm
    simp [h, h']

theorem psum_congr {a b : List Nat} {n : Nat} (h : ∀ i, i < n → peek a i = peek b i) :
    psum a n = psum b n := by
  induction n with
  | zero => rfl
  | succ n ih =>
    simp only [psum]
    rw [ih (fun i hi => h i (by omega)), h n (by omega)]

theorem psum_mono (a : List Nat) {m n : Nat} (h : m ≤ n) : psum a m ≤ psum a n := by
  induction n with
  | zero => have : m = 0 := by omega
            subst this; exact Nat.le_refl _
  | succ n ih =>
    by_cases hm : m = n + 1
    · subst hm; exact Nat.le_refl _
    · have := ih (by omega)
      simp only [psum]; omega

theorem sumCells_eq_psum (a : List Nat) (n : Nat) (h : psum a n < 4294967296) :
    sumCells a n = psum a n := by
  induction n with
  | zero => rfl
  | succ n ih =>
    simp only [psum] at h
    simp only [sumCells, psum]
    rw [ih (by omega), u32_of_lt h]

theorem subHeaderSizes_eq (hs n A : Nat) (h : n * hs ≤ A) (hA : A < 4294967296) :
    subHeaderSizes hs n A = A - n * hs := by
  induction n generalizing A with
  | zero => simp [subHeaderSizes]
  | succ n ih =>
    have h1 : (n + 1) * hs = n * hs + hs := by ring
    simp only [subHeaderSizes]
    rw [sub32_of_le (by omega) hA, ih (A - hs) (by omega) (by omega)]
    omega

theorem getNumBuffersLoop_ge (h : EncState) (A n i wl : Nat) (d : Int) :
    i ≤ getNumBuffersLoop h A n i wl d := by
  induction n generalizing i wl d with
  | zero => simp [getNumBuffersLoop]
  | succ n ih =>
    simp only [getNumBuffersLoop]
    split
    · have := ih (i + 1) (u32 (wl + (peek h.frameLength i + h.payloadHeaderSize)))
        (d + peek h.frameDuration i)
      omega
    · exact Nat.le_refl _

theorem getNumBuffersLoop_le (h : EncState) (A n i wl : Nat) (d : Int)
    (hi : i ≤ h.framesStoredCount) :
    getNumBuffersLoop h A n i wl d ≤ h.framesStoredCount := by
  induction n generalizing i wl d with
  | zero => simpa [getNumBuffersLoop] using hi
  | succ n ih =>
    simp only [getNumBuffersLoop]
    split
    · rename_i hc
      exact ih (i + 1) _ _ (by omega)
    · exact hi

theorem getNumBuffersToWrite_le (k : WireConsts) (h : EncState) :
    getNumBuffersToWrite k h ≤ h.framesStoredCount :=
  getNumBuffersLoop_le h _ _ 0 0 0 (Nat.zero_le _)

theorem getNumBuffersToWrite_pos (k : WireConsts) (h : EncState)
    (hA : 0 < availableBytes k h) (hd : 0 ≤ h.overallDuration) (hc : 1 ≤ h.framesStoredCount) :
    1 ≤ getNumBuffersToWrite k h := by
  unfold getNumBuffersToWrite
  obtain ⟨c, hc'⟩ : ∃ c, h.framesStoredCount = c + 1 := ⟨h.framesStoredCount - 1, by omega⟩
  rw [hc']
  simp only [getNumBuffersLoop]
  rw [if_pos ⟨hA, hd, by omega⟩]
  exact getNumBuffersLoop_ge _ _ _ _ _ _

theorem adjustLoop_spec (nb total A : Nat) (n : Nat) :
    ∀ (i : Nat) (p : Bool) (fl fd : List Nat) (del : Nat),
      i + n ≤ fl.length → i + n ≤ fd.length →
      (adjustLoop nb total A n i (p, fl, fd, del)).2.1.length = fl.length ∧
      (adjustLoop nb total A n i (p, fl, fd, del)).2.2.1.length = fd.length ∧
      (∀ t, peek (adjustLoop nb total A n i (p, fl, fd, del)).2.1 t =
        if i ≤ t ∧ t < i + n then (if t = sub32 nb 1 ∧ total > A then sub32 total A else 0)
        else peek fl t) ∧
      (∀ t, peek (adjustLoop nb total A n i (p, fl, fd, del)).2.2.1 t =
        if i ≤ t ∧ t < i + n then 0 else peek fd t) ∧
      (adjustLoop nb total A n i (p, fl, fd, del)).2.2.2 =
        del + n - (if i ≤ sub32 nb 1 ∧ sub32 nb 1 < i + n ∧ total > A then 1 else 0) ∧
      (adjustLoop nb total A n i (p, fl, fd, del)).1 =
        if n = 0 then p else decide (i + n - 1 = sub32 nb 1 ∧ total > A) := by
  induction n with
  | zero =>
    intro i p fl fd del _ _
    simp only [adjustLoop, Nat.add_zero, if_true]
    refine ⟨trivial, trivial, ?_, ?_, ?_, trivial⟩
    · intro t
      have : ¬ (i ≤ t ∧ t < i) := by omega
      rw [if_neg this]
    · intro t
      have : ¬ (i ≤ t ∧ t < i) := by omega
      rw [if_neg this]
    · have : ¬ (i ≤ sub32 nb 1 ∧ sub32 nb 1 < i ∧ total > A) := by omega
      rw [if_neg this]; rfl
  | succ n ih =>
    intro i p fl fd del hfl hfd
    simp only [adjustLoop]
    by_cases hc : i = sub32 nb 1 ∧ total > A
    · rw [if_pos hc]
      have hfl' : i + 1 + n ≤ (fl.set i (sub32 total A)).length := by simp; omega
      have hfd' : i + 1 + n ≤ (fd.set i 0).length := by simp; omega
      obtain ⟨h1, h2, h3, h4, h5, h6⟩ := ih (i + 1) true (fl.set i (sub32 total A)) (fd.set i 0) del hfl' hfd'
      refine ⟨by simpa using h1, by simpa using h2, ?_, ?_, ?_, ?_⟩
      · intro t
        rw [h3 t, peek_set _ _ _ _ (by omega)]
        by_cases ht : t = i
        · subst ht
          simp [hc.1, hc.2]
        · by_cases ht2 : i + 1 ≤ t ∧ t < i + 1 + n
          · have : i ≤ t ∧ t < i + (n + 1) := by omega
            simp [ht2, this]
          · have : ¬ (i ≤ t ∧ t < i + (n + 1)) := by omega
            simp [ht2, this, ht]
      · intro t
        rw [h4 t, peek_set _ _ _ _ (by omega)]
        by_cases ht : t = i
        · subst ht
          simp
        · by_cases ht2 : i + 1 ≤ t ∧ t < i + 1 + n
          · have : i ≤ t ∧ t < i + (n + 1) := by omega
            simp [ht2, this]
          · have : ¬ (i ≤ t ∧ t < i + (n + 1)) := by omega
            simp [ht2, this, ht]
      · rw [h5]
        have e1 : ¬ (i + 1 ≤ sub32 nb 1 ∧ sub32 nb 1 < i + 1 + n ∧ total > A) := by
          intro h; omega
        have e2 : (i ≤ sub32 nb 1 ∧ sub32 nb 1 < i + (n + 1) ∧ total > A) := by
          refine ⟨by omega, by omega, hc.2⟩
        rw [if_neg e1, if_pos e2]
        omega
      · rw [h6]
        by_cases hn : n = 0
        · subst hn
          simp [hc.1, hc.2]
        · have : i + 1 + n - 1 ≠ sub32 nb 1 := by omega
          have : i + (n + 1) - 1 ≠ sub32 nb 1 := by omega
          simp [hn, *]
    · rw [if_neg hc]
      have hfl' : i + 1 + n ≤ (fl.set i 0).length := by simp; omega
      have hfd' : i + 1 + n ≤ (fd.set i 0).length := by simp; omega
      obtain ⟨h1, h2, h3, h4, h5, h6⟩ := ih (i + 1) false (fl.set i 0) (fd.set i 0) (del + 1) hfl' hfd'
      refine ⟨by simpa using h1, by simpa using h2, ?_, ?_, ?_, ?_⟩
      · intro t
        rw [h3 t, peek_set _ _ _ _ (by omega)]
        by_cases ht : t = i
        · subst ht
          have : ¬ (t + 1 ≤ t ∧ t < t + 1 + n) := by omega
          have h2 : (t ≤ t ∧ t < t + (n + 1)) := by omega
          rw [if_neg this, if_pos rfl, if_pos h2, if_neg hc]
        · by_cases ht2 : i + 1 ≤ t ∧ t < i + 1 + n
          · have : i ≤ t ∧ t < i + (n + 1) := by omega
            simp [ht2, this]
          · have : ¬ (i ≤ t ∧ t < i + (n + 1)) := by omega
            simp [ht2, this, ht]
      · intro t
        rw [h4 t, peek_set _ _ _ _ (by omega)]
        by_cases ht : t = i
        · subst ht
          simp
        · by_cases ht2 : i + 1 ≤ t ∧ t < i + 1 + n
          · have : i ≤ t ∧ t < i + (n + 1) := by omega
            simp [ht2, this]
          · have : ¬ (i ≤ t ∧ t < i + (n + 1)) := by omega
            simp [ht2, this, ht]
      · rw [h5]
        by_cases e1 : (i + 1 ≤ sub32 nb 1 ∧ sub32 nb 1 < i + 1 + n ∧ total > A)
        · have e2 : (i ≤ sub32 nb 1 ∧ sub32 nb 1 < i + (n + 1) ∧ total > A) := by
            refine ⟨by omega, by omega, e1.2.2⟩
          rw [if_pos e1, if_pos e2]
          omega
        · have e2 : ¬ (i ≤ sub32 nb 1 ∧ sub32 nb 1 < i + (n + 1) ∧ total > A) := by
            intro h
            apply e1
            refine ⟨?_, by omega, h.2.2⟩
            by_contra hh
            apply hc
            exact ⟨by omega, h.2.2⟩
          rw [if_neg e1, if_neg e2]
          omega
      · rw [h6]
        by_cases hn : n = 0
        · subst hn
          simp
          intro h
          by_contra h2
          exact hc ⟨h, by omega⟩
        · have : i + 1 + n - 1 = i + (n + 1) - 1 := by omega
          simp [hn, this]



/-! ## Encoder: the frame table after a burst -/

/-- The spacing is small enough for the arithmetic on burst lengths not to wrap. -/
theorem availableBytes_eq (k : WireConsts) (h : EncState) (hi : EncInv h)
    (hsp : k.IEC_BURST_SPACING_SIZE_BYTES ≤ 16320) :
    availableBytes k h =
      h.burstRepetitionPeriod - 8 - k.IEC_BURST_SPACING_SIZE_BYTES - (if h.auPending then 0 else 8) := by
  unfold availableBytes
  have hP := hi.rate
  have hs := hi.hs
  simp only [IEC_HEADER_SIZE_BYTES, hs]
  rcases hP with ⟨_, hP⟩ | ⟨_, hP⟩ <;> rw [hP] <;> cases h.auPending <;>
    simp only [sub32, Bool.false_eq_true, if_false, if_true] <;> omega

theorem numAvailableBytes_eq (k : WireConsts) (h : EncState) (hi : EncInv h)
    (hsp : k.IEC_BURST_SPACING_SIZE_BYTES ≤ 16320) (nb : Nat) (hnb : nb ≤ 4) :
    numAvailableBytes k h nb =
      h.burstRepetitionPeriod - 8 - k.IEC_BURST_SPACING_SIZE_BYTES - (if h.auPending then 0 else 8)
        - nb * 8 := by
  unfold numAvailableBytes
  rw [availableBytes_eq k h hi hsp, hi.hs]
  have hP := hi.rate
  rw [subHeaderSizes_eq]
  · rcases hP with ⟨_, hP⟩ | ⟨_, hP⟩ <;> rw [hP] <;> split <;> omega
  · rcases hP with ⟨_, hP⟩ | ⟨_, hP⟩ <;> rw [hP] <;> split <;> omega


theorem peek_memMove_zero (a : List Nat) (src n t : Nat) :
    peek (memMove a 0 src n) t = if t < n then peek a (src + t) else peek a t := by
  unfold memMove
  rw [peek_memWrite, memRead_length]
  simp only [Nat.not_lt_zero, if_false, Nat.zero_add, Nat.sub_zero]
  split
  · rename_i h; rw [peek_memRead h]
  · rfl

theorem memMove_zero_length (a : List Nat) (src n : Nat) (h : n ≤ a.length) :
    (memMove a 0 src n).length = a.length := by
  unfold memMove
  rw [memWrite_length, memRead_length]
  omega

/-- The number of frames `emitBurst` removes from the table: all selected frames,
but for the last one when it is split. -/
theorem emitBurst_frames (k : WireConsts) (h : EncState) (nb : Nat) (c : Bool)
    (hi : EncInv h) (hsp : k.IEC_BURST_SPACING_SIZE_BYTES ≤ 16320)
    (hnb : nb ≤ h.framesStoredCount) :
    let total := psum h.frameLength nb
    let A := numAvailableBytes k h nb
    let del := if total > A then nb - 1 else nb
    let h' := (emitBurst k h nb c).2
    h'.auPending = (if nb = 0 then h.auPending else decide (total > A)) ∧
    h'.framesStoredCount = h.framesStoredCount - del ∧
    h'.frameLength.length = 5 ∧ h'.frameDuration.length = 5 ∧
    (∀ t, t < h.framesStoredCount - del →
      peek h'.frameLength t = if total > A ∧ t = 0 then total - A else peek h.frameLength (del + t)) ∧
    (∀ t, t < h.framesStoredCount - del →
      peek h'.frameDuration t = if total > A ∧ t = 0 then 0 else peek h.frameDuration (del + t)) ∧
    h'.pWorkBufferWrite = psum h.frameLength h.framesStoredCount - min total A ∧
    h'.workBuffer =
      (if psum h.frameLength h.framesStoredCount - min total A > 0 then
        memMove h.workBuffer 0 (min total A) (psum h.frameLength h.framesStoredCount - min total A)
       else h.workBuffer) := by
  intro total A del h'
  have hcnt := hi.count
  have hwr := hi.wr
  have hwrLe := hi.wrLe
  have hmono : psum h.frameLength nb ≤ psum h.frameLength h.framesStoredCount := psum_mono _ hnb
  have hs1 : sumCells h.frameLength nb = total := sumCells_eq_psum _ _ (by omega)
  have hs2 : sumCells h.frameLength h.framesStoredCount = psum h.frameLength h.framesStoredCount :=
    sumCells_eq_psum _ _ (by omega)
  have hA : A < 4294967296 := by
    show numAvailableBytes k h nb < 4294967296
    rw [numAvailableBytes_eq k h hi hsp nb (by omega)]
    rcases hi.rate with ⟨_, hP⟩ | ⟨_, hP⟩ <;> rw [hP] <;> omega
  have hnb1 : sub32 nb 1 = nb - 1 ∨ nb = 0 := by
    by_cases h0 : nb = 0
    · exact Or.inr h0
    · exact Or.inl (sub32_of_le (by omega) (by omega))
  obtain ⟨a1, a2, a3, a4, a5, a6⟩ := adjustLoop_spec nb total A nb 0 h.auPending h.frameLength
    h.frameDuration 0 (by rw [hi.flLen]; omega) (by rw [hi.fdLen]; omega)
  have hdel : (adjustLoop nb total A nb 0 (h.auPending, h.frameLength, h.frameDuration, 0)).2.2.2 = del := by
    rw [a5]
    show _ = if total > A then nb - 1 else nb
    by_cases hsplit : total > A
    · have hnb0 : nb ≠ 0 := by
        intro e; subst e; simp [total, psum] at hsplit
      have e1 : sub32 nb 1 = nb - 1 := by rcases hnb1 with h1 | h1; exact h1; exact absurd h1 hnb0
      rw [if_pos hsplit, if_pos ⟨by omega, by omega, hsplit⟩]
      omega
    · rw [if_neg hsplit, if_neg (fun hh => hsplit hh.2.2)]
      omega
  have hkeep : sub32 (sumCells h.frameLength h.framesStoredCount) (if sumCells h.frameLength nb > A then A else sumCells h.frameLength nb)
      = psum h.frameLength h.framesStoredCount - min total A := by
    rw [hs1, hs2]
    by_cases hsplit : total > A
    · rw [if_pos hsplit, sub32_of_le (by omega) (by omega), Nat.min_eq_right (by omega)]
    · rw [if_neg hsplit, sub32_of_le (by omega) (by omega), Nat.min_eq_left (by omega)]
  have hdelLe : del ≤ h.framesStoredCount := by
    show (if total > A then nb - 1 else nb) ≤ _
    split <;> omega
  have hpdl : payloadDataLength total A = min total A := by
    unfold payloadDataLength
    by_cases hlt : total < A
    · rw [if_pos hlt, Nat.min_eq_left (by omega)]
    · rw [if_neg hlt, Nat.min_eq_right (by omega)]
  refine ⟨?_, ?_, ?_, ?_, ?_, ?_, ?_, ?_⟩
  · show (adjustLoop nb (sumCells h.frameLength nb) A nb 0 _).1 = _
    rw [hs1, a6]
    by_cases h0 : nb = 0
    · simp [h0]
    · have e1 : sub32 nb 1 = nb - 1 := by rcases hnb1 with h1 | h1; exact h1; exact absurd h1 h0
      simp [h0, e1]
  · show (if (adjustLoop nb (sumCells h.frameLength nb) A nb 0 _).2.2.2 > 0 then _ else _) = _
    rw [hs1, hdel]
    split
    · exact sub32_of_le hdelLe (by omega)
    · omega
  · show List.length (if (adjustLoop nb (sumCells h.frameLength nb) A nb 0 _).2.2.2 > 0 then _ else _) = _
    rw [hs1, hdel]
    split
    · rw [memMove_zero_length, a1, hi.flLen]
      rw [a1, hi.flLen, sub32_of_le hdelLe (by omega)]; omega
    · rw [a1, hi.flLen]
  · show List.length (if (adjustLoop nb (sumCells h.frameLength nb) A nb 0 _).2.2.2 > 0 then _ else _) = _
    rw [hs1, hdel]
    split
    · rw [memMove_zero_length, a2, hi.fdLen]
      rw [a2, hi.fdLen, sub32_of_le hdelLe (by omega)]; omega
    · rw [a2, hi.fdLen]
  · intro t ht
    show peek (if (adjustLoop nb (sumCells h.frameLength nb) A nb 0 _).2.2.2 > 0 then _ else _) t = _
    rw [hs1, hdel]
    have key : peek (adjustLoop nb total A nb 0 (h.auPending, h.frameLength, h.frameDuration, 0)).2.1 (del + t)
        = if total > A ∧ t = 0 then total - A else peek h.frameLength (del + t) := by
      rw [a3]
      by_cases hsplit : total > A
      · have hnb0 : nb ≠ 0 := by
          intro e; subst e; simp [total, psum] at hsplit
        have e1 : sub32 nb 1 = nb - 1 := by rcases hnb1 with h1 | h1; exact h1; exact absurd h1 hnb0
        have hd : del = nb - 1 := by show (if total > A then nb - 1 else nb) = _; rw [if_pos hsplit]
        rw [hd, e1]
        by_cases ht0 : t = 0
        · subst ht0
          rw [if_pos ⟨by omega, by omega⟩, if_pos ⟨by omega, hsplit⟩, if_pos ⟨hsplit, rfl⟩,
            sub32_of_le (by omega) (by omega)]
        · rw [if_neg (by omega), if_neg (fun hh => ht0 hh.2)]
      · have hd : del = nb := by show (if total > A then nb - 1 else nb) = _; rw [if_neg hsplit]
        rw [hd, if_neg (by omega), if_neg (fun hh => hsplit hh.1)]
    split
    · rename_i hpos
      rw [peek_memMove_zero, sub32_of_le hdelLe (by omega), if_pos ht, key]
    · rename_i hpos
      have hd0 : del = 0 := by omega
      rw [hd0, Nat.zero_add] at key
      rw [key, hd0, Nat.zero_add]
  · intro t ht
    show peek (if (adjustLoop nb (sumCells h.frameLength nb) A nb 0 _).2.2.2 > 0 then _ else _) t = _
    rw [hs1, hdel]
    have key : peek (adjustLoop nb total A nb 0 (h.auPending, h.frameLength, h.frameDuration, 0)).2.2.1 (del + t)
        = if total > A ∧ t = 0 then 0 else peek h.frameDuration (del + t) := by
      rw [a4]
      by_cases hsplit : total > A
      · have hnb0 : nb ≠ 0 := by
          intro e; subst e; simp [total, psum] at hsplit
        have hd : del = nb - 1 := by show (if total > A then nb - 1 else nb) = _; rw [if_pos hsplit]
        rw [hd]
        by_cases ht0 : t = 0
        · subst ht0
          rw [if_pos ⟨by omega, by omega⟩, if_pos ⟨hsplit, rfl⟩]
        · rw [if_neg (by omega), if_neg (fun hh => ht0 hh.2)]
      · have hd : del = nb := by show (if total > A then nb - 1 else nb) = _; rw [if_neg hsplit]
        rw [hd, if_neg (by omega), if_neg (fun hh => hsplit hh.1)]
    split
    · rename_i hpos
      rw [peek_memMove_zero, sub32_of_le hdelLe (by omega), if_pos ht, key]
    · rename_i hpos
      have hd0 : del = 0 := by omega
      rw [hd0, Nat.zero_add] at key
      rw [key, hd0, Nat.zero_add]
  · show sub32 _ _ = _
    exact hkeep
  · show (if sub32 _ _ > 0 then memMove h.workBuffer 0 (h.pWorkBufferRead + payloadDataLength (sumCells h.frameLength nb) A) (sub32 _ _) else _) = _
    rw [hkeep, hs1, hpdl, hi.rd, Nat.zero_add]


/-! ## Encoder: the invariant of the reachable states -/

theorem psum_shift (a b : List Nat) (d n : Nat) (h : ∀ t, t < n → peek b t = peek a (d + t)) :
    psum b n + psum a d = psum a (d + n) := by
  induction n with
  | zero => simp [psum]
  | succ n ih =>
    have := ih (fun t ht => h t (by omega))
    have e : d + (n + 1) = (d + n) + 1 := by omega
    rw [e]
    simp only [psum]
    rw [h n (by omega)]
    omega

theorem psum_shift1 (a b : List Nat) (d n : Nat) (hn : 1 ≤ n)
    (h : ∀ t, 1 ≤ t → t < n → peek b t = peek a (d + t)) :
    psum b n + psum a (d + 1) = peek b 0 + psum a (d + n) := by
  induction n with
  | zero => omega
  | succ n ih =>
    by_cases h0 : n = 0
    · subst h0
      simp [psum]
    · have := ih (by omega) (fun t h1 ht => h t h1 (by omega))
      have e : d + (n + 1) = (d + n) + 1 := by omega
      rw [e]
      simp only [psum] at this ⊢
      rw [h n (by omega) (by omega)]
      omega

theorem emitBurst_inv (k : WireConsts) (h : EncState) (nb : Nat) (c : Bool)
    (hi : EncInv h) (hsp : k.IEC_BURST_SPACING_SIZE_BYTES ≤ 16320)
    (hnb : nb ≤ h.framesStoredCount) (hd : 1024 ≤ h.overallDuration) :
    EncInv (emitBurst k h nb c).2 := by
  obtain ⟨f1, f2, f3, f4, f5, f6, f7, _⟩ := emitBurst_frames k h nb c hi hsp hnb
  have hcnt := hi.count
  have hmono : psum h.frameLength nb ≤ psum h.frameLength h.framesStoredCount := psum_mono _ hnb
  have hdelLe : (if psum h.frameLength nb > numAvailableBytes k h nb then nb - 1 else nb)
      ≤ h.framesStoredCount := by split <;> omega
  have hA : 0 < numAvailableBytes k h nb := by
    rw [numAvailableBytes_eq k h hi hsp nb (by omega)]
    rcases hi.rate with ⟨_, hP⟩ | ⟨_, hP⟩ <;> rw [hP] <;> split <;> omega
  refine ⟨hi.mode, hi.hs, hi.rate, hi.afl, ?_, f3, f4, ?_, ?_, ?_, rfl, ?_, ?_⟩
  · rw [f2]; omega
  · intro i hi'
    rw [f2] at hi'
    rw [f5 i hi']
    split
    · omega
    · apply hi.flPos
      revert hi'; split <;> omega
  · rw [f7, f2]
    by_cases hsplit : psum h.frameLength nb > numAvailableBytes k h nb
    · have hnb0 : nb ≠ 0 := by
        intro e; subst e; simp [psum] at hsplit
      simp only [if_pos hsplit] at f5 ⊢
      rw [Nat.min_eq_right (by omega)]
      have h1 := psum_shift1 h.frameLength (emitBurst k h nb c).2.frameLength (nb - 1)
        (h.framesStoredCount - (nb - 1)) (by omega) (by
          intro t ht1 ht
          rw [f5 t ht, if_neg (by omega)])
      rw [f5 0 (by omega), if_pos ⟨hsplit, rfl⟩] at h1
      have e1 : nb - 1 + 1 = nb := by omega
      have e2 : nb - 1 + (h.framesStoredCount - (nb - 1)) = h.framesStoredCount := by omega
      rw [e1, e2] at h1
      omega
    · simp only [if_neg hsplit] at f5 ⊢
      rw [Nat.min_eq_left (by omega)]
      have h1 := psum_shift h.frameLength (emitBurst k h nb c).2.frameLength nb
        (h.framesStoredCount - nb) (by
          intro t ht
          rw [f5 t ht, if_neg (fun hh => hsplit hh.1)])
      have e2 : nb + (h.framesStoredCount - nb) = h.framesStoredCount := by omega
      rw [e2] at h1
      omega
  · rw [f7]
    have := hi.wrLe
    have := hi.wr
    omega
  · show 0 ≤ h.overallDuration - h.audioFrameLength
    rw [hi.afl]; omega
  · intro hp
    rw [f1] at hp
    rw [f2]
    by_cases h0 : nb = 0
    · subst h0
      simp only [if_true] at hp
      have := hi.pend hp
      have : ¬ (psum h.frameLength 0 > numAvailableBytes k h 0) := by simp [psum]
      rw [if_neg this]; omega
    · rw [if_neg h0] at hp
      have hsplit : psum h.frameLength nb > numAvailableBytes k h nb := by simpa using hp
      rw [if_pos hsplit]; omega

theorem availableBytes_pos (k : WireConsts) (h : EncState) (hi : EncInv h)
    (hsp : k.IEC_BURST_SPACING_SIZE_BYTES ≤ 16320) : 0 < availableBytes k h := by
  rw [availableBytes_eq k h hi hsp]
  rcases hi.rate with ⟨_, hP⟩ | ⟨_, hP⟩ <;> rw [hP] <;> split <;> omega

theorem storeFrame_inv (h : EncState) (au : List Nat) (d : Nat) (hi : EncInv h)
    (hau : au ≠ []) (hc : ¬ h.framesStoredCount + 1 ≥ MAX_NUM_MPEGH_FRAMES)
    (hw : ¬ h.pWorkBufferWrite + au.length > ENC_WORKBUFFER_SIZE_BYTES) :
    EncInv (storeFrame h au d) := by
  unfold MAX_NUM_MPEGH_FRAMES at hc
  unfold ENC_WORKBUFFER_SIZE_BYTES at hw
  have hlen : 1 ≤ au.length := by
    cases au with
    | nil => exact absurd rfl hau
    | cons a t => simp
  refine ⟨hi.mode, hi.hs, hi.rate, hi.afl, ?_, ?_, ?_, ?_, ?_, ?_, hi.rd, ?_, ?_⟩
  · show h.framesStoredCount + 1 ≤ 4
    omega
  · show (h.frameLength.set _ _).length = 5
    simp [hi.flLen]
  · show (h.frameDuration.set _ _).length = 5
    simp [hi.fdLen]
  · intro i hi'
    show 1 ≤ peek (h.frameLength.set h.framesStoredCount au.length) i
    have hi2 : i < h.framesStoredCount + 1 := hi'
    rw [peek_set _ _ _ _ (by rw [hi.flLen]; omega)]
    split
    · exact hlen
    · exact hi.flPos i (by omega)
  · show h.pWorkBufferWrite + au.length = psum (h.frameLength.set h.framesStoredCount au.length) (h.framesStoredCount + 1)
    simp only [psum]
    rw [peek_set _ _ _ _ (by rw [hi.flLen]; omega), if_pos rfl, hi.wr]
    congr 1
    apply psum_congr
    intro i hi'
    rw [peek_set _ _ _ _ (by rw [hi.flLen]; omega), if_neg (by omega)]
  · show h.pWorkBufferWrite + au.length ≤ 327680
    omega
  · show 0 ≤ h.overallDuration + (d : Int)
    have := hi.dur
    omega
  · intro hp
    show 1 ≤ h.framesStoredCount + 1
    omega

theorem encode_process_eq (k : WireConsts) (h : EncState) (au : List Nat) (d cap : Nat) :
    iec61937_encode_process k h au d cap =
      if cap < h.burstRepetitionPeriod then
        (EncOut.mk .IECENC_BUFFER_ERROR false [] cap, h)
      else if d > MAX_MPEGH_FRAME_DURATION then
        (EncOut.mk .IECENC_DURATION_ERROR false [] cap, h)
      else if (if h.overallDuration ≥ h.audioFrameLength then 0 else au.length) ≠ 0 then
        if h.framesStoredCount + 1 ≥ MAX_NUM_MPEGH_FRAMES then
          (EncOut.mk .IECENC_BUFFER_ERROR false [] 0, h)
        else if h.pWorkBufferWrite + au.length > ENC_WORKBUFFER_SIZE_BYTES then
          (EncOut.mk .IECENC_BUFFER_ERROR false [] 0, h)
        else if (storeFrame h au d).overallDuration < (storeFrame h au d).audioFrameLength ∨
            getNumBuffersToWrite k (storeFrame h au d) = 0 then
          (EncOut.mk .IECENC_OK true [] 0, storeFrame h au d)
        else emitBurst k (storeFrame h au d) (getNumBuffersToWrite k (storeFrame h au d)) true
      else emitBurst k h (getNumBuffersToWrite k h) false := by
  unfold iec61937_encode_process
  by_cases h1 : cap < h.burstRepetitionPeriod
  · simp only [h1, if_true]
  · simp only [h1, if_false]
    by_cases h2 : d > MAX_MPEGH_FRAME_DURATION
    · simp only [h2, if_true]
    · simp only [h2, if_false]
      by_cases h3 : h.overallDuration ≥ h.audioFrameLength
      · simp only [h3, if_true, ne_eq, not_true_eq_false, if_false]
      · simp only [h3, if_false]
        by_cases h4 : au.length ≠ 0
        · simp only [h4, if_true, storeFrame, ne_eq, not_false_eq_true]
        · simp only [h4, if_false]

theorem encode_process_inv (k : WireConsts) (h : EncState) (au : List Nat) (d cap : Nat)
    (hi : EncInv h) (hsp : k.IEC_BURST_SPACING_SIZE_BYTES ≤ 16320) (hau : au ≠ []) :
    EncInv (iec61937_encode_process k h au d cap).2 := by
  rw [encode_process_eq]
  have hlen : au.length ≠ 0 := by
    cases au with
    | nil => exact absurd rfl hau
    | cons a t => simp
  by_cases h1 : cap < h.burstRepetitionPeriod
  · rw [if_pos h1]; exact hi
  rw [if_neg h1]
  by_cases h2 : d > MAX_MPEGH_FRAME_DURATION
  · rw [if_pos h2]; exact hi
  rw [if_neg h2]
  by_cases hne : (if h.overallDuration ≥ h.audioFrameLength then 0 else au.length) ≠ 0
  · rw [if_pos hne]
    by_cases hc : h.framesStoredCount + 1 ≥ MAX_NUM_MPEGH_FRAMES
    · rw [if_pos hc]; exact hi
    rw [if_neg hc]
    by_cases hw : h.pWorkBufferWrite + au.length > ENC_WORKBUFFER_SIZE_BYTES
    · rw [if_pos hw]; exact hi
    rw [if_neg hw]
    have hi1 := storeFrame_inv h au d hi hau hc hw
    by_cases hcond : (storeFrame h au d).overallDuration < (storeFrame h au d).audioFrameLength ∨
            getNumBuffersToWrite k (storeFrame h au d) = 0
    · rw [if_pos hcond]; exact hi1
    · rw [if_neg hcond]
      have hcond' : ¬ (storeFrame h au d).overallDuration < (storeFrame h au d).audioFrameLength :=
        fun hh => hcond (Or.inl hh)
      rw [hi1.afl] at hcond'
      exact emitBurst_inv k _ _ _ hi1 hsp (getNumBuffersToWrite_le k _) (by omega)
  · rw [if_neg hne]
    have hov : h.overallDuration ≥ h.audioFrameLength := by
      by_contra hh
      apply hne
      rw [if_neg hh]
      exact hlen
    rw [hi.afl] at hov
    exact emitBurst_inv k _ _ _ hi hsp (getNumBuffersToWrite_le k _) hov

theorem encInit_inv (rc : Nat) (h : rc = 1 ∨ rc = 3) : EncInv (encInit 1 rc) := by
  rcases h with h | h <;> subst h <;>
  refine ⟨rfl, rfl, ?_, rfl, by decide, rfl, rfl, ?_, rfl, by decide, rfl, by decide, ?_⟩
  · left; exact ⟨rfl, by decide⟩
  · intro i hi; exact absurd hi (Nat.not_lt_zero i)
  · intro hp; exact absurd hp (by decide)
  · right; exact ⟨rfl, by decide⟩
  · intro i hi; exact absurd hi (Nat.not_lt_zero i)
  · intro hp; exact absurd hp (by decide)

theorem EncReachable.inv {k : WireConsts} {h : EncState}
    (hsp : k.IEC_BURST_SPACING_SIZE_BYTES ≤ 16320) (hr : EncReachable k h) : EncInv h := by
  induction hr with
  | opened rf h ho =>
    unfold iec61937_encode_open at ho
    split at ho
    · cases ho; exact encInit_inv 1 (Or.inl rfl)
    · split at ho
      · cases ho; exact encInit_inv 3 (Or.inr rfl)
      · cases ho
  | step h au d cap _ hau ih => exact encode_process_inv k h au d cap ih hsp hau


/-! ## Encoder: the layout of an emitted burst -/

theorem subHeaderEntries_length (fl fd : List Nat) (n i off : Nat) (pcm : Int) :
    (subHeaderEntries fl fd n i off pcm).length = n := by
  induction n generalizing i off pcm with
  | zero => rfl
  | succ n ih => simp [subHeaderEntries, ih]

theorem payloadHeaderBytes_length (off len : Nat) (pcm : Int) :
    (payloadHeaderBytes 1 off len pcm).length = 8 := by
  simp [payloadHeaderBytes]

theorem subHeaderBytes_length (subs : List (Nat × Nat × Int)) :
    (subHeaderBytes subs).length = subs.length * 8 := by
  induction subs with
  | nil => rfl
  | cons s rest ih =>
    simp only [subHeaderBytes, List.length_append, payloadHeaderBytes_length, ih, List.length_cons]
    omega

/-- The offsets written stay below `2^32` as long as the frames' lengths do. -/
theorem writePayloadHeaders_eq (h : EncState) (hm : h.audioMode = 1) (n i off : Nat) (pcm : Int)
    (hb : off + (psum h.frameLength (i + n) - psum h.frameLength i) < 4294967296) :
    (writePayloadHeaders h n i off pcm).1 =
      subHeaderBytes (subHeaderEntries h.frameLength h.frameDuration n i off pcm) := by
  induction n generalizing i off pcm with
  | zero => rfl
  | succ n ih =>
    simp only [writePayloadHeaders, subHeaderEntries, subHeaderBytes, hm]
    have e : i + (n + 1) = (i + 1) + n := by omega
    rw [e] at hb
    have hmono := psum_mono h.frameLength (show i + 1 ≤ i + 1 + n by omega)
    have e1 : psum h.frameLength (i + 1) = psum h.frameLength i + peek h.frameLength i := rfl
    rw [u32_of_lt (by omega)]
    rw [ih (i + 1) (off + peek h.frameLength i) _ (by omega)]


/-- The number of sub-headers of the burst `emitBurst` writes for `nb` selected frames. -/
theorem numPayloadHeaders_eq (h : EncState) (nb : Nat) (hnb : nb ≤ 4)
    (hp : h.auPending = true → 1 ≤ nb) :
    numPayloadHeaders h nb = nb - (if h.auPending then 1 else 0) := by
  unfold numPayloadHeaders
  cases hpend : h.auPending
  · simp
  · have := hp hpend
    simp only [if_true]
    exact sub32_of_le this (by omega)

theorem emitBurst_output (k : WireConsts) (h : EncState) (nb : Nat) (c : Bool)
    (hi : EncInv h) (hsp : k.IEC_BURST_SPACING_SIZE_BYTES ≤ 16320)
    (hnb : nb ≤ h.framesStoredCount) (hp : h.auPending = true → 1 ≤ nb) :
    (emitBurst k h nb c).1 =
      EncOut.mk .IECENC_OK c
        (hbrBurst k h.rateFactor h.burstRepetitionPeriod
          (subHeaderEntries h.frameLength h.frameDuration (nb - (if h.auPending then 1 else 0))
            (if h.auPending then 1 else 0)
            (8 + (nb - (if h.auPending then 1 else 0) + 1) * 8 +
              (if h.auPending then peek h.frameLength 0 else 0))
            h.pcmOffset)
          (memRead h.workBuffer 0 (min (psum h.frameLength nb) (numAvailableBytes k h nb))))
        h.burstRepetitionPeriod := by
  have hcnt := hi.count
  have hwr := hi.wr
  have hwrLe := hi.wrLe
  have hmono : psum h.frameLength nb ≤ psum h.frameLength h.framesStoredCount := psum_mono _ hnb
  have hs1 : sumCells h.frameLength nb = psum h.frameLength nb := sumCells_eq_psum _ _ (by omega)
  have hn := numPayloadHeaders_eq h nb (by omega) hp
  have hA := numAvailableBytes_eq k h hi hsp nb (by omega)
  have hP : h.burstRepetitionPeriod = 16384 ∨ h.burstRepetitionPeriod = 65536 := by
    rcases hi.rate with ⟨_, hP⟩ | ⟨_, hP⟩
    · exact Or.inl hP
    · exact Or.inr hP
  have hrf : h.rateFactor = 1 ∨ h.rateFactor = 3 := by
    rcases hi.rate with ⟨hr, _⟩ | ⟨hr, _⟩
    · exact Or.inl hr
    · exact Or.inr hr
  have hpdl : payloadDataLength (psum h.frameLength nb) (numAvailableBytes k h nb)
      = min (psum h.frameLength nb) (numAvailableBytes k h nb) := by
    unfold payloadDataLength
    by_cases hlt : psum h.frameLength nb < numAvailableBytes k h nb
    · rw [if_pos hlt, Nat.min_eq_left (by omega)]
    · rw [if_neg hlt, Nat.min_eq_right (by omega)]
  have hfl0 : h.auPending = true → peek h.frameLength 0 ≤ psum h.frameLength nb := by
    intro hpend
    have := hp hpend
    have := psum_mono h.frameLength this
    simpa [psum] using this
  set n := nb - (if h.auPending then 1 else 0) with hn_def
  set m := min (psum h.frameLength nb) (numAvailableBytes k h nb) with hm_def
  have hnle : n ≤ 4 := by omega
  have hmle : m ≤ numAvailableBytes k h nb := Nat.min_le_right _ _
  have hmle2 : m ≤ psum h.frameLength nb := Nat.min_le_left _ _
  have hAn : numAvailableBytes k h nb + k.IEC_BURST_SPACING_SIZE_BYTES + 16 + n * 8 =
      h.burstRepetitionPeriod := by
    rw [hA, hn_def]
    cases hpend : h.auPending
    · simp only [Bool.false_eq_true, if_false]
      rcases hP with hP | hP <;> rw [hP] <;> omega
    · have := hp hpend
      simp only [if_true]
      rcases hP with hP | hP <;> rw [hP] <;> omega
  have hdbl : dataBurstLength h (psum h.frameLength nb) (numAvailableBytes k h nb) nb = pdField n m := by
    unfold dataBurstLength pdField
    rw [hpdl, hn, hi.mode, hi.hs]
    simp only [if_true]
    rw [u32_of_lt (show (n + 1) * 8 < 4294967296 by omega),
      u32_of_lt (show m + (n + 1) * 8 < 4294967296 by rcases hP with hP | hP <;> omega),
      u32_of_lt (show m + (n + 1) * 8 + 7 < 4294967296 by rcases hP with hP | hP <;> omega)]
  have hpd : pdField n m < 65536 := by
    unfold pdField
    rcases hP with hP | hP <;> omega
  have hsubs : (burstSubHeaders h nb).1 =
      subHeaderBytes (subHeaderEntries h.frameLength h.frameDuration n (if h.auPending then 1 else 0)
        (8 + (n + 1) * 8 + (if h.auPending then peek h.frameLength 0 else 0)) h.pcmOffset) := by
    unfold burstSubHeaders
    simp only []
    rw [hn, hi.hs]
    have hoff : (if h.auPending then u32 (u32 (8 + u32 ((n + 1) * 8)) + peek h.frameLength 0)
        else u32 (8 + u32 ((n + 1) * 8))) =
        8 + (n + 1) * 8 + (if h.auPending then peek h.frameLength 0 else 0) := by
      cases hpend : h.auPending
      · simp only [Bool.false_eq_true, if_false]
        rw [u32_of_lt (show (n + 1) * 8 < 4294967296 by omega),
          u32_of_lt (show 8 + (n + 1) * 8 < 4294967296 by omega)]; rfl
      · have := hfl0 hpend
        simp only [if_true]
        rw [u32_of_lt (show (n + 1) * 8 < 4294967296 by omega),
          u32_of_lt (show 8 + (n + 1) * 8 < 4294967296 by omega),
          u32_of_lt (show 8 + (n + 1) * 8 + peek h.frameLength 0 < 4294967296 by omega)]
    rw [hoff]
    apply writePayloadHeaders_eq h hi.mode
    have hin : (if h.auPending then 1 else 0) + n ≤ h.framesStoredCount := by
      rw [hn_def]
      cases hpend : h.auPending
      · simp only [Bool.false_eq_true, if_false]; omega
      · have := hp hpend
        simp only [if_true]; omega
    have hm2 := psum_mono h.frameLength hin
    have : (if h.auPending then peek h.frameLength 0 else 0) ≤ psum h.frameLength h.framesStoredCount := by
      cases hpend : h.auPending
      · simp
      · simp only [if_true]; have := hfl0 hpend; omega
    omega
  show EncOut.mk .IECENC_OK c (writeIecFrame k h (sumCells h.frameLength nb) (numAvailableBytes k h nb) nb).1
    (writeIecFrame k h (sumCells h.frameLength nb) (numAvailableBytes k h nb) nb).2.1 = _
  rw [hs1]
  simp only [writeIecFrame, burstHeader]
  rw [hsubs, hdbl, hpdl, hi.rd, hi.mode, hi.hs]
  congr 1
  unfold hbrBurst
  rw [subHeaderEntries_length, memRead_length]
  have hu1 : u8 (h.rateFactor * 8) = h.rateFactor * 8 := by
    unfold u8; rcases hrf with hr | hr <;> rw [hr]
  have hu2 : u8 (1 * 32 + 25) = 57 := rfl
  have hu3 : u8 (pdField n m / 256) = pdField n m / 256 := by unfold u8; omega
  have hu4 : u8 (pdField n m) = pdField n m % 256 := rfl
  rw [hu1, hu2, hu3, hu4]
  have hz : List.replicate (numAvailableBytes k h nb - psum h.frameLength nb) 0 ++
      List.replicate k.IEC_BURST_SPACING_SIZE_BYTES 0 =
      List.replicate (h.burstRepetitionPeriod - (8 + (n + 1) * 8 + m)) 0 := by
    rw [← List.replicate_add]
    congr 1
    omega
  simp only [List.append_assoc, List.cons_append, List.nil_append]
  rw [hz]


/-! ## Encoder: successful calls -/

theorem encode_process_ok (k : WireConsts) (h : EncState) (au : List Nat) (d cap : Nat)
    (hi : EncInv h) (hsp : k.IEC_BURST_SPACING_SIZE_BYTES ≤ 16320) (hau : au ≠ [])
    (hok : (iec61937_encode_process k h au d cap).1.result = .IECENC_OK) :
    (iec61937_encode_process k h au d cap = (EncOut.mk .IECENC_OK true [] 0, storeFrame h au d) ∧
      h.overallDuration < h.audioFrameLength) ∨
    (iec61937_encode_process k h au d cap =
        emitBurst k (burstState h au d) (getNumBuffersToWrite k (burstState h au d))
          (decide (h.overallDuration < h.audioFrameLength)) ∧
      EncInv (burstState h au d) ∧ 1024 ≤ (burstState h au d).overallDuration ∧
      ((burstState h au d).auPending = true → 1 ≤ getNumBuffersToWrite k (burstState h au d))) := by
  have hlen : au.length ≠ 0 := by
    cases au with
    | nil => exact absurd rfl hau
    | cons a t => simp
  rw [encode_process_eq] at hok ⊢
  by_cases h1 : cap < h.burstRepetitionPeriod
  · rw [if_pos h1] at hok; cases hok
  rw [if_neg h1] at hok ⊢
  by_cases h2 : d > MAX_MPEGH_FRAME_DURATION
  · rw [if_pos h2] at hok; cases hok
  rw [if_neg h2] at hok ⊢
  by_cases hov : h.overallDuration ≥ h.audioFrameLength
  · have hne : ¬ (if h.overallDuration ≥ h.audioFrameLength then 0 else au.length) ≠ 0 := by
      rw [if_pos hov]; simp
    rw [if_neg hne]
    right
    have hb : burstState h au d = h := by unfold burstState; rw [if_pos hov]
    rw [hb]
    have hov' := hov
    rw [hi.afl] at hov'
    refine ⟨?_, hi, hov', ?_⟩
    · rw [show decide (h.overallDuration < h.audioFrameLength) = false from
        decide_eq_false (by omega)]
    · intro hp
      exact getNumBuffersToWrite_pos k h (availableBytes_pos k h hi hsp) hi.dur (hi.pend hp)
  · have hne : (if h.overallDuration ≥ h.audioFrameLength then 0 else au.length) ≠ 0 := by
      rw [if_neg hov]; exact hlen
    rw [if_pos hne] at hok ⊢
    by_cases hc : h.framesStoredCount + 1 ≥ MAX_NUM_MPEGH_FRAMES
    · rw [if_pos hc] at hok; cases hok
    rw [if_neg hc] at hok ⊢
    by_cases hw : h.pWorkBufferWrite + au.length > ENC_WORKBUFFER_SIZE_BYTES
    · rw [if_pos hw] at hok; cases hok
    rw [if_neg hw] at hok ⊢
    have hi1 := storeFrame_inv h au d hi hau hc hw
    have hb : burstState h au d = storeFrame h au d := by unfold burstState; rw [if_neg hov]
    by_cases hcond : (storeFrame h au d).overallDuration < (storeFrame h au d).audioFrameLength ∨
            getNumBuffersToWrite k (storeFrame h au d) = 0
    · rw [if_pos hcond]
      left
      exact ⟨rfl, by omega⟩
    · rw [if_neg hcond]
      right
      rw [hb]
      have hcond' : ¬ (storeFrame h au d).overallDuration < (storeFrame h au d).audioFrameLength :=
        fun hh => hcond (Or.inl hh)
      rw [hi1.afl] at hcond'
      refine ⟨?_, hi1, by omega, ?_⟩
      · rw [show decide (h.overallDuration < h.audioFrameLength) = true from
          decide_eq_true (by omega)]
      · intro _
        have : getNumBuffersToWrite k (storeFrame h au d) ≠ 0 := fun hh => hcond (Or.inr hh)
        omega

theorem hbrBurst_length (k : WireConsts) (rc P : Nat) (subs : List (Nat × Nat × Int))
    (payload : List Nat) (h : 8 + (subs.length + 1) * 8 + payload.length ≤ P) :
    (hbrBurst k rc P subs payload).length = P := by
  unfold hbrBurst
  simp only [List.length_append, List.length_cons, List.length_nil, subHeaderBytes_length,
    List.length_replicate]
  omega


/-! ## Encoder: size of an emitted burst -/

theorem writePayloadHeaders_length (h : EncState) (hm : h.audioMode = 1) (n i off : Nat) (pcm : Int) :
    (writePayloadHeaders h n i off pcm).1.length = n * 8 := by
  induction n generalizing i off pcm with
  | zero => rfl
  | succ n ih =>
    simp only [writePayloadHeaders, List.length_append, ih, hm, payloadHeaderBytes_length]
    omega

theorem burstState_period (h : EncState) (au : List Nat) (d : Nat) :
    (burstState h au d).burstRepetitionPeriod = h.burstRepetitionPeriod := by
  unfold burstState; split <;> rfl

theorem burstState_payloadHeaderSize (h : EncState) (au : List Nat) (d : Nat) :
    (burstState h au d).payloadHeaderSize = h.payloadHeaderSize := by
  unfold burstState; split <;> rfl

/-- The quantities of an emitted burst: sub-header count `n`, payload bytes `m`, and
the room they leave. -/
theorem emitBurst_room (k : WireConsts) (h : EncState) (nb : Nat)
    (hi : EncInv h) (hsp : k.IEC_BURST_SPACING_SIZE_BYTES ≤ 16320)
    (hnb : nb ≤ h.framesStoredCount) (hp : h.auPending = true → 1 ≤ nb) :
    numAvailableBytes k h nb + k.IEC_BURST_SPACING_SIZE_BYTES + 16 +
      (nb - (if h.auPending then 1 else 0)) * 8 = h.burstRepetitionPeriod := by
  have hcnt := hi.count
  rw [numAvailableBytes_eq k h hi hsp nb (by omega)]
  have hP : h.burstRepetitionPeriod = 16384 ∨ h.burstRepetitionPeriod = 65536 := by
    rcases hi.rate with ⟨_, hP⟩ | ⟨_, hP⟩
    · exact Or.inl hP
    · exact Or.inr hP
  cases hpend : h.auPending
  · simp only [Bool.false_eq_true, if_false]
    rcases hP with hP | hP <;> rw [hP] <;> omega
  · have := hp hpend
    simp only [if_true]
    rcases hP with hP | hP <;> rw [hP] <;> omega

theorem emitBurst_output_length (k : WireConsts) (h : EncState) (nb : Nat) (c : Bool)
    (hi : EncInv h) (hsp : k.IEC_BURST_SPACING_SIZE_BYTES ≤ 16320)
    (hnb : nb ≤ h.framesStoredCount) (hp : h.auPending = true → 1 ≤ nb) :
    (emitBurst k h nb c).1.outputBuffer.length = h.burstRepetitionPeriod := by
  rw [emitBurst_output k h nb c hi hsp hnb hp]
  apply hbrBurst_length
  rw [subHeaderEntries_length, memRead_length]
  have := emitBurst_room k h nb hi hsp hnb hp
  have := Nat.min_le_right (psum h.frameLength nb) (numAvailableBytes k h nb)
  omega



theorem drop_zero_tail (X : List Nat) (a b e : Nat) (hX : X.length = e) :
    (X ++ List.replicate a 0 ++ List.replicate b 0).drop e = List.replicate (a + b) 0 := by
  subst hX
  rw [List.append_assoc, List.drop_left, List.replicate_add]

/-- What a successful call that emits a burst has written, piece by piece. -/
theorem encode_process_burst (k : WireConsts) (h : EncState) (au : List Nat)
    (duration cap : Nat) (hi : EncInv h) (hsp : k.IEC_BURST_SPACING_SIZE_BYTES ≤ 16320)
    (hau : au ≠ [])
    (hok : (iec61937_encode_process k h au duration cap).1.result = .IECENC_OK)
    (hne : (iec61937_encode_process k h au duration cap).1.outputBufferLength ≠ 0) :
    (iec61937_encode_process k h au duration cap).1.outputBufferLength = h.burstRepetitionPeriod ∧
    (iec61937_encode_process k h au duration cap).1.outputBuffer.length = h.burstRepetitionPeriod ∧
    (burstSubHeaders (burstState h au duration)
        (getNumBuffersToWrite k (burstState h au duration))).1.length =
      numPayloadHeaders (burstState h au duration)
        (getNumBuffersToWrite k (burstState h au duration)) * h.payloadHeaderSize ∧
    (iec61937_encode_process k h au duration cap).1.outputBuffer =
      burstHeader k (burstState h au duration)
          (sumCells (burstState h au duration).frameLength
            (getNumBuffersToWrite k (burstState h au duration)))
          (numAvailableBytes k (burstState h au duration)
            (getNumBuffersToWrite k (burstState h au duration)))
          (getNumBuffersToWrite k (burstState h au duration)) ++
        (burstSubHeaders (burstState h au duration)
          (getNumBuffersToWrite k (burstState h au duration))).1 ++
        List.replicate h.payloadHeaderSize 0 ++
        memRead (burstState h au duration).workBuffer (burstState h au duration).pWorkBufferRead
          (payloadDataLength
            (sumCells (burstState h au duration).frameLength
              (getNumBuffersToWrite k (burstState h au duration)))
            (numAvailableBytes k (burstState h au duration)
              (getNumBuffersToWrite k (burstState h au duration)))) ++
        List.replicate
          (numAvailableBytes k (burstState h au duration)
              (getNumBuffersToWrite k (burstState h au duration)) -
            sumCells (burstState h au duration).frameLength
              (getNumBuffersToWrite k (burstState h au duration))) 0 ++
        List.replicate k.IEC_BURST_SPACING_SIZE_BYTES 0 := by
  rcases encode_process_ok k h au duration cap hi hsp hau hok with ⟨he, _⟩ | ⟨he, hib, _, hp⟩
  · rw [he] at hne
    exact absurd rfl hne
  · rw [he]
    have hnb := getNumBuffersToWrite_le k (burstState h au duration)
    refine ⟨burstState_period h au duration, ?_, ?_, ?_⟩
    · rw [emitBurst_output_length k _ _ _ hib hsp hnb hp, burstState_period]
    · unfold burstSubHeaders
      simp only []
      rw [writePayloadHeaders_length _ hib.mode, hi.hs]
    · show (writeIecFrame k _ _ _ _).1 = _
      simp only [writeIecFrame]
      rw [burstState_payloadHeaderSize]

theorem burstHeader_length (k : WireConsts) (h : EncState) (a b c : Nat) :
    (burstHeader k h a b c).length = 8 := rfl


/-! ## Sub-headers: what the encoder writes and the decoder reads -/

theorem peek_cons_zero (a : Nat) (l : List Nat) : peek (a :: l) 0 = a := rfl
theorem peek_cons_succ (a : Nat) (l : List Nat) (i : Nat) : peek (a :: l) (i + 1) = peek l i := rfl

/-- Reading a cell of the `j`-th of a run of 8-byte sub-headers. -/
theorem peek_subHeaderBytes (pre post : List Nat) (subs : List (Nat × Nat × Int)) (j i : Nat)
    (s : Nat × Nat × Int) (hj : subs[j]? = some s) (hi : i < 8) :
    peek (pre ++ subHeaderBytes subs ++ post) (pre.length + j * 8 + i) =
      peek (payloadHeaderBytes 1 s.1 s.2.1 s.2.2) i := by
  induction subs generalizing pre j with
  | nil => simp at hj
  | cons t rest ih =>
    cases j with
    | zero =>
      simp only [List.getElem?_cons_zero, Option.some.injEq] at hj
      subst hj
      simp only [subHeaderBytes, Nat.zero_mul, Nat.add_zero]
      rw [List.append_assoc, peek_append_right (by omega), List.append_assoc,
        peek_append_left (by rw [payloadHeaderBytes_length]; omega)]
      congr 1
      omega
    | succ j =>
      simp only [List.getElem?_cons_succ] at hj
      have := ih (pre ++ payloadHeaderBytes 1 t.1 t.2.1 t.2.2) j hj
      simp only [List.length_append, payloadHeaderBytes_length] at this
      simp only [subHeaderBytes]
      rw [← List.append_assoc pre]
      rw [← this]
      congr 1
      omega

theorem u8_div_parts (x : Nat) (hx : x < 16777216) :
    u8 (x / 65536) * 65536 + u8 (x / 256) * 256 + u8 x = x := by
  unfold u8; omega

theorem u8i_parts (x : Int) :
    ((u8i (x / 256) * 256 + u8i x : Nat) : Int) = x % 65536 := by
  unfold u8i
  have h1 : 0 ≤ x / 256 % 256 := Int.emod_nonneg _ (by decide)
  have h2 : 0 ≤ x % 256 := Int.emod_nonneg _ (by decide)
  push_cast
  rw [Int.toNat_of_nonneg h1, Int.toNat_of_nonneg h2]
  omega

/-- The decoder's reading of an 8-byte sub-header the encoder wrote. -/
theorem parsePayloadHeader_of_bytes (d : DecState) (p : Nat) (off len : Nat) (pcm : Int)
    (hm : d.audioMode = 1) (hoff : off < 16777216) (hlen : len < 16777216)
    (hb : ∀ i, i < 8 → peek d.workBuffer (p + i) = peek (payloadHeaderBytes 1 off len pcm) i) :
    parsePayloadHeader d p = (off, len, pcm % 65536) := by
  unfold parsePayloadHeader
  have hne : ¬ d.audioMode = 0 := by omega
  simp only [hne, if_false]
  rw [hb 0 (by omega), hb 1 (by omega), hb 2 (by omega), hb 3 (by omega), hb 4 (by omega),
    hb 5 (by omega), hb 6 (by omega), hb 7 (by omega)]
  simp only [payloadHeaderBytes, if_true, List.cons_append, List.nil_append, peek_cons_zero,
    peek_cons_succ, List.append_assoc]
  rw [u8_div_parts off hoff, u8_div_parts len hlen, u8i_parts]

theorem subHeaderEntries_get (fl fd : List Nat) (n i off : Nat) (pcm : Int) (j : Nat) (hj : j < n) :
    (subHeaderEntries fl fd n i off pcm)[j]? =
      some (off + (psum fl (i + j) - psum fl i), peek fl (i + j),
        pcm + ((psum fd (i + j) - psum fd i : Nat) : Int)) := by
  induction n generalizing i off pcm j with
  | zero => omega
  | succ n ih =>
    cases j with
    | zero => simp [subHeaderEntries]
    | succ j =>
      simp only [subHeaderEntries, List.getElem?_cons_succ]
      rw [ih (i + 1) _ _ j (by omega)]
      have e : i + 1 + j = i + (j + 1) := by omega
      have m1 := psum_mono fl (show i + 1 ≤ i + (j + 1) by omega)
      have m2 := psum_mono fd (show i + 1 ≤ i + (j + 1) by omega)
      have e1 : psum fl (i + 1) = psum fl i + peek fl i := rfl
      have e2 : psum fd (i + 1) = psum fd i + peek fd i := rfl
      rw [e]
      congr 2
      · omega
      · congr 1
        omega



theorem burstSubHeader_hbrBurst (k : WireConsts) (rc P : Nat) (subs : List (Nat × Nat × Int))
    (payload : List Nat) (j : Nat) (s : Nat × Nat × Int) (hj : subs[j]? = some s)
    (h1 : s.1 < 16777216) (h2 : s.2.1 < 16777216) :
    burstSubHeader 1 (hbrBurst k rc P subs payload) j = (s.1, s.2.1, s.2.2 % 65536) := by
  unfold burstSubHeader
  apply parsePayloadHeader_of_bytes _ _ _ _ _ rfl h1 h2
  intro i hi
  show peek (hbrBurst k rc P subs payload) (IEC_HEADER_SIZE_BYTES + j * 8 + i) = _
  unfold hbrBurst IEC_HEADER_SIZE_BYTES
  rw [List.append_assoc _ (List.replicate 8 0), List.append_assoc _ (List.replicate 8 0 ++ payload)]
  exact peek_subHeaderBytes _ _ subs j i s hj hi

theorem hbrBurst_terminator (k : WireConsts) (rc P : Nat) (subs : List (Nat × Nat × Int))
    (payload : List Nat) :
    memRead (hbrBurst k rc P subs payload) (8 + subs.length * 8) 8 = List.replicate 8 0 := by
  unfold hbrBurst
  rw [List.append_assoc _ payload]
  have := memRead_append_mid
    ([k.SYNC_PREAMBLE_0, k.SYNC_PREAMBLE_1, k.SYNC_PREAMBLE_2, k.SYNC_PREAMBLE_3, rc * 8, 57,
      pdField subs.length payload.length / 256, pdField subs.length payload.length % 256] ++
      subHeaderBytes subs) (List.replicate 8 0)
    (payload ++ List.replicate (P - (8 + (subs.length + 1) * 8 + payload.length)) 0)
  simp only [List.length_append, List.length_cons, List.length_nil, subHeaderBytes_length,
    List.length_replicate] at this
  exact this

/-- The sub-header entries of the burst written from state `h` for `nb` selected
frames: offsets below `2^24`, lengths at least 1, offsets increasing by the lengths. -/
theorem emitBurst_entries (h : EncState) (nb : Nat)
    (hi : EncInv h) (hnb : nb ≤ h.framesStoredCount)
    (j : Nat) (hj : j < nb - (if h.auPending then 1 else 0)) :
    ∃ off pcm,
      (subHeaderEntries h.frameLength h.frameDuration (nb - (if h.auPending then 1 else 0))
        (if h.auPending then 1 else 0)
        (8 + (nb - (if h.auPending then 1 else 0) + 1) * 8 +
          (if h.auPending then peek h.frameLength 0 else 0)) h.pcmOffset)[j]? =
        some (off, peek h.frameLength ((if h.auPending then 1 else 0) + j), pcm) ∧
      off = 8 + (nb - (if h.auPending then 1 else 0) + 1) * 8 +
        psum h.frameLength ((if h.auPending then 1 else 0) + j) ∧
      off < 16777216 ∧
      1 ≤ peek h.frameLength ((if h.auPending then 1 else 0) + j) ∧
      peek h.frameLength ((if h.auPending then 1 else 0) + j) < 16777216 := by
  have hcnt := hi.count
  have hwr := hi.wr
  have hwrLe := hi.wrLe
  have hin : (if h.auPending then 1 else 0) + j < h.framesStoredCount := by
    cases hpend : h.auPending
    · rw [hpend] at hj; simp only [Bool.false_eq_true, if_false] at hj ⊢; omega
    · rw [hpend] at hj; simp only [if_true] at hj ⊢; omega
  have hm1 := psum_mono h.frameLength (show (if h.auPending then 1 else 0) + j + 1 ≤ h.framesStoredCount by omega)
  have e1 : psum h.frameLength ((if h.auPending then 1 else 0) + j + 1) =
      psum h.frameLength ((if h.auPending then 1 else 0) + j) +
        peek h.frameLength ((if h.auPending then 1 else 0) + j) := rfl
  have hi0 : (if h.auPending then peek h.frameLength 0 else 0) = psum h.frameLength (if h.auPending then 1 else 0) := by
    cases h.auPending <;> simp [psum]
  have hm2 := psum_mono h.frameLength (show (if h.auPending then 1 else 0) ≤ (if h.auPending then 1 else 0) + j by omega)
  refine ⟨_, _, subHeaderEntries_get _ _ _ _ _ _ j hj, ?_, ?_, hi.flPos _ hin, ?_⟩
  · rw [hi0]; omega
  · rw [hi0]; omega
  · omega



theorem burstState_audioMode (h : EncState) (au : List Nat) (d : Nat) :
    (burstState h au d).audioMode = h.audioMode := by
  unfold burstState; split <;> rfl

theorem burstState_rateFactor (h : EncState) (au : List Nat) (d : Nat) :
    (burstState h au d).rateFactor = h.rateFactor := by
  unfold burstState; split <;> rfl

/-- A successful call that emits a burst has written `hbrBurst` of the planned
sub-headers and payload. -/
theorem encode_process_layout (k : WireConsts) (h : EncState) (au : List Nat)
    (duration cap : Nat) (hi : EncInv h) (hsp : k.IEC_BURST_SPACING_SIZE_BYTES ≤ 16320)
    (hau : au ≠ [])
    (hok : (iec61937_encode_process k h au duration cap).1.result = .IECENC_OK)
    (hne : (iec61937_encode_process k h au duration cap).1.outputBufferLength ≠ 0) :
    EncInv (burstState h au duration) ∧
    ((burstState h au duration).auPending = true →
      1 ≤ getNumBuffersToWrite k (burstState h au duration)) ∧
    numPayloadHeaders (burstState h au duration) (getNumBuffersToWrite k (burstState h au duration)) =
      getNumBuffersToWrite k (burstState h au duration) -
        (if (burstState h au duration).auPending then 1 else 0) ∧
    (iec61937_encode_process k h au duration cap).1.outputBuffer =
      hbrBurst k h.rateFactor h.burstRepetitionPeriod
        (subHeaderEntries (burstState h au duration).frameLength
          (burstState h au duration).frameDuration
          (getNumBuffersToWrite k (burstState h au duration) -
            (if (burstState h au duration).auPending then 1 else 0))
          (if (burstState h au duration).auPending then 1 else 0)
          (8 + (getNumBuffersToWrite k (burstState h au duration) -
            (if (burstState h au duration).auPending then 1 else 0) + 1) * 8 +
            (if (burstState h au duration).auPending then
              peek (burstState h au duration).frameLength 0 else 0))
          (burstState h au duration).pcmOffset)
        (memRead (burstState h au duration).workBuffer 0
          (min (psum (burstState h au duration).frameLength
              (getNumBuffersToWrite k (burstState h au duration)))
            (numAvailableBytes k (burstState h au duration)
              (getNumBuffersToWrite k (burstState h au duration))))) := by
  rcases encode_process_ok k h au duration cap hi hsp hau hok with ⟨he, _⟩ | ⟨he, hib, _, hp⟩
  · rw [he] at hne
    exact absurd rfl hne
  · have hnb := getNumBuffersToWrite_le k (burstState h au duration)
    have hcnt := hib.count
    refine ⟨hib, hp, numPayloadHeaders_eq _ _ (by omega) hp, ?_⟩
    rw [he, emitBurst_output k _ _ _ hib hsp hnb hp, burstState_period, burstState_rateFactor]


/-! ## The burst header: what the encoder writes and the decoder parses -/


/-- The decoder's header parse on the `Pc`/`Pd` bytes of an HBR burst with rate code
`rc` and data burst length `pd` (in units of 8 bytes). -/
theorem parseIecFrameData_hbr (k : WireConsts) (d : DecState) (rc pd : Nat)
    (hrc : rc = 1 ∨ rc = 3)
    (h4 : peek d.workBuffer (d.syncCandidateIndex + 4) = rc * 8)
    (h5 : peek d.workBuffer (d.syncCandidateIndex + 5) = 57)
    (h6 : peek d.workBuffer (d.syncCandidateIndex + 6) = pd / 256)
    (h7 : peek d.workBuffer (d.syncCandidateIndex + 7) = pd % 256)
    (hpd : pd * 8 + 8 + k.IEC_BURST_SPACING_SIZE_BYTES ≤ 4096 * 2 ^ (rc + 1)) :
    parseIecFrameData k d =
      (0, { d with dataType := 25, audioMode := 1, rateFactor := rc, frameLength := 1024,
                   payloadLength := pd * 8, burstRepetitionPeriod := 4096 * 2 ^ (rc + 1),
                   payloadHeaderSize := 8 }) := by
  unfold parseIecFrameData
  simp only [h4, h5, h6, h7]
  have e1 : 57 % 32 = 25 := rfl
  have e2 : 57 / 32 % 4 = 1 := rfl
  have e3 : rc * 8 % 8 = 0 := by omega
  have e4 : rc * 8 / 8 % 4 = rc := by rcases hrc with h | h <;> subst h <;> rfl
  have hP : 4096 * 2 ^ (rc + 1) = 16384 ∨ 4096 * 2 ^ (rc + 1) = 65536 := by
    rcases hrc with h | h <;> subst h
    · left; rfl
    · right; rfl
  have hpdlt : pd < 65536 := by rcases hP with hP | hP <;> omega
  have e5 : pd / 256 * 256 % 65536 + pd % 256 % 65536 = pd := by omega
  have e6 : u32 (1024 * IEC60958_FRAME_SIZE_BYTES * 2 ^ (rc + 1)) = 4096 * 2 ^ (rc + 1) := by
    unfold IEC60958_FRAME_SIZE_BYTES
    rw [show 1024 * 4 = 4096 from rfl]
    apply u32_of_lt
    rcases hP with hP | hP <;> omega
  have e7 : ¬ pd * 8 > sub32 (sub32 (4096 * 2 ^ (rc + 1)) IEC_HEADER_SIZE_BYTES)
      k.IEC_BURST_SPACING_SIZE_BYTES := by
    unfold IEC_HEADER_SIZE_BYTES
    have s1 : sub32 (4096 * 2 ^ (rc + 1)) 8 = 4096 * 2 ^ (rc + 1) - 8 :=
      sub32_of_le (by rcases hP with hP | hP <;> omega) (by rcases hP with hP | hP <;> omega)
    rw [s1, sub32_of_le (by rcases hP with hP | hP <;> omega) (by rcases hP with hP | hP <;> omega)]
    omega
  simp only [e1, e2, e3, e4, e5, frameLengthOfCode, if_true, e6, ne_eq, not_true_eq_false,
    if_false, gt_iff_lt, Nat.lt_irrefl, Nat.one_ne_zero, OfNat.ofNat_ne_zero]
  rw [if_neg (by simpa using e7)]

theorem dataBurstLength_eq (k : WireConsts) (h : EncState) (nb : Nat)
    (hi : EncInv h) (hsp : k.IEC_BURST_SPACING_SIZE_BYTES ≤ 16320)
    (hnb : nb ≤ h.framesStoredCount) (hp : h.auPending = true → 1 ≤ nb) :
    dataBurstLength h (sumCells h.frameLength nb) (numAvailableBytes k h nb) nb =
      pdField (nb - (if h.auPending then 1 else 0))
        (min (psum h.frameLength nb) (numAvailableBytes k h nb)) ∧
    pdField (nb - (if h.auPending then 1 else 0))
        (min (psum h.frameLength nb) (numAvailableBytes k h nb)) * 8 + 8 +
      k.IEC_BURST_SPACING_SIZE_BYTES ≤ h.burstRepetitionPeriod + k.IEC_BURST_SPACING_SIZE_BYTES % 8 := by
  have hcnt := hi.count
  have hwr := hi.wr
  have hwrLe := hi.wrLe
  have hmono : psum h.frameLength nb ≤ psum h.frameLength h.framesStoredCount := psum_mono _ hnb
  have hs1 : sumCells h.frameLength nb = psum h.frameLength nb := sumCells_eq_psum _ _ (by omega)
  have hn := numPayloadHeaders_eq h nb (by omega) hp
  have hroom := emitBurst_room k h nb hi hsp hnb hp
  have hP : h.burstRepetitionPeriod = 16384 ∨ h.burstRepetitionPeriod = 65536 := by
    rcases hi.rate with ⟨_, hP⟩ | ⟨_, hP⟩
    · exact Or.inl hP
    · exact Or.inr hP
  have hpdl : payloadDataLength (psum h.frameLength nb) (numAvailableBytes k h nb)
      = min (psum h.frameLength nb) (numAvailableBytes k h nb) := by
    unfold payloadDataLength
    by_cases hlt : psum h.frameLength nb < numAvailableBytes k h nb
    · rw [if_pos hlt, Nat.min_eq_left (by omega)]
    · rw [if_neg hlt, Nat.min_eq_right (by omega)]
  have hmle : min (psum h.frameLength nb) (numAvailableBytes k h nb) ≤ numAvailableBytes k h nb :=
    Nat.min_le_right _ _
  constructor
  · unfold dataBurstLength pdField
    rw [hs1, hpdl, hn, hi.mode, hi.hs]
    simp only [if_true]
    rw [u32_of_lt (show (nb - (if h.auPending then 1 else 0) + 1) * 8 < 4294967296 by omega),
      u32_of_lt (show min (psum h.frameLength nb) (numAvailableBytes k h nb) +
        (nb - (if h.auPending then 1 else 0) + 1) * 8 < 4294967296 by
          rcases hP with hP | hP <;> omega),
      u32_of_lt (show min (psum h.frameLength nb) (numAvailableBytes k h nb) +
        (nb - (if h.auPending then 1 else 0) + 1) * 8 + 7 < 4294967296 by
          rcases hP with hP | hP <;> omega)]
  · unfold pdField
    rcases hP with hP | hP <;> omega


/-! ## Decoder: a stream on which the sync loop does not end -/

theorem repeatBytes_succ_right (p : List Nat) (n : Nat) :
    repeatBytes p (n + 1) = repeatBytes p n ++ p := by
  induction n with
  | zero => simp [repeatBytes]
  | succ n ih =>
    show p ++ repeatBytes p (n + 1) = (p ++ repeatBytes p n) ++ p
    rw [ih, List.append_assoc]

theorem repeatBytes_length (p : List Nat) (n : Nat) :
    (repeatBytes p n).length = n * p.length := by
  induction n with
  | zero => simp [repeatBytes]
  | succ n ih => simp only [repeatBytes, List.length_append, ih]; ring

theorem loopStream_length (k : WireConsts) : (loopStream k).length = 3072 := by
  unfold loopStream
  rw [repeatBytes_length]
  rfl

theorem loopStream_head (k : WireConsts) :
    loopStream k = loopHeader k ++ repeatBytes (loopHeader k) 383 := rfl

theorem loopStream_tail (k : WireConsts) :
    loopStream k = repeatBytes (loopHeader k) 383 ++ loopHeader k :=
  repeatBytes_succ_right _ 383

theorem loopStream_peek (k : WireConsts) (i : Nat) (hi : i < 8) :
    peek (loopStream k) i = peek (loopHeader k) i := by
  rw [loopStream_head, peek_append_left (by simpa [loopHeader] using hi)]

theorem loopStream_last (k : WireConsts) : peek (loopStream k) 3071 = 1 := by
  rw [loopStream_tail, peek_append_right (by rw [repeatBytes_length]; simp [loopHeader]),
    repeatBytes_length]
  simp [loopHeader, peek]

/-- Shifting the stream left by one header and keeping its last 8 bytes in place gives
the stream back. -/
theorem loopStream_shift (k : WireConsts) :
    memMove (loopStream k) 0 8 3064 = loopStream k := by
  unfold memMove
  rw [memRead_eq_take_drop (by rw [loopStream_length]), memWrite_of_le _ (Nat.zero_le _)]
  simp only [List.take_zero, List.nil_append, Nat.zero_add, List.length_take, List.length_drop,
    loopStream_length]
  have h1 : List.drop 8 (loopStream k) = repeatBytes (loopHeader k) 383 := by
    rw [loopStream_head]
    exact List.drop_left' rfl
  have h2 : List.drop 3064 (loopStream k) = loopHeader k := by
    rw [loopStream_tail]
    exact List.drop_left' (by rw [repeatBytes_length]; rfl)
  rw [h1, show min 3064 (3072 - 8) = 3064 from rfl, h2]
  rw [List.take_of_length_le (by rw [repeatBytes_length]; simp [loopHeader])]
  exact (loopStream_tail k).symm

theorem allZeroFrom_false (a : List Nat) (n i j : Nat) (h1 : i ≤ j) (h2 : j < i + n)
    (hj : peek a j ≠ 0) : allZeroFrom a n i = false := by
  induction n generalizing i with
  | zero => omega
  | succ n ih =>
    simp only [allZeroFrom]
    by_cases hi : peek a i ≠ 0
    · rw [if_pos hi]
    · rw [if_neg hi]
      have hne : i ≠ j := by
        intro e; subst e; exact hi hj
      exact ih (i + 1) (by omega) (by omega)



theorem memMove_self (a : List Nat) (n : Nat) (h : n = a.length) : memMove a 0 0 n = a := by
  subst h
  unfold memMove
  rw [memRead_eq_take_drop (by simp), memWrite_of_le _ (Nat.zero_le _)]
  simp

theorem stuck_parse (k : WireConsts) (s : DecState) (hs : Stuck k s)
    (hsp : k.IEC_BURST_SPACING_SIZE_BYTES ≤ 3063) :
    parseIecFrameData k { s with syncCandidateIndex := 0 } =
      (0, { stuckNext s with syncCandidateIndex := 0 }) := by
  have hp : ∀ i, i < 8 → peek s.workBuffer i = peek (loopHeader k) i := fun i hi => by
    rw [hs.buf]; exact loopStream_peek k i hi
  unfold parseIecFrameData
  simp only [Nat.zero_add]
  rw [hp 4 (by omega), hp 5 (by omega), hp 6 (by omega), hp 7 (by omega)]
  have p4 : peek (loopHeader k) 4 = 3 := rfl
  have p5 : peek (loopHeader k) 5 = 25 := rfl
  have p6 : peek (loopHeader k) 6 = 0 := rfl
  have p7 : peek (loopHeader k) 7 = 1 := rfl
  rw [p4, p5, p6, p7]
  have e7 : ¬ (0 * 256 % 65536 + 1 % 65536 >
      sub32 (sub32 (frameLengthOfCode (3 % 8) * IEC60958_FRAME_SIZE_BYTES) IEC_HEADER_SIZE_BYTES)
        k.IEC_BURST_SPACING_SIZE_BYTES) := by
    have : sub32 (frameLengthOfCode (3 % 8) * IEC60958_FRAME_SIZE_BYTES) IEC_HEADER_SIZE_BYTES = 3064 := rfl
    rw [this, sub32_of_le (by omega) (by omega)]
    omega
  simp only [show (25 % 32 ≠ 25) = False from by simp, if_false,
    show (25 / 32 % 4 > 1) = False from by simp,
    show (frameLengthOfCode (3 % 8) = 0) = False from by simp [frameLengthOfCode],
    show (25 / 32 % 4 = 1) = False from by simp,
    show (25 / 32 % 4 = 0) = True from by simp, if_true]
  rw [if_neg e7]
  rfl

theorem stuck_step (k : WireConsts) (s : DecState) (hs : Stuck k s)
    (hsp0 : 0 < k.IEC_BURST_SPACING_SIZE_BYTES) (hsp : k.IEC_BURST_SPACING_SIZE_BYTES ≤ 3063)
    (fuel : Nat) :
    syncLoop k (fuel + 1) s = syncLoop k fuel (stuckNext s) ∧ Stuck k (stuckNext s) := by
  have hnext : Stuck k (stuckNext s) := ⟨hs.buf, hs.avail, hs.noSync, hs.noCandidate, hs.index⟩
  refine ⟨?_, hnext⟩
  have hscan : scanLoop k (s.workBufferBytesAvailable - IEC_HEADER_SIZE_BYTES) 0 s =
      { stuckNext s with syncCandidateIndex := 0, syncCandidateFound := true } := by
    rw [hs.avail]
    have hp : ∀ i, i < 8 → peek s.workBuffer i = peek (loopHeader k) i := fun i hi => by
      rw [hs.buf]; exact loopStream_peek k i hi
    show scanLoop k (3063 + 1) 0 s = _
    rw [scanLoop]
    rw [hp (0 + 0) (by omega), hp (0 + 1) (by omega), hp (0 + 2) (by omega), hp (0 + 3) (by omega)]
    rw [if_pos ⟨rfl, rfl, rfl, rfl⟩]
    rw [stuck_parse k s hs hsp]
    simp
  have hsearch : candidateSearch k s =
      { stuckNext s with syncCandidateFound := true, syncCandidateIndex := 0 } := by
    unfold candidateSearch
    rw [if_pos (by rw [hs.noCandidate, hs.avail]; decide)]
    unfold candidateSearchBody
    simp only [hscan, if_true]
    show ({ stuckNext s with
      syncCandidateFound := true,
      workBuffer := memMove s.workBuffer 0 0 (s.workBufferBytesAvailable - 0),
      workBufferBytesAvailable := s.workBufferBytesAvailable - 0,
      syncCandidateIndex := 0 } : DecState) = _
    rw [memMove_self _ _ (by rw [hs.avail, hs.buf, loopStream_length])]
    rfl
  have hspace : checkBurstSpacing k
      { stuckNext s with syncCandidateFound := true, syncCandidateIndex := 0 } = false := by
    unfold checkBurstSpacing
    show allZeroFrom s.workBuffer (u32 (0 + 3072) - sub32 (u32 (0 + 3072)) k.IEC_BURST_SPACING_SIZE_BYTES)
      (sub32 (u32 (0 + 3072)) k.IEC_BURST_SPACING_SIZE_BYTES) = false
    have e1 : u32 (0 + 3072) = 3072 := rfl
    rw [e1, sub32_of_le (by omega) (by omega), hs.buf]
    exact allZeroFrom_false _ _ _ 3071 (by omega) (by omega) (by rw [loopStream_last]; decide)
  have hdrop : resetSyncState (dropCandidate
      { stuckNext s with syncCandidateFound := true, syncCandidateIndex := 0 }) = stuckNext s := by
    unfold resetSyncState dropCandidate
    show ({ stuckNext s with
      workBuffer := memMove s.workBuffer 0 (0 + IEC_HEADER_SIZE_BYTES)
        (sub32 (sub32 s.workBufferBytesAvailable 0) IEC_HEADER_SIZE_BYTES),
      workBufferBytesAvailable := sub32 s.workBufferBytesAvailable 0,
      syncCandidateFound := false, syncCandidateIndex := 0, syncFound := false } : DecState) = _
    rw [hs.avail, hs.buf]
    have e1 : sub32 (sub32 3072 0) IEC_HEADER_SIZE_BYTES = 3064 := rfl
    have e2 : sub32 3072 0 = 3072 := rfl
    have e3 : 0 + IEC_HEADER_SIZE_BYTES = 8 := rfl
    rw [e1, e2, e3, loopStream_shift]
    have b := hs.buf
    have a := hs.avail
    have c1 := hs.noSync
    have c2 := hs.noCandidate
    have c3 := hs.index
    cases s
    simp only at b a c1 c2 c3
    subst b a c1 c2 c3
    rfl
  simp only [syncLoop]
  rw [if_pos (by rw [hs.noSync, hs.avail]; decide), hsearch]
  simp only [if_true]
  rw [if_pos (by show s.workBufferBytesAvailable ≥ 0 + 3072; rw [hs.avail]), hspace]
  simp only [Bool.false_eq_true, if_false]
  rw [hdrop]

theorem stuck_forever (k : WireConsts)
    (hsp0 : 0 < k.IEC_BURST_SPACING_SIZE_BYTES) (hsp : k.IEC_BURST_SPACING_SIZE_BYTES ≤ 3063)
    (fuel : Nat) : ∀ s, Stuck k s → syncLoop k fuel s = none := by
  induction fuel with
  | zero => intro s _; rfl
  | succ f ih =>
    intro s hs
    obtain ⟨h1, h2⟩ := stuck_step k s hs hsp0 hsp f
    rw [h1]
    exact ih _ h2



theorem memWrite_nil (d : List Nat) : memWrite [] 0 d = d := by
  unfold memWrite
  simp

theorem feed_open (d : List Nat) (hd : d.length ≤ DEC_WORKBUFFER_SIZE_BYTES) :
    iec61937_decode_feed iec61937_decode_open d =
      (.IECDEC_OK, { iec61937_decode_open with
        workBuffer := d, workBufferBytesAvailable := d.length }) := by
  unfold iec61937_decode_feed
  have h0 : iec61937_decode_open.workBufferBytesAvailable = 0 := rfl
  have h1 : iec61937_decode_open.workBuffer = [] := rfl
  unfold DEC_WORKBUFFER_SIZE_BYTES at hd ⊢
  rw [h0, h1, if_neg (by omega), memWrite_nil, Nat.zero_add]

/-! ## Decoder: validation of a well-formed burst -/


theorem allZeroFrom_true (a : List Nat) (n i : Nat)
    (h : ∀ j, i ≤ j → j < i + n → peek a j = 0) : allZeroFrom a n i = true := by
  induction n generalizing i with
  | zero => rfl
  | succ n ih =>
    simp only [allZeroFrom]
    rw [if_neg (by rw [h i (by omega) (by omega)]; simp)]
    exact ih (i + 1) (fun j h1 h2 => h j (by omega) (by omega))

theorem parsePayloadHeader_zero (d : DecState) (p : Nat)
    (hb : ∀ i, i < 8 → peek d.workBuffer (p + i) = 0) :
    parsePayloadHeader d p = (0, 0, 0) := by
  unfold parsePayloadHeader
  simp only []
  rw [hb 0 (by omega), hb 1 (by omega), hb 2 (by omega), hb 3 (by omega), hb 4 (by omega),
    hb 5 (by omega), hb 6 (by omega), hb 7 (by omega)]
  split <;> rfl

/-- The walk of `checkPayloadHeaders` over a run of well-formed sub-headers followed by
a terminator. -/
theorem checkPayloadHeadersLoop_walk (d : DecState) (hm : d.audioMode = 1)
    (hs : d.payloadHeaderSize = 8) (post : List Nat) :
    ∀ (subs : List (Nat × Nat × Int)) (pre : List Nat) (num hdrLen first prev fuel : Nat),
      d.workBuffer = pre ++ subHeaderBytes subs ++ List.replicate 8 0 ++ post →
      subsChain prev subs → (∀ s, s ∈ subs → s.1 ≤ d.payloadLength) →
      subs.length + 1 ≤ fuel →
      hdrLen + 8 * (subs.length + 1) < 4294967296 → num + subs.length < 4294967296 →
      checkPayloadHeadersLoop d fuel num hdrLen pre.length first prev =
        some (!(decide (0 < num + subs.length ∧
            (if num = 0 then (match subs with | [] => first | s :: _ => s.1) else first) <
              u32 (hdrLen + 8 * (subs.length + 1) + IEC_HEADER_SIZE_BYTES + d.frameBytesMissing))),
          num + subs.length) := by
  intro subs
  induction subs with
  | nil =>
    intro pre num hdrLen first prev fuel hwb _ _ hfuel hh hn
    obtain ⟨f, rfl⟩ : ∃ f, fuel = f + 1 := ⟨fuel - 1, by simp at hfuel; omega⟩
    have hz : parsePayloadHeader d pre.length = (0, 0, 0) := by
      apply parsePayloadHeader_zero
      intro i hi
      rw [hwb]
      simp only [subHeaderBytes, List.append_nil]
      rw [List.append_assoc, peek_append_right (by omega)]
      rw [peek_append_left (by simp; omega)]
      exact peek_replicate _ _
    simp only [checkPayloadHeadersLoop, hz, hs]
    rw [u32_of_lt (show hdrLen + 8 < 4294967296 by simpa using hh)]
    simp only [gt_iff_lt, Nat.lt_irrefl, false_and, if_false, if_true, List.length_nil,
      Nat.add_zero, Nat.zero_add, Nat.mul_one, ite_self]
    by_cases hc : 0 < num ∧ first < u32 (hdrLen + 8 + IEC_HEADER_SIZE_BYTES + d.frameBytesMissing)
    · rw [if_pos hc]; simp [hc]
    · rw [if_neg hc]; simp [hc]
  | cons s rest ih =>
    intro pre num hdrLen first prev fuel hwb hchain hpl hfuel hh hn
    obtain ⟨f, rfl⟩ : ∃ f, fuel = f + 1 := ⟨fuel - 1, by simp at hfuel; omega⟩
    obtain ⟨c1, c2, c3, c4, c5⟩ := hchain
    have hp : parsePayloadHeader d pre.length = (s.1, s.2.1, s.2.2 % 65536) := by
      apply parsePayloadHeader_of_bytes d _ _ _ _ hm c2 c4
      intro i hi
      rw [hwb]
      simp only [subHeaderBytes]
      rw [List.append_assoc, List.append_assoc, peek_append_right (by omega),
        List.append_assoc, peek_append_left (by rw [payloadHeaderBytes_length]; omega)]
      congr 1
      omega
    simp only [List.length_cons] at hfuel hh hn
    have hs1 : s.1 ≤ d.payloadLength := hpl s (by simp)
    simp only [checkPayloadHeadersLoop, hp, hs]
    rw [if_neg (by intro hh2; omega), if_neg (by intro hh2; omega)]
    have hlen0 : ¬ s.2.1 = 0 := by omega
    rw [if_neg hlen0]
    have hwb' : d.workBuffer = (pre ++ payloadHeaderBytes 1 s.1 s.2.1 s.2.2) ++
        subHeaderBytes rest ++ List.replicate 8 0 ++ post := by
      rw [hwb]; simp only [subHeaderBytes, List.append_assoc]
    have hplen : (pre ++ payloadHeaderBytes 1 s.1 s.2.1 s.2.2).length = pre.length + 8 := by
      rw [List.length_append, payloadHeaderBytes_length]
    rw [u32_of_lt (show num + 1 < 4294967296 by omega),
      u32_of_lt (show hdrLen + 8 < 4294967296 by omega), ← hplen]
    have hpos : s.2.1 > 0 := by omega
    rw [if_pos hpos]
    rw [ih _ (num + 1) (hdrLen + 8) _ s.1 f hwb' c5 (fun t ht => hpl t (by simp [ht]))
      (by omega) (by omega) (by omega)]
    have e1 : num + 1 + rest.length = num + (rest.length + 1) := by omega
    have e2 : hdrLen + 8 + 8 * (rest.length + 1) = hdrLen + 8 * (rest.length + 1 + 1) := by omega
    simp only [List.length_cons, e1, e2, Nat.add_one_ne_zero, if_false]
    by_cases hnum : num = 0
    · simp [hnum, hpos]
    · simp [hnum, hpos]

/-! ## Decoder: synchronisation on a well-formed burst -/


theorem hbrBurst_peek_header (k : WireConsts) (rc P : Nat) (subs : List (Nat × Nat × Int))
    (payload : List Nat) (i : Nat) (hi : i < 8) :
    peek (hbrBurst k rc P subs payload) i =
      peek [k.SYNC_PREAMBLE_0, k.SYNC_PREAMBLE_1, k.SYNC_PREAMBLE_2, k.SYNC_PREAMBLE_3,
        rc * 8, 57, pdField subs.length payload.length / 256,
        pdField subs.length payload.length % 256] i := by
  unfold hbrBurst
  rw [List.append_assoc, List.append_assoc, List.append_assoc, peek_append_left (by simpa using hi)]

theorem hbrBurst_peek_tail (k : WireConsts) (rc P : Nat) (subs : List (Nat × Nat × Int))
    (payload : List Nat) (j : Nat) (hj : 8 + (subs.length + 1) * 8 + payload.length ≤ j) :
    peek (hbrBurst k rc P subs payload) j = 0 := by
  unfold hbrBurst
  rw [peek_append_right (by
    simp only [List.length_append, List.length_cons, List.length_nil, subHeaderBytes_length,
      List.length_replicate]; omega)]
  exact peek_replicate _ _

theorem hbrBurst_split (k : WireConsts) (rc P : Nat) (subs : List (Nat × Nat × Int))
    (payload : List Nat) :
    hbrBurst k rc P subs payload =
      [k.SYNC_PREAMBLE_0, k.SYNC_PREAMBLE_1, k.SYNC_PREAMBLE_2, k.SYNC_PREAMBLE_3,
        rc * 8, 57, pdField subs.length payload.length / 256,
        pdField subs.length payload.length % 256] ++ subHeaderBytes subs ++ List.replicate 8 0 ++
      (payload ++ List.replicate (P - (8 + (subs.length + 1) * 8 + payload.length)) 0) := by
  unfold hbrBurst
  simp only [List.append_assoc]

/-- The sync loop on a work buffer that holds exactly one well-formed HBR burst: the
burst is accepted at index 0. -/
theorem syncLoop_hbrBurst (k : WireConsts) (rc : Nat) (subs : List (Nat × Nat × Int))
    (payload fb : List Nat) (fp fm : Nat) (pcm : Int) (fuel : Nat)
    (hrc : rc = 1 ∨ rc = 3)
    (hpd : pdField subs.length payload.length * 8 + 8 + k.IEC_BURST_SPACING_SIZE_BYTES ≤
      4096 * 2 ^ (rc + 1))
    (hroom : 8 + (subs.length + 1) * 8 + payload.length + k.IEC_BURST_SPACING_SIZE_BYTES ≤
      4096 * 2 ^ (rc + 1))
    (hchain : subsChain 0 subs)
    (hoff : ∀ s, s ∈ subs → s.1 ≤ pdField subs.length payload.length * 8)
    (hfirst : ∀ s, subs.head? = some s → 8 * (subs.length + 1) + 8 + fm ≤ s.1)
    (hfm : fm ≤ 16777216) :
    syncLoop k (fuel + 2)
      (idleState (hbrBurst k rc (4096 * 2 ^ (rc + 1)) subs payload) (4096 * 2 ^ (rc + 1))
        fb fp fm pcm) =
    some (syncedState (hbrBurst k rc (4096 * 2 ^ (rc + 1)) subs payload) (4096 * 2 ^ (rc + 1))
        fb fp fm pcm rc (pdField subs.length payload.length) subs.length 0) := by
  have hP : 4096 * 2 ^ (rc + 1) = 16384 ∨ 4096 * 2 ^ (rc + 1) = 65536 := by
    rcases hrc with h | h <;> subst h
    · left; rfl
    · right; rfl
  generalize hPdef : 4096 * 2 ^ (rc + 1) = P at *
  generalize hWdef : hbrBurst k rc P subs payload = W
  have hWlen : W.length = P := by
    rw [← hWdef]; exact hbrBurst_length k rc P subs payload (by omega)
  have hpk : ∀ i, i < 8 → peek W i =
      peek [k.SYNC_PREAMBLE_0, k.SYNC_PREAMBLE_1, k.SYNC_PREAMBLE_2, k.SYNC_PREAMBLE_3,
        rc * 8, 57, pdField subs.length payload.length / 256,
        pdField subs.length payload.length % 256] i := fun i hi => by
    rw [← hWdef]; exact hbrBurst_peek_header k rc P subs payload i hi
  have hparse : parseIecFrameData k
      { idleState W P fb fp fm pcm with syncCandidateIndex := 0 } =
      (0, { syncedState W P fb fp fm pcm rc (pdField subs.length payload.length) 0 0 with
            syncFound := false, syncCandidateFound := false }) := by
    rw [parseIecFrameData_hbr k _ rc (pdField subs.length payload.length) hrc
      (by show peek W (0 + 4) = _; rw [hpk _ (by omega)]; rfl)
      (by show peek W (0 + 5) = _; rw [hpk _ (by omega)]; rfl)
      (by show peek W (0 + 6) = _; rw [hpk _ (by omega)]; rfl)
      (by show peek W (0 + 7) = _; rw [hpk _ (by omega)]; rfl)
      (by rw [hPdef]; exact hpd)]
    rw [hPdef]
    simp only [idleState, syncedState, hPdef]
  have hscan : scanLoop k (P - IEC_HEADER_SIZE_BYTES) 0 (idleState W P fb fp fm pcm) =
      { syncedState W P fb fp fm pcm rc (pdField subs.length payload.length) 0 0 with
            syncFound := false } := by
    obtain ⟨n, hn⟩ : ∃ n, P - IEC_HEADER_SIZE_BYTES = n + 1 :=
      ⟨P - IEC_HEADER_SIZE_BYTES - 1, by unfold IEC_HEADER_SIZE_BYTES; rcases hP with hP | hP <;> omega⟩
    rw [hn, scanLoop]
    have hpk2 : ∀ i, i < 8 → peek (idleState W P fb fp fm pcm).workBuffer i =
      peek [k.SYNC_PREAMBLE_0, k.SYNC_PREAMBLE_1, k.SYNC_PREAMBLE_2, k.SYNC_PREAMBLE_3,
        rc * 8, 57, pdField subs.length payload.length / 256,
        pdField subs.length payload.length % 256] i := hpk
    rw [hpk2 (0 + 0) (by omega), hpk2 (0 + 1) (by omega), hpk2 (0 + 2) (by omega),
      hpk2 (0 + 3) (by omega)]
    rw [if_pos ⟨rfl, rfl, rfl, rfl⟩, hparse]
    rfl
  have hsearch : candidateSearch k (idleState W P fb fp fm pcm) =
      { syncedState W P fb fp fm pcm rc (pdField subs.length payload.length) 0 0 with
            syncFound := false } := by
    unfold candidateSearch
    rw [if_pos (by
      show (!false) = true ∧ P > IEC_HEADER_SIZE_BYTES
      unfold IEC_HEADER_SIZE_BYTES
      exact ⟨rfl, by rcases hP with hP | hP <;> omega⟩)]
    unfold candidateSearchBody
    have e : (idleState W P fb fp fm pcm).workBufferBytesAvailable = P := rfl
    simp only [e, hscan]
    show ({ syncedState W P fb fp fm pcm rc (pdField subs.length payload.length) 0 0 with
      syncFound := false, workBuffer := memMove W 0 0 (P - 0),
      workBufferBytesAvailable := P - 0 } : DecState) = _
    rw [memMove_self _ _ (by rw [hWlen]; rfl)]
    rfl
  have hspace : checkBurstSpacing k
      { syncedState W P fb fp fm pcm rc (pdField subs.length payload.length) 0 0 with
            syncFound := false } = true := by
    unfold checkBurstSpacing
    show allZeroFrom W (u32 (0 + 4096 * 2 ^ (rc + 1)) -
        sub32 (u32 (0 + 4096 * 2 ^ (rc + 1))) k.IEC_BURST_SPACING_SIZE_BYTES)
      (sub32 (u32 (0 + 4096 * 2 ^ (rc + 1))) k.IEC_BURST_SPACING_SIZE_BYTES) = true
    rw [hPdef, Nat.zero_add, u32_of_lt (by rcases hP with hP | hP <;> omega),
      sub32_of_le (by omega) (by rcases hP with hP | hP <;> omega)]
    apply allZeroFrom_true
    intro j h1 h2
    rw [← hWdef]
    exact hbrBurst_peek_tail k rc P subs payload j (by omega)
  have hhdr : checkPayloadHeaders
      { syncedState W P fb fp fm pcm rc (pdField subs.length payload.length) 0 0 with
            syncFound := false } = some (true, subs.length) := by
    unfold checkPayloadHeaders
    have hw := checkPayloadHeadersLoop_walk
      { syncedState W P fb fp fm pcm rc (pdField subs.length payload.length) 0 0 with
            syncFound := false } rfl rfl
      (payload ++ List.replicate (P - (8 + (subs.length + 1) * 8 + payload.length)) 0) subs
      [k.SYNC_PREAMBLE_0, k.SYNC_PREAMBLE_1, k.SYNC_PREAMBLE_2, k.SYNC_PREAMBLE_3,
        rc * 8, 57, pdField subs.length payload.length / 256,
        pdField subs.length payload.length % 256] 0 0 0 0
      (pdField subs.length payload.length * 8 + 2)
      (by show W = _; rw [← hWdef]; exact hbrBurst_split k rc P subs payload)
      hchain hoff
      (by
        cases hsubs : subs with
        | nil => simp
        | cons s rest =>
          have := hoff s (by rw [hsubs]; simp)
          have := hfirst s (by rw [hsubs]; rfl)
          rw [← hsubs]
          omega)
      (by rcases hP with hP | hP <;> omega) (by rcases hP with hP | hP <;> omega)
    show checkPayloadHeadersLoop _ (pdField subs.length payload.length * 8 + 2) 0 0
      (0 + IEC_HEADER_SIZE_BYTES) 0 0 = _
    have e8 : (0 + IEC_HEADER_SIZE_BYTES) = [k.SYNC_PREAMBLE_0, k.SYNC_PREAMBLE_1,
        k.SYNC_PREAMBLE_2, k.SYNC_PREAMBLE_3, rc * 8, 57,
        pdField subs.length payload.length / 256,
        pdField subs.length payload.length % 256].length := rfl
    have hb : decide (0 < 0 + subs.length ∧
        (if 0 = 0 then (match subs with | [] => 0 | s :: _ => s.1) else 0) <
          u32 (0 + 8 * (subs.length + 1) + IEC_HEADER_SIZE_BYTES + fm)) = false := by
      apply decide_eq_false
      rintro ⟨hpos, hlt⟩
      rw [if_pos rfl, u32_of_lt (by unfold IEC_HEADER_SIZE_BYTES; rcases hP with hP | hP <;> omega)] at hlt
      unfold IEC_HEADER_SIZE_BYTES at hlt
      rcases hsubs : subs with _ | ⟨s, rest⟩
      · rw [hsubs] at hpos; simp at hpos
      · have h1 := hfirst s (by rw [hsubs]; rfl)
        rw [hsubs] at hlt h1
        simp only at hlt
        omega
    rw [e8, hw]
    show some (!decide (0 < 0 + subs.length ∧
        (if 0 = 0 then (match subs with | [] => 0 | s :: _ => s.1) else 0) <
          u32 (0 + 8 * (subs.length + 1) + IEC_HEADER_SIZE_BYTES + fm)), 0 + subs.length) = _
    rw [hb, Nat.zero_add]
    rfl
  rw [show fuel + 2 = (fuel + 1) + 1 from rfl, syncLoop]
  rw [if_pos (by
      show (!false) = true ∧ P > IEC_HEADER_SIZE_BYTES
      unfold IEC_HEADER_SIZE_BYTES
      exact ⟨rfl, by rcases hP with hP | hP <;> omega⟩)]
  simp only [hsearch]
  rw [if_pos (show ({ syncedState W P fb fp fm pcm rc (pdField subs.length payload.length) 0 0 with
            syncFound := false } : DecState).syncCandidateFound = true from rfl)]
  rw [if_pos (by show P ≥ 0 + 4096 * 2 ^ (rc + 1); rw [hPdef]; omega)]
  rw [hspace, if_pos rfl, hhdr]
  simp only [syncLoop]
  rfl


/-- With a burst spacing that is a multiple of 8, the rounded-up data burst length
fits whenever the burst content does. -/
theorem pdField_fits (sp n m P : Nat) (hsp8 : sp % 8 = 0) (hP : P % 8 = 0)
    (hroom : 8 + (n + 1) * 8 + m + sp ≤ P) : pdField n m * 8 + 8 + sp ≤ P := by
  unfold pdField
  omega
/-! ## Decoder: one call on a burst the decoder is synchronised on -/


theorem memMove_none (a : List Nat) (src : Nat) : memMove a 0 src 0 = a := by
  unfold memMove
  rw [memRead_zero, memWrite_of_le _ (Nat.zero_le _)]
  simp

/-- The decoder's reading of the `i`-th sub-header of a burst it is synchronised on. -/
theorem parse_synced (k : WireConsts) (rc : Nat) (subs : List (Nat × Nat × Int))
    (payload fb : List Nat) (P avail fp fm : Nat) (pcm : Int) (pd n j i : Nat) (s : Nat × Nat × Int)
    (hi : subs[i]? = some s) (h1 : s.1 < 16777216) (h2 : s.2.1 < 16777216) :
    parsePayloadHeader (syncedState (hbrBurst k rc P subs payload) avail fb fp fm pcm rc pd n j)
      (0 + IEC_HEADER_SIZE_BYTES + i * 8) = (s.1, s.2.1, s.2.2 % 65536) := by
  have := burstSubHeader_hbrBurst k rc P subs payload i s hi h1 h2
  unfold burstSubHeader at this
  rw [← this]
  simp only [Nat.zero_add]
  rfl

theorem emitPayload_whole (k : WireConsts) (rc : Nat) (subs : List (Nat × Nat × Int))
    (payload fb : List Nat) (P fp fm : Nat) (pcm : Int) (pd i cap : Nat) (s : Nat × Nat × Int)
    (hP : P = 4096 * 2 ^ (rc + 1)) (hrc : rc = 1 ∨ rc = 3)
    (hi : subs[i]? = some s) (h1 : s.1 < 16777216) (h2 : s.2.1 < 16777216)
    (hcap : s.2.1 ≤ cap) (hfit : s.1 + s.2.1 ≤ IEC_HEADER_SIZE_BYTES + pd * 8) :
    emitPayload (syncedState (hbrBurst k rc P subs payload) P fb fp fm pcm rc pd subs.length i) cap =
      (DecOut.mk .IECDEC_OK (memRead (hbrBurst k rc P subs payload) s.1 s.2.1) s.2.1
          (s.2.2 % 65536) 1024 (decide (i + 1 = subs.length)),
       if i + 1 = subs.length then idleState (hbrBurst k rc P subs payload) 0 fb fp fm pcm
       else syncedState (hbrBurst k rc P subs payload) P fb fp fm pcm rc pd subs.length (i + 1)) := by
  have hin : i < subs.length := by
    rcases Nat.lt_or_ge i subs.length with h | h
    · exact h
    · rw [List.getElem?_eq_none h] at hi; cases hi
  have hparse := parse_synced k rc subs payload fb P P fp fm pcm pd subs.length i i s hi h1 h2
  generalize hWdef : hbrBurst k rc P subs payload = W at *
  unfold emitPayload
  simp only [syncedState] at hparse ⊢
  rw [if_pos hin]
  simp only [hparse]
  rw [if_neg (by omega), if_neg (by omega)]
  simp only []
  have hsub : sub32 P (4096 * 2 ^ (rc + 1)) = 0 := by
    rw [← hP, sub32_of_le (Nat.le_refl _) (by rw [hP]; rcases hrc with h | h <;> subst h <;> decide)]
    omega
  by_cases hlast : i + 1 = subs.length
  · rw [if_pos hlast, if_pos hlast, hsub, memMove_none, Nat.zero_add]
    simp only [hlast, decide_True]
    rfl
  · rw [if_neg hlast, if_neg hlast]
    simp only [hlast, decide_False, Nat.zero_add]


theorem emitPayload_split (k : WireConsts) (rc : Nat) (subs : List (Nat × Nat × Int))
    (payload fb : List Nat) (P fp fm : Nat) (pcm : Int) (pd i cap : Nat) (s : Nat × Nat × Int)
    (hP : P = 4096 * 2 ^ (rc + 1)) (hrc : rc = 1 ∨ rc = 3)
    (hi : subs[i]? = some s) (h1 : s.1 < 16777216) (h2 : s.2.1 < 16777216)
    (hcap : s.2.1 ≤ cap) (hoff : s.1 ≤ pd * 8) (hpd : pd * 8 ≤ 65536)
    (hfit : s.1 + s.2.1 > IEC_HEADER_SIZE_BYTES + pd * 8) :
    emitPayload (syncedState (hbrBurst k rc P subs payload) P fb fp fm pcm rc pd subs.length i) cap =
      (DecOut.mk .IECDEC_OK [] 0 0 1024 (decide (i + 1 = subs.length)),
       if i + 1 = subs.length then
         idleState (hbrBurst k rc P subs payload) 0
           (memWrite fb 0 (memRead (hbrBurst k rc P subs payload) s.1 (pd * 8 + 8 - s.1)))
           (pd * 8 + 8 - s.1) (s.1 + s.2.1 - (pd * 8 + 8)) (s.2.2 % 65536 - 1024)
       else
         syncedState (hbrBurst k rc P subs payload) P
           (memWrite fb 0 (memRead (hbrBurst k rc P subs payload) s.1 (pd * 8 + 8 - s.1)))
           (pd * 8 + 8 - s.1) (s.1 + s.2.1 - (pd * 8 + 8)) (s.2.2 % 65536 - 1024)
           rc pd subs.length (i + 1)) := by
  have hin : i < subs.length := by
    rcases Nat.lt_or_ge i subs.length with h | h
    · exact h
    · rw [List.getElem?_eq_none h] at hi; cases hi
  have hparse := parse_synced k rc subs payload fb P P fp fm pcm pd subs.length i i s hi h1 h2
  generalize hWdef : hbrBurst k rc P subs payload = W at *
  unfold emitPayload
  simp only [syncedState] at hparse ⊢
  rw [if_pos hin]
  simp only [hparse]
  unfold IEC_HEADER_SIZE_BYTES at hfit ⊢
  rw [if_neg (by omega), if_pos (by omega)]
  simp only []
  have hsub : sub32 P (4096 * 2 ^ (rc + 1)) = 0 := by
    rw [← hP, sub32_of_le (Nat.le_refl _) (by rw [hP]; rcases hrc with h | h <;> subst h <;> decide)]
    omega
  have e1 : sub32 (pd * 8) s.1 = pd * 8 - s.1 := sub32_of_le hoff (by omega)
  have e2 : u32 (pd * 8 - s.1 + 8) = pd * 8 + 8 - s.1 := by
    rw [u32_of_lt (by omega)]; omega
  have e3 : sub32 s.2.1 (pd * 8 + 8 - s.1) = s.1 + s.2.1 - (pd * 8 + 8) := by
    rw [sub32_of_le (by omega) (by omega)]; omega
  have e4 : sub32 s.2.1 (s.1 + s.2.1 - (pd * 8 + 8)) = pd * 8 + 8 - s.1 := by
    rw [sub32_of_le (by omega) (by omega)]; omega
  rw [e1, e2, e3, e4]
  by_cases hlast : i + 1 = subs.length
  · rw [if_pos hlast, if_pos hlast, hsub, memMove_none, Nat.zero_add]
    simp only [hlast, decide_True, Nat.zero_add]
    rfl
  · rw [if_neg hlast, if_neg hlast]
    simp only [hlast, decide_False, Nat.zero_add]
    rfl

theorem emitPayload_none (W fb : List Nat) (P fp fm : Nat) (pcm : Int) (rc pd cap : Nat)
    (hP : P = 4096 * 2 ^ (rc + 1)) (hrc : rc = 1 ∨ rc = 3) :
    emitPayload (syncedState W P fb fp fm pcm rc pd 0 0) cap =
      (DecOut.mk .IECDEC_OK [] 0 0 1024 true, idleState W 0 fb fp fm pcm) := by
  unfold emitPayload
  simp only [syncedState]
  have hsub : sub32 P (4096 * 2 ^ (rc + 1)) = 0 := by
    rw [← hP, sub32_of_le (Nat.le_refl _) (by rw [hP]; rcases hrc with h | h <;> subst h <;> decide)]
    omega
  rw [if_neg (Nat.lt_irrefl 0)]
  simp only [if_true]
  rw [hsub, memMove_none]
  rfl


theorem processSynced_idle (W fb : List Nat) (P fp : Nat) (pcm : Int) (rc pd n i cap : Nat) :
    processSynced (syncedState W P fb fp 0 pcm rc pd n i) cap =
      emitPayload (syncedState W P fb fp 0 pcm rc pd n i) cap := by
  unfold processSynced
  rw [if_neg (by show ¬ (0 > 0); omega)]

/-- A burst without sub-headers whose payload does not complete the pending AU: the
payload is appended to the pending bytes and the burst is done. -/
theorem processSynced_more (W fb : List Nat) (P fp fm : Nat) (pcm : Int) (rc pd cap : Nat)
    (hP : P = 4096 * 2 ^ (rc + 1)) (hrc : rc = 1 ∨ rc = 3)
    (hpd1 : 1 ≤ pd) (hpd : pd * 8 ≤ 65536) (hfp : fp ≤ 16777216) (hfm : fm ≤ 16777216)
    (hmore : fm > pd * 8 - 8) :
    processSynced (syncedState W P fb fp fm pcm rc pd 0 0) cap =
      (DecOut.mk .IECDEC_OK [] 0 0 1024 true,
       idleState W 0 (memWrite fb fp (memRead W 16 (pd * 8 - 8))) (fp + (pd * 8 - 8))
         (fm - (pd * 8 - 8)) (pcm - 1024)) := by
  unfold processSynced
  simp only [syncedState]
  have e1 : sub32 (pd * 8) 8 = pd * 8 - 8 := sub32_of_le (by omega) (by omega)
  rw [if_pos (by omega), if_pos trivial, e1, if_pos hmore]
  rw [u32_of_lt (by omega), sub32_of_le (by omega) (by omega)]
  have := emitPayload_none W (memWrite fb fp (memRead W 16 (pd * 8 - 8))) P (fp + (pd * 8 - 8))
    (fm - (pd * 8 - 8)) (pcm - 1024) rc pd cap hP hrc
  simp only [syncedState] at this
  exact this

/-- A burst without sub-headers whose payload is exactly the missing part of the
pending AU: the AU is returned, the burst stays to be finished by the next call. -/
theorem processSynced_complete (W fb : List Nat) (P fp fm : Nat) (pcm : Int) (rc pd cap : Nat)
    (hpd1 : 1 ≤ pd) (hpd : pd * 8 ≤ 65536) (hfp : fp ≤ 16777216)
    (hfm0 : 0 < fm) (hfm : fm = pd * 8 - 8) (hcap : fp + fm ≤ cap) :
    processSynced (syncedState W P fb fp fm pcm rc pd 0 0) cap =
      (DecOut.mk .IECDEC_OK (memRead fb 0 fp ++ memRead W 16 fm) (fp + fm) pcm 1024 false,
       syncedState W P fb 0 0 0 rc pd 0 0) := by
  unfold processSynced
  simp only [syncedState]
  have e1 : sub32 (pd * 8) 8 = pd * 8 - 8 := sub32_of_le (by omega) (by omega)
  rw [if_pos (by omega), if_pos trivial, e1, if_neg (by omega), if_neg (by omega),
    u32_of_lt (by omega), if_neg (by omega)]
  rfl

/-- A burst without sub-headers that carries more payload than the pending AU
misses: `IECDEC_PENDINGDATA_ERROR`, with the state unchanged. -/
theorem processSynced_excess (W fb : List Nat) (P fp fm : Nat) (pcm : Int) (rc pd cap : Nat)
    (hpd1 : 1 ≤ pd) (hpd : pd * 8 ≤ 65536)
    (hfm0 : 0 < fm) (hfm : fm < pd * 8 - 8) :
    processSynced (syncedState W P fb fp fm pcm rc pd 0 0) cap =
      (DecOut.mk .IECDEC_PENDINGDATA_ERROR [] 0 0 1024 false,
       syncedState W P fb fp fm pcm rc pd 0 0) := by
  unfold processSynced
  simp only [syncedState]
  have e1 : sub32 (pd * 8) 8 = pd * 8 - 8 := sub32_of_le (by omega) (by omega)
  rw [if_pos (by omega), if_pos trivial, e1, if_neg (by omega), if_pos (by omega)]

/-- A burst with sub-headers that begins with the missing part of the pending AU:
the AU is returned, the sub-headers are left to the next calls. -/
theorem processSynced_join (k : WireConsts) (rc : Nat) (subs : List (Nat × Nat × Int))
    (payload fb : List Nat) (P fp fm : Nat) (pcm : Int) (pd cap : Nat) (s : Nat × Nat × Int)
    (h0 : subs[0]? = some s) (h1 : s.1 < 16777216) (h2 : s.2.1 < 16777216)
    (hfp : fp ≤ 16777216) (hfm0 : 0 < fm) (hfm : fm ≤ s.1) (hcap : fp + fm ≤ cap) :
    processSynced (syncedState (hbrBurst k rc P subs payload) P fb fp fm pcm rc pd subs.length 0) cap =
      (DecOut.mk .IECDEC_OK (memRead fb 0 fp ++ memRead (hbrBurst k rc P subs payload) (s.1 - fm) fm)
          (fp + fm) pcm 1024 false,
       syncedState (hbrBurst k rc P subs payload) P fb 0 0 0 rc pd subs.length 0) := by
  have hin : 0 < subs.length := by
    rcases Nat.lt_or_ge 0 subs.length with h | h
    · exact h
    · rw [List.getElem?_eq_none h] at h0; cases h0
  have hparse := parse_synced k rc subs payload fb P P fp fm pcm pd subs.length 0 0 s h0 h1 h2
  generalize hWdef : hbrBurst k rc P subs payload = W at *
  unfold processSynced
  simp only [syncedState, Nat.zero_mul, Nat.add_zero, Nat.zero_add] at hparse ⊢
  rw [if_pos (by omega), if_neg (by omega), u32_of_lt (by omega), if_neg (by omega)]
  simp only [hparse]
  rw [u32_of_lt (by omega), if_neg (by omega), sub32_of_le hfm (by omega)]
  rfl

/-! ## Decoder: calls of `iec61937_decode_process` around one burst -/


/-- A call of `iec61937_decode_process` on a state that holds sync goes straight to
the payload. -/
theorem process_synced (k : WireConsts) (W fb : List Nat) (avail fp fm : Nat) (pcm : Int)
    (rc pd n i cap fuel : Nat) :
    iec61937_decode_process k (fuel + 1) (syncedState W avail fb fp fm pcm rc pd n i) cap =
      some (processSynced (syncedState W avail fb fp fm pcm rc pd n i) cap) := by
  unfold iec61937_decode_process
  rw [syncLoop, if_neg (by simp [syncedState])]
  rfl

/-- A call of `iec61937_decode_process` with an empty work buffer asks for data. -/
theorem process_feed_more (k : WireConsts) (W fb : List Nat) (fp fm : Nat) (pcm : Int)
    (cap fuel : Nat) :
    iec61937_decode_process k (fuel + 1) (idleState W 0 fb fp fm pcm) cap =
      some (DecOut.mk .IECDEC_FEED_MORE_DATA [] 0 0 0 false, idleState W 0 fb fp fm pcm) := by
  unfold iec61937_decode_process
  rw [syncLoop, if_neg (by simp [idleState])]
  rfl

/-- The first call of `iec61937_decode_process` on a work buffer that holds exactly
one well-formed HBR burst. -/
theorem process_first (k : WireConsts) (rc : Nat) (subs : List (Nat × Nat × Int))
    (payload fb : List Nat) (fp fm : Nat) (pcm : Int) (cap fuel : Nat)
    (hrc : rc = 1 ∨ rc = 3)
    (hpd : pdField subs.length payload.length * 8 + 8 + k.IEC_BURST_SPACING_SIZE_BYTES ≤
      4096 * 2 ^ (rc + 1))
    (hroom : 8 + (subs.length + 1) * 8 + payload.length + k.IEC_BURST_SPACING_SIZE_BYTES ≤
      4096 * 2 ^ (rc + 1))
    (hchain : subsChain 0 subs)
    (hoff : ∀ s, s ∈ subs → s.1 ≤ pdField subs.length payload.length * 8)
    (hfirst : ∀ s, subs.head? = some s → 8 * (subs.length + 1) + 8 + fm ≤ s.1)
    (hfm : fm ≤ 16777216) :
    iec61937_decode_process k (fuel + 2)
      (idleState (hbrBurst k rc (4096 * 2 ^ (rc + 1)) subs payload) (4096 * 2 ^ (rc + 1))
        fb fp fm pcm) cap =
    some (processSynced
      (syncedState (hbrBurst k rc (4096 * 2 ^ (rc + 1)) subs payload) (4096 * 2 ^ (rc + 1))
        fb fp fm pcm rc (pdField subs.length payload.length) subs.length 0) cap) := by
  unfold iec61937_decode_process
  rw [syncLoop_hbrBurst k rc subs payload fb fp fm pcm fuel hrc hpd hroom hchain hoff hfirst hfm]
  rfl

/-- Feeding a burst to a decoder whose work buffer is empty. -/
theorem feed_idle (Wd fb burst : List Nat) (fp fm : Nat) (pcm : Int)
    (h1 : Wd.length ≤ burst.length) (h2 : burst.length ≤ DEC_WORKBUFFER_SIZE_BYTES) :
    iec61937_decode_feed (idleState Wd 0 fb fp fm pcm) burst =
      (.IECDEC_OK, idleState burst burst.length fb fp fm pcm) := by
  unfold iec61937_decode_feed
  unfold DEC_WORKBUFFER_SIZE_BYTES at h2 ⊢
  simp only [idleState, Nat.zero_add]
  rw [if_neg (by omega)]
  have : memWrite Wd 0 burst = burst := by
    rw [memWrite_of_le _ (Nat.zero_le _)]
    simp [List.drop_eq_nil_of_le h1]
  rw [this]

theorem open_idle : iec61937_decode_open = idleState [] 0 [] 0 0 0 := rfl


theorem peek_eq_getElem (a : List Nat) (i : Nat) (h : i < a.length) : peek a i = a[i] := by
  unfold peek
  rw [List.getD_eq_getElem?_getD, List.getElem?_eq_getElem h]
  rfl

/-- Two reads agree when they agree cell by cell. -/
theorem memRead_congr (a b : List Nat) (off1 off2 n : Nat)
    (h : ∀ j, j < n → peek a (off1 + j) = peek b (off2 + j)) :
    memRead a off1 n = memRead b off2 n := by
  apply List.ext_getElem
  · rw [memRead_length, memRead_length]
  · intro i h1 h2
    rw [memRead_length] at h1
    rw [← peek_eq_getElem, ← peek_eq_getElem, peek_memRead h1, peek_memRead h1]
    exact h i h1

theorem memRead_all (a : List Nat) : memRead a 0 a.length = a := by
  rw [memRead_eq_take_drop (by omega)]
  simp

/-- The payload bytes of a burst, read at their burst offsets. -/
theorem hbrBurst_payload (k : WireConsts) (rc P : Nat) (subs : List (Nat × Nat × Int))
    (payload : List Nat) (a len : Nat) (h : a + len ≤ payload.length) :
    memRead (hbrBurst k rc P subs payload) (8 + (subs.length + 1) * 8 + a) len =
      memRead payload a len := by
  apply memRead_congr
  intro j hj
  unfold hbrBurst
  rw [peek_append_left (by
    simp only [List.length_append, List.length_cons, List.length_nil, subHeaderBytes_length,
      List.length_replicate]; omega)]
  rw [peek_append_right (by
    simp only [List.length_append, List.length_cons, List.length_nil, subHeaderBytes_length,
      List.length_replicate]; omega)]
  congr 1
  simp only [List.length_append, List.length_cons, List.length_nil, subHeaderBytes_length,
      List.length_replicate]
  omega

/-! ## Scenario: an AU split over two bursts -/


/-- A fresh factor-4 encoder given an AU that is `r` bytes longer than the free payload
`A` of a one-sub-header burst, with duration 2048: the burst carries the first `A`
bytes, the last `r` bytes stay pending and the next call is due to emit a burst. -/
theorem split_first_call (k : WireConsts) (au : List Nat) (A r : Nat)
    (hA : A + k.IEC_BURST_SPACING_SIZE_BYTES = 16360) (hAge : 8000 ≤ A)
    (hlen : au.length = A + r) (hr1 : 1 ≤ r) (hr : r ≤ 8000) :
    (iec61937_encode_process k (encInit 1 1) au 2048 16384).1 =
      EncOut.mk .IECENC_OK true (hbrBurst k 1 16384 [(24, au.length, 0)] (au.take A)) 16384 ∧
    EncInv (iec61937_encode_process k (encInit 1 1) au 2048 16384).2 ∧
    (iec61937_encode_process k (encInit 1 1) au 2048 16384).2.auPending = true ∧
    (iec61937_encode_process k (encInit 1 1) au 2048 16384).2.framesStoredCount = 1 ∧
    peek (iec61937_encode_process k (encInit 1 1) au 2048 16384).2.frameLength 0 = r ∧
    (iec61937_encode_process k (encInit 1 1) au 2048 16384).2.workBuffer = memMove au 0 A r ∧
    (iec61937_encode_process k (encInit 1 1) au 2048 16384).2.overallDuration = 1024 ∧
    (iec61937_encode_process k (encInit 1 1) au 2048 16384).2.burstRepetitionPeriod = 16384 ∧
    (iec61937_encode_process k (encInit 1 1) au 2048 16384).2.rateFactor = 1 := by
  have hsp : k.IEC_BURST_SPACING_SIZE_BYTES ≤ 16320 := by omega
  have hau : au ≠ [] := by intro h; rw [h] at hlen; simp at hlen; omega
  have hi := encInit_inv 1 (Or.inl rfl)
  have hsf : EncInv (storeFrame (encInit 1 1) au 2048) :=
    storeFrame_inv _ au 2048 hi hau (by decide) (by
      show ¬ 0 + au.length > ENC_WORKBUFFER_SIZE_BYTES
      unfold ENC_WORKBUFFER_SIZE_BYTES
      omega)
  have hnb : getNumBuffersToWrite k (storeFrame (encInit 1 1) au 2048) = 1 := by
    have h1 := getNumBuffersToWrite_le k (storeFrame (encInit 1 1) au 2048)
    have h2 := getNumBuffersToWrite_pos k (storeFrame (encInit 1 1) au 2048)
      (availableBytes_pos k _ hsf hsp) hsf.dur (Nat.le_refl 1)
    have : (storeFrame (encInit 1 1) au 2048).framesStoredCount = 1 := rfl
    omega
  have hcall : iec61937_encode_process k (encInit 1 1) au 2048 16384 =
      emitBurst k (storeFrame (encInit 1 1) au 2048) 1 true := by
    rw [encode_process_eq]
    rw [if_neg (by decide), if_neg (by decide)]
    rw [if_pos (by rw [if_neg (by decide)]; omega)]
    rw [if_neg (by decide), if_neg (by
      show ¬ 0 + au.length > ENC_WORKBUFFER_SIZE_BYTES
      unfold ENC_WORKBUFFER_SIZE_BYTES; omega)]
    have hov : (storeFrame (encInit 1 1) au 2048).overallDuration = 2048 := rfl
    rw [hnb, hov, hsf.afl, if_neg (by omega)]
  have e2 : (storeFrame (encInit 1 1) au 2048).burstRepetitionPeriod = 16384 := rfl
  have e3 : (storeFrame (encInit 1 1) au 2048).auPending = false := rfl
  have e4 : (storeFrame (encInit 1 1) au 2048).frameLength = [au.length, 0, 0, 0, 0] := rfl
  have e6 : (storeFrame (encInit 1 1) au 2048).workBuffer = au := memWrite_nil au
  have e8 : numAvailableBytes k (storeFrame (encInit 1 1) au 2048) 1 = A := by
    rw [numAvailableBytes_eq k (storeFrame (encInit 1 1) au 2048) hsf hsp 1 (by omega), e2, e3]
    simp only [Bool.false_eq_true, if_false]
    omega
  have e8b : psum [au.length, 0, 0, 0, 0] 1 = au.length := by
    show 0 + au.length = _; omega
  have hmin : min au.length A = A := by omega
  have hgt : au.length > A := by omega
  rw [hcall]
  refine ⟨?_, emitBurst_inv k _ 1 true hsf hsp (Nat.le_refl 1)
      (by show (1024 : Int) ≤ 0 + ((2048 : Nat) : Int); decide), ?_, ?_, ?_, ?_, rfl, rfl, rfl⟩
  · rw [emitBurst_output k (storeFrame (encInit 1 1) au 2048) 1 true hsf hsp
      (Nat.le_refl 1) (fun _ => Nat.le_refl 1), e8, e4, e8b, hmin, e6,
      memRead_eq_take_drop (show 0 + A ≤ au.length by omega)]
    rfl
  · have f1 := (emitBurst_frames k (storeFrame (encInit 1 1) au 2048) 1 true hsf hsp
      (Nat.le_refl 1)).1
    rw [f1, e8, e4, e8b]
    simp [hgt]
  · have f2 := (emitBurst_frames k (storeFrame (encInit 1 1) au 2048) 1 true hsf hsp
      (Nat.le_refl 1)).2.1
    rw [f2, e8, e4, e8b, if_pos hgt]
    rfl
  · have f5 := (emitBurst_frames k (storeFrame (encInit 1 1) au 2048) 1 true hsf hsp
      (Nat.le_refl 1)).2.2.2.2.1 0
    rw [e8, e4, e8b, if_pos hgt] at f5
    rw [f5 (by show 0 < 1 - (1 - 1); omega), if_pos ⟨hgt, rfl⟩]
    omega
  · have f8 := (emitBurst_frames k (storeFrame (encInit 1 1) au 2048) 1 true hsf hsp
      (Nat.le_refl 1)).2.2.2.2.2.2.2
    have hall : psum [au.length, 0, 0, 0, 0] (storeFrame (encInit 1 1) au 2048).framesStoredCount =
      au.length := e8b
    rw [e8, e4, e8b, e6, hall, hmin, if_pos (by omega)] at f8
    rw [show r = au.length - A by omega]
    exact f8


/-- A call on an encoder that is due to emit a burst and holds only the `r` pending
bytes of a split AU: the burst has no sub-header and carries those bytes; the AU
offered with the call is not consumed. -/
theorem continuation_call (k : WireConsts) (h1 : EncState) (next : List Nat) (d2 r : Nat)
    (hsp : k.IEC_BURST_SPACING_SIZE_BYTES ≤ 8360) (hi1 : EncInv h1)
    (hp : h1.auPending = true) (hc : h1.framesStoredCount = 1)
    (hfl : peek h1.frameLength 0 = r) (hr : r ≤ 8000)
    (hov : h1.overallDuration = 1024) (hP : h1.burstRepetitionPeriod = 16384)
    (hrf : h1.rateFactor = 1) (hd2 : d2 ≤ 4096) :
    (iec61937_encode_process k h1 next d2 16384).1 =
      EncOut.mk .IECENC_OK false (hbrBurst k 1 16384 [] (memRead h1.workBuffer 0 r)) 16384 := by
  have hnb1 : getNumBuffersToWrite k h1 = 1 := by
    have a1 := getNumBuffersToWrite_le k h1
    have a2 := getNumBuffersToWrite_pos k h1 (availableBytes_pos k _ hi1 (by omega)) hi1.dur (by omega)
    omega
  have hcall2 : iec61937_encode_process k h1 next d2 16384 = emitBurst k h1 1 false := by
    rw [encode_process_eq]
    rw [hP, if_neg (by decide), if_neg (by unfold MAX_MPEGH_FRAME_DURATION; omega)]
    rw [hov, hi1.afl, if_neg (by simp), hnb1]
  have e12 : numAvailableBytes k h1 1 = 16368 - k.IEC_BURST_SPACING_SIZE_BYTES := by
    rw [numAvailableBytes_eq k h1 hi1 (by omega) 1 (by omega), hP, hp]
    simp only [if_true]
    omega
  have e13 : psum h1.frameLength 1 = r := by
    show 0 + peek h1.frameLength 0 = _
    rw [hfl]; omega
  rw [hcall2, emitBurst_output k h1 1 false hi1 (by omega) (by omega) (fun _ => Nat.le_refl 1),
    hP, hrf, hp, e12, e13, show min r (16368 - k.IEC_BURST_SPACING_SIZE_BYTES) = r by omega]
  rfl

/-- The decoder on the two bursts of a split AU whose second burst has no sub-header
and carries `r` bytes, `r` not a multiple of 8, state by state: the first burst is taken
(an `Ok` call without output), the first call on the second burst returns
`IECDEC_PENDINGDATA_ERROR` and leaves the decoder synchronised on that burst with the
pending AU untouched, and so does every later call. -/
theorem decode_split_states (k : WireConsts) (au tail : List Nat) (A r cap fuel : Nat)
    (hA : A + k.IEC_BURST_SPACING_SIZE_BYTES = 16360) (hAge : 8000 ≤ A) (hA8 : A % 8 = 0)
    (hlen : au.length = A + r) (hr1 : 1 ≤ r) (hr : r ≤ 8000) (hr8 : r % 8 ≠ 0)
    (htail : tail.length = r) (hcap : au.length ≤ cap) :
    iec61937_decode_process k (fuel + 2)
        (iec61937_decode_feed iec61937_decode_open
          (hbrBurst k 1 16384 [(24, au.length, 0)] (au.take A))).2 cap =
      some (DecOut.mk .IECDEC_OK [] 0 0 1024 true,
        idleState (hbrBurst k 1 16384 [(24, au.length, 0)] (au.take A)) 0
          (memWrite [] 0 (memRead (hbrBurst k 1 16384 [(24, au.length, 0)] (au.take A)) 24 A))
          A r (0 % 65536 - 1024)) ∧
    iec61937_decode_feed
        (idleState (hbrBurst k 1 16384 [(24, au.length, 0)] (au.take A)) 0
          (memWrite [] 0 (memRead (hbrBurst k 1 16384 [(24, au.length, 0)] (au.take A)) 24 A))
          A r (0 % 65536 - 1024))
        (hbrBurst k 1 16384 [] tail) =
      (.IECDEC_OK, idleState (hbrBurst k 1 16384 [] tail) 16384
          (memWrite [] 0 (memRead (hbrBurst k 1 16384 [(24, au.length, 0)] (au.take A)) 24 A))
          A r (0 % 65536 - 1024)) ∧
    iec61937_decode_process k (fuel + 2)
        (idleState (hbrBurst k 1 16384 [] tail) 16384
          (memWrite [] 0 (memRead (hbrBurst k 1 16384 [(24, au.length, 0)] (au.take A)) 24 A))
          A r (0 % 65536 - 1024)) cap =
      some (DecOut.mk .IECDEC_PENDINGDATA_ERROR [] 0 0 1024 false,
        syncedState (hbrBurst k 1 16384 [] tail) 16384
          (memWrite [] 0 (memRead (hbrBurst k 1 16384 [(24, au.length, 0)] (au.take A)) 24 A))
          A r (0 % 65536 - 1024) 1 (pdField ([] : List (Nat × Nat × Int)).length tail.length) 0 0) ∧
    iec61937_decode_process k (fuel + 1)
        (syncedState (hbrBurst k 1 16384 [] tail) 16384
          (memWrite [] 0 (memRead (hbrBurst k 1 16384 [(24, au.length, 0)] (au.take A)) 24 A))
          A r (0 % 65536 - 1024) 1 (pdField ([] : List (Nat × Nat × Int)).length tail.length) 0 0)
        cap =
      some (DecOut.mk .IECDEC_PENDINGDATA_ERROR [] 0 0 1024 false,
        syncedState (hbrBurst k 1 16384 [] tail) 16384
          (memWrite [] 0 (memRead (hbrBurst k 1 16384 [(24, au.length, 0)] (au.take A)) 24 A))
          A r (0 % 65536 - 1024) 1 (pdField ([] : List (Nat × Nat × Int)).length tail.length) 0 0) := by
  have htake : (au.take A).length = A := by rw [List.length_take]; omega
  have hpd1 : pdField [(24, au.length, (0 : Int))].length (au.take A).length * 8 = A + 16 := by
    rw [htake]; show (A + (1 + 1) * 8 + 7) / 8 * 8 = _; omega
  have hB1len : (hbrBurst k 1 16384 [(24, au.length, 0)] (au.take A)).length = 16384 :=
    hbrBurst_length k 1 16384 _ _ (by rw [htake]; show 8 + (1 + 1) * 8 + A ≤ 16384; omega)
  have hB2len : (hbrBurst k 1 16384 [] tail).length = 16384 :=
    hbrBurst_length k 1 16384 _ _ (by rw [htail]; show 8 + (0 + 1) * 8 + r ≤ 16384; omega)
  have hp1 := process_first k 1 [(24, au.length, 0)] (au.take A) [] 0 0 0 cap fuel (Or.inl rfl)
    (by rw [hpd1]; show A + 16 + 8 + _ ≤ 16384; omega)
    (by rw [htake]; show 8 + (1 + 1) * 8 + A + _ ≤ 16384; omega)
    ⟨by show 0 < 24; decide, by show 24 < 16777216; decide, by show 1 ≤ au.length; omega,
      by show au.length < 16777216; omega, trivial⟩
    (by intro s hs; rw [hpd1]; simp at hs; subst hs; show 24 ≤ A + 16; omega)
    (by intro s hs; simp at hs; subst hs; show 8 * (1 + 1) + 8 + 0 ≤ 24; decide)
    (by decide)
  have he1 := emitPayload_split k 1 [(24, au.length, 0)] (au.take A) [] 16384 0 0 0
    (pdField [(24, au.length, (0 : Int))].length (au.take A).length) 0 cap (24, au.length, 0)
    rfl (Or.inl rfl) rfl (by show 24 < 16777216; decide) (by show au.length < 16777216; omega)
    (by show au.length ≤ cap; omega) (by rw [hpd1]; show 24 ≤ A + 16; omega) (by omega)
    (by rw [hpd1]; show 24 + au.length > IEC_HEADER_SIZE_BYTES + (A + 16)
        unfold IEC_HEADER_SIZE_BYTES; omega)
  rw [hpd1] at he1
  rw [if_pos (show 0 + 1 = [(24, au.length, (0 : Int))].length from rfl),
    show A + 16 + 8 - (24, au.length, (0 : Int)).1 = A from by show A + 16 + 8 - 24 = A; omega,
    show (24, au.length, (0 : Int)).1 + (24, au.length, (0 : Int)).2.1 - (A + 16 + 8) = r from by
      show 24 + au.length - (A + 16 + 8) = r; omega] at he1
  have hp2 := process_first k 1 [] tail
    (memWrite [] 0 (memRead (hbrBurst k 1 16384 [(24, au.length, 0)] (au.take A)) 24 A)) A r
    (0 % 65536 - 1024) cap fuel (Or.inl rfl)
    (by rw [htail]; show (r + (0 + 1) * 8 + 7) / 8 * 8 + 8 + _ ≤ 16384; omega)
    (by rw [htail]; show 8 + (0 + 1) * 8 + r + _ ≤ 16384; omega)
    trivial
    (by intro s hs; simp at hs)
    (by intro s hs; simp at hs)
    (by omega)
  have hx := processSynced_excess (hbrBurst k 1 16384 [] tail)
    (memWrite [] 0 (memRead (hbrBurst k 1 16384 [(24, au.length, 0)] (au.take A)) 24 A))
    16384 A r (0 % 65536 - 1024) 1 (pdField ([] : List (Nat × Nat × Int)).length tail.length) cap
    (by rw [htail]; show 1 ≤ (r + (0 + 1) * 8 + 7) / 8; omega)
    (by rw [htail]; show (r + (0 + 1) * 8 + 7) / 8 * 8 ≤ 65536; omega)
    (by omega)
    (by rw [htail]; show r < (r + (0 + 1) * 8 + 7) / 8 * 8 - 8; omega)
  have hf1 := feed_open (hbrBurst k 1 16384 [(24, au.length, 0)] (au.take A))
    (by rw [hB1len]; decide)
  have hf2 := feed_idle (hbrBurst k 1 16384 [(24, au.length, 0)] (au.take A))
    (memWrite [] 0 (memRead (hbrBurst k 1 16384 [(24, au.length, 0)] (au.take A)) 24 A))
    (hbrBurst k 1 16384 [] tail) A r (0 % 65536 - 1024)
    (by rw [hB1len, hB2len]) (by rw [hB2len]; decide)
  rw [hB2len] at hf2
  rw [hB1len] at hf1
  refine ⟨?_, hf2, hp2.trans (congrArg some hx), (process_synced k _ _ _ _ _ _ _ _ _ _ cap fuel).trans (congrArg some hx)⟩
  rw [hf1]
  exact hp1.trans (by rw [processSynced_idle]; exact congrArg some he1)

/-- The decoder on the two bursts of a split AU whose second burst has no sub-header
and carries `r` bytes, `r` not a multiple of 8: the first burst is taken (an `Ok`
call without output), the first call on the second burst returns
`IECDEC_PENDINGDATA_ERROR`. -/
theorem decode_split_excess (k : WireConsts) (au tail : List Nat) (A r cap fuel : Nat)
    (hA : A + k.IEC_BURST_SPACING_SIZE_BYTES = 16360) (hAge : 8000 ≤ A) (hA8 : A % 8 = 0)
    (hlen : au.length = A + r) (hr1 : 1 ≤ r) (hr : r ≤ 8000) (hr8 : r % 8 ≠ 0)
    (htail : tail.length = r) (hcap : au.length ≤ cap) :
    ∃ s1 s2 s3 s4,
      iec61937_decode_process k (fuel + 2)
          (iec61937_decode_feed iec61937_decode_open
            (hbrBurst k 1 16384 [(24, au.length, 0)] (au.take A))).2 cap =
        some (DecOut.mk .IECDEC_OK [] 0 0 1024 true, s1) ∧
      iec61937_decode_process k (fuel + 2) s1 cap =
        some (DecOut.mk .IECDEC_FEED_MORE_DATA [] 0 0 0 false, s2) ∧
      iec61937_decode_feed s2 (hbrBurst k 1 16384 [] tail) = (.IECDEC_OK, s3) ∧
      iec61937_decode_process k (fuel + 2) s3 cap =
        some (DecOut.mk .IECDEC_PENDINGDATA_ERROR [] 0 0 1024 false, s4) := by
  obtain ⟨h1, h2, h3, _⟩ := decode_split_states k au tail A r cap fuel hA hAge hA8 hlen hr1 hr hr8
    htail hcap
  exact ⟨_, _, _, _, h1, process_feed_more k _ _ _ _ _ cap (fuel + 1), h2, h3⟩

theorem memRead_memMove_tail (au : List Nat) (A r : Nat) (hlen : au.length = A + r) :
    memRead (memMove au 0 A r) 0 r = au.drop A := by
  have : memRead au A r = au.drop A := by
    rw [memRead_eq_take_drop (by omega)]
    apply List.take_of_length_le
    simp; omega
  rw [← this]
  apply memRead_congr
  intro j hj
  rw [peek_memMove_zero, if_pos (by omega), Nat.zero_add]
/-! ## Decoder: draining one burst -/


theorem drain_cons (k : WireConsts) (cap f : Nat) (s s1 sf : DecState) (o last : DecOut)
    (os : List DecOut)
    (hp : iec61937_decode_process k (f + 1) s cap = some (o, s1)) (ho : o.result = .IECDEC_OK)
    (hd : decodeDrain k cap f s1 = some (os, last, sf)) :
    decodeDrain k cap (f + 1) s = some (o :: os, last, sf) := by
  rw [decodeDrain, hp]
  simp only [ho, if_true, hd]

theorem drain_stop (k : WireConsts) (cap f : Nat) (s s1 : DecState) (o : DecOut)
    (hp : iec61937_decode_process k (f + 1) s cap = some (o, s1)) (ho : o.result ≠ .IECDEC_OK) :
    decodeDrain k cap (f + 1) s = some ([], o, s1) := by
  rw [decodeDrain, hp]
  simp only [ho, if_false]

/-- Draining a decoder whose work buffer is empty: one call, `FeedMoreData`. -/
theorem drain_idle (k : WireConsts) (cap f : Nat) (W fb : List Nat) (fp fm : Nat) (pcm : Int) :
    decodeDrain k cap (f + 1) (idleState W 0 fb fp fm pcm) =
      some ([], DecOut.mk .IECDEC_FEED_MORE_DATA [] 0 0 0 false, idleState W 0 fb fp fm pcm) :=
  drain_stop k cap f _ _ _ (process_feed_more k W fb fp fm pcm cap f) (by decide)

/-- Draining the sub-headers `i, .., i + cnt - 1` of a burst, none of them the last,
each with its AU whole in the burst: one `Ok` call per sub-header. -/
theorem drain_listed_run (k : WireConsts) (rc : Nat) (subs : List (Nat × Nat × Int))
    (payload fb : List Nat) (P fp : Nat) (pcm : Int) (pd cap : Nat)
    (hP : P = 4096 * 2 ^ (rc + 1)) (hrc : rc = 1 ∨ rc = 3) :
    ∀ (cnt i f : Nat) (os : List DecOut) (last : DecOut) (sf : DecState),
      i + cnt < subs.length →
      (∀ j, i ≤ j → j < i + cnt →
        (subs.getD j (0, 0, 0)).1 < 16777216 ∧ (subs.getD j (0, 0, 0)).2.1 < 16777216 ∧
        (subs.getD j (0, 0, 0)).2.1 ≤ cap ∧
        (subs.getD j (0, 0, 0)).1 + (subs.getD j (0, 0, 0)).2.1 ≤ IEC_HEADER_SIZE_BYTES + pd * 8) →
      decodeDrain k cap f
        (syncedState (hbrBurst k rc P subs payload) P fb fp 0 pcm rc pd subs.length (i + cnt)) =
          some (os, last, sf) →
      decodeDrain k cap (f + cnt)
        (syncedState (hbrBurst k rc P subs payload) P fb fp 0 pcm rc pd subs.length i) =
          some ((List.range' i cnt).map
            (fun j => listedOut (hbrBurst k rc P subs payload) subs.length (subs.getD j (0, 0, 0)) j)
              ++ os, last, sf) := by
  intro cnt
  induction cnt with
  | zero =>
    intro i f os last sf _ _ hd
    simpa using hd
  | succ c ih =>
    intro i f os last sf hlt hw hd
    have hi : i < subs.length := by omega
    have hget : subs[i]? = some (subs.getD i (0, 0, 0)) := by
      rw [List.getD_eq_getElem?_getD, List.getElem?_eq_getElem hi]; rfl
    obtain ⟨w1, w2, w3, w4⟩ := hw i (Nat.le_refl i) (by omega)
    have he := emitPayload_whole k rc subs payload fb P fp 0 pcm pd i cap
      (subs.getD i (0, 0, 0)) hP hrc hget w1 w2 w3 w4
    rw [if_neg (by omega)] at he
    have hrest := ih (i + 1) f os last sf (by omega)
      (fun j h1 h2 => hw j (by omega) (by omega))
      (by rw [show i + 1 + c = i + (c + 1) by omega]; exact hd)
    have hproc : iec61937_decode_process k (f + c + 1)
        (syncedState (hbrBurst k rc P subs payload) P fb fp 0 pcm rc pd subs.length i) cap =
        some (listedOut (hbrBurst k rc P subs payload) subs.length (subs.getD i (0, 0, 0)) i,
          syncedState (hbrBurst k rc P subs payload) P fb fp 0 pcm rc pd subs.length (i + 1)) := by
      rw [process_synced, processSynced_idle, he]
      rfl
    have := drain_cons k cap (f + c) _ _ sf _ last _ hproc rfl hrest
    rw [show f + (c + 1) = f + c + 1 by omega, this]
    simp [List.range'_succ]


/-- The last sub-header of a burst, its AU whole in the burst: the AU is returned, the
burst is done and the next call asks for data. -/
theorem drain_last_whole (k : WireConsts) (rc : Nat) (subs : List (Nat × Nat × Int))
    (payload fb : List Nat) (P fp : Nat) (pcm : Int) (pd cap i f : Nat) (s : Nat × Nat × Int)
    (hP : P = 4096 * 2 ^ (rc + 1)) (hrc : rc = 1 ∨ rc = 3)
    (hi : subs[i]? = some s) (hlast : i + 1 = subs.length)
    (h1 : s.1 < 16777216) (h2 : s.2.1 < 16777216)
    (hcap : s.2.1 ≤ cap) (hfit : s.1 + s.2.1 ≤ IEC_HEADER_SIZE_BYTES + pd * 8) :
    decodeDrain k cap (f + 2)
        (syncedState (hbrBurst k rc P subs payload) P fb fp 0 pcm rc pd subs.length i) =
      some ([listedOut (hbrBurst k rc P subs payload) subs.length s i], feedMoreOut,
        idleState (hbrBurst k rc P subs payload) 0 fb fp 0 pcm) := by
  have he := emitPayload_whole k rc subs payload fb P fp 0 pcm pd i cap s hP hrc hi h1 h2 hcap hfit
  rw [if_pos hlast] at he
  have hproc : iec61937_decode_process k (f + 1 + 1)
      (syncedState (hbrBurst k rc P subs payload) P fb fp 0 pcm rc pd subs.length i) cap =
      some (listedOut (hbrBurst k rc P subs payload) subs.length s i,
        idleState (hbrBurst k rc P subs payload) 0 fb fp 0 pcm) := by
    rw [process_synced, processSynced_idle, he]
    rfl
  exact drain_cons k cap (f + 1) _ _ _ _ _ _ hproc rfl (drain_idle k cap f _ _ _ _ _)

/-- The last sub-header of a burst, its AU cut at the end of the burst: the bytes in
the burst are kept as pending, the burst is done without output. -/
theorem drain_last_split (k : WireConsts) (rc : Nat) (subs : List (Nat × Nat × Int))
    (payload fb : List Nat) (P fp : Nat) (pcm : Int) (pd cap i f : Nat) (s : Nat × Nat × Int)
    (hP : P = 4096 * 2 ^ (rc + 1)) (hrc : rc = 1 ∨ rc = 3)
    (hi : subs[i]? = some s) (hlast : i + 1 = subs.length)
    (h1 : s.1 < 16777216) (h2 : s.2.1 < 16777216)
    (hcap : s.2.1 ≤ cap) (hoff : s.1 ≤ pd * 8) (hpd : pd * 8 ≤ 65536)
    (hfit : s.1 + s.2.1 > IEC_HEADER_SIZE_BYTES + pd * 8) :
    decodeDrain k cap (f + 2)
        (syncedState (hbrBurst k rc P subs payload) P fb fp 0 pcm rc pd subs.length i) =
      some ([doneOut], feedMoreOut,
        idleState (hbrBurst k rc P subs payload) 0
          (memWrite fb 0 (memRead (hbrBurst k rc P subs payload) s.1 (pd * 8 + 8 - s.1)))
          (pd * 8 + 8 - s.1) (s.1 + s.2.1 - (pd * 8 + 8)) (s.2.2 % 65536 - 1024)) := by
  have he := emitPayload_split k rc subs payload fb P fp 0 pcm pd i cap s hP hrc hi h1 h2 hcap
    hoff hpd hfit
  rw [if_pos hlast] at he
  have hproc : iec61937_decode_process k (f + 1 + 1)
      (syncedState (hbrBurst k rc P subs payload) P fb fp 0 pcm rc pd subs.length i) cap =
      some (doneOut,
        idleState (hbrBurst k rc P subs payload) 0
          (memWrite fb 0 (memRead (hbrBurst k rc P subs payload) s.1 (pd * 8 + 8 - s.1)))
          (pd * 8 + 8 - s.1) (s.1 + s.2.1 - (pd * 8 + 8)) (s.2.2 % 65536 - 1024)) := by
    rw [process_synced, processSynced_idle, he]
    simp only [hlast, decide_True]
    rfl
  exact drain_cons k cap (f + 1) _ _ _ _ _ _ hproc rfl (drain_idle k cap f _ _ _ _ _)

/-- A burst without sub-headers and no AU pending: one `Ok` call without output. -/
theorem drain_empty (k : WireConsts) (W fb : List Nat) (P fp : Nat) (pcm : Int) (rc pd cap f : Nat)
    (hP : P = 4096 * 2 ^ (rc + 1)) (hrc : rc = 1 ∨ rc = 3) :
    decodeDrain k cap (f + 2) (syncedState W P fb fp 0 pcm rc pd 0 0) =
      some ([doneOut], feedMoreOut, idleState W 0 fb fp 0 pcm) := by
  have hproc : iec61937_decode_process k (f + 1 + 1) (syncedState W P fb fp 0 pcm rc pd 0 0) cap =
      some (doneOut, idleState W 0 fb fp 0 pcm) := by
    rw [process_synced, processSynced_idle, emitPayload_none W fb P fp 0 pcm rc pd cap hP hrc]
    rfl
  exact drain_cons k cap (f + 1) _ _ _ _ _ _ hproc rfl (drain_idle k cap f _ _ _ _ _)

/-- A burst without sub-headers whose payload does not complete the pending AU. -/
theorem drain_more (k : WireConsts) (W fb : List Nat) (P fp fm : Nat) (pcm : Int) (rc pd cap f : Nat)
    (hP : P = 4096 * 2 ^ (rc + 1)) (hrc : rc = 1 ∨ rc = 3)
    (hpd1 : 1 ≤ pd) (hpd : pd * 8 ≤ 65536) (hfp : fp ≤ 16777216) (hfm : fm ≤ 16777216)
    (hmore : fm > pd * 8 - 8) :
    decodeDrain k cap (f + 2) (syncedState W P fb fp fm pcm rc pd 0 0) =
      some ([doneOut], feedMoreOut,
        idleState W 0 (memWrite fb fp (memRead W 16 (pd * 8 - 8))) (fp + (pd * 8 - 8))
          (fm - (pd * 8 - 8)) (pcm - 1024)) := by
  have hproc : iec61937_decode_process k (f + 1 + 1) (syncedState W P fb fp fm pcm rc pd 0 0) cap =
      some (doneOut,
        idleState W 0 (memWrite fb fp (memRead W 16 (pd * 8 - 8))) (fp + (pd * 8 - 8))
          (fm - (pd * 8 - 8)) (pcm - 1024)) := by
    rw [process_synced, processSynced_more W fb P fp fm pcm rc pd cap hP hrc hpd1 hpd hfp hfm hmore]
    rfl
  exact drain_cons k cap (f + 1) _ _ _ _ _ _ hproc rfl (drain_idle k cap f _ _ _ _ _)

/-- A burst without sub-headers whose payload is the missing part of the pending AU:
the AU, then an `Ok` call without output that finishes the burst. -/
theorem drain_complete (k : WireConsts) (W fb : List Nat) (P fp fm : Nat) (pcm : Int)
    (rc pd cap f : Nat) (hP : P = 4096 * 2 ^ (rc + 1)) (hrc : rc = 1 ∨ rc = 3)
    (hpd1 : 1 ≤ pd) (hpd : pd * 8 ≤ 65536) (hfp : fp ≤ 16777216)
    (hfm0 : 0 < fm) (hfm : fm = pd * 8 - 8) (hcap : fp + fm ≤ cap) :
    decodeDrain k cap (f + 3) (syncedState W P fb fp fm pcm rc pd 0 0) =
      some ([DecOut.mk .IECDEC_OK (memRead fb 0 fp ++ memRead W 16 fm) (fp + fm) pcm 1024 false,
          doneOut], feedMoreOut, idleState W 0 fb 0 0 0) := by
  have hproc : iec61937_decode_process k (f + 2 + 1) (syncedState W P fb fp fm pcm rc pd 0 0) cap =
      some (DecOut.mk .IECDEC_OK (memRead fb 0 fp ++ memRead W 16 fm) (fp + fm) pcm 1024 false,
        syncedState W P fb 0 0 0 rc pd 0 0) := by
    rw [process_synced, processSynced_complete W fb P fp fm pcm rc pd cap hpd1 hpd hfp hfm0 hfm hcap]
  exact drain_cons k cap (f + 2) _ _ _ _ _ _ hproc rfl (drain_empty k W fb P 0 0 rc pd cap f hP hrc)

/-- The first call on a freshly fed burst finds the sync and goes on as a call on the
synchronised state does. -/
theorem drain_first (k : WireConsts) (rc : Nat) (subs : List (Nat × Nat × Int))
    (payload fb : List Nat) (fp fm : Nat) (pcm : Int) (cap f : Nat)
    (hrc : rc = 1 ∨ rc = 3)
    (hpd : pdField subs.length payload.length * 8 + 8 + k.IEC_BURST_SPACING_SIZE_BYTES ≤
      4096 * 2 ^ (rc + 1))
    (hroom : 8 + (subs.length + 1) * 8 + payload.length + k.IEC_BURST_SPACING_SIZE_BYTES ≤
      4096 * 2 ^ (rc + 1))
    (hchain : subsChain 0 subs)
    (hoff : ∀ s, s ∈ subs → s.1 ≤ pdField subs.length payload.length * 8)
    (hfirst : ∀ s, subs.head? = some s → 8 * (subs.length + 1) + 8 + fm ≤ s.1)
    (hfm : fm ≤ 16777216) :
    decodeDrain k cap (f + 2)
      (idleState (hbrBurst k rc (4096 * 2 ^ (rc + 1)) subs payload) (4096 * 2 ^ (rc + 1))
        fb fp fm pcm) =
    decodeDrain k cap (f + 2)
      (syncedState (hbrBurst k rc (4096 * 2 ^ (rc + 1)) subs payload) (4096 * 2 ^ (rc + 1))
        fb fp fm pcm rc (pdField subs.length payload.length) subs.length 0) := by
  rw [decodeDrain, decodeDrain,
    process_first k rc subs payload fb fp fm pcm cap f hrc hpd hroom hchain hoff hfirst hfm,
    process_synced]


/-- A burst with sub-headers that begins with the missing part of the pending AU: the
AU first, then the sub-headers. -/
theorem drain_join (k : WireConsts) (rc : Nat) (subs : List (Nat × Nat × Int))
    (payload fb : List Nat) (P fp fm : Nat) (pcm : Int) (pd cap f : Nat) (s : Nat × Nat × Int)
    (os : List DecOut) (last : DecOut) (sf : DecState)
    (h0 : subs[0]? = some s) (h1 : s.1 < 16777216) (h2 : s.2.1 < 16777216)
    (hfp : fp ≤ 16777216) (hfm0 : 0 < fm) (hfm : fm ≤ s.1) (hcap : fp + fm ≤ cap)
    (hd : decodeDrain k cap f
      (syncedState (hbrBurst k rc P subs payload) P fb 0 0 0 rc pd subs.length 0) =
        some (os, last, sf)) :
    decodeDrain k cap (f + 1)
        (syncedState (hbrBurst k rc P subs payload) P fb fp fm pcm rc pd subs.length 0) =
      some (DecOut.mk .IECDEC_OK
          (memRead fb 0 fp ++ memRead (hbrBurst k rc P subs payload) (s.1 - fm) fm)
          (fp + fm) pcm 1024 false :: os, last, sf) := by
  have hproc : iec61937_decode_process k (f + 1)
      (syncedState (hbrBurst k rc P subs payload) P fb fp fm pcm rc pd subs.length 0) cap =
      some (DecOut.mk .IECDEC_OK
          (memRead fb 0 fp ++ memRead (hbrBurst k rc P subs payload) (s.1 - fm) fm)
          (fp + fm) pcm 1024 false,
        syncedState (hbrBurst k rc P subs payload) P fb 0 0 0 rc pd subs.length 0) := by
    rw [process_synced, processSynced_join k rc subs payload fb P fp fm pcm pd cap s h0 h1 h2 hfp
      hfm0 hfm hcap]
  exact drain_cons k cap f _ _ _ _ _ _ hproc rfl hd

/-! ## Encoder: further facts about single calls -/

theorem emitBurst_result (k : WireConsts) (h : EncState) (nb : Nat) (c : Bool) :
    (emitBurst k h nb c).1.result = .IECENC_OK := rfl

theorem emitBurst_consumed (k : WireConsts) (h : EncState) (nb : Nat) (c : Bool) :
    (emitBurst k h nb c).1.inputBufferProcessed = c := rfl

theorem emitBurst_duration (k : WireConsts) (h : EncState) (nb : Nat) (c : Bool) :
    (emitBurst k h nb c).2.overallDuration = h.overallDuration - h.audioFrameLength := rfl

theorem memRead_memWrite_same (a : List Nat) (off : Nat) (d : List Nat) :
    memRead (memWrite a off d) off d.length = d := by
  have h0 : memRead d 0 d.length = d := memRead_all d
  refine Eq.trans ?_ h0
  apply memRead_congr
  intro j hj
  rw [peek_memWrite, if_neg (by omega), if_pos (by omega)]
  congr 1
  omega

theorem memRead_memWrite_below (a : List Nat) (off : Nat) (d : List Nat) (p n : Nat)
    (h : p + n ≤ off) : memRead (memWrite a off d) p n = memRead a p n := by
  apply memRead_congr
  intro j hj
  rw [peek_memWrite, if_pos (by omega)]
/-! ## Decoder: error results -/

theorem emitPayload_error (h : DecState) (cap : Nat) :
    (emitPayload h cap).1.result ≠ .IECDEC_OK → NoOutput (emitPayload h cap).1 := by
  unfold emitPayload
  simp only []
  split
  · intro _; exact ⟨rfl, rfl, rfl, rfl⟩
  · split <;> intro hne <;> exact absurd rfl hne

theorem processSynced_error (h : DecState) (cap : Nat) :
    (processSynced h cap).1.result ≠ .IECDEC_OK → NoOutput (processSynced h cap).1 := by
  unfold processSynced
  simp only []
  split
  · split
    · split
      · exact emitPayload_error _ _
      · split
        · intro _; exact ⟨rfl, rfl, rfl, rfl⟩
        · split
          · intro _; exact ⟨rfl, rfl, rfl, rfl⟩
          · intro hne; exact absurd rfl hne
    · split
      · intro _; exact ⟨rfl, rfl, rfl, rfl⟩
      · split
        · intro _; exact ⟨rfl, rfl, rfl, rfl⟩
        · intro hne; exact absurd rfl hne
  · exact emitPayload_error _ _

theorem process_of_sync (k : WireConsts) (h : DecState) (cap fuel : Nat)
    (hs : h.syncFound = true) :
    iec61937_decode_process k (fuel + 1) h cap = some (processSynced h cap) := by
  unfold iec61937_decode_process
  rw [syncLoop, if_neg (by rw [hs]; simp)]
  simp only [hs, Bool.not_true, Bool.false_eq_true, if_false]

theorem processSynced_of_idle (h : DecState) (cap : Nat) (hfm : h.frameBytesMissing = 0) :
    processSynced h cap = emitPayload h cap := by
  unfold processSynced
  rw [if_neg (by omega)]

/-- The next sub-header's AU does not fit the caller's buffer: `IECDEC_BUFFER_ERROR`,
the state is left as it is. -/
theorem emitPayload_small (h : DecState) (cap : Nat)
    (hidx : h.payloadHeaderIndex < h.numPayloadHeaders)
    (hbig : (parsePayloadHeader h (h.syncCandidateIndex + IEC_HEADER_SIZE_BYTES +
      h.payloadHeaderIndex * h.payloadHeaderSize)).2.1 > cap) :
    emitPayload h cap = (DecOut.mk .IECDEC_BUFFER_ERROR [] 0 0 h.frameLength false, h) := by
  unfold emitPayload
  simp only []
  rw [if_pos hidx, if_pos hbig]

/-- The first burst of a split AU offered to a caller whose buffer is smaller than the
AU: the call that finds the sync and every later call with that capacity return
`IECDEC_BUFFER_ERROR` and keep the decoder on the sub-header; a call with enough
capacity then returns `IECDEC_OK` without output (the AU is kept as pending). -/
theorem decode_split_small_cap (k : WireConsts) (au : List Nat) (A r cap cap2 fuel : Nat)
    (hA : A + k.IEC_BURST_SPACING_SIZE_BYTES = 16360) (hAge : 8000 ≤ A) (hA8 : A % 8 = 0)
    (hlen : au.length = A + r) (hr1 : 1 ≤ r) (hr : r ≤ 8000)
    (hcap : cap < au.length) (hcap2 : au.length ≤ cap2) :
    iec61937_decode_process k (fuel + 2)
        (iec61937_decode_feed iec61937_decode_open
          (hbrBurst k 1 16384 [(24, au.length, 0)] (au.take A))).2 cap =
      some (DecOut.mk .IECDEC_BUFFER_ERROR [] 0 0 1024 false,
        syncedState (hbrBurst k 1 16384 [(24, au.length, 0)] (au.take A)) 16384 [] 0 0 0 1
          (pdField [(24, au.length, (0 : Int))].length (au.take A).length) 1 0) ∧
    (parsePayloadHeader
        (syncedState (hbrBurst k 1 16384 [(24, au.length, 0)] (au.take A)) 16384 [] 0 0 0 1
          (pdField [(24, au.length, (0 : Int))].length (au.take A).length) 1 0)
        ((syncedState (hbrBurst k 1 16384 [(24, au.length, 0)] (au.take A)) 16384 [] 0 0 0 1
          (pdField [(24, au.length, (0 : Int))].length (au.take A).length) 1 0).syncCandidateIndex +
          IEC_HEADER_SIZE_BYTES +
          (syncedState (hbrBurst k 1 16384 [(24, au.length, 0)] (au.take A)) 16384 [] 0 0 0 1
          (pdField [(24, au.length, (0 : Int))].length (au.take A).length) 1 0).payloadHeaderIndex *
          (syncedState (hbrBurst k 1 16384 [(24, au.length, 0)] (au.take A)) 16384 [] 0 0 0 1
          (pdField [(24, au.length, (0 : Int))].length (au.take A).length) 1 0).payloadHeaderSize)).2.1 =
      A + r ∧
    iec61937_decode_process k (fuel + 1)
        (syncedState (hbrBurst k 1 16384 [(24, au.length, 0)] (au.take A)) 16384 [] 0 0 0 1
          (pdField [(24, au.length, (0 : Int))].length (au.take A).length) 1 0) cap =
      some (DecOut.mk .IECDEC_BUFFER_ERROR [] 0 0 1024 false,
        syncedState (hbrBurst k 1 16384 [(24, au.length, 0)] (au.take A)) 16384 [] 0 0 0 1
          (pdField [(24, au.length, (0 : Int))].length (au.take A).length) 1 0) ∧
    (iec61937_decode_process k (fuel + 1)
        (syncedState (hbrBurst k 1 16384 [(24, au.length, 0)] (au.take A)) 16384 [] 0 0 0 1
          (pdField [(24, au.length, (0 : Int))].length (au.take A).length) 1 0) cap2).map Prod.fst =
      some (DecOut.mk .IECDEC_OK [] 0 0 1024 true) := by
  have htake : (au.take A).length = A := by rw [List.length_take]; omega
  have hpd1 : pdField [(24, au.length, (0 : Int))].length (au.take A).length * 8 = A + 16 := by
    rw [htake]; show (A + (1 + 1) * 8 + 7) / 8 * 8 = _; omega
  have hB1len : (hbrBurst k 1 16384 [(24, au.length, 0)] (au.take A)).length = 16384 :=
    hbrBurst_length k 1 16384 _ _ (by rw [htake]; show 8 + (1 + 1) * 8 + A ≤ 16384; omega)
  have hp1 := process_first k 1 [(24, au.length, 0)] (au.take A) [] 0 0 0 cap fuel (Or.inl rfl)
    (by rw [hpd1]; show A + 16 + 8 + _ ≤ 16384; omega)
    (by rw [htake]; show 8 + (1 + 1) * 8 + A + _ ≤ 16384; omega)
    ⟨by show 0 < 24; decide, by show 24 < 16777216; decide, by show 1 ≤ au.length; omega,
      by show au.length < 16777216; omega, trivial⟩
    (by intro s hs; rw [hpd1]; simp at hs; subst hs; show 24 ≤ A + 16; omega)
    (by intro s hs; simp at hs; subst hs; show 8 * (1 + 1) + 8 + 0 ≤ 24; decide)
    (by decide)
  have hparse := parse_synced k 1 [(24, au.length, 0)] (au.take A) [] 16384 16384 0 0 0
    (pdField [(24, au.length, (0 : Int))].length (au.take A).length) 1 0 0 (24, au.length, 0) rfl
    (by show 24 < 16777216; decide) (by show au.length < 16777216; omega)
  have hsmall := emitPayload_small
    (syncedState (hbrBurst k 1 16384 [(24, au.length, 0)] (au.take A)) 16384 [] 0 0 0 1
      (pdField [(24, au.length, (0 : Int))].length (au.take A).length) 1 0) cap
    (by show 0 < 1; decide)
    (by
      show (parsePayloadHeader _ (0 + IEC_HEADER_SIZE_BYTES + 0 * 8)).2.1 > cap
      rw [hparse]; exact hcap)
  have he1 := emitPayload_split k 1 [(24, au.length, 0)] (au.take A) [] 16384 0 0 0
    (pdField [(24, au.length, (0 : Int))].length (au.take A).length) 0 cap2 (24, au.length, 0)
    rfl (Or.inl rfl) rfl (by show 24 < 16777216; decide) (by show au.length < 16777216; omega)
    (by show au.length ≤ cap2; omega) (by rw [hpd1]; show 24 ≤ A + 16; omega) (by omega)
    (by rw [hpd1]; show 24 + au.length > IEC_HEADER_SIZE_BYTES + (A + 16)
        unfold IEC_HEADER_SIZE_BYTES; omega)
  have hf1 := feed_open (hbrBurst k 1 16384 [(24, au.length, 0)] (au.take A))
    (by rw [hB1len]; decide)
  rw [hB1len] at hf1
  refine ⟨?_, ?_, ?_, ?_⟩
  · rw [hf1]
    exact hp1.trans (by rw [processSynced_idle]; exact congrArg some hsmall)
  · show (parsePayloadHeader _ (0 + IEC_HEADER_SIZE_BYTES + 0 * 8)).2.1 = _
    rw [hparse]
    exact hlen
  · rw [process_synced, processSynced_idle]
    exact congrArg some hsmall
  · rw [process_synced, processSynced_idle]
    exact (congrArg (fun x => Option.map Prod.fst (some x)) he1).trans rfl
/-! ## Accepted calls, scenario S3 and the frame length table -/

/-- A pending AU is a stored frame, so the selection loop takes at least one. -/
theorem pending_selected (k : WireConsts) (h : EncState) (hi : EncInv h)
    (hsp : k.IEC_BURST_SPACING_SIZE_BYTES ≤ 16320) :
    h.auPending = true → 1 ≤ getNumBuffersToWrite k h := fun hp =>
  getNumBuffersToWrite_pos k h (availableBytes_pos k h hi hsp) hi.dur (hi.pend hp)


theorem memWrite_append (a d : List Nat) : memWrite a a.length d = a ++ d := by
  rw [memWrite_of_le _ (Nat.le_refl _)]
  simp

/-- A non-empty AU offered with valid arguments to an encoder that is not due to emit,
with a free table entry and room in the work buffer: it is stored, and a burst is
emitted exactly when the accumulated duration has reached 1024. -/
theorem accept_call (k : WireConsts) (h : EncState) (au : List Nat) (duration cap : Nat)
    (hi : EncInv h) (hsp : k.IEC_BURST_SPACING_SIZE_BYTES ≤ 16320)
    (hau : au ≠ []) (hcap : ¬ cap < h.burstRepetitionPeriod) (hd : duration ≤ 4096)
    (hov : h.overallDuration < h.audioFrameLength)
    (hfree : h.framesStoredCount < 4)
    (hroom : h.pWorkBufferWrite + au.length ≤ ENC_WORKBUFFER_SIZE_BYTES) :
    EncInv (storeFrame h au duration) ∧
    1 ≤ getNumBuffersToWrite k (storeFrame h au duration) ∧
    iec61937_encode_process k h au duration cap =
      if h.overallDuration + duration < 1024 then
        (EncOut.mk .IECENC_OK true [] 0, storeFrame h au duration)
      else emitBurst k (storeFrame h au duration)
        (getNumBuffersToWrite k (storeFrame h au duration)) true := by
  have hlen : au.length ≠ 0 := by
    cases au with
    | nil => exact absurd rfl hau
    | cons a t => simp
  have hsf : EncInv (storeFrame h au duration) :=
    storeFrame_inv h au duration hi hau (by unfold MAX_NUM_MPEGH_FRAMES; omega) (by omega)
  have hnb : 1 ≤ getNumBuffersToWrite k (storeFrame h au duration) :=
    getNumBuffersToWrite_pos k _ (availableBytes_pos k _ hsf hsp) hsf.dur
      (by show 1 ≤ h.framesStoredCount + 1; omega)
  refine ⟨hsf, hnb, ?_⟩
  rw [encode_process_eq, if_neg hcap, if_neg (by unfold MAX_MPEGH_FRAME_DURATION; omega),
    if_pos (by rw [if_neg (by omega)]; exact hlen),
    if_neg (by unfold MAX_NUM_MPEGH_FRAMES; omega), if_neg (by omega)]
  have e1 : (storeFrame h au duration).overallDuration = h.overallDuration + duration := rfl
  have e2 : (storeFrame h au duration).audioFrameLength = 1024 := hsf.afl
  rw [e1, e2]
  by_cases hlt : h.overallDuration + (duration : Int) < 1024
  · rw [if_pos (Or.inl hlt), if_pos hlt]
  · rw [if_neg (by intro hc; rcases hc with hc | hc <;> omega), if_neg hlt]


/-- Scenario S3, call by call: a factor-16 encoder given four AUs of 500 bytes with
duration 256 stores the first three and emits, with the fourth, one burst that lists
all four in order. -/
theorem s3_calls (k : WireConsts) (hsp : k.IEC_BURST_SPACING_SIZE_BYTES ≤ 16320)
    (a1 a2 a3 a4 : List Nat) (h1 : a1.length = 500) (h2 : a2.length = 500)
    (h3 : a3.length = 500) (h4 : a4.length = 500) (cap : Nat) (hcap : 65536 ≤ cap) :
    iec61937_encode_process k (encInit 1 3) a1 256 cap =
      (EncOut.mk .IECENC_OK true [] 0, storeFrame (encInit 1 3) a1 256) ∧
    iec61937_encode_process k (storeFrame (encInit 1 3) a1 256) a2 256 cap =
      (EncOut.mk .IECENC_OK true [] 0, storeFrame (storeFrame (encInit 1 3) a1 256) a2 256) ∧
    iec61937_encode_process k (storeFrame (storeFrame (encInit 1 3) a1 256) a2 256) a3 256 cap =
      (EncOut.mk .IECENC_OK true [] 0,
        storeFrame (storeFrame (storeFrame (encInit 1 3) a1 256) a2 256) a3 256) ∧
    (iec61937_encode_process k
        (storeFrame (storeFrame (storeFrame (encInit 1 3) a1 256) a2 256) a3 256) a4 256 cap).1 =
      EncOut.mk .IECENC_OK true
        (hbrBurst k 3 65536 [(48, 500, 0), (548, 500, 256), (1048, 500, 512), (1548, 500, 768)]
          (a1 ++ a2 ++ a3 ++ a4)) 65536 := by
  have n1 : a1 ≠ [] := by intro h; rw [h] at h1; cases h1
  have n2 : a2 ≠ [] := by intro h; rw [h] at h2; cases h2
  have n3 : a3 ≠ [] := by intro h; rw [h] at h3; cases h3
  have n4 : a4 ≠ [] := by intro h; rw [h] at h4; cases h4
  have i0 := encInit_inv 3 (Or.inr rfl)
  obtain ⟨i1, _, c1⟩ := accept_call k (encInit 1 3) a1 256 cap i0 hsp n1
    (by show ¬ cap < 65536; omega) (by decide) (by decide) (by decide)
    (by show 0 + a1.length ≤ ENC_WORKBUFFER_SIZE_BYTES; rw [h1]; decide)
  rw [if_pos (by decide)] at c1
  obtain ⟨i2, _, c2⟩ := accept_call k (storeFrame (encInit 1 3) a1 256) a2 256 cap i1 hsp n2
    (by show ¬ cap < 65536; omega) (by decide)
    (by show (0 : Int) + ((256 : Nat) : Int) < IEC61937_AUDIOFRAME_LENGTH; decide)
    (by show 0 + 1 < 4; decide)
    (by show 0 + a1.length + a2.length ≤ ENC_WORKBUFFER_SIZE_BYTES; rw [h1, h2]; decide)
  rw [if_pos (by show (0 : Int) + ((256 : Nat) : Int) + ((256 : Nat) : Int) < 1024; decide)] at c2
  obtain ⟨i3, _, c3⟩ := accept_call k (storeFrame (storeFrame (encInit 1 3) a1 256) a2 256)
    a3 256 cap i2 hsp n3
    (by show ¬ cap < 65536; omega) (by decide)
    (by show (0 : Int) + ((256 : Nat) : Int) + ((256 : Nat) : Int) < IEC61937_AUDIOFRAME_LENGTH; decide)
    (by show 0 + 1 + 1 < 4; decide)
    (by show 0 + a1.length + a2.length + a3.length ≤ ENC_WORKBUFFER_SIZE_BYTES
        rw [h1, h2, h3]; decide)
  rw [if_pos (by
    show (0 : Int) + ((256 : Nat) : Int) + ((256 : Nat) : Int) + ((256 : Nat) : Int) < 1024
    decide)] at c3
  obtain ⟨i4, hnb1, c4⟩ := accept_call k
    (storeFrame (storeFrame (storeFrame (encInit 1 3) a1 256) a2 256) a3 256) a4 256 cap i3 hsp n4
    (by show ¬ cap < 65536; omega) (by decide)
    (by
      show (0 : Int) + ((256 : Nat) : Int) + ((256 : Nat) : Int) + ((256 : Nat) : Int) <
        IEC61937_AUDIOFRAME_LENGTH
      decide)
    (by show 0 + 1 + 1 + 1 < 4; decide)
    (by show 0 + a1.length + a2.length + a3.length + a4.length ≤ ENC_WORKBUFFER_SIZE_BYTES
        rw [h1, h2, h3, h4]; decide)
  rw [if_neg (by
    show ¬ ((0 : Int) + ((256 : Nat) : Int) + ((256 : Nat) : Int) + ((256 : Nat) : Int) +
      ((256 : Nat) : Int) < 1024)
    decide)] at c4
  refine ⟨c1, c2, c3, ?_⟩
  rw [c4]
  generalize hs4 : storeFrame (storeFrame (storeFrame (storeFrame (encInit 1 3) a1 256) a2 256)
    a3 256) a4 256 = s4 at *
  have e_fl : s4.frameLength = [500, 500, 500, 500, 0] := by
    rw [← hs4]
    show ((((List.replicate 5 0).set 0 a1.length).set (0 + 1) a2.length).set (0 + 1 + 1)
      a3.length).set (0 + 1 + 1 + 1) a4.length = _
    rw [h1, h2, h3, h4]; rfl
  have e_fd : s4.frameDuration = [256, 256, 256, 256, 0] := by rw [← hs4]; rfl
  have e_cnt : s4.framesStoredCount = 4 := by rw [← hs4]; rfl
  have e_rf : s4.rateFactor = 3 := by rw [← hs4]; rfl
  have e_P : s4.burstRepetitionPeriod = 65536 := by rw [← hs4]; rfl
  have e_pend : s4.auPending = false := by rw [← hs4]; rfl
  have e_pcm : s4.pcmOffset = 0 := by rw [← hs4]; rfl
  have e_ov : s4.overallDuration = 1024 := by rw [← hs4]; rfl
  have e_hs : s4.payloadHeaderSize = 8 := i4.hs
  have e_wb : s4.workBuffer = a1 ++ a2 ++ a3 ++ a4 := by
    rw [← hs4]
    show memWrite (memWrite (memWrite (memWrite [] 0 a1) (0 + a1.length) a2)
      (0 + a1.length + a2.length) a3) (0 + a1.length + a2.length + a3.length) a4 = _
    rw [memWrite_nil, Nat.zero_add, memWrite_append,
      show a1.length + a2.length = (a1 ++ a2).length by simp, memWrite_append,
      show (a1 ++ a2).length + a3.length = (a1 ++ a2 ++ a3).length by simp [Nat.add_assoc], memWrite_append]
  have e_av : availableBytes k s4 = 65520 - k.IEC_BURST_SPACING_SIZE_BYTES := by
    rw [availableBytes_eq k s4 i4 hsp, e_P, e_pend]
    simp only [Bool.false_eq_true, if_false]
    omega
  have e_nb : getNumBuffersToWrite k s4 = 4 := by
    unfold getNumBuffersToWrite
    rw [e_cnt, e_av]
    simp only [getNumBuffersLoop, e_fl, e_fd, e_cnt, e_ov, e_hs]
    have u1 : u32 (0 + (peek [500, 500, 500, 500, 0] 0 + 8)) = 508 := rfl
    have u2 : u32 (508 + (peek [500, 500, 500, 500, 0] (0 + 1) + 8)) = 1016 := rfl
    have u3 : u32 (1016 + (peek [500, 500, 500, 500, 0] (0 + 1 + 1) + 8)) = 1524 := rfl
    have v1 : (0 : Int) + ((peek [256, 256, 256, 256, 0] 0 : Nat) : Int) = 256 := rfl
    have v2 : (256 : Int) + ((peek [256, 256, 256, 256, 0] (0 + 1) : Nat) : Int) = 512 := rfl
    have v3 : (512 : Int) + ((peek [256, 256, 256, 256, 0] (0 + 1 + 1) : Nat) : Int) = 768 := rfl
    rw [if_pos ⟨by omega, by decide, by decide⟩, u1, v1,
      if_pos ⟨by omega, by decide, by decide⟩, u2, v2,
      if_pos ⟨by omega, by decide, by decide⟩, u3, v3,
      if_pos ⟨by omega, by decide, by decide⟩]
  have e_A : numAvailableBytes k s4 4 = 65488 - k.IEC_BURST_SPACING_SIZE_BYTES := by
    rw [numAvailableBytes_eq k s4 i4 hsp 4 (by omega), e_P, e_pend]
    simp only [Bool.false_eq_true, if_false]
    omega
  rw [e_nb, emitBurst_output k s4 4 true i4 hsp (by omega) (fun hp => by rw [e_pend] at hp; cases hp),
    e_rf, e_P, e_pend, e_fl, e_fd, e_pcm, e_wb, e_A]
  simp only [Bool.false_eq_true, if_false, Nat.sub_zero, Nat.add_zero]
  have e_sum : psum [500, 500, 500, 500, 0] 4 = 2000 := rfl
  have e_min : min 2000 (65488 - k.IEC_BURST_SPACING_SIZE_BYTES) = 2000 := by omega
  have e_len : (a1 ++ a2 ++ a3 ++ a4).length = 2000 := by
    simp only [List.length_append, h1, h2, h3, h4]
  have e_rd : memRead (a1 ++ a2 ++ a3 ++ a4) 0 2000 = a1 ++ a2 ++ a3 ++ a4 := by
    rw [← e_len]; exact memRead_all _
  rw [e_sum, e_min, e_rd]
  rfl



theorem frameLengthOfCode_table (c : Nat) :
    frameLengthOfCode c = [1024, 2048, 4096, 768, 1536, 3072].getD c 0 := by
  rcases c with _ | _ | _ | _ | _ | _ | c
  · rfl
  · rfl
  · rfl
  · rfl
  · rfl
  · rfl
  · unfold frameLengthOfCode
    simp

theorem frameLength_table_cases (c : Nat) (hc : c ≤ 5) :
    [1024, 2048, 4096, 768, 1536, 3072].getD c 0 = 1024 ∨
    [1024, 2048, 4096, 768, 1536, 3072].getD c 0 = 2048 ∨
    [1024, 2048, 4096, 768, 1536, 3072].getD c 0 = 4096 ∨
    [1024, 2048, 4096, 768, 1536, 3072].getD c 0 = 768 ∨
    [1024, 2048, 4096, 768, 1536, 3072].getD c 0 = 1536 ∨
    [1024, 2048, 4096, 768, 1536, 3072].getD c 0 = 3072 := by
  rcases c with _ | _ | _ | _ | _ | _ | c
  · simp
  · simp
  · simp
  · simp
  · simp
  · simp
  · omega

/-! ## Round trip: lists of results and reads of moved buffers -/

theorem ausOf_nil : ausOf [] = [] := rfl

theorem ausOf_append (a b : List DecOut) : ausOf (a ++ b) = ausOf a ++ ausOf b := by
  unfold ausOf
  rw [List.filter_append, List.map_append]

theorem ausOf_cons_pos (o : DecOut) (os : List DecOut) (h : o.outputBufferLength ≠ 0) :
    ausOf (o :: os) = o.outputBuffer :: ausOf os := by
  unfold ausOf
  rw [List.filter_cons_of_pos (by simpa using h), List.map_cons]

theorem ausOf_cons_zero (o : DecOut) (os : List DecOut) (h : o.outputBufferLength = 0) :
    ausOf (o :: os) = ausOf os := by
  unfold ausOf
  rw [List.filter_cons_of_neg (by simpa using h)]

theorem ausOf_map (l : List Nat) (g : Nat → DecOut)
    (h : ∀ j, j ∈ l → (g j).outputBufferLength ≠ 0) :
    ausOf (l.map g) = l.map (fun j => (g j).outputBuffer) := by
  induction l with
  | nil => rfl
  | cons a t ih =>
    rw [List.map_cons, ausOf_cons_pos _ _ (h a (List.mem_cons_self _ _)),
      ih (fun j hj => h j (List.mem_cons_of_mem _ hj)), List.map_cons]

theorem memRead_add (a : List Nat) (off n1 n2 : Nat) :
    memRead a off (n1 + n2) = memRead a off n1 ++ memRead a (off + n1) n2 := by
  apply List.ext_getElem
  · simp [memRead_length]
  · intro i h1 h2
    rw [memRead_length] at h1
    rw [← peek_eq_getElem _ _ (by rw [memRead_length]; exact h1), ← peek_eq_getElem _ _ h2,
      peek_memRead h1]
    by_cases hi : i < n1
    · rw [peek_append_left (by rw [memRead_length]; exact hi), peek_memRead hi]
    · rw [peek_append_right (by rw [memRead_length]; omega), memRead_length,
        peek_memRead (by omega)]
      congr 1
      omega

theorem memRead_memWrite_prefix (fb : List Nat) (fp : Nat) (d : List Nat) :
    memRead (memWrite fb fp d) 0 (fp + d.length) = memRead fb 0 fp ++ d := by
  rw [memRead_add, Nat.zero_add, memRead_memWrite_same]
  congr 1
  exact memRead_memWrite_below fb fp d 0 fp (by omega)

theorem memRead_memRead (wb : List Nat) (m a len : Nat) (h : a + len ≤ m) :
    memRead (memRead wb 0 m) a len = memRead wb a len := by
  apply memRead_congr
  intro j hj
  rw [peek_memRead (by omega), Nat.zero_add]

theorem memRead_memMove (wb : List Nat) (src n a len : Nat) (h : a + len ≤ n) :
    memRead (memMove wb 0 src n) a len = memRead wb (src + a) len := by
  apply memRead_congr
  intro j hj
  rw [peek_memMove_zero, if_pos (by omega), Nat.add_assoc]

/-- The sub-headers of a burst, all but the last one, as AUs: what `drain_listed_run`
returns for them. -/
theorem ausOf_listed (W : List Nat) (subs : List (Nat × Nat × Int)) (cnt : Nat)
    (hb : ∀ j, j < cnt → 1 ≤ (subs.getD j (0, 0, 0)).2.1) :
    ausOf ((List.range' 0 cnt).map
      (fun j => listedOut W subs.length (subs.getD j (0, 0, 0)) j)) =
    (List.range cnt).map
      (fun j => memRead W (subs.getD j (0, 0, 0)).1 (subs.getD j (0, 0, 0)).2.1) := by
  rw [ausOf_map, List.range_eq_range']
  · rfl
  · intro j hj
    have hj2 : j < cnt := by
      have := List.mem_range'_1.mp hj
      omega
    have := hb j hj2
    show (subs.getD j (0, 0, 0)).2.1 ≠ 0
    omega

/-- A burst whose AUs all lie whole in it, drained from the first sub-header on: one
call per AU, then the call that asks for data. -/
theorem drain_listed_whole (k : WireConsts) (rc : Nat) (subs : List (Nat × Nat × Int))
    (payload fb : List Nat) (P fp : Nat) (pcm : Int) (pd cap f : Nat)
    (hP : P = 4096 * 2 ^ (rc + 1)) (hrc : rc = 1 ∨ rc = 3) (hn : 1 ≤ subs.length)
    (hb : ∀ j, j < subs.length →
      (subs.getD j (0, 0, 0)).1 < 16777216 ∧ (subs.getD j (0, 0, 0)).2.1 < 16777216 ∧
      1 ≤ (subs.getD j (0, 0, 0)).2.1 ∧ (subs.getD j (0, 0, 0)).2.1 ≤ cap ∧
      (subs.getD j (0, 0, 0)).1 + (subs.getD j (0, 0, 0)).2.1 ≤ IEC_HEADER_SIZE_BYTES + pd * 8) :
    ∃ os, decodeDrain k cap (f + subs.length + 1)
        (syncedState (hbrBurst k rc P subs payload) P fb fp 0 pcm rc pd subs.length 0) =
      some (os, feedMoreOut, idleState (hbrBurst k rc P subs payload) 0 fb fp 0 pcm) ∧
      ausOf os = (List.range subs.length).map
        (fun j => memRead (hbrBurst k rc P subs payload) (subs.getD j (0, 0, 0)).1
          (subs.getD j (0, 0, 0)).2.1) := by
  obtain ⟨c, hc⟩ : ∃ c, subs.length = c + 1 := ⟨subs.length - 1, by omega⟩
  have hlast := hb c (by omega)
  have hget : subs[0 + c]? = some (subs.getD c (0, 0, 0)) := by
    rw [Nat.zero_add, List.getD_eq_getElem?_getD, List.getElem?_eq_getElem (by omega)]
    rfl
  have h1 := drain_last_whole k rc subs payload fb P fp pcm pd cap (0 + c) f
    (subs.getD c (0, 0, 0)) hP hrc hget (by omega) hlast.1 hlast.2.1 hlast.2.2.2.1 hlast.2.2.2.2
  have h2 := drain_listed_run k rc subs payload fb P fp pcm pd cap hP hrc c 0 (f + 2) _ _ _
    (by omega) (fun j _ hj => by
      have := hb j (by omega)
      exact ⟨this.1, this.2.1, this.2.2.2.1, this.2.2.2.2⟩) h1
  rw [show f + subs.length + 1 = f + 2 + c by omega, h2]
  refine ⟨_, rfl, ?_⟩
  · rw [ausOf_append, ausOf_listed _ _ _ (fun j hj => (hb j (by omega)).2.2.1),
      ausOf_cons_pos _ _ (by show (subs.getD c (0, 0, 0)).2.1 ≠ 0; omega), hc,
      List.range_succ, List.map_append]
    rfl

/-- A burst whose last AU is cut at the end of the burst, drained from the first
sub-header on: one call per whole AU, a call that stores the bytes of the last AU as
pending, then the call that asks for data. -/
theorem drain_listed_split (k : WireConsts) (rc : Nat) (subs : List (Nat × Nat × Int))
    (payload fb : List Nat) (P fp : Nat) (pcm : Int) (pd cap f c : Nat)
    (hP : P = 4096 * 2 ^ (rc + 1)) (hrc : rc = 1 ∨ rc = 3) (hn : subs.length = c + 1)
    (hb : ∀ j, j < subs.length →
      (subs.getD j (0, 0, 0)).1 < 16777216 ∧ (subs.getD j (0, 0, 0)).2.1 < 16777216 ∧
      1 ≤ (subs.getD j (0, 0, 0)).2.1 ∧ (subs.getD j (0, 0, 0)).2.1 ≤ cap)
    (hw : ∀ j, j < c →
      (subs.getD j (0, 0, 0)).1 + (subs.getD j (0, 0, 0)).2.1 ≤ IEC_HEADER_SIZE_BYTES + pd * 8)
    (hoff : (subs.getD c (0, 0, 0)).1 ≤ pd * 8) (hpd : pd * 8 ≤ 65536)
    (hcut : (subs.getD c (0, 0, 0)).1 + (subs.getD c (0, 0, 0)).2.1 >
      IEC_HEADER_SIZE_BYTES + pd * 8) :
    ∃ os, decodeDrain k cap (f + subs.length + 1)
        (syncedState (hbrBurst k rc P subs payload) P fb fp 0 pcm rc pd subs.length 0) =
      some (os, feedMoreOut,
        idleState (hbrBurst k rc P subs payload) 0
          (memWrite fb 0 (memRead (hbrBurst k rc P subs payload) (subs.getD c (0, 0, 0)).1
            (pd * 8 + 8 - (subs.getD c (0, 0, 0)).1)))
          (pd * 8 + 8 - (subs.getD c (0, 0, 0)).1)
          ((subs.getD c (0, 0, 0)).1 + (subs.getD c (0, 0, 0)).2.1 - (pd * 8 + 8))
          ((subs.getD c (0, 0, 0)).2.2 % 65536 - 1024)) ∧
      ausOf os = (List.range c).map
        (fun j => memRead (hbrBurst k rc P subs payload) (subs.getD j (0, 0, 0)).1
          (subs.getD j (0, 0, 0)).2.1) := by
  have hlast := hb c (by omega)
  have hget : subs[0 + c]? = some (subs.getD c (0, 0, 0)) := by
    rw [Nat.zero_add, List.getD_eq_getElem?_getD, List.getElem?_eq_getElem (by omega)]
    rfl
  have h1 := drain_last_split k rc subs payload fb P fp pcm pd cap (0 + c) f
    (subs.getD c (0, 0, 0)) hP hrc hget (by omega) hlast.1 hlast.2.1 hlast.2.2.2 hoff hpd hcut
  have h2 := drain_listed_run k rc subs payload fb P fp pcm pd cap hP hrc c 0 (f + 2) _ _ _
    (by omega) (fun j _ hj => by
      have := hb j (by omega)
      exact ⟨this.1, this.2.1, this.2.2.2, hw j (by omega)⟩) h1
  rw [show f + subs.length + 1 = f + 2 + c by omega, h2]
  refine ⟨_, rfl, ?_⟩
  · rw [ausOf_append, ausOf_listed _ _ _ (fun j hj => (hb j (by omega)).2.2.1),
      ausOf_cons_zero _ _ rfl]
    exact List.append_nil _
/-! ## Round trip: the stored frames across a call -/

theorem map_range_drop {α : Type} (F : Nat → α) (n d : Nat) :
    ((List.range n).map F).drop d = (List.range (n - d)).map (fun i => F (d + i)) := by
  apply List.ext_getElem?
  intro i
  rw [List.getElem?_drop, List.getElem?_map, List.getElem?_map]
  by_cases hi : d + i < n
  · rw [List.getElem?_range hi, List.getElem?_range (by omega)]
    rfl
  · rw [List.getElem?_eq_none (by rw [List.length_range]; omega),
      List.getElem?_eq_none (by rw [List.length_range]; omega)]
    rfl

theorem map_range_take {α : Type} (F : Nat → α) (n d : Nat) (h : d ≤ n) :
    ((List.range n).map F).take d = (List.range d).map F := by
  rw [← List.map_take, List.take_range, Nat.min_eq_left h]

theorem frameBytes_length (h : EncState) (i : Nat) :
    (frameBytes h i).length = peek h.frameLength i := memRead_length _ _ _

theorem psum_succ (a : List Nat) (n : Nat) : psum a (n + 1) = psum a n + peek a n := rfl

/-- Storing an AU appends it to the AUs in flight. -/
theorem held_store (h : EncState) (au : List Nat) (d : Nat) (fb : List Nat) (fp fm : Nat)
    (q : List (List Nat)) (hi : EncInv h) (hH : Held h fb fp fm q)
    (hlen : au.length ≤ 65536) (hd : d ≤ 4096) (hov : h.overallDuration < 1024) :
    Held (storeFrame h au d) fb fp fm (q ++ [au]) := by
  have hcnt := hi.count
  have hflLen := hi.flLen
  have hps : ∀ i, i ≤ h.framesStoredCount →
      psum (h.frameLength.set h.framesStoredCount au.length) i = psum h.frameLength i := by
    intro i hile
    apply psum_congr
    intro t ht
    rw [peek_set _ _ _ _ (by omega), if_neg (by omega)]
  have hold : ∀ i, i < h.framesStoredCount →
      frameBytes (storeFrame h au d) i = frameBytes h i := by
    intro i hilt
    show memRead (memWrite h.workBuffer h.pWorkBufferWrite au)
        (psum (h.frameLength.set h.framesStoredCount au.length) i)
        (peek (h.frameLength.set h.framesStoredCount au.length) i) = _
    rw [hps i (by omega), peek_set _ _ _ _ (by omega), if_neg (by omega)]
    apply memRead_memWrite_below
    rw [hi.wr, ← psum_succ]
    exact psum_mono _ (by omega)
  have hnew : frameBytes (storeFrame h au d) h.framesStoredCount = au := by
    show memRead (memWrite h.workBuffer h.pWorkBufferWrite au)
        (psum (h.frameLength.set h.framesStoredCount au.length) h.framesStoredCount)
        (peek (h.frameLength.set h.framesStoredCount au.length) h.framesStoredCount) = _
    rw [hps _ (Nat.le_refl _), peek_set _ _ _ _ (by omega), if_pos rfl, ← hi.wr]
    exact memRead_memWrite_same _ _ _
  have hheld : ∀ i, i < h.framesStoredCount →
      heldAu (storeFrame h au d) fb fp i = heldAu h fb fp i := by
    intro i hilt
    unfold heldAu
    rw [hold i hilt]
  have hlast : heldAu (storeFrame h au d) fb fp h.framesStoredCount = au := by
    unfold heldAu
    rw [hnew]
    by_cases h0 : h.framesStoredCount = 0
    · have hnp : h.auPending = false := by
        cases hp : h.auPending
        · rfl
        · have := hi.pend hp
          omega
      rw [if_pos h0, (hH.idle hnp).1, memRead_zero]
      rfl
    · rw [if_neg h0]
      rfl
  refine ⟨?_, ?_, hH.idle, ?_, ?_⟩
  · show _ = (List.range (h.framesStoredCount + 1)).map _
    rw [List.range_succ, List.map_append, List.map_singleton, hlast, hH.eq]
    congr 1
    apply List.map_congr_left
    intro i hi'
    exact (hheld i (List.mem_range.mp hi')).symm
  · intro i hilt
    have hilt2 : i < h.framesStoredCount + 1 := hilt
    by_cases hc : i < h.framesStoredCount
    · rw [hheld i hc]
      exact hH.size i hc
    · have : i = h.framesStoredCount := by omega
      rw [this, hlast]
      exact hlen
  · intro hp
    have hp2 : h.auPending = true := hp
    have h1 := hi.pend hp2
    show fm = peek (h.frameLength.set h.framesStoredCount au.length) 0
    rw [peek_set _ _ _ _ (by omega), if_neg (by omega)]
    exact hH.pend hp2
  · show h.overallDuration + (d : Int) ≤ 5119
    omega

/-- The stored frames after a burst that takes all selected frames whole: the frames
behind the selected ones, moved to the front. -/
theorem emit_frames_whole (k : WireConsts) (h : EncState) (nb : Nat) (c : Bool)
    (hi : EncInv h) (hsp : k.IEC_BURST_SPACING_SIZE_BYTES ≤ 16320)
    (hnb : nb ≤ h.framesStoredCount)
    (hw : psum h.frameLength nb ≤ numAvailableBytes k h nb) :
    (emitBurst k h nb c).2.framesStoredCount = h.framesStoredCount - nb ∧
    ((emitBurst k h nb c).2.auPending = if nb = 0 then h.auPending else false) ∧
    ∀ i, i < h.framesStoredCount - nb →
      frameBytes (emitBurst k h nb c).2 i = frameBytes h (nb + i) := by
  obtain ⟨f1, f2, _, _, f5, _, _, f8⟩ := emitBurst_frames k h nb c hi hsp hnb
  have hnot : ¬ psum h.frameLength nb > numAvailableBytes k h nb := by omega
  rw [if_neg hnot] at f2 f5
  simp only [hnot, false_and, if_false] at f5
  refine ⟨f2, ?_, ?_⟩
  · rw [f1]
    simp [hnot]
  · intro i hilt
    have hfl : ∀ t, t < i + 1 →
        peek (emitBurst k h nb c).2.frameLength t = peek h.frameLength (nb + t) :=
      fun t ht => f5 t (by omega)
    have hsh := psum_shift h.frameLength (emitBurst k h nb c).2.frameLength nb i
      (fun t ht => hfl t (by omega))
    have hmono : psum h.frameLength (nb + i + 1) ≤ psum h.frameLength h.framesStoredCount :=
      psum_mono _ (by omega)
    have hpos := hi.flPos (nb + i) (by omega)
    have hs := psum_succ h.frameLength (nb + i)
    have hmin : min (psum h.frameLength nb) (numAvailableBytes k h nb) = psum h.frameLength nb :=
      Nat.min_eq_left hw
    rw [hmin] at f8
    have hmono2 : psum h.frameLength nb ≤ psum h.frameLength (nb + i) := psum_mono _ (by omega)
    rw [if_pos (by omega)] at f8
    unfold frameBytes
    rw [f8, hfl i (by omega), memRead_memMove _ _ _ _ _ (by omega)]
    congr 1
    omega

/-- The stored frames after a burst that cuts the last selected frame: its remainder
first, then the frames behind it. -/
theorem emit_frames_split (k : WireConsts) (h : EncState) (nb : Nat) (c : Bool)
    (hi : EncInv h) (hsp : k.IEC_BURST_SPACING_SIZE_BYTES ≤ 16320)
    (hnb : nb ≤ h.framesStoredCount) (hnb1 : 1 ≤ nb)
    (hw : psum h.frameLength nb > numAvailableBytes k h nb) :
    (emitBurst k h nb c).2.framesStoredCount = h.framesStoredCount - (nb - 1) ∧
    (emitBurst k h nb c).2.auPending = true ∧
    peek (emitBurst k h nb c).2.frameLength 0 =
      psum h.frameLength nb - numAvailableBytes k h nb ∧
    frameBytes (emitBurst k h nb c).2 0 =
      memRead h.workBuffer (numAvailableBytes k h nb)
        (psum h.frameLength nb - numAvailableBytes k h nb) ∧
    ∀ i, 1 ≤ i → i < h.framesStoredCount - (nb - 1) →
      frameBytes (emitBurst k h nb c).2 i = frameBytes h (nb - 1 + i) := by
  obtain ⟨f1, f2, _, _, f5, _, _, f8⟩ := emitBurst_frames k h nb c hi hsp hnb
  rw [if_pos hw] at f2 f5
  have hmono : psum h.frameLength nb ≤ psum h.frameLength h.framesStoredCount := psum_mono _ hnb
  have hmin : min (psum h.frameLength nb) (numAvailableBytes k h nb) =
      numAvailableBytes k h nb := Nat.min_eq_right (by omega)
  rw [hmin, if_pos (by omega)] at f8
  have h0 : peek (emitBurst k h nb c).2.frameLength 0 =
      psum h.frameLength nb - numAvailableBytes k h nb := by
    rw [f5 0 (by omega), if_pos ⟨hw, rfl⟩]
  have hfl : ∀ t, 1 ≤ t → t < h.framesStoredCount - (nb - 1) →
      peek (emitBurst k h nb c).2.frameLength t = peek h.frameLength (nb - 1 + t) := by
    intro t ht1 ht
    rw [f5 t ht, if_neg (by omega)]
  refine ⟨f2, ?_, h0, ?_, ?_⟩
  · rw [f1, if_neg (by omega)]
    simpa using hw
  · unfold frameBytes
    rw [h0, f8]
    show memRead _ 0 _ = _
    rw [memRead_memMove _ _ _ _ _ (by omega)]
    rfl
  · intro i hi1 hilt
    have hsh := psum_shift1 h.frameLength (emitBurst k h nb c).2.frameLength (nb - 1) i hi1
      (fun t ht1 ht => hfl t ht1 (by omega))
    rw [h0, show nb - 1 + 1 = nb by omega] at hsh
    have hmono1 : psum h.frameLength nb ≤ psum h.frameLength (nb - 1 + i) :=
      psum_mono _ (by omega)
    have hmono2 : psum h.frameLength (nb - 1 + i + 1) ≤ psum h.frameLength h.framesStoredCount :=
      psum_mono _ (by omega)
    have hs := psum_succ h.frameLength (nb - 1 + i)
    unfold frameBytes
    rw [f8, hfl i hi1 hilt, memRead_memMove _ _ _ _ _ (by omega)]
    congr 1
    omega

/-- The AUs in flight after a burst that took the `nb` selected frames whole, for a
decoder without pending bytes: the AUs behind them. -/
theorem held_emit_whole (k : WireConsts) (h : EncState) (nb : Nat) (c : Bool)
    (fb fb0 : List Nat) (fp fm : Nat) (q : List (List Nat))
    (hi : EncInv h) (hsp : k.IEC_BURST_SPACING_SIZE_BYTES ≤ 16320)
    (hnb : nb ≤ h.framesStoredCount) (hp : h.auPending = true → 1 ≤ nb)
    (hH : Held h fb fp fm q)
    (hw : psum h.frameLength nb ≤ numAvailableBytes k h nb) :
    Held (emitBurst k h nb c).2 fb0 0 0 (q.drop nb) := by
  obtain ⟨e1, e2, e3⟩ := emit_frames_whole k h nb c hi hsp hnb hw
  have hnp : (emitBurst k h nb c).2.auPending = false := by
    rw [e2]
    by_cases h0 : nb = 0
    · rw [if_pos h0]
      cases hpe : h.auPending
      · rfl
      · have := hp hpe
        omega
    · rw [if_neg h0]
  have hheld : ∀ i, i < h.framesStoredCount - nb →
      heldAu (emitBurst k h nb c).2 fb0 0 i = heldAu h fb fp (nb + i) := by
    intro i hilt
    unfold heldAu
    rw [e3 i hilt, memRead_zero]
    by_cases h0 : nb + i = 0
    · have hnpe : h.auPending = false := by
        cases hpe : h.auPending
        · rfl
        · have := hp hpe
          omega
      rw [if_pos h0, (hH.idle hnpe).1, memRead_zero]
      split <;> rfl
    · rw [if_neg h0]
      split <;> rfl
  refine ⟨?_, ?_, fun _ => ⟨rfl, rfl⟩, ?_, ?_⟩
  · rw [hH.eq, map_range_drop, e1]
    apply List.map_congr_left
    intro i hi'
    exact (hheld i (List.mem_range.mp hi')).symm
  · intro i hilt
    rw [e1] at hilt
    rw [hheld i hilt]
    exact hH.size _ (by omega)
  · intro hpe
    rw [hnp] at hpe
    cases hpe
  · rw [emitBurst_duration, hi.afl]
    have := hH.dur
    omega

/-- The AUs in flight after a burst that cut the last selected frame, for a decoder
that holds the sent part of that frame: the cut AU and the AUs behind it. -/
theorem held_emit_split (k : WireConsts) (h : EncState) (nb : Nat) (c : Bool)
    (fb fb2 : List Nat) (fp fm fp2 fm2 : Nat) (q : List (List Nat))
    (hi : EncInv h) (hsp : k.IEC_BURST_SPACING_SIZE_BYTES ≤ 16320)
    (hnb : nb ≤ h.framesStoredCount) (hnb1 : 1 ≤ nb)
    (hH : Held h fb fp fm q)
    (hw : psum h.frameLength nb > numAvailableBytes k h nb)
    (hpre : memRead fb2 0 fp2 ++ memRead h.workBuffer (numAvailableBytes k h nb)
        (psum h.frameLength nb - numAvailableBytes k h nb) = heldAu h fb fp (nb - 1))
    (hfm : fm2 = psum h.frameLength nb - numAvailableBytes k h nb) :
    Held (emitBurst k h nb c).2 fb2 fp2 fm2 (q.drop (nb - 1)) := by
  obtain ⟨e1, e2, e3, e4, e5⟩ := emit_frames_split k h nb c hi hsp hnb hnb1 hw
  have hheld : ∀ i, i < h.framesStoredCount - (nb - 1) →
      heldAu (emitBurst k h nb c).2 fb2 fp2 i = heldAu h fb fp (nb - 1 + i) := by
    intro i hilt
    by_cases h0 : i = 0
    · subst h0
      unfold heldAu
      rw [if_pos rfl, e4, hpre]
      rfl
    · unfold heldAu
      rw [if_neg h0, if_neg (by omega), e5 i (by omega) hilt]
  refine ⟨?_, ?_, ?_, ?_, ?_⟩
  · rw [hH.eq, map_range_drop, e1]
    apply List.map_congr_left
    intro i hi'
    exact (hheld i (List.mem_range.mp hi')).symm
  · intro i hilt
    rw [e1] at hilt
    rw [hheld i hilt]
    exact hH.size _ (by omega)
  · intro hpe
    rw [e2] at hpe
    cases hpe
  · intro _
    rw [e3]
    exact hfm
  · rw [emitBurst_duration, hi.afl]
    have := hH.dur
    omega

/-- The sub-headers written for a run of stored frames pass the decoder's walk:
increasing offsets, lengths of at least one byte, all within 24 bits. -/
theorem subsChain_entries (fl fd : List Nat) :
    ∀ (n i off prev : Nat) (pcm : Int), prev < off →
      (∀ t, i ≤ t → t < i + n → 1 ≤ peek fl t) →
      off + (psum fl (i + n) - psum fl i) < 16777216 →
      subsChain prev (subHeaderEntries fl fd n i off pcm) := by
  intro n
  induction n with
  | zero => intro i off prev pcm _ _ _; exact trivial
  | succ n ih =>
    intro i off prev pcm hprev hpos hb
    have h1 := hpos i (Nat.le_refl _) (by omega)
    have hm1 : psum fl (i + 1) ≤ psum fl (i + (n + 1)) := psum_mono _ (by omega)
    have hs : psum fl (i + 1) = psum fl i + peek fl i := rfl
    show prev < off ∧ off < 16777216 ∧ 1 ≤ peek fl i ∧ peek fl i < 16777216 ∧
      subsChain off (subHeaderEntries fl fd n (i + 1) (off + peek fl i) (pcm + peek fd i))
    refine ⟨hprev, by omega, h1, by omega, ?_⟩
    apply ih
    · omega
    · intro t ht1 ht2
      exact hpos t (by omega) (by omega)
    · rw [show i + 1 + n = i + (n + 1) by omega]
      omega

/-- Where the sub-headers of a burst point: the `j`-th of them at the bytes of the
`(p + j)`-th stored frame, `p` the number of pending frames in front. -/
theorem plan_facts (k : WireConsts) (h : EncState) (nb p : Nat)
    (hi : EncInv h) (hsp : k.IEC_BURST_SPACING_SIZE_BYTES ≤ 16320)
    (hsp8 : k.IEC_BURST_SPACING_SIZE_BYTES % 8 = 0)
    (hnb : nb ≤ h.framesStoredCount) (hp : h.auPending = true → 1 ≤ nb)
    (hpdef : p = if h.auPending then 1 else 0) :
    ((h.rateFactor = 1 ∨ h.rateFactor = 3) ∧
      h.burstRepetitionPeriod = 4096 * 2 ^ (h.rateFactor + 1)) ∧
    (numAvailableBytes k h nb % 8 = 0 ∧
      numAvailableBytes k h nb + k.IEC_BURST_SPACING_SIZE_BYTES + 16 + (nb - p) * 8 =
        h.burstRepetitionPeriod) ∧
    (subHeaderEntries h.frameLength h.frameDuration (nb - p) p
      (8 + (nb - p + 1) * 8 + (if h.auPending then peek h.frameLength 0 else 0))
      h.pcmOffset).length = nb - p ∧
    subsChain 0 (subHeaderEntries h.frameLength h.frameDuration (nb - p) p
      (8 + (nb - p + 1) * 8 + (if h.auPending then peek h.frameLength 0 else 0))
      h.pcmOffset) ∧
    (∀ j, j < nb - p →
      ((subHeaderEntries h.frameLength h.frameDuration (nb - p) p
        (8 + (nb - p + 1) * 8 + (if h.auPending then peek h.frameLength 0 else 0))
        h.pcmOffset).getD j (0, 0, 0)).1 = 8 + (nb - p + 1) * 8 + psum h.frameLength (p + j) ∧
      ((subHeaderEntries h.frameLength h.frameDuration (nb - p) p
        (8 + (nb - p + 1) * 8 + (if h.auPending then peek h.frameLength 0 else 0))
        h.pcmOffset).getD j (0, 0, 0)).2.1 = peek h.frameLength (p + j)) ∧
    psum h.frameLength p = (if h.auPending then peek h.frameLength 0 else 0) := by
  have hroom := emitBurst_room k h nb hi hsp hnb hp
  have hAeq := numAvailableBytes_eq k h hi hsp nb (by have := hi.count; omega)
  rw [← hpdef] at hroom
  have hcnt := hi.count
  have hwr := hi.wr
  have hwrLe := hi.wrLe
  have hpsum : psum h.frameLength p = (if h.auPending then peek h.frameLength 0 else 0) := by
    rw [hpdef]
    cases h.auPending
    · rfl
    · show 0 + peek h.frameLength 0 = peek h.frameLength 0
      omega
  have hple : p ≤ nb := by
    rw [hpdef]
    cases hpe : h.auPending
    · exact Nat.zero_le _
    · exact hp hpe
  refine ⟨?_, ⟨?_, hroom⟩, subHeaderEntries_length _ _ _ _ _ _, ?_, ?_, hpsum⟩
  · rcases hi.rate with ⟨h1, h2⟩ | ⟨h1, h2⟩
    · exact ⟨Or.inl h1, by rw [h1, h2]; rfl⟩
    · exact ⟨Or.inr h1, by rw [h1, h2]; rfl⟩
  · rcases hi.rate with ⟨_, h2⟩ | ⟨_, h2⟩ <;> rw [h2] at hroom <;> omega
  · apply subsChain_entries
    · omega
    · intro t ht1 ht2
      exact hi.flPos t (by omega)
    · rw [← hpsum]
      have hm1 : psum h.frameLength (p + (nb - p)) ≤ psum h.frameLength h.framesStoredCount :=
        psum_mono _ (by omega)
      have hm2 : psum h.frameLength p ≤ psum h.frameLength (p + (nb - p)) :=
        psum_mono _ (by omega)
      omega
  · intro j hj
    have hg := subHeaderEntries_get h.frameLength h.frameDuration (nb - p) p
      (8 + (nb - p + 1) * 8 + (if h.auPending then peek h.frameLength 0 else 0)) h.pcmOffset j hj
    rw [List.getD_eq_getElem?_getD, hg]
    have hm2 : psum h.frameLength p ≤ psum h.frameLength (p + j) := psum_mono _ (by omega)
    refine ⟨?_, rfl⟩
    show 8 + (nb - p + 1) * 8 + (if h.auPending then peek h.frameLength 0 else 0) +
      (psum h.frameLength (p + j) - psum h.frameLength p) = _
    rw [← hpsum]
    omega
/-! ## Round trip: one burst through the decoder -/

/-- One chunk: a feed that succeeds and a drain that ends with `FeedMoreData`. -/
theorem chunks_one (k : WireConsts) (cap fuel : Nat) (d d1 d2 : DecState) (B : List Nat)
    (os : List DecOut)
    (hf : iec61937_decode_feed d B = (.IECDEC_OK, d1))
    (hd : decodeDrain k cap fuel d1 = some (os, feedMoreOut, d2)) :
    decodeChunks k cap fuel d [B] = some (os, d2) := by
  unfold decodeChunks
  simp only [hf, hd]
  simp [feedMoreOut, decodeChunks]

/-- Feeding the burst of a regular plan to a decoder between bursts: the first call
finds the sync at once, so that the chunk is drained as from the synchronised state. -/
theorem burst_first (k : WireConsts) (h : EncState) (nb p : Nat) (c : Bool)
    (wd fb : List Nat) (fp fm : Nat) (pcm : Int) (cap f : Nat)
    (hi : EncInv h) (hsp : k.IEC_BURST_SPACING_SIZE_BYTES ≤ 16320)
    (hsp8 : k.IEC_BURST_SPACING_SIZE_BYTES % 8 = 0)
    (hnb : nb ≤ h.framesStoredCount) (hp : h.auPending = true → 1 ≤ nb)
    (hpdef : p = if h.auPending then 1 else 0)
    (hfm : fm = if h.auPending then peek h.frameLength 0 else 0)
    (hwd : wd.length ≤ h.burstRepetitionPeriod)
    (hra : 1 ≤ nb - p → psum h.frameLength (nb - 1) + 8 ≤
      8 * ((min (psum h.frameLength nb) (numAvailableBytes k h nb) + 7) / 8))
    (os : List DecOut) (d2 : DecState)
    (hd : decodeDrain k cap (f + 2)
      (syncedState
        (hbrBurst k h.rateFactor h.burstRepetitionPeriod
          (subHeaderEntries h.frameLength h.frameDuration (nb - p) p
            (8 + (nb - p + 1) * 8 + (if h.auPending then peek h.frameLength 0 else 0))
            h.pcmOffset)
          (memRead h.workBuffer 0 (min (psum h.frameLength nb) (numAvailableBytes k h nb))))
        h.burstRepetitionPeriod fb fp fm pcm h.rateFactor
        (pdField (nb - p) (min (psum h.frameLength nb) (numAvailableBytes k h nb)))
        (nb - p) 0) = some (os, feedMoreOut, d2)) :
    decodeChunks k cap (f + 2) (idleState wd 0 fb fp fm pcm)
      [(emitBurst k h nb c).1.outputBuffer] = some (os, d2) := by
  obtain ⟨⟨hrc, hP⟩, ⟨hA8, hroom⟩, hlen, hchain, hget, hps⟩ :=
    plan_facts k h nb p hi hsp hsp8 hnb hp hpdef
  have hcnt := hi.count
  have hwrLe := hi.wrLe
  have hwr := hi.wr
  have hout := emitBurst_output k h nb c hi hsp hnb hp
  rw [← hpdef] at hout
  rw [hout]
  show decodeChunks k cap (f + 2) (idleState wd 0 fb fp fm pcm)
    [hbrBurst k h.rateFactor h.burstRepetitionPeriod
      (subHeaderEntries h.frameLength h.frameDuration (nb - p) p
        (8 + (nb - p + 1) * 8 + (if h.auPending then peek h.frameLength 0 else 0)) h.pcmOffset)
      (memRead h.workBuffer 0 (min (psum h.frameLength nb) (numAvailableBytes k h nb)))] = _
  generalize hsubs : subHeaderEntries h.frameLength h.frameDuration (nb - p) p
        (8 + (nb - p + 1) * 8 + (if h.auPending then peek h.frameLength 0 else 0))
        h.pcmOffset = subs at hd hlen hchain hget ⊢
  generalize hm : min (psum h.frameLength nb) (numAvailableBytes k h nb) = m at hd hra ⊢
  have hmA : m ≤ numAvailableBytes k h nb := by rw [← hm]; exact Nat.min_le_right _ _
  have hpl : (memRead h.workBuffer 0 m).length = m := memRead_length _ _ _
  have hBlen : (hbrBurst k h.rateFactor h.burstRepetitionPeriod subs
      (memRead h.workBuffer 0 m)).length = h.burstRepetitionPeriod :=
    hbrBurst_length _ _ _ _ _ (by rw [hlen, hpl]; omega)
  have hPle : h.burstRepetitionPeriod ≤ 65536 := by
    rcases hi.rate with ⟨_, h2⟩ | ⟨_, h2⟩ <;> omega
  have hfeed := feed_idle wd fb (hbrBurst k h.rateFactor h.burstRepetitionPeriod subs
      (memRead h.workBuffer 0 m)) fp fm pcm (by rw [hBlen]; exact hwd)
      (by rw [hBlen]; unfold DEC_WORKBUFFER_SIZE_BYTES; omega)
  rw [hBlen] at hfeed
  refine chunks_one k cap (f + 2) _ _ _ _ os hfeed ?_
  rw [← hd]
  have hroom2 : 8 + (subs.length + 1) * 8 + (memRead h.workBuffer 0 m).length +
      k.IEC_BURST_SPACING_SIZE_BYTES ≤ 4096 * 2 ^ (h.rateFactor + 1) := by
    rw [hlen, hpl, ← hP]; omega
  have hP8 : (4096 * 2 ^ (h.rateFactor + 1)) % 8 = 0 := by
    rcases hrc with h1 | h1 <;> rw [h1] <;> decide
  have hfirst := drain_first k h.rateFactor subs (memRead h.workBuffer 0 m) fb fp fm pcm cap f
    hrc (pdField_fits _ _ _ _ hsp8 hP8 hroom2) hroom2 hchain ?_ ?_ ?_
  · rw [← hP, hlen, hpl] at hfirst
    exact hfirst
  · intro s hs
    obtain ⟨j, hj, hjs⟩ := List.getElem_of_mem hs
    have hj2 : j < nb - p := by rw [← hlen]; exact hj
    have hg := (hget j hj2).1
    rw [List.getD_eq_getElem?_getD, List.getElem?_eq_getElem hj, hjs] at hg
    have hg2 : s.1 = 8 + (nb - p + 1) * 8 + psum h.frameLength (p + j) := hg
    have hmono : psum h.frameLength (p + j) ≤ psum h.frameLength (nb - 1) :=
      psum_mono _ (by omega)
    have hra2 := hra (by omega)
    rw [hlen, hpl, hg2]
    unfold pdField
    omega
  · intro s hs
    have hn1 : 0 < subs.length := by
      cases subs with
      | nil => cases hs
      | cons a t => exact Nat.succ_pos _
    have hg := (hget 0 (by omega)).1
    rw [List.getD_eq_getElem?_getD, ← List.head?_eq_getElem?, hs] at hg
    have hg2 : s.1 = 8 + (nb - p + 1) * 8 + psum h.frameLength (p + 0) := hg
    rw [hlen, hg2, show p + 0 = p from rfl, hps, hfm]
    omega
  · rw [hfm]
    cases hpe : h.auPending
    · exact Nat.zero_le _
    · have h1 := hi.pend hpe
      have h2 : psum h.frameLength 1 ≤ psum h.frameLength h.framesStoredCount :=
        psum_mono _ h1
      have h3 : psum h.frameLength 1 = 0 + peek h.frameLength 0 := rfl
      show peek h.frameLength 0 ≤ 16777216
      omega

/-- A stored frame that lies within the payload of a burst, read at its burst offset. -/
theorem burst_frame (k : WireConsts) (h : EncState) (rc P : Nat)
    (subs : List (Nat × Nat × Int)) (m i len off : Nat)
    (hoff : off = 8 + (subs.length + 1) * 8 + psum h.frameLength i)
    (hfit : psum h.frameLength i + len ≤ m) :
    memRead (hbrBurst k rc P subs (memRead h.workBuffer 0 m)) off len =
      memRead h.workBuffer (psum h.frameLength i) len := by
  rw [hoff, hbrBurst_payload _ _ _ _ _ _ _ (by rw [memRead_length]; exact hfit),
    memRead_memRead _ _ _ _ hfit]

/-- The sub-headers of a regular burst, drained from the first one on (`p` pending
frames in front, no AU pending in the decoder any more): the listed AUs that lie whole
in the burst are returned in order, and the decoder is left between bursts, holding
what the encoder still stores. -/
theorem listed_step (k : WireConsts) (h : EncState) (nb p : Nat) (c : Bool)
    (fb : List Nat) (fp fm : Nat) (pcm : Int) (q : List (List Nat)) (cap f : Nat)
    (subs : List (Nat × Nat × Int)) (m : Nat)
    (hi : EncInv h) (hsp : k.IEC_BURST_SPACING_SIZE_BYTES ≤ 16320)
    (hsp8 : k.IEC_BURST_SPACING_SIZE_BYTES % 8 = 0)
    (hnb : nb ≤ h.framesStoredCount) (hp : h.auPending = true → 1 ≤ nb)
    (hpdef : p = if h.auPending then 1 else 0)
    (hsubs : subs = subHeaderEntries h.frameLength h.frameDuration (nb - p) p
      (8 + (nb - p + 1) * 8 + (if h.auPending then peek h.frameLength 0 else 0)) h.pcmOffset)
    (hm : m = min (psum h.frameLength nb) (numAvailableBytes k h nb))
    (hH : Held h fb fp fm q) (hn : 1 ≤ nb - p)
    (hra : psum h.frameLength (nb - 1) + 8 ≤ 8 * ((m + 7) / 8))
    (hcap : 65536 ≤ cap) :
    ∃ os fb2 fp2 fm2 pcm2,
      decodeDrain k cap (f + (nb - p) + 1)
        (syncedState (hbrBurst k h.rateFactor h.burstRepetitionPeriod subs
            (memRead h.workBuffer 0 m))
          h.burstRepetitionPeriod fb 0 0 pcm h.rateFactor (pdField (nb - p) m) (nb - p) 0) =
        some (os, feedMoreOut,
          idleState (hbrBurst k h.rateFactor h.burstRepetitionPeriod subs
            (memRead h.workBuffer 0 m)) 0 fb2 fp2 fm2 pcm2) ∧
      Held (emitBurst k h nb c).2 fb2 fp2 fm2
        (q.drop (if psum h.frameLength nb > numAvailableBytes k h nb then nb - 1 else nb)) ∧
      ausOf os =
        (List.range ((if psum h.frameLength nb > numAvailableBytes k h nb then nb - 1 else nb)
          - p)).map (fun j => frameBytes h (p + j)) := by
  obtain ⟨⟨hrc, hP⟩, ⟨hA8, hroom⟩, hlen, hchain, hget, hps⟩ :=
    plan_facts k h nb p hi hsp hsp8 hnb hp hpdef
  rw [← hsubs] at hlen hchain hget
  have hcnt := hi.count
  have hwrLe := hi.wrLe
  have hwr := hi.wr
  have hple : p ≤ 1 := by
    cases hpe : h.auPending <;> rw [hpe] at hpdef <;> simp at hpdef <;> omega
  have hmA : m ≤ numAvailableBytes k h nb := by rw [hm]; exact Nat.min_le_right _ _
  have hmT : m ≤ psum h.frameLength nb := by rw [hm]; exact Nat.min_le_left _ _
  have hPle : h.burstRepetitionPeriod ≤ 65536 := by
    rcases hi.rate with ⟨_, h2⟩ | ⟨_, h2⟩ <;> omega
  have htotal : psum h.frameLength nb ≤ psum h.frameLength h.framesStoredCount :=
    psum_mono _ hnb
  -- facts about each listed sub-header
  have hsz : ∀ i, 1 ≤ i ∨ h.auPending = false → i < h.framesStoredCount →
      peek h.frameLength i ≤ 65536 := by
    intro i hi1 hilt
    have := hH.size i hilt
    unfold heldAu at this
    rw [List.length_append, frameBytes_length] at this
    omega
  have hb0 : ∀ j, j < subs.length →
      (subs.getD j (0, 0, 0)).1 < 16777216 ∧ (subs.getD j (0, 0, 0)).2.1 < 16777216 ∧
      1 ≤ (subs.getD j (0, 0, 0)).2.1 ∧ (subs.getD j (0, 0, 0)).2.1 ≤ cap := by
    intro j hj
    rw [hlen] at hj
    obtain ⟨g1, g2⟩ := hget j hj
    have hmono : psum h.frameLength (p + j) ≤ psum h.frameLength nb := psum_mono _ (by omega)
    have hpos := hi.flPos (p + j) (by omega)
    have hs := hsz (p + j) (by
      cases hpe : h.auPending
      · exact Or.inr rfl
      · rw [hpdef, hpe]; exact Or.inl (by simp)) (by omega)
    rw [g1, g2]
    refine ⟨by omega, by omega, hpos, by omega⟩
  have hend : ∀ j, j < nb - p →
      (subs.getD j (0, 0, 0)).1 + (subs.getD j (0, 0, 0)).2.1 =
        8 + (nb - p + 1) * 8 + psum h.frameLength (p + j + 1) := by
    intro j hj
    obtain ⟨g1, g2⟩ := hget j hj
    rw [g1, g2, psum_succ]
    omega
  have hpdv : pdField (nb - p) m * 8 = (nb - p + 1) * 8 + 8 * ((m + 7) / 8) := by
    unfold pdField
    omega
  have hfr : ∀ j, j < nb - p → psum h.frameLength (p + j + 1) ≤ m →
      memRead (hbrBurst k h.rateFactor h.burstRepetitionPeriod subs (memRead h.workBuffer 0 m))
        (subs.getD j (0, 0, 0)).1 (subs.getD j (0, 0, 0)).2.1 = frameBytes h (p + j) := by
    intro j hj hfit
    obtain ⟨g1, g2⟩ := hget j hj
    rw [g2]
    exact burst_frame k h _ _ subs m (p + j) _ _ (by rw [g1, hlen])
      (by rw [← psum_succ]; exact hfit)
  by_cases hw : psum h.frameLength nb > numAvailableBytes k h nb
  · -- the last listed frame is cut
    rw [if_pos hw]
    have hmeq : m = numAvailableBytes k h nb := by rw [hm]; exact Nat.min_eq_right (by omega)
    obtain ⟨cc, hcc⟩ : ∃ cc, nb - p = cc + 1 := ⟨nb - p - 1, by omega⟩
    have hlast : p + cc = nb - 1 := by omega
    obtain ⟨g1, g2⟩ := hget cc (by omega)
    rw [hlast] at g1 g2
    have hendl := hend cc (by omega)
    rw [show p + cc + 1 = nb by omega] at hendl
    obtain ⟨os, hdr, haus⟩ := drain_listed_split k h.rateFactor subs (memRead h.workBuffer 0 m) fb
      h.burstRepetitionPeriod 0 pcm (pdField (nb - p) m) cap f cc hP hrc (by rw [hlen, hcc]) hb0
      (by
        intro j hj
        rw [hend j (by omega)]
        have hmono : psum h.frameLength (p + j + 1) ≤ psum h.frameLength (nb - 1) :=
          psum_mono _ (by omega)
        unfold IEC_HEADER_SIZE_BYTES
        omega)
      (by rw [g1]; omega) (by omega)
      (by rw [hendl]; unfold IEC_HEADER_SIZE_BYTES; omega)
    rw [hlen] at hdr
    refine ⟨os, _, _, _, _, hdr, ?_, ?_⟩
    · apply held_emit_split k h nb c fb _ fp fm _ _ q hi hsp hnb (by omega) hH hw
      · have hfp2 : pdField (nb - p) m * 8 + 8 - (subs.getD cc (0, 0, 0)).1 =
            numAvailableBytes k h nb - psum h.frameLength (nb - 1) := by
          rw [g1]; omega
        have hnp : heldAu h fb fp (nb - 1) = frameBytes h (nb - 1) := by
          unfold heldAu
          by_cases h0 : nb - 1 = 0
          · have hpe : h.auPending = false := by
              cases hpe : h.auPending
              · rfl
              · rw [hpdef, hpe] at hn
                simp at hn
                omega
            rw [if_pos h0, (hH.idle hpe).1, memRead_zero]
            rfl
          · rw [if_neg h0]
            rfl
        rw [hnp, hfp2]
        have hrd := memRead_memWrite_same fb 0
          (memRead (hbrBurst k h.rateFactor h.burstRepetitionPeriod subs
            (memRead h.workBuffer 0 m)) (subs.getD cc (0, 0, 0)).1
            (numAvailableBytes k h nb - psum h.frameLength (nb - 1)))
        rw [memRead_length] at hrd
        rw [hrd, burst_frame k h _ _ subs m (nb - 1) _ _ (by rw [g1, hlen]) (by omega)]
        unfold frameBytes
        have hsplit : peek h.frameLength (nb - 1) =
            (numAvailableBytes k h nb - psum h.frameLength (nb - 1)) +
              (psum h.frameLength nb - numAvailableBytes k h nb) := by
          have := psum_succ h.frameLength (nb - 1)
          rw [show nb - 1 + 1 = nb by omega] at this
          omega
        rw [hsplit, memRead_add]
        congr 2
        omega
      · rw [hendl]
        omega
    · rw [haus, show nb - 1 - p = cc by omega]
      apply List.map_congr_left
      intro j hj
      have hj2 := List.mem_range.mp hj
      apply hfr j (by omega)
      have hmono : psum h.frameLength (p + j + 1) ≤ psum h.frameLength (nb - 1) :=
        psum_mono _ (by omega)
      omega
  · -- all listed frames are whole
    rw [if_neg hw]
    have hmeq : m = psum h.frameLength nb := by rw [hm]; exact Nat.min_eq_left (by omega)
    obtain ⟨os, hdr, haus⟩ := drain_listed_whole k h.rateFactor subs (memRead h.workBuffer 0 m) fb
      h.burstRepetitionPeriod 0 pcm (pdField (nb - p) m) cap f hP hrc (by rw [hlen]; exact hn)
      (by
        intro j hj
        obtain ⟨b1, b2, b3, b4⟩ := hb0 j hj
        rw [hlen] at hj
        refine ⟨b1, b2, b3, b4, ?_⟩
        rw [hend j hj]
        have hmono : psum h.frameLength (p + j + 1) ≤ psum h.frameLength nb :=
          psum_mono _ (by omega)
        unfold IEC_HEADER_SIZE_BYTES
        omega)
    rw [hlen] at hdr haus
    refine ⟨os, _, _, _, _, hdr, ?_, ?_⟩
    · exact held_emit_whole k h nb c fb fb fp fm q hi hsp hnb hp hH (by omega)
    · rw [haus]
      apply List.map_congr_left
      intro j hj
      have hj2 := List.mem_range.mp hj
      apply hfr j hj2
      have hmono : psum h.frameLength (p + j + 1) ≤ psum h.frameLength nb :=
        psum_mono _ (by omega)
      omega

theorem emitBurst_period (k : WireConsts) (h : EncState) (nb : Nat) (c : Bool) :
    (emitBurst k h nb c).2.burstRepetitionPeriod = h.burstRepetitionPeriod := rfl

/-- The length of the burst of a plan. -/
theorem plan_burst_length (k : WireConsts) (h : EncState) (nb p : Nat)
    (hi : EncInv h) (hsp : k.IEC_BURST_SPACING_SIZE_BYTES ≤ 16320)
    (hsp8 : k.IEC_BURST_SPACING_SIZE_BYTES % 8 = 0)
    (hnb : nb ≤ h.framesStoredCount) (hp : h.auPending = true → 1 ≤ nb)
    (hpdef : p = if h.auPending then 1 else 0) :
    (hbrBurst k h.rateFactor h.burstRepetitionPeriod
      (subHeaderEntries h.frameLength h.frameDuration (nb - p) p
        (8 + (nb - p + 1) * 8 + (if h.auPending then peek h.frameLength 0 else 0)) h.pcmOffset)
      (memRead h.workBuffer 0 (min (psum h.frameLength nb) (numAvailableBytes k h nb)))).length
      = h.burstRepetitionPeriod := by
  obtain ⟨_, ⟨_, hroom⟩, hlen, _, _, _⟩ := plan_facts k h nb p hi hsp hsp8 hnb hp hpdef
  apply hbrBurst_length
  rw [hlen, memRead_length]
  have := Nat.min_le_right (psum h.frameLength nb) (numAvailableBytes k h nb)
  omega

/-- One burst of a regular plan, from an encoder without a pending AU, through the
decoder: the AUs the burst lists whole are returned in order and the two sides agree
again on the AUs in flight. -/
theorem burst_step_idle (k : WireConsts) (h : EncState) (nb : Nat) (c : Bool)
    (wd fb : List Nat) (fp fm : Nat) (pcm : Int) (q : List (List Nat)) (cap f : Nat)
    (hi : EncInv h) (hsp : k.IEC_BURST_SPACING_SIZE_BYTES ≤ 16320)
    (hsp8 : k.IEC_BURST_SPACING_SIZE_BYTES % 8 = 0)
    (hnb : nb ≤ h.framesStoredCount) (hpe : h.auPending = false)
    (hH : Held h fb fp fm q) (hwd : wd.length ≤ h.burstRepetitionPeriod)
    (hra : 1 ≤ nb → psum h.frameLength (nb - 1) + 8 ≤
      8 * ((min (psum h.frameLength nb) (numAvailableBytes k h nb) + 7) / 8))
    (hcap : 65536 ≤ cap) :
    ∃ os d2, decodeChunks k cap (f + 7) (idleState wd 0 fb fp fm pcm)
        [(emitBurst k h nb c).1.outputBuffer] = some (os, d2) ∧
      Sim (emitBurst k h nb c).2 d2
        (q.drop (if psum h.frameLength nb > numAvailableBytes k h nb then nb - 1 else nb)) ∧
      ausOf os =
        q.take (if psum h.frameLength nb > numAvailableBytes k h nb then nb - 1 else nb) := by
  have hp : h.auPending = true → 1 ≤ nb := by rw [hpe]; intro hc; cases hc
  have hpdef : 0 = if h.auPending then 1 else 0 := by rw [hpe]; rfl
  obtain ⟨hfp0, hfm0⟩ := hH.idle hpe
  subst hfp0 hfm0
  have hBlen := plan_burst_length k h nb 0 hi hsp hsp8 hnb hp hpdef
  have hcnt := hi.count
  have hrc : h.rateFactor = 1 ∨ h.rateFactor = 3 := by
    rcases hi.rate with ⟨h1, _⟩ | ⟨h1, _⟩
    · exact Or.inl h1
    · exact Or.inr h1
  have hP : h.burstRepetitionPeriod = 4096 * 2 ^ (h.rateFactor + 1) := by
    rcases hi.rate with ⟨h1, h2⟩ | ⟨h1, h2⟩ <;> (rw [h1, h2]; rfl)
  have hdel : (if psum h.frameLength nb > numAvailableBytes k h nb then nb - 1 else nb) ≤
      h.framesStoredCount := by split <;> omega
  have htake : q.take (if psum h.frameLength nb > numAvailableBytes k h nb then nb - 1 else nb) =
      (List.range (if psum h.frameLength nb > numAvailableBytes k h nb then nb - 1 else nb)).map
        (fun j => frameBytes h (0 + j)) := by
    rw [hH.eq, map_range_take _ _ _ hdel]
    apply List.map_congr_left
    intro j _
    unfold heldAu
    rw [memRead_zero, Nat.zero_add]
    split <;> rfl
  by_cases h0 : nb = 0
  · subst h0
    have hd := drain_empty k
      (hbrBurst k h.rateFactor h.burstRepetitionPeriod
        (subHeaderEntries h.frameLength h.frameDuration (0 - 0) 0
          (8 + (0 - 0 + 1) * 8 + (if h.auPending then peek h.frameLength 0 else 0)) h.pcmOffset)
        (memRead h.workBuffer 0 (min (psum h.frameLength 0) (numAvailableBytes k h 0))))
      fb h.burstRepetitionPeriod 0 pcm h.rateFactor
      (pdField (0 - 0) (min (psum h.frameLength 0) (numAvailableBytes k h 0))) cap (f + 5) hP hrc
    have hch := burst_first k h 0 0 c wd fb 0 0 pcm cap (f + 5) hi hsp hsp8 hnb hp hpdef
      (by rw [hpe]; rfl) hwd (by intro hc; omega) _ _ hd
    refine ⟨_, _, hch, ⟨_, fb, 0, 0, pcm, rfl, ?_, ?_⟩, ?_⟩
    · rw [emitBurst_period]; exact Nat.le_of_eq hBlen
    · have hw : psum h.frameLength 0 ≤ numAvailableBytes k h 0 := Nat.zero_le _
      have := held_emit_whole k h 0 c fb fb 0 0 q hi hsp hnb hp hH hw
      rw [if_neg (by omega)]
      exact this
    · rw [htake, if_neg (by show ¬ 0 > _; omega)]
      rfl
  · obtain ⟨os, fb2, fp2, fm2, pcm2, hdr, hheld, haus⟩ :=
      listed_step k h nb 0 c fb 0 0 pcm q cap (f + 6 - nb) _ _ hi hsp hsp8 hnb hp hpdef rfl rfl
        hH (by omega) (hra (by omega)) hcap
    rw [show f + 6 - nb + (nb - 0) + 1 = f + 5 + 2 by omega] at hdr
    have hch := burst_first k h nb 0 c wd fb 0 0 pcm cap (f + 5) hi hsp hsp8 hnb hp hpdef
      (by rw [hpe]; rfl) hwd (fun _ => hra (by omega)) _ _ hdr
    refine ⟨_, _, hch, ⟨_, fb2, fp2, fm2, pcm2, rfl, ?_, hheld⟩, ?_⟩
    · rw [emitBurst_period]; exact Nat.le_of_eq hBlen
    · rw [htake, haus]
      rfl

/-- The payload of a burst without sub-headers starts at burst offset 16. -/
theorem burst_frame_zero (k : WireConsts) (h : EncState) (rc P : Nat) (fl fd : List Nat)
    (off0 : Nat) (pcm : Int) (m len : Nat) (hfit : len ≤ m) :
    memRead (hbrBurst k rc P (subHeaderEntries fl fd (1 - 1) 1 off0 pcm)
      (memRead h.workBuffer 0 m)) 16 len = memRead h.workBuffer 0 len :=
  burst_frame k h rc P [] m 0 len 16 rfl (by show 0 + len ≤ m; omega)

/-- A burst without sub-headers from an encoder with a pending AU, through the
decoder: the burst carries the next bytes of the pending AU; the AU is returned when
the burst completes it. -/
theorem burst_step_continue (k : WireConsts) (h : EncState) (c : Bool)
    (wd fb : List Nat) (fp fm : Nat) (pcm : Int) (q : List (List Nat)) (cap f : Nat)
    (hi : EncInv h) (hsp : k.IEC_BURST_SPACING_SIZE_BYTES ≤ 16320)
    (hsp8 : k.IEC_BURST_SPACING_SIZE_BYTES % 8 = 0)
    (hnb : 1 ≤ h.framesStoredCount) (hpe : h.auPending = true)
    (hH : Held h fb fp fm q) (hwd : wd.length ≤ h.burstRepetitionPeriod)
    (hrb : psum h.frameLength 1 ≤ numAvailableBytes k h 1 → psum h.frameLength 1 % 8 = 0)
    (hcap : 65536 ≤ cap) :
    ∃ os d2, decodeChunks k cap (f + 7) (idleState wd 0 fb fp fm pcm)
        [(emitBurst k h 1 c).1.outputBuffer] = some (os, d2) ∧
      Sim (emitBurst k h 1 c).2 d2
        (q.drop (if psum h.frameLength 1 > numAvailableBytes k h 1 then 1 - 1 else 1)) ∧
      ausOf os =
        q.take (if psum h.frameLength 1 > numAvailableBytes k h 1 then 1 - 1 else 1) := by
  have hp : h.auPending = true → 1 ≤ 1 := fun _ => Nat.le_refl _
  have hpdef : 1 = if h.auPending then 1 else 0 := by rw [hpe]; rfl
  have hfm := hH.pend hpe
  have hBlen := plan_burst_length k h 1 1 hi hsp hsp8 hnb hp hpdef
  obtain ⟨⟨hrc, hP⟩, ⟨hA8, hroom⟩, _, _, _, _⟩ := plan_facts k h 1 1 hi hsp hsp8 hnb hp hpdef
  have hcnt := hi.count
  have hPle : h.burstRepetitionPeriod ≤ 65536 := by
    rcases hi.rate with ⟨_, h2⟩ | ⟨_, h2⟩ <;> omega
  have hps1 : psum h.frameLength 1 = peek h.frameLength 0 := by
    show 0 + peek h.frameLength 0 = _
    omega
  have hpos := hi.flPos 0 (by omega)
  have hsize := hH.size 0 (by omega)
  unfold heldAu at hsize
  rw [if_pos rfl, List.length_append, memRead_length, frameBytes_length] at hsize
  have hq0 : q.take 1 = [memRead fb 0 fp ++ frameBytes h 0] := by
    rw [hH.eq, map_range_take _ _ _ hnb]
    rfl
  by_cases hw : psum h.frameLength 1 > numAvailableBytes k h 1
  · -- the burst does not complete the AU
    rw [if_pos hw]
    have hmin : min (psum h.frameLength 1) (numAvailableBytes k h 1) = numAvailableBytes k h 1 :=
      Nat.min_eq_right (by omega)
    have hX : pdField (1 - 1) (min (psum h.frameLength 1) (numAvailableBytes k h 1)) * 8 - 8 =
        numAvailableBytes k h 1 := by
      rw [hmin]
      unfold pdField
      omega
    have hpdle : pdField (1 - 1) (min (psum h.frameLength 1) (numAvailableBytes k h 1)) * 8 ≤
        65536 := by
      rw [hmin]
      unfold pdField
      omega
    have hpd1 : 1 ≤ pdField (1 - 1) (min (psum h.frameLength 1) (numAvailableBytes k h 1)) := by
      unfold pdField
      omega
    have hd := drain_more k
      (hbrBurst k h.rateFactor h.burstRepetitionPeriod
        (subHeaderEntries h.frameLength h.frameDuration (1 - 1) 1
          (8 + (1 - 1 + 1) * 8 + (if h.auPending then peek h.frameLength 0 else 0)) h.pcmOffset)
        (memRead h.workBuffer 0 (min (psum h.frameLength 1) (numAvailableBytes k h 1))))
      fb h.burstRepetitionPeriod fp fm pcm h.rateFactor
      (pdField (1 - 1) (min (psum h.frameLength 1) (numAvailableBytes k h 1))) cap (f + 5) hP hrc
      hpd1 hpdle (by omega) (by omega) (by rw [hX]; omega)
    have hch := burst_first k h 1 1 c wd fb fp fm pcm cap (f + 5) hi hsp hsp8 hnb hp hpdef
      (by rw [hpe]; exact hfm) hwd (by intro hc; omega) _ _ hd
    refine ⟨_, _, hch, ⟨_, _, _, _, _, rfl, ?_, ?_⟩, ?_⟩
    · rw [emitBurst_period]; exact Nat.le_of_eq hBlen
    · rw [hX]
      apply held_emit_split k h 1 c fb _ fp fm _ _ q hi hsp hnb (Nat.le_refl _) hH hw
      · have hl : (memRead (hbrBurst k h.rateFactor h.burstRepetitionPeriod
            (subHeaderEntries h.frameLength h.frameDuration (1 - 1) 1
              (8 + (1 - 1 + 1) * 8 + (if h.auPending then peek h.frameLength 0 else 0))
              h.pcmOffset)
            (memRead h.workBuffer 0 (min (psum h.frameLength 1) (numAvailableBytes k h 1))))
            16 (numAvailableBytes k h 1)).length = numAvailableBytes k h 1 := memRead_length _ _ _
        have hpre := memRead_memWrite_prefix fb fp
          (memRead (hbrBurst k h.rateFactor h.burstRepetitionPeriod
            (subHeaderEntries h.frameLength h.frameDuration (1 - 1) 1
              (8 + (1 - 1 + 1) * 8 + (if h.auPending then peek h.frameLength 0 else 0))
              h.pcmOffset)
            (memRead h.workBuffer 0 (min (psum h.frameLength 1) (numAvailableBytes k h 1))))
            16 (numAvailableBytes k h 1))
        rw [hl] at hpre
        rw [hpre, burst_frame_zero k h _ _ _ _ _ _ _ _ (Nat.le_of_eq hmin.symm)]
        show _ = (if 0 = 0 then memRead fb 0 fp else []) ++
          memRead h.workBuffer (psum h.frameLength 0) (peek h.frameLength 0)
        rw [if_pos rfl, List.append_assoc]
        congr 1
        have hsplit : peek h.frameLength 0 = numAvailableBytes k h 1 +
            (psum h.frameLength 1 - numAvailableBytes k h 1) := by omega
        rw [hsplit, memRead_add]
        congr 2
        show numAvailableBytes k h 1 = 0 + numAvailableBytes k h 1
        omega
      · omega
    · rw [ausOf_cons_zero _ _ rfl]
      rfl
  · -- the burst completes the AU
    rw [if_neg hw]
    have hmin : min (psum h.frameLength 1) (numAvailableBytes k h 1) = psum h.frameLength 1 :=
      Nat.min_eq_left (by omega)
    have h8 := hrb (by omega)
    have hX : fm = pdField (1 - 1) (min (psum h.frameLength 1) (numAvailableBytes k h 1)) * 8 - 8
        := by
      rw [hmin]
      unfold pdField
      omega
    have hpdle : pdField (1 - 1) (min (psum h.frameLength 1) (numAvailableBytes k h 1)) * 8 ≤
        65536 := by
      rw [hmin]
      unfold pdField
      omega
    have hpd1 : 1 ≤ pdField (1 - 1) (min (psum h.frameLength 1) (numAvailableBytes k h 1)) := by
      unfold pdField
      omega
    have hd := drain_complete k
      (hbrBurst k h.rateFactor h.burstRepetitionPeriod
        (subHeaderEntries h.frameLength h.frameDuration (1 - 1) 1
          (8 + (1 - 1 + 1) * 8 + (if h.auPending then peek h.frameLength 0 else 0)) h.pcmOffset)
        (memRead h.workBuffer 0 (min (psum h.frameLength 1) (numAvailableBytes k h 1))))
      fb h.burstRepetitionPeriod fp fm pcm h.rateFactor
      (pdField (1 - 1) (min (psum h.frameLength 1) (numAvailableBytes k h 1))) cap (f + 4) hP hrc
      hpd1 hpdle (by omega) (by omega) hX (by omega)
    have hch := burst_first k h 1 1 c wd fb fp fm pcm cap (f + 5) hi hsp hsp8 hnb hp hpdef
      (by rw [hpe]; exact hfm) hwd (by intro hc; omega) _ _ hd
    refine ⟨_, _, hch, ⟨_, fb, 0, 0, 0, rfl, ?_, ?_⟩, ?_⟩
    · rw [emitBurst_period]; exact Nat.le_of_eq hBlen
    · exact held_emit_whole k h 1 c fb fb fp fm q hi hsp hnb hp hH (by omega)
    · rw [ausOf_cons_pos _ _ (by show fp + fm ≠ 0; omega), ausOf_cons_zero _ _ rfl, hq0]
      show [memRead fb 0 fp ++ memRead _ 16 fm] = _
      rw [burst_frame_zero k h _ _ _ _ _ _ _ _ (by rw [hmin]; omega), hfm]
      rfl

/-- A burst with sub-headers from an encoder with a pending AU, through the decoder:
the pending AU is completed and returned first, then the listed AUs. -/
theorem burst_step_join (k : WireConsts) (h : EncState) (nb : Nat) (c : Bool)
    (wd fb : List Nat) (fp fm : Nat) (pcm : Int) (q : List (List Nat)) (cap f : Nat)
    (hi : EncInv h) (hsp : k.IEC_BURST_SPACING_SIZE_BYTES ≤ 16320)
    (hsp8 : k.IEC_BURST_SPACING_SIZE_BYTES % 8 = 0)
    (hnb : nb ≤ h.framesStoredCount) (hnb2 : 2 ≤ nb) (hpe : h.auPending = true)
    (hH : Held h fb fp fm q) (hwd : wd.length ≤ h.burstRepetitionPeriod)
    (hra : psum h.frameLength (nb - 1) + 8 ≤
      8 * ((min (psum h.frameLength nb) (numAvailableBytes k h nb) + 7) / 8))
    (hcap : 65536 ≤ cap) :
    ∃ os d2, decodeChunks k cap (f + 7) (idleState wd 0 fb fp fm pcm)
        [(emitBurst k h nb c).1.outputBuffer] = some (os, d2) ∧
      Sim (emitBurst k h nb c).2 d2
        (q.drop (if psum h.frameLength nb > numAvailableBytes k h nb then nb - 1 else nb)) ∧
      ausOf os =
        q.take (if psum h.frameLength nb > numAvailableBytes k h nb then nb - 1 else nb) := by
  have hp : h.auPending = true → 1 ≤ nb := fun _ => by omega
  have hpdef : 1 = if h.auPending then 1 else 0 := by rw [hpe]; rfl
  have hfm := hH.pend hpe
  have hBlen := plan_burst_length k h nb 1 hi hsp hsp8 hnb hp hpdef
  obtain ⟨⟨hrc, hP⟩, ⟨hA8, hroom⟩, hlen, _, hget, _⟩ :=
    plan_facts k h nb 1 hi hsp hsp8 hnb hp hpdef
  have hcnt := hi.count
  have hwr := hi.wr
  have hwrLe := hi.wrLe
  have hps1 : psum h.frameLength 1 = peek h.frameLength 0 := by
    show 0 + peek h.frameLength 0 = _
    omega
  have hpos := hi.flPos 0 (by omega)
  have hsize := hH.size 0 (by omega)
  unfold heldAu at hsize
  rw [if_pos rfl, List.length_append, memRead_length, frameBytes_length] at hsize
  have hmono1 : psum h.frameLength 1 ≤ psum h.frameLength (nb - 1) := psum_mono _ (by omega)
  have hmonoT : psum h.frameLength nb ≤ psum h.frameLength h.framesStoredCount :=
    psum_mono _ hnb
  have hmonoN : psum h.frameLength (nb - 1) ≤ psum h.frameLength nb := psum_mono _ (by omega)
  obtain ⟨os, fb2, fp2, fm2, pcm2, hdr, hheld, haus⟩ :=
    listed_step k h nb 1 c fb fp fm 0 q cap (f + 5 - (nb - 1)) _ _ hi hsp hsp8 hnb hp hpdef
      rfl rfl hH (by omega) hra hcap
  obtain ⟨g1a, g2a⟩ := hget 0 (by omega)
  have g1 : ((subHeaderEntries h.frameLength h.frameDuration (nb - 1) 1
      (8 + (nb - 1 + 1) * 8 + (if h.auPending then peek h.frameLength 0 else 0))
      h.pcmOffset).getD 0 (0, 0, 0)).1 = 8 + (nb - 1 + 1) * 8 + psum h.frameLength 1 := g1a
  have g2 : ((subHeaderEntries h.frameLength h.frameDuration (nb - 1) 1
      (8 + (nb - 1 + 1) * 8 + (if h.auPending then peek h.frameLength 0 else 0))
      h.pcmOffset).getD 0 (0, 0, 0)).2.1 = peek h.frameLength 1 := g2a
  have hs0 : (subHeaderEntries h.frameLength h.frameDuration (nb - 1) 1
      (8 + (nb - 1 + 1) * 8 + (if h.auPending then peek h.frameLength 0 else 0))
      h.pcmOffset)[0]? = some ((subHeaderEntries h.frameLength h.frameDuration (nb - 1) 1
      (8 + (nb - 1 + 1) * 8 + (if h.auPending then peek h.frameLength 0 else 0))
      h.pcmOffset).getD 0 (0, 0, 0)) := by
    rw [List.getD_eq_getElem?_getD, List.getElem?_eq_getElem (by rw [hlen]; omega)]
    rfl
  have hsz1 : peek h.frameLength 1 ≤ 65536 := by
    have := hH.size 1 (by omega)
    unfold heldAu at this
    rw [if_neg (by omega), List.length_append, frameBytes_length] at this
    simpa using this
  have hj := drain_join k h.rateFactor _ (memRead h.workBuffer 0
      (min (psum h.frameLength nb) (numAvailableBytes k h nb))) fb h.burstRepetitionPeriod
    fp fm pcm (pdField (nb - 1) (min (psum h.frameLength nb) (numAvailableBytes k h nb)))
    cap (f + 5 - (nb - 1) + (nb - 1) + 1) _ os feedMoreOut _ hs0
    (by rw [g1]; omega) (by rw [g2]; omega) (by omega) (by omega)
    (by rw [g1]; omega) (by omega) (by rw [hlen]; exact hdr)
  rw [hlen, show f + 5 - (nb - 1) + (nb - 1) + 1 + 1 = f + 5 + 2 by omega] at hj
  have hch := burst_first k h nb 1 c wd fb fp fm pcm cap (f + 5) hi hsp hsp8 hnb hp hpdef
    (by rw [hpe]; exact hfm) hwd (fun _ => hra) _ _ hj
  refine ⟨_, _, hch, ⟨_, fb2, fp2, fm2, pcm2, rfl, ?_, hheld⟩, ?_⟩
  · rw [emitBurst_period]; exact Nat.le_of_eq hBlen
  · have hdel : (if psum h.frameLength nb > numAvailableBytes k h nb then nb - 1 else nb) ≤
        h.framesStoredCount := by split <;> omega
    obtain ⟨dd, hdd⟩ : ∃ dd, (if psum h.frameLength nb > numAvailableBytes k h nb
        then nb - 1 else nb) = dd + 1 := by
      split
      · exact ⟨nb - 2, by omega⟩
      · exact ⟨nb - 1, by omega⟩
    rw [hdd] at hdel haus
    rw [ausOf_cons_pos _ _ (by show fp + fm ≠ 0; omega), haus, hdd, hH.eq,
      map_range_take _ _ _ hdel, List.range_succ_eq_map, List.map_cons, List.map_map]
    congr 1
    · show memRead fb 0 fp ++ memRead _ _ fm = _
      rw [burst_frame k h _ _ _ _ 0 _ _ (by rw [g1, hlen]; show _ = _ + 0; omega)
        (by show 0 + fm ≤ _; omega), hfm]
      rfl
    · rw [show dd + 1 - 1 = dd by omega]
      apply List.map_congr_left
      intro j _
      show frameBytes h (1 + j) = heldAu h fb fp (j + 1)
      unfold heldAu
      rw [if_neg (by omega), Nat.add_comm]
      rfl
/-! ## Round trip: calls, AUs and whole runs -/

/-- One burst of a regular plan through the decoder: the AUs that the burst completes
are returned in order, and encoder and decoder agree again on the AUs in flight. -/
theorem burst_step (k : WireConsts) (h : EncState) (c : Bool)
    (wd fb : List Nat) (fp fm : Nat) (pcm : Int) (q : List (List Nat)) (cap f : Nat)
    (hi : EncInv h) (hsp : k.IEC_BURST_SPACING_SIZE_BYTES ≤ 16320)
    (hsp8 : k.IEC_BURST_SPACING_SIZE_BYTES % 8 = 0)
    (hH : Held h fb fp fm q) (hwd : wd.length ≤ h.burstRepetitionPeriod)
    (hreg : regularBurst k h) (hcap : 65536 ≤ cap) :
    ∃ os d2 q2, decodeChunks k cap (f + 7) (idleState wd 0 fb fp fm pcm)
        [(emitBurst k h (getNumBuffersToWrite k h) c).1.outputBuffer] = some (os, d2) ∧
      Sim (emitBurst k h (getNumBuffersToWrite k h) c).2 d2 q2 ∧ q = ausOf os ++ q2 := by
  have hnb := getNumBuffersToWrite_le k h
  have hp := pending_selected k h hi hsp
  obtain ⟨hra, hrb⟩ := hreg
  have key : ∃ os d2, decodeChunks k cap (f + 7) (idleState wd 0 fb fp fm pcm)
        [(emitBurst k h (getNumBuffersToWrite k h) c).1.outputBuffer] = some (os, d2) ∧
      Sim (emitBurst k h (getNumBuffersToWrite k h) c).2 d2
        (q.drop (if psum h.frameLength (getNumBuffersToWrite k h) >
          numAvailableBytes k h (getNumBuffersToWrite k h)
          then getNumBuffersToWrite k h - 1 else getNumBuffersToWrite k h)) ∧
      ausOf os =
        q.take (if psum h.frameLength (getNumBuffersToWrite k h) >
          numAvailableBytes k h (getNumBuffersToWrite k h)
          then getNumBuffersToWrite k h - 1 else getNumBuffersToWrite k h) := by
    cases hpe : h.auPending
    · rw [hpe] at hra
      exact burst_step_idle k h _ c wd fb fp fm pcm q cap f hi hsp hsp8 hnb hpe hH hwd
        (fun h1 => hra (by simpa using h1)) hcap
    · rw [hpe] at hra hrb
      have h1 := hp hpe
      by_cases h2 : getNumBuffersToWrite k h = 1
      · rw [h2] at hrb hnb ⊢
        exact burst_step_continue k h c wd fb fp fm pcm q cap f hi hsp hsp8 hnb hpe hH hwd
          (fun hw => hrb rfl rfl hw) hcap
      · exact burst_step_join k h _ c wd fb fp fm pcm q cap f hi hsp hsp8 hnb (by omega) hpe hH
          hwd (hra (by simp; omega)) hcap
  obtain ⟨os, d2, h1, h2, h3⟩ := key
  exact ⟨os, d2, _, h1, h2, by rw [h3, List.take_append_drop]⟩

theorem decodeChunks_nil (k : WireConsts) (cap fuel : Nat) (d : DecState) :
    decodeChunks k cap fuel d [] = some ([], d) := rfl

/-- Feeding two runs of chunks one after the other. -/
theorem decodeChunks_append (k : WireConsts) (cap fuel : Nat) :
    ∀ (c1 c2 : List (List Nat)) (d d1 d2 : DecState) (os1 os2 : List DecOut),
      decodeChunks k cap fuel d c1 = some (os1, d1) →
      decodeChunks k cap fuel d1 c2 = some (os2, d2) →
      decodeChunks k cap fuel d (c1 ++ c2) = some (os1 ++ os2, d2) := by
  intro c1
  induction c1 with
  | nil =>
    intro c2 d d1 d2 os1 os2 h1 h2
    rw [decodeChunks_nil] at h1
    cases h1
    exact h2
  | cons a t ih =>
    intro c2 d d1 d2 os1 os2 h1 h2
    rw [List.cons_append]
    unfold decodeChunks at h1 ⊢
    simp only at h1 ⊢
    split at h1
    · cases h1
    · rename_i hf
      rw [if_neg hf]
      split at h1
      · cases h1
      · rename_i os last dm hdr
        split at h1
        · cases h1
        · rename_i hl
          rw [if_neg hl]
          split at h1
          · cases h1
          · rename_i osr dr hrest
            cases h1
            rw [ih c2 dm d1 d2 osr os2 hrest h2, List.append_assoc]

theorem burstsOf_cons_zero (e : EncState × EncOut) (t : List (EncState × EncOut))
    (h : e.2.outputBufferLength = 0) : burstsOf (e :: t) = burstsOf t := by
  unfold burstsOf
  rw [List.filter_cons_of_neg (by simpa using h)]

theorem burstsOf_cons_pos (e : EncState × EncOut) (t : List (EncState × EncOut))
    (h : e.2.outputBufferLength ≠ 0) : burstsOf (e :: t) = e.2.outputBuffer :: burstsOf t := by
  unfold burstsOf
  rw [List.filter_cons_of_pos (by simpa using h), List.map_cons]

theorem burstsOf_append (a b : List (EncState × EncOut)) :
    burstsOf (a ++ b) = burstsOf a ++ burstsOf b := by
  unfold burstsOf
  rw [List.filter_append, List.map_append]

/-- The AUs in flight at the state from which a call plans its burst: the offered AU
is among them unless the call defers it. -/
theorem held_burstState (h : EncState) (au : List Nat) (dur : Nat) (fb : List Nat)
    (fp fm : Nat) (q : List (List Nat)) (hi : EncInv h) (hH : Held h fb fp fm q)
    (hlen : au.length ≤ 65536) (hd : dur ≤ 4096) :
    Held (burstState h au dur) fb fp fm
      (q ++ if decide (h.overallDuration < h.audioFrameLength) = true then [au] else []) := by
  unfold burstState
  by_cases hov : h.overallDuration ≥ h.audioFrameLength
  · rw [if_pos hov, if_neg (by simpa using hov), List.append_nil]
    exact hH
  · rw [if_neg hov, if_pos (by simpa using hov)]
    exact held_store h au dur fb fp fm q hi hH hlen hd (by rw [hi.afl] at hov; omega)

/-- One call of `iec61937_encode_process` that returns `Ok`, and its burst (if any)
through the decoder: the AUs in flight before the call, and the offered AU if it was
consumed, are the AUs the decoder returns followed by the AUs in flight afterwards. -/
theorem call_step (k : WireConsts) (h : EncState) (au : List Nat) (dur : Nat)
    (d : DecState) (q : List (List Nat)) (cap f : Nat)
    (hi : EncInv h) (hsp : k.IEC_BURST_SPACING_SIZE_BYTES ≤ 16320)
    (hsp8 : k.IEC_BURST_SPACING_SIZE_BYTES % 8 = 0)
    (hS : Sim h d q) (hau : au ≠ []) (hlen : au.length ≤ 65536) (hd : dur ≤ 4096)
    (hok : (iec61937_encode_process k h au dur MAX_IEC61937_FRAME_SIZE_BYTES).1.result =
      .IECENC_OK)
    (hreg : (iec61937_encode_process k h au dur
        MAX_IEC61937_FRAME_SIZE_BYTES).1.outputBufferLength ≠ 0 →
      regularBurst k (burstState h au dur))
    (hcap : 65536 ≤ cap) :
    ∃ os d2 q2,
      decodeChunks k cap (f + 7) d
        (burstsOf [(burstState h au dur,
          (iec61937_encode_process k h au dur MAX_IEC61937_FRAME_SIZE_BYTES).1)]) =
        some (os, d2) ∧
      Sim (iec61937_encode_process k h au dur MAX_IEC61937_FRAME_SIZE_BYTES).2 d2 q2 ∧
      q ++ (if (iec61937_encode_process k h au dur
          MAX_IEC61937_FRAME_SIZE_BYTES).1.inputBufferProcessed = true then [au] else []) =
        ausOf os ++ q2 := by
  obtain ⟨wd, fb, fp, fm, pcm, hdeq, hwd, hH⟩ := hS
  rcases encode_process_ok k h au dur MAX_IEC61937_FRAME_SIZE_BYTES hi hsp hau hok with
    ⟨he, hov⟩ | ⟨he, hib, hov, hpn⟩
  · rw [he]
    refine ⟨[], d, q ++ [au], ?_, ⟨wd, fb, fp, fm, pcm, hdeq, hwd, ?_⟩, rfl⟩
    · rw [burstsOf_cons_zero _ _ rfl]
      rfl
    · exact held_store h au dur fb fp fm q hi hH hlen hd (by rw [hi.afl] at hov; omega)
  · have hout := emitBurst_output k (burstState h au dur)
      (getNumBuffersToWrite k (burstState h au dur))
      (decide (h.overallDuration < h.audioFrameLength)) hib hsp
      (getNumBuffersToWrite_le k _) hpn
    have hPpos : (burstState h au dur).burstRepetitionPeriod ≠ 0 := by
      rcases hib.rate with ⟨_, h2⟩ | ⟨_, h2⟩ <;> omega
    have hlenne : (emitBurst k (burstState h au dur)
        (getNumBuffersToWrite k (burstState h au dur))
        (decide (h.overallDuration < h.audioFrameLength))).1.outputBufferLength ≠ 0 := by
      rw [hout]
      exact hPpos
    rw [he] at hreg ⊢
    have hHb := held_burstState h au dur fb fp fm q hi hH hlen hd
    obtain ⟨os, d2, q2, h1, h2, h3⟩ := burst_step k (burstState h au dur)
      (decide (h.overallDuration < h.audioFrameLength)) wd fb fp fm pcm _ cap f hib hsp hsp8 hHb
      (by rw [burstState_period]; exact hwd) (hreg hlenne) hcap
    refine ⟨os, d2, q2, ?_, h2, ?_⟩
    · rw [burstsOf_cons_pos _ _ hlenne, hdeq]
      exact h1
    · rw [emitBurst_consumed]
      exact h3

/-- The accumulated duration stays below five audio frames. -/
theorem process_duration_bound (k : WireConsts) (h : EncState) (au : List Nat) (dur cap : Nat)
    (hi : EncInv h) (hb : h.overallDuration ≤ 5119) :
    (iec61937_encode_process k h au dur cap).2.overallDuration ≤ 5119 := by
  have hafl := hi.afl
  have hdur := hi.dur
  rw [encode_process_eq]
  by_cases h1 : cap < h.burstRepetitionPeriod
  · rw [if_pos h1]
    exact hb
  rw [if_neg h1]
  by_cases h2 : dur > MAX_MPEGH_FRAME_DURATION
  · rw [if_pos h2]
    exact hb
  rw [if_neg h2]
  have hd2 : dur ≤ 4096 := by unfold MAX_MPEGH_FRAME_DURATION at h2; omega
  by_cases hne : (if h.overallDuration ≥ h.audioFrameLength then 0 else au.length) ≠ 0
  · rw [if_pos hne]
    have hov : h.overallDuration < 1024 := by
      by_cases hc : h.overallDuration ≥ h.audioFrameLength
      · rw [if_pos hc] at hne
        exact absurd rfl hne
      · omega
    by_cases h3 : h.framesStoredCount + 1 ≥ MAX_NUM_MPEGH_FRAMES
    · rw [if_pos h3]
      exact hb
    rw [if_neg h3]
    by_cases h4 : h.pWorkBufferWrite + au.length > ENC_WORKBUFFER_SIZE_BYTES
    · rw [if_pos h4]
      exact hb
    rw [if_neg h4]
    by_cases h5 : (storeFrame h au dur).overallDuration < (storeFrame h au dur).audioFrameLength ∨
        getNumBuffersToWrite k (storeFrame h au dur) = 0
    · rw [if_pos h5]
      show h.overallDuration + (dur : Int) ≤ 5119
      omega
    · rw [if_neg h5, emitBurst_duration]
      show h.overallDuration + (dur : Int) - h.audioFrameLength ≤ 5119
      omega
  · rw [if_neg hne, emitBurst_duration]
    omega

/-- With enough calls the encoder demo's inner loop ends: every deferring call takes
one audio frame off the accumulated duration. -/
theorem encodeAu_total (k : WireConsts) (au : List Nat) (dur : Nat)
    (hsp : k.IEC_BURST_SPACING_SIZE_BYTES ≤ 16320) (hau : au ≠ []) :
    ∀ (fuel : Nat) (h : EncState), EncInv h → h.overallDuration ≤ 5119 →
      h.overallDuration < 1024 * (fuel : Int) →
      ∃ t h1, encodeAu k fuel h au dur = some (t, h1) ∧ EncInv h1 ∧
        h1.overallDuration ≤ 5119 := by
  intro fuel
  induction fuel with
  | zero =>
    intro h hi _ hlt
    have := hi.dur
    simp at hlt
    omega
  | succ n ih =>
    intro h hi hb hlt
    have hinv := encode_process_inv k h au dur MAX_IEC61937_FRAME_SIZE_BYTES hi hsp hau
    have hbnd := process_duration_bound k h au dur MAX_IEC61937_FRAME_SIZE_BYTES hi hb
    unfold encodeAu
    simp only
    by_cases hc : (iec61937_encode_process k h au dur MAX_IEC61937_FRAME_SIZE_BYTES).1.result ≠
        .IECENC_OK ∨
        (iec61937_encode_process k h au dur MAX_IEC61937_FRAME_SIZE_BYTES).1.inputBufferProcessed
          = true
    · rw [if_pos hc]
      exact ⟨_, _, rfl, hinv, hbnd⟩
    · rw [if_neg hc]
      have hok : (iec61937_encode_process k h au dur MAX_IEC61937_FRAME_SIZE_BYTES).1.result =
          .IECENC_OK := by
        by_contra hne
        exact hc (Or.inl hne)
      have hnc : ¬ (iec61937_encode_process k h au dur
          MAX_IEC61937_FRAME_SIZE_BYTES).1.inputBufferProcessed = true :=
        fun hx => hc (Or.inr hx)
      have hlt2 : (iec61937_encode_process k h au dur
          MAX_IEC61937_FRAME_SIZE_BYTES).2.overallDuration < 1024 * (n : Int) := by
        rcases encode_process_ok k h au dur MAX_IEC61937_FRAME_SIZE_BYTES hi hsp hau hok with
          ⟨he, _⟩ | ⟨he, _, _, _⟩
        · rw [he] at hnc
          exact absurd rfl hnc
        · rw [he, emitBurst_consumed] at hnc
          have hge : h.overallDuration ≥ h.audioFrameLength := by
            by_contra hx
            exact hnc (by simpa using hx)
          rw [he, emitBurst_duration]
          unfold burstState
          rw [if_pos hge, hi.afl]
          push_cast at hlt
          omega
      obtain ⟨t, h1, e1, e2, e3⟩ := ih _ hinv hbnd hlt2
      rw [e1]
      exact ⟨_, _, rfl, e2, e3⟩

/-- The encoder demo's loop over a sequence of AUs ends when each AU is given five
calls. -/
theorem encodeAll_total (k : WireConsts) (f : Nat)
    (hsp : k.IEC_BURST_SPACING_SIZE_BYTES ≤ 16320) :
    ∀ (pairs : List (List Nat × Nat)) (h : EncState), EncInv h → h.overallDuration ≤ 5119 →
      (∀ p, p ∈ pairs → p.1 ≠ []) →
      ∃ t hf, encodeAll k (f + 5) h pairs = some (t, hf) := by
  intro pairs
  induction pairs with
  | nil => intro h _ _ _; exact ⟨_, _, rfl⟩
  | cons p rest ih =>
    intro h hi hb hp
    obtain ⟨t, h1, e1, e2, e3⟩ := encodeAu_total k p.1 p.2 hsp (hp p (List.mem_cons_self _ _))
      (f + 5) h hi hb (by push_cast; omega)
    unfold encodeAll
    rw [e1]
    simp only
    split
    · obtain ⟨t2, hf, e4⟩ := ih h1 e2 e3 (fun p' hp' => hp p' (List.mem_cons_of_mem _ hp'))
      rw [e4]
      exact ⟨_, _, rfl⟩
    · exact ⟨_, _, rfl⟩

/-- The calls of one AU, all of them `Ok` and regular, and their bursts through the
decoder. -/
theorem au_step (k : WireConsts) (au : List Nat) (dur cap f : Nat)
    (hsp : k.IEC_BURST_SPACING_SIZE_BYTES ≤ 16320)
    (hsp8 : k.IEC_BURST_SPACING_SIZE_BYTES % 8 = 0)
    (hau : au ≠ []) (hlen : au.length ≤ 65536) (hd : dur ≤ 4096) (hcap : 65536 ≤ cap) :
    ∀ (fuel : Nat) (h : EncState) (d : DecState) (q : List (List Nat))
      (t : List (EncState × EncOut)) (h1 : EncState),
      EncInv h → Sim h d q → encodeAu k fuel h au dur = some (t, h1) →
      (∀ e, e ∈ t → e.2.result = .IECENC_OK) → regularRun k t →
      ∃ os d2 q2, decodeChunks k cap (f + 7) d (burstsOf t) = some (os, d2) ∧
        Sim h1 d2 q2 ∧ EncInv h1 ∧ q ++ [au] = ausOf os ++ q2 := by
  intro fuel
  induction fuel with
  | zero =>
    intro h d q t h1 _ _ henc
    cases henc
  | succ n ih =>
    intro h d q t h1 hi hS henc hall hreg
    have hinv := encode_process_inv k h au dur MAX_IEC61937_FRAME_SIZE_BYTES hi hsp hau
    unfold encodeAu at henc
    simp only at henc
    by_cases hc : (iec61937_encode_process k h au dur MAX_IEC61937_FRAME_SIZE_BYTES).1.result ≠
        .IECENC_OK ∨
        (iec61937_encode_process k h au dur MAX_IEC61937_FRAME_SIZE_BYTES).1.inputBufferProcessed
          = true
    · rw [if_pos hc] at henc
      cases henc
      have hok := hall _ (List.mem_singleton.mpr rfl)
      have hcons : (iec61937_encode_process k h au dur
          MAX_IEC61937_FRAME_SIZE_BYTES).1.inputBufferProcessed = true := by
        rcases hc with hc | hc
        · exact absurd hok hc
        · exact hc
      obtain ⟨os, d2, q2, e1, e2, e3⟩ := call_step k h au dur d q cap f hi hsp hsp8 hS hau hlen hd
        hok (fun hne => hreg _ (List.mem_singleton.mpr rfl) hne) hcap
      rw [if_pos hcons] at e3
      exact ⟨os, d2, q2, e1, e2, hinv, e3⟩
    · rw [if_neg hc] at henc
      have hok : (iec61937_encode_process k h au dur MAX_IEC61937_FRAME_SIZE_BYTES).1.result =
          .IECENC_OK := by
        by_contra hne
        exact hc (Or.inl hne)
      have hnc : ¬ (iec61937_encode_process k h au dur
          MAX_IEC61937_FRAME_SIZE_BYTES).1.inputBufferProcessed = true :=
        fun hx => hc (Or.inr hx)
      split at henc
      · cases henc
      · rename_i t2 h2 hrest
        cases henc
        obtain ⟨os1, d1, q1, e1, e2, e3⟩ := call_step k h au dur d q cap f hi hsp hsp8 hS hau
          hlen hd hok (fun hne => hreg _ (List.mem_cons_self _ _) hne) hcap
        rw [if_neg hnc, List.append_nil] at e3
        obtain ⟨os2, d2, q2, g1, g2, g3, g4⟩ := ih _ d1 q1 t2 h1 hinv e2 hrest
          (fun e he => hall e (List.mem_cons_of_mem _ he))
          (fun e he => hreg e (List.mem_cons_of_mem _ he))
        refine ⟨os1 ++ os2, d2, q2, ?_, g2, g3, ?_⟩
        · have := burstsOf_append [(burstState h au dur,
            (iec61937_encode_process k h au dur MAX_IEC61937_FRAME_SIZE_BYTES).1)] t2
          rw [List.singleton_append] at this
          rw [this]
          exact decodeChunks_append k cap (f + 7) _ _ d d1 d2 os1 os2 e1 g1
        · rw [ausOf_append, e3, List.append_assoc, g4, List.append_assoc]

/-- The calls of a sequence of AUs, all of them `Ok` and regular, and their bursts
through the decoder. -/
theorem all_step (k : WireConsts) (cap f fuel : Nat)
    (hsp : k.IEC_BURST_SPACING_SIZE_BYTES ≤ 16320)
    (hsp8 : k.IEC_BURST_SPACING_SIZE_BYTES % 8 = 0) (hcap : 65536 ≤ cap) :
    ∀ (pairs : List (List Nat × Nat)) (h : EncState) (d : DecState) (q : List (List Nat))
      (t : List (EncState × EncOut)) (hf : EncState),
      EncInv h → Sim h d q →
      (∀ p, p ∈ pairs → p.1 ≠ [] ∧ p.1.length ≤ 65536 ∧ p.2 ≤ 4096) →
      encodeAll k fuel h pairs = some (t, hf) →
      (∀ e, e ∈ t → e.2.result = .IECENC_OK) → regularRun k t →
      ∃ os d2 q2, decodeChunks k cap (f + 7) d (burstsOf t) = some (os, d2) ∧
        Sim hf d2 q2 ∧ q ++ pairs.map Prod.fst = ausOf os ++ q2 := by
  intro pairs
  induction pairs with
  | nil =>
    intro h d q t hf _ hS _ henc _ _
    cases henc
    exact ⟨[], d, q, rfl, hS, by rw [List.map_nil, List.append_nil]; rfl⟩
  | cons p rest ih =>
    intro h d q t hf hi hS hp henc hall hreg
    unfold encodeAll at henc
    split at henc
    · cases henc
    · rename_i t1 h1 hau1
      split at henc
      · split at henc
        · cases henc
        · rename_i t2 h2 hrest
          cases henc
          obtain ⟨p1, p2, p3⟩ := hp p (List.mem_cons_self _ _)
          obtain ⟨os1, d1, q1, e1, e2, e3, e4⟩ := au_step k p.1 p.2 cap f hsp hsp8 p1 p2 p3 hcap
            fuel h d q t1 h1 hi hS hau1
            (fun e he => hall e (List.mem_append_left _ he))
            (fun e he => hreg e (List.mem_append_left _ he))
          obtain ⟨os2, d2, q2, g1, g2, g3⟩ := ih h1 d1 q1 t2 hf e3 e2
            (fun p' hp' => hp p' (List.mem_cons_of_mem _ hp')) hrest
            (fun e he => hall e (List.mem_append_right _ he))
            (fun e he => hreg e (List.mem_append_right _ he))
          refine ⟨os1 ++ os2, d2, q2, ?_, g2, ?_⟩
          · rw [burstsOf_append]
            exact decodeChunks_append k cap (f + 7) _ _ d d1 d2 os1 os2 e1 g1
          · rw [List.map_cons, ausOf_append, List.append_assoc, ← g3, ← List.append_assoc,
              ← e4, List.append_assoc]
            rfl
      · rename_i hnall
        cases henc
        exfalso
        apply hnall
        rw [List.all_eq_true]
        intro e he
        exact decide_eq_true (hall e he)

/-! ## Planning, bookkeeping and sub-header walk -/

/-- The first call of the encoder on an AU of 16452 bytes with duration 2048 writes
`splitBurst`. -/
theorem splitBurst_encoded :
    (iec61937_encode_process refConsts (encInit 1 1) (List.replicate 16452 1) 2048
      16384).1.outputBuffer = splitBurst := by
  rw [(split_first_call refConsts (List.replicate 16452 1) 16352 100 (by decide) (by decide)
    (by rw [List.length_replicate]) (by decide) (by decide)).1]
  show hbrBurst refConsts 1 16384 [(24, (List.replicate 16452 1).length, 0)]
    ((List.replicate 16452 1).take 16352) = _
  rw [List.length_replicate, List.take_replicate]
  rfl

/-- The state from which the first burst of the split-AU scenario is planned: the AU of
16452 bytes is the only stored frame. -/
theorem splitPlan_facts :
    (burstState (encInit 1 1) (List.replicate 16452 1) 2048).frameLength =
      [16452, 0, 0, 0, 0] ∧
    (burstState (encInit 1 1) (List.replicate 16452 1) 2048).framesStoredCount = 1 ∧
    (burstState (encInit 1 1) (List.replicate 16452 1) 2048).auPending = false ∧
    (burstState (encInit 1 1) (List.replicate 16452 1) 2048).burstRepetitionPeriod = 16384 ∧
    (burstState (encInit 1 1) (List.replicate 16452 1) 2048).payloadHeaderSize = 8 ∧
    (burstState (encInit 1 1) (List.replicate 16452 1) 2048).frameDuration =
      [2048, 0, 0, 0, 0] ∧
    (burstState (encInit 1 1) (List.replicate 16452 1) 2048).overallDuration = 2048 ∧
    getNumBuffersToWrite refConsts (burstState (encInit 1 1) (List.replicate 16452 1) 2048) = 1 := by
  have hbs : burstState (encInit 1 1) (List.replicate 16452 1) 2048 =
      storeFrame (encInit 1 1) (List.replicate 16452 1) 2048 := rfl
  rw [hbs]
  refine ⟨?_, rfl, rfl, rfl, rfl, rfl, rfl, ?_⟩
  · show (List.replicate 5 0).set 0 (List.replicate 16452 1).length = _
    rw [List.length_replicate]
    rfl
  · rfl

theorem largestUpTo_le (P : Nat → Bool) (n : Nat) : largestUpTo P n ≤ n := by
  induction n with
  | zero => exact Nat.le_refl _
  | succ n ih =>
    unfold largestUpTo
    split
    · exact Nat.le_refl _
    · omega

theorem largestUpTo_ge (P : Nat → Bool) (n j : Nat) (hj : j ≤ n) (hP : P j = true) :
    j ≤ largestUpTo P n := by
  induction n with
  | zero => omega
  | succ n ih =>
    unfold largestUpTo
    by_cases hc : P (n + 1) = true
    · rw [if_pos hc]; exact hj
    · rw [if_neg hc]
      have : j ≠ n + 1 := by
        intro e
        rw [e] at hP
        exact hc hP
      exact ih (by omega)

theorem largestUpTo_sat (P : Nat → Bool) (n : Nat) :
    largestUpTo P n = 0 ∨ P (largestUpTo P n) = true := by
  induction n with
  | zero => exact Or.inl rfl
  | succ n ih =>
    unfold largestUpTo
    by_cases hc : P (n + 1) = true
    · rw [if_pos hc]; exact Or.inr hc
    · rw [if_neg hc]; exact ih

/-- The selection loop, from its invariant: `i` frames selected, `writeLength` their
bytes and sub-headers, `duration` their durations. -/
theorem getNumBuffersLoop_spec (h : EncState) (A : Nat)
    (hb : psum h.frameLength h.framesStoredCount + h.framesStoredCount * h.payloadHeaderSize <
      4294967296) :
    ∀ (n i : Nat), i + n = h.framesStoredCount →
      i ≤ getNumBuffersLoop h A n i (psum h.frameLength i + i * h.payloadHeaderSize)
        ((psum h.frameDuration i : Nat) : Int) ∧
      getNumBuffersLoop h A n i (psum h.frameLength i + i * h.payloadHeaderSize)
        ((psum h.frameDuration i : Nat) : Int) ≤ h.framesStoredCount ∧
      (∀ j, i ≤ j → j < getNumBuffersLoop h A n i (psum h.frameLength i + i * h.payloadHeaderSize)
          ((psum h.frameDuration i : Nat) : Int) →
        psum h.frameLength j + j * h.payloadHeaderSize < A ∧
        ((psum h.frameDuration j : Nat) : Int) ≤ h.overallDuration) ∧
      (getNumBuffersLoop h A n i (psum h.frameLength i + i * h.payloadHeaderSize)
          ((psum h.frameDuration i : Nat) : Int) = h.framesStoredCount ∨
        psum h.frameLength
            (getNumBuffersLoop h A n i (psum h.frameLength i + i * h.payloadHeaderSize)
              ((psum h.frameDuration i : Nat) : Int)) +
          getNumBuffersLoop h A n i (psum h.frameLength i + i * h.payloadHeaderSize)
              ((psum h.frameDuration i : Nat) : Int) * h.payloadHeaderSize ≥ A ∨
        ((psum h.frameDuration
            (getNumBuffersLoop h A n i (psum h.frameLength i + i * h.payloadHeaderSize)
              ((psum h.frameDuration i : Nat) : Int)) : Nat) : Int) > h.overallDuration) := by
  intro n
  induction n with
  | zero =>
    intro i hi
    simp only [getNumBuffersLoop]
    exact ⟨Nat.le_refl _, by omega, fun j h1 h2 => by omega, Or.inl (by omega)⟩
  | succ n ih =>
    intro i hi
    simp only [getNumBuffersLoop]
    by_cases hc : psum h.frameLength i + i * h.payloadHeaderSize < A ∧
        ((psum h.frameDuration i : Nat) : Int) ≤ h.overallDuration ∧ i ≠ h.framesStoredCount
    · rw [if_pos hc]
      have hm : psum h.frameLength (i + 1) ≤ psum h.frameLength h.framesStoredCount :=
        psum_mono _ (by omega)
      have hs1 : psum h.frameLength (i + 1) = psum h.frameLength i + peek h.frameLength i := rfl
      have hs2 : psum h.frameDuration (i + 1) =
          psum h.frameDuration i + peek h.frameDuration i := rfl
      have hmul : (i + 1) * h.payloadHeaderSize ≤ h.framesStoredCount * h.payloadHeaderSize :=
        Nat.mul_le_mul_right _ (by omega)
      have hmul2 : (i + 1) * h.payloadHeaderSize = i * h.payloadHeaderSize + h.payloadHeaderSize :=
        Nat.succ_mul _ _
      have e1 : u32 (psum h.frameLength i + i * h.payloadHeaderSize +
          (peek h.frameLength i + h.payloadHeaderSize)) =
          psum h.frameLength (i + 1) + (i + 1) * h.payloadHeaderSize := by
        rw [u32_of_lt (by omega)]
        omega
      have e2 : ((psum h.frameDuration i : Nat) : Int) + (peek h.frameDuration i : Int) =
          ((psum h.frameDuration (i + 1) : Nat) : Int) := by
        rw [hs2]
        push_cast
        rfl
      rw [e1, e2]
      obtain ⟨a1, a2, a3, a4⟩ := ih (i + 1) (by omega)
      refine ⟨by omega, a2, ?_, a4⟩
      intro j hj1 hj2
      by_cases hji : j = i
      · rw [hji]
        exact ⟨hc.1, hc.2.1⟩
      · exact a3 j (by omega) hj2
    · rw [if_neg hc]
      refine ⟨Nat.le_refl _, by omega, fun j h1 h2 => by omega, ?_⟩
      by_cases h1 : i = h.framesStoredCount
      · exact Or.inl h1
      · by_cases h2 : psum h.frameLength i + i * h.payloadHeaderSize < A
        · right; right
          by_contra h3
          exact hc ⟨h2, by omega, h1⟩
        · right; left
          omega

theorem availableBytes_spec (k : WireConsts) (h : EncState)
    (hP : h.burstRepetitionPeriod < 4294967296)
    (hroom : IEC_HEADER_SIZE_BYTES + k.IEC_BURST_SPACING_SIZE_BYTES + h.payloadHeaderSize ≤
      h.burstRepetitionPeriod) :
    availableBytes k h = availablePayloadBytes k h := by
  unfold availableBytes availablePayloadBytes sub32
  unfold IEC_HEADER_SIZE_BYTES at *
  cases h.auPending
  · simp only [Bool.false_eq_true, if_false]
    omega
  · simp only [if_true]
    omega

theorem writePayloadHeaders_pcm (h : EncState) :
    ∀ (n i off : Nat) (pcm : Int),
      (writePayloadHeaders h n i off pcm).2 =
        pcm + ((psum h.frameDuration (i + n) - psum h.frameDuration i : Nat) : Int) := by
  intro n
  induction n with
  | zero => intro i off pcm; simp [writePayloadHeaders]
  | succ n ih =>
    intro i off pcm
    show (writePayloadHeaders h n (i + 1) _ (pcm + peek h.frameDuration i)).2 = _
    rw [ih]
    have h1 : psum h.frameDuration (i + 1) = psum h.frameDuration i + peek h.frameDuration i := rfl
    have h2 : psum h.frameDuration (i + 1) ≤ psum h.frameDuration (i + 1 + n) :=
      psum_mono _ (by omega)
    rw [show i + (n + 1) = i + 1 + n by omega]
    omega

theorem burstState_pcmOffset (h : EncState) (au : List Nat) (d : Nat) :
    (burstState h au d).pcmOffset = h.pcmOffset := by
  unfold burstState
  split <;> rfl

theorem burstState_auPending (h : EncState) (au : List Nat) (d : Nat) :
    (burstState h au d).auPending = h.auPending := by
  unfold burstState
  split <;> rfl

/-- The encoder's `pcmOffset` after a burst: the offset on entry advanced by the
durations of the listed frames, less one audio frame. -/
theorem emitBurst_pcmOffset (k : WireConsts) (h : EncState) (nb : Nat) (c : Bool)
    (hnb : nb ≤ 4) (hp : h.auPending = true → 1 ≤ nb) :
    (emitBurst k h nb c).2.pcmOffset =
      h.pcmOffset +
        ((psum h.frameDuration ((if h.auPending then 1 else 0) +
            (nb - (if h.auPending then 1 else 0))) -
          psum h.frameDuration (if h.auPending then 1 else 0) : Nat) : Int) -
        h.audioFrameLength := by
  show (burstSubHeaders h nb).2 - h.audioFrameLength = _
  unfold burstSubHeaders
  simp only
  rw [writePayloadHeaders_pcm, numPayloadHeaders_eq h nb hnb hp]

theorem memRead_drop (a : List Nat) (off n d : Nat) (hd : d ≤ n) :
    (memRead a off n).drop d = memRead a (off + d) (n - d) := by
  have e : n = d + (n - d) := by omega
  conv_lhs => rw [e, memRead_add]
  exact List.drop_left' (memRead_length _ _ _)

/-- What `emitBurst` leaves in the frame table and the work buffer. -/
theorem emitBurst_bookkeeping (k : WireConsts) (h : EncState) (nb : Nat) (c : Bool)
    (hi : EncInv h) (hsp : k.IEC_BURST_SPACING_SIZE_BYTES ≤ 16320)
    (hnb : nb ≤ h.framesStoredCount) (hp : h.auPending = true → 1 ≤ nb) :
    (psum h.frameLength nb > numAvailableBytes k h nb →
      (emitBurst k h nb c).2.auPending = true ∧
      (emitBurst k h nb c).2.framesStoredCount = h.framesStoredCount - (nb - 1) ∧
      peek (emitBurst k h nb c).2.frameLength 0 =
        psum h.frameLength nb - numAvailableBytes k h nb ∧
      peek (emitBurst k h nb c).2.frameDuration 0 = 0 ∧
      (∀ t, 1 ≤ t → t < (emitBurst k h nb c).2.framesStoredCount →
        peek (emitBurst k h nb c).2.frameLength t = peek h.frameLength (nb - 1 + t) ∧
        peek (emitBurst k h nb c).2.frameDuration t = peek h.frameDuration (nb - 1 + t)) ∧
      (psum h.frameLength (nb - 1) ≤ numAvailableBytes k h nb →
        frameBytes (emitBurst k h nb c).2 0 =
          (frameBytes h (nb - 1)).drop (numAvailableBytes k h nb - psum h.frameLength (nb - 1))) ∧
      (numAvailableBytes k h nb < psum h.frameLength (nb - 1) →
        peek h.frameLength (nb - 1) < psum h.frameLength nb - numAvailableBytes k h nb)) ∧
    (psum h.frameLength nb ≤ numAvailableBytes k h nb →
      (emitBurst k h nb c).2.auPending = false ∧
      (emitBurst k h nb c).2.framesStoredCount = h.framesStoredCount - nb ∧
      ∀ t, t < (emitBurst k h nb c).2.framesStoredCount →
        peek (emitBurst k h nb c).2.frameLength t = peek h.frameLength (nb + t) ∧
        peek (emitBurst k h nb c).2.frameDuration t = peek h.frameDuration (nb + t)) ∧
    memRead h.workBuffer 0 (psum h.frameLength h.framesStoredCount) =
      memRead h.workBuffer 0 (min (psum h.frameLength nb) (numAvailableBytes k h nb)) ++
        memRead (emitBurst k h nb c).2.workBuffer 0
          (psum (emitBurst k h nb c).2.frameLength (emitBurst k h nb c).2.framesStoredCount) ∧
    (emitBurst k h nb c).2.pWorkBufferWrite =
      psum (emitBurst k h nb c).2.frameLength (emitBurst k h nb c).2.framesStoredCount := by
  obtain ⟨f1, f2, _, _, f5, f6, f7, f8⟩ := emitBurst_frames k h nb c hi hsp hnb
  have hmono : psum h.frameLength nb ≤ psum h.frameLength h.framesStoredCount := psum_mono _ hnb
  have hkeep : psum (emitBurst k h nb c).2.frameLength (emitBurst k h nb c).2.framesStoredCount =
      psum h.frameLength h.framesStoredCount -
        min (psum h.frameLength nb) (numAvailableBytes k h nb) := by
    by_cases hw : psum h.frameLength nb > numAvailableBytes k h nb
    · rw [if_pos hw] at f2 f5
      have hnb1 : 1 ≤ nb := by
        by_contra h0
        have : nb = 0 := by omega
        subst this
        simp [psum] at hw
      have hfl : ∀ t, 1 ≤ t → t < h.framesStoredCount - (nb - 1) →
          peek (emitBurst k h nb c).2.frameLength t = peek h.frameLength (nb - 1 + t) := by
        intro t ht1 ht
        rw [f5 t ht, if_neg (by omega)]
      have h0 : peek (emitBurst k h nb c).2.frameLength 0 =
          psum h.frameLength nb - numAvailableBytes k h nb := by
        rw [f5 0 (by omega), if_pos ⟨hw, rfl⟩]
      have hsh := psum_shift1 h.frameLength (emitBurst k h nb c).2.frameLength (nb - 1)
        (h.framesStoredCount - (nb - 1)) (by omega) hfl
      rw [h0, show nb - 1 + 1 = nb by omega,
        show nb - 1 + (h.framesStoredCount - (nb - 1)) = h.framesStoredCount by omega] at hsh
      rw [f2, Nat.min_eq_right (by omega)]
      omega
    · rw [if_neg hw] at f2 f5
      have hfl : ∀ t, t < h.framesStoredCount - nb →
          peek (emitBurst k h nb c).2.frameLength t = peek h.frameLength (nb + t) := by
        intro t ht
        rw [f5 t ht, if_neg (fun hh => hw hh.1)]
      have hsh := psum_shift h.frameLength (emitBurst k h nb c).2.frameLength nb
        (h.framesStoredCount - nb) hfl
      rw [show nb + (h.framesStoredCount - nb) = h.framesStoredCount by omega] at hsh
      rw [f2, Nat.min_eq_left (by omega)]
      omega
  refine ⟨?_, ?_, ?_, ?_⟩
  · intro hw
    have hnb1 : 1 ≤ nb := by
      by_contra h0
      have : nb = 0 := by omega
      subst this
      simp [psum] at hw
    obtain ⟨e1, e2, e3, e4, _⟩ := emit_frames_split k h nb c hi hsp hnb hnb1 hw
    have hs := psum_succ h.frameLength (nb - 1)
    rw [show nb - 1 + 1 = nb by omega] at hs
    rw [if_pos hw] at f5 f6
    refine ⟨e2, e1, e3, ?_, ?_, ?_, ?_⟩
    · rw [f6 0 (by omega), if_pos ⟨hw, rfl⟩]
    · intro t ht1 ht
      rw [e1] at ht
      rw [f5 t ht, if_neg (by omega), f6 t ht, if_neg (by omega)]
      exact ⟨rfl, rfl⟩
    · intro hle
      rw [e4]
      unfold frameBytes
      rw [memRead_drop _ _ _ _ (by omega)]
      congr 1 <;> omega
    · intro hlt
      omega
  · intro hw
    have hnot : ¬ psum h.frameLength nb > numAvailableBytes k h nb := by omega
    rw [if_neg hnot] at f2 f5 f6
    refine ⟨?_, f2, ?_⟩
    · rw [f1]
      by_cases h0 : nb = 0
      · rw [if_pos h0]
        cases hpe : h.auPending
        · rfl
        · have := hp hpe
          omega
      · rw [if_neg h0]
        exact decide_eq_false hnot
    · intro t ht
      rw [f2] at ht
      rw [f5 t ht, if_neg (fun hh => hnot hh.1), f6 t ht, if_neg (fun hh => hnot hh.1)]
      exact ⟨rfl, rfl⟩
  · rw [hkeep, f8]
    have hmin : min (psum h.frameLength nb) (numAvailableBytes k h nb) ≤
        psum h.frameLength h.framesStoredCount :=
      Nat.le_trans (Nat.min_le_left _ _) hmono
    generalize min (psum h.frameLength nb) (numAvailableBytes k h nb) = m at *
    have e : psum h.frameLength h.framesStoredCount =
        m + (psum h.frameLength h.framesStoredCount - m) := by omega
    conv_lhs => rw [e, memRead_add]
    congr 1
    by_cases hk : psum h.frameLength h.framesStoredCount - m > 0
    · rw [if_pos hk, memRead_memMove _ _ _ _ _ (by omega), Nat.zero_add, Nat.add_zero]
    · rw [if_neg hk, show psum h.frameLength h.framesStoredCount - m = 0 by omega,
        memRead_zero, memRead_zero]
  · rw [hkeep, f7]

theorem storeFrame_pWorkBufferWrite (h : EncState) (au : List Nat) (d : Nat) :
    (storeFrame h au d).pWorkBufferWrite = h.pWorkBufferWrite + au.length := rfl

theorem storeFrame_frameLength (h : EncState) (au : List Nat) (d : Nat) :
    (storeFrame h au d).frameLength = h.frameLength.set h.framesStoredCount au.length := rfl

theorem storeFrame_frameDuration (h : EncState) (au : List Nat) (d : Nat) :
    (storeFrame h au d).frameDuration = h.frameDuration.set h.framesStoredCount d := rfl

theorem storeFrame_framesStoredCount (h : EncState) (au : List Nat) (d : Nat) :
    (storeFrame h au d).framesStoredCount = h.framesStoredCount + 1 := rfl

theorem storeFrame_overallDuration (h : EncState) (au : List Nat) (d : Nat) :
    (storeFrame h au d).overallDuration = h.overallDuration + d := rfl

theorem storeFrame_auPending (h : EncState) (au : List Nat) (d : Nat) :
    (storeFrame h au d).auPending = h.auPending := rfl

theorem storeFrame_period (h : EncState) (au : List Nat) (d : Nat) :
    (storeFrame h au d).burstRepetitionPeriod = h.burstRepetitionPeriod := rfl

/-- The calls of the mis-split scenario: the first AU (16350 bytes, duration 512) is
stored; with the second one (100 bytes, duration 512) the duration reaches 1024 and a
burst is planned from a table of two frames, both selected, with 16344 free bytes. -/
theorem misSplit_facts :
    misSplitState = storeFrame (encInit 1 1) (List.replicate 16350 1) 512 ∧
    EncInv misSplitState ∧
    burstState misSplitState (List.replicate 100 1) 512 =
      storeFrame misSplitState (List.replicate 100 1) 512 ∧
    iec61937_encode_process refConsts misSplitState (List.replicate 100 1) 512 16384 =
      emitBurst refConsts (storeFrame misSplitState (List.replicate 100 1) 512)
        (getNumBuffersToWrite refConsts (storeFrame misSplitState (List.replicate 100 1) 512))
        true ∧
    (storeFrame misSplitState (List.replicate 100 1) 512).frameLength =
      [16350, 100, 0, 0, 0] ∧
    (storeFrame misSplitState (List.replicate 100 1) 512).framesStoredCount = 2 ∧
    getNumBuffersToWrite refConsts (storeFrame misSplitState (List.replicate 100 1) 512) = 2 ∧
    numAvailableBytes refConsts (storeFrame misSplitState (List.replicate 100 1) 512) 2 =
      16344 ∧
    (iec61937_encode_process refConsts misSplitState (List.replicate 100 1) 512
      16384).1.result = .IECENC_OK ∧
    (iec61937_encode_process refConsts misSplitState (List.replicate 100 1) 512
      16384).1.outputBufferLength = 16384 := by
  have hi0 := encInit_inv 1 (Or.inl rfl)
  have hlen0 : (List.replicate 16350 1).length = 16350 := List.length_replicate _ _
  have hlen1 : (List.replicate 100 1).length = 100 := List.length_replicate _ _
  obtain ⟨a1, _, a3⟩ := accept_call refConsts (encInit 1 1) (List.replicate 16350 1) 512 16384
    hi0 (by decide) (by intro e; rw [e] at hlen0; cases hlen0) (by decide) (by decide)
    (by decide) (by decide) (by rw [hlen0]; decide)
  have hst : misSplitState = storeFrame (encInit 1 1) (List.replicate 16350 1) 512 := by
    unfold misSplitState
    rw [a3, if_pos (by decide)]
  have hi1 : EncInv misSplitState := by rw [hst]; exact a1
  have hov : misSplitState.overallDuration = 512 := by
    rw [hst, storeFrame_overallDuration]; rfl
  have hafl : misSplitState.audioFrameLength = 1024 := hi1.afl
  have hcnt : misSplitState.framesStoredCount = 1 := by
    rw [hst, storeFrame_framesStoredCount]; rfl
  have hwr : misSplitState.pWorkBufferWrite = 16350 := by
    rw [hst, storeFrame_pWorkBufferWrite, hlen0]; rfl
  have hper : misSplitState.burstRepetitionPeriod = 16384 := by
    rw [hst, storeFrame_period]; rfl
  have hfl : misSplitState.frameLength = [16350, 0, 0, 0, 0] := by
    rw [hst, storeFrame_frameLength, hlen0]
    rfl
  have hfd : misSplitState.frameDuration = [512, 0, 0, 0, 0] := by
    rw [hst, storeFrame_frameDuration]; rfl
  have hpe : misSplitState.auPending = false := by
    rw [hst, storeFrame_auPending]; rfl
  obtain ⟨b1, _, b3⟩ := accept_call refConsts misSplitState (List.replicate 100 1) 512 16384
    hi1 (by decide) (by intro e; rw [e] at hlen1; cases hlen1) (by rw [hper]; decide)
    (by decide) (by rw [hov, hafl]; decide) (by rw [hcnt]; decide)
    (by rw [hwr, hlen1]; decide)
  have hS1 : (storeFrame misSplitState (List.replicate 100 1) 512).frameLength =
      [16350, 100, 0, 0, 0] := by
    rw [storeFrame_frameLength, hfl, hcnt, hlen1]
    rfl
  have hS2 : (storeFrame misSplitState (List.replicate 100 1) 512).framesStoredCount = 2 := by
    rw [storeFrame_framesStoredCount, hcnt]
  have hSd : (storeFrame misSplitState (List.replicate 100 1) 512).frameDuration =
      [512, 512, 0, 0, 0] := by
    rw [storeFrame_frameDuration, hfd, hcnt]
    rfl
  have hSo : (storeFrame misSplitState (List.replicate 100 1) 512).overallDuration = 1024 := by
    rw [storeFrame_overallDuration, hov]
    rfl
  have hA := numAvailableBytes_eq refConsts _ b1 (by decide) 2 (by decide)
  have hAv := availableBytes_eq refConsts _ b1 (by decide)
  have hSp : (storeFrame misSplitState (List.replicate 100 1) 512).auPending = false := by
    rw [storeFrame_auPending, hpe]
  have hSper : (storeFrame misSplitState (List.replicate 100 1) 512).burstRepetitionPeriod =
      16384 := by
    rw [storeFrame_period, hper]
  have hcall : iec61937_encode_process refConsts misSplitState (List.replicate 100 1) 512 16384 =
      emitBurst refConsts (storeFrame misSplitState (List.replicate 100 1) 512)
        (getNumBuffersToWrite refConsts (storeFrame misSplitState (List.replicate 100 1) 512))
        true := by
    rw [b3, if_neg (by rw [hov]; decide)]
  have hout := emitBurst_output refConsts _ _ true b1 (by decide)
    (getNumBuffersToWrite_le refConsts (storeFrame misSplitState (List.replicate 100 1) 512))
    (fun hp => by rw [hSp] at hp; cases hp)
  refine ⟨hst, hi1, ?_, hcall, hS1, hS2, ?_, ?_, ?_, ?_⟩
  · unfold burstState
    rw [if_neg (by rw [hov, hafl]; decide)]
  · unfold getNumBuffersToWrite
    rw [hAv, hSp, hSper, hS2]
    simp only [getNumBuffersLoop, hS1, hS2, hSd, hSo, b1.hs]
    decide
  · rw [hA, hSp, hSper]
    decide
  · rw [hcall, hout]
  · rw [hcall, hout]
    dsimp only
    rw [hSper]

/-- The burst-spacing region of `heldLoop` is not zero. -/
theorem heldLoop_spacing : checkBurstSpacing refConsts heldLoop = false := by
  show allZeroFrom (loopStream refConsts) (u32 (0 + 3072) - sub32 (u32 (0 + 3072)) 8)
    (sub32 (u32 (0 + 3072)) 8) = false
  exact allZeroFrom_false _ _ _ 3071 (by decide) (by decide)
    (by rw [loopStream_last]; decide)

theorem checkPayloadHeadersLoop_succ (h : DecState) (f num phl hp first prev : Nat) :
    checkPayloadHeadersLoop h (f + 1) num phl hp first prev =
      if (parsePayloadHeader h hp).2.1 > 0 ∧ num ≠ 0 ∧ (parsePayloadHeader h hp).1 ≤ prev then
        some (false, num)
      else if (parsePayloadHeader h hp).2.1 > 0 ∧ (parsePayloadHeader h hp).1 > h.payloadLength then
        some (false, num)
      else if (parsePayloadHeader h hp).2.1 = 0 then
        if num > 0 ∧
            (if (parsePayloadHeader h hp).2.1 > 0 ∧ num = 0 then (parsePayloadHeader h hp).1
              else first) <
              u32 (u32 (phl + h.payloadHeaderSize) + IEC_HEADER_SIZE_BYTES +
                h.frameBytesMissing) then
          some (false, num)
        else some (true, num)
      else
        checkPayloadHeadersLoop h f (u32 (num + 1)) (u32 (phl + h.payloadHeaderSize))
          (hp + h.payloadHeaderSize)
          (if (parsePayloadHeader h hp).2.1 > 0 ∧ num = 0 then (parsePayloadHeader h hp).1
            else first)
          (if (parsePayloadHeader h hp).2.1 > 0 then (parsePayloadHeader h hp).1 else prev) :=
  rfl

/-- The sub-header walk from its invariant: `j` entries accepted so far. -/
theorem checkPayloadHeadersLoop_spec (h : DecState)
    (hPL : h.payloadLength + 2 < 4294967296)
    (hnw : (h.payloadLength + 2) * h.payloadHeaderSize + IEC_HEADER_SIZE_BYTES +
      h.frameBytesMissing < 4294967296) :
    ∀ (f j first prev : Nat), j + f = h.payloadLength + 2 →
      (∀ i, i < j → (subHeaderAt h i).2.1 > 0) →
      (∀ i, i < j → 0 < i → (subHeaderAt h i).1 > (subHeaderAt h (i - 1)).1) →
      (∀ i, i < j → (subHeaderAt h i).1 ≤ h.payloadLength) →
      (1 ≤ j → first = (subHeaderAt h 0).1 ∧ prev = (subHeaderAt h (j - 1)).1 ∧ j ≤ prev + 1) →
      (∃ r, checkPayloadHeadersLoop h f j (j * h.payloadHeaderSize)
        (h.syncCandidateIndex + IEC_HEADER_SIZE_BYTES + j * h.payloadHeaderSize) first prev =
          some r) ∧
      ∀ n, checkPayloadHeadersLoop h f j (j * h.payloadHeaderSize)
        (h.syncCandidateIndex + IEC_HEADER_SIZE_BYTES + j * h.payloadHeaderSize) first prev =
          some (true, n) ↔ headersAccepted h n := by
  intro f
  induction f with
  | zero =>
    intro j first prev hjf a1 a2 a3 a4
    exfalso
    have h1 := a4 (by omega)
    have h2 := a3 (j - 1) (by omega)
    omega
  | succ f ih =>
    intro j first prev hjf a1 a2 a3 a4
    rw [checkPayloadHeadersLoop_succ]
    have hsub : parsePayloadHeader h
        (h.syncCandidateIndex + IEC_HEADER_SIZE_BYTES + j * h.payloadHeaderSize) =
        subHeaderAt h j := rfl
    rw [hsub]
    have key : ∀ n, headersAccepted h n → (subHeaderAt h j).2.1 > 0 → j < n := by
      intro n hn hL
      by_contra hlt
      rcases Nat.lt_or_eq_of_le (Nat.le_of_not_lt hlt) with h1 | h1
      · have := a1 n h1
        have := hn.1
        omega
      · rw [h1] at hn
        have := hn.1
        omega
    have key0 : ∀ n, headersAccepted h n → (subHeaderAt h j).2.1 = 0 → n = j := by
      intro n hn hL
      by_contra hne
      rcases Nat.lt_or_gt_of_ne hne with h1 | h1
      · have := a1 n h1
        have := hn.1
        omega
      · have := hn.2.1 j h1
        omega
    have hmul : (j + 1) * h.payloadHeaderSize ≤ (h.payloadLength + 2) * h.payloadHeaderSize :=
      Nat.mul_le_mul_right _ (by omega)
    have hsucc : (j + 1) * h.payloadHeaderSize = j * h.payloadHeaderSize + h.payloadHeaderSize :=
      Nat.succ_mul _ _
    have e1 : u32 (j * h.payloadHeaderSize + h.payloadHeaderSize) =
        (j + 1) * h.payloadHeaderSize := by
      rw [u32_of_lt (by omega)]
      omega
    by_cases c1 : (subHeaderAt h j).2.1 > 0 ∧ j ≠ 0 ∧ (subHeaderAt h j).1 ≤ prev
    · rw [if_pos c1]
      refine ⟨⟨_, rfl⟩, fun n => ⟨fun e => ?_, fun hn => ?_⟩⟩
      · cases e
      · exfalso
        have hjn := key n hn c1.1
        have := hn.2.2.1 j hjn (by omega)
        have := (a4 (by omega)).2.1
        omega
    · rw [if_neg c1]
      by_cases c2 : (subHeaderAt h j).2.1 > 0 ∧ (subHeaderAt h j).1 > h.payloadLength
      · rw [if_pos c2]
        refine ⟨⟨_, rfl⟩, fun n => ⟨fun e => ?_, fun hn => ?_⟩⟩
        · cases e
        · exfalso
          have hjn := key n hn c2.1
          have := hn.2.2.2.1 j hjn
          omega
      · rw [if_neg c2]
        by_cases c3 : (subHeaderAt h j).2.1 = 0
        · rw [if_pos c3,
            if_neg (show ¬ ((subHeaderAt h j).2.1 > 0 ∧ j = 0) from fun hh => by omega), e1,
            u32_of_lt (by omega)]
          by_cases c4 : j > 0 ∧ first <
              (j + 1) * h.payloadHeaderSize + IEC_HEADER_SIZE_BYTES + h.frameBytesMissing
          · rw [if_pos c4]
            refine ⟨⟨_, rfl⟩, fun n => ⟨fun e => ?_, fun hn => ?_⟩⟩
            · cases e
            · exfalso
              have hnj := key0 n hn c3
              rw [hnj] at hn
              have := hn.2.2.2.2 (by omega)
              have := (a4 (by omega)).1
              omega
          · rw [if_neg c4]
            refine ⟨⟨_, rfl⟩, fun n => ⟨fun e => ?_, fun hn => ?_⟩⟩
            · have hnj : j = n := by
                injection e with e
                injection e
              rw [← hnj]
              refine ⟨c3, a1, a2, a3, fun h1 => ?_⟩
              have := (a4 h1).1
              omega
            · rw [key0 n hn c3]
        · rw [if_neg c3]
          have hL : (subHeaderAt h j).2.1 > 0 := by omega
          rw [e1, u32_of_lt (by omega), if_pos hL,
            show h.syncCandidateIndex + IEC_HEADER_SIZE_BYTES + j * h.payloadHeaderSize +
              h.payloadHeaderSize =
              h.syncCandidateIndex + IEC_HEADER_SIZE_BYTES + (j + 1) * h.payloadHeaderSize by
              omega]
          apply ih (j + 1) _ _ (by omega)
          · intro i hi
            rcases Nat.lt_or_eq_of_le (Nat.le_of_lt_succ hi) with h1 | h1
            · exact a1 i h1
            · rw [h1]; exact hL
          · intro i hi hi0
            rcases Nat.lt_or_eq_of_le (Nat.le_of_lt_succ hi) with h1 | h1
            · exact a2 i h1 hi0
            · rw [h1]
              have := (a4 (by omega)).2.1
              have : ¬ (subHeaderAt h j).1 ≤ prev := fun hle => c1 ⟨hL, by omega, hle⟩
              omega
          · intro i hi
            rcases Nat.lt_or_eq_of_le (Nat.le_of_lt_succ hi) with h1 | h1
            · exact a3 i h1
            · rw [h1]
              have : ¬ (subHeaderAt h j).1 > h.payloadLength := fun hgt => c2 ⟨hL, hgt⟩
              omega
          · intro _
            by_cases hj0 : j = 0
            · rw [if_pos ⟨hL, hj0⟩, hj0]
              exact ⟨rfl, rfl, by omega⟩
            · rw [if_neg (fun hh => hj0 hh.2)]
              have h4 := a4 (by omega)
              have : ¬ (subHeaderAt h j).1 ≤ prev := fun hle => c1 ⟨hL, hj0, hle⟩
              exact ⟨h4.1, rfl, by omega⟩

theorem s1Burst_length : s1Burst.length = 16384 :=
  hbrBurst_length _ _ _ _ _ (by decide)

/-- The sync loop accepts `s1Burst`, fed to a fresh decoder, at index 0. -/
theorem s1_sync : syncLoop refConsts 2 (iec61937_decode_feed iec61937_decode_open s1Burst).2 =
    some s1Synced := by
  have hf := feed_idle [] [] s1Burst 0 0 0 (Nat.zero_le _)
    (by rw [s1Burst_length]; decide)
  rw [← open_idle, s1Burst_length] at hf
  rw [hf]
  exact syncLoop_hbrBurst refConsts 1 [(24, 100, 0)] (List.replicate 100 1) [] 0 0 0 0
    (Or.inl rfl) (by decide) (by decide)
    ⟨by decide, by decide, by decide, by decide, trivial⟩ (by decide) (by decide) (by decide)

theorem splitBurst_length : splitBurst.length = 16384 :=
  hbrBurst_length _ _ _ _ _ (by rw [List.length_replicate]; decide)

theorem contBurst_length : contBurst.length = 16384 :=
  hbrBurst_length _ _ _ _ _ (by rw [List.length_replicate]; decide)

/-- The sync loop accepts `splitBurst`, fed to a fresh decoder, at index 0. -/
theorem split_sync :
    syncLoop refConsts 2 (iec61937_decode_feed iec61937_decode_open splitBurst).2 =
      some splitSynced := by
  have hf := feed_idle [] [] splitBurst 0 0 0 (Nat.zero_le _)
    (by rw [splitBurst_length]; decide)
  rw [← open_idle, splitBurst_length] at hf
  rw [hf]
  have := syncLoop_hbrBurst refConsts 1 [(24, 16452, 0)] (List.replicate 16352 1) [] 0 0 0 0
    (Or.inl rfl) (by rw [List.length_replicate]; decide) (by rw [List.length_replicate]; decide)
    ⟨by decide, by decide, by decide, by decide, trivial⟩
    (by rw [List.length_replicate]; decide) (by decide) (by decide)
  rw [List.length_replicate] at this
  exact this

/-- The sync loop accepts `contBurst` at index 0 while an AU is pending. -/
theorem cont_sync :
    syncLoop refConsts 2
      (iec61937_decode_feed (idleState [] 0 (List.replicate 16352 1) 16352 23648 (-1024))
        contBurst).2 = some contSynced := by
  have hf := feed_idle [] (List.replicate 16352 1) contBurst 16352 23648 (-1024)
    (Nat.zero_le _)
    (by rw [contBurst_length]; decide)
  rw [contBurst_length] at hf
  rw [hf]
  have := syncLoop_hbrBurst refConsts 1 [] (List.replicate 16360 1) (List.replicate 16352 1)
    16352 23648 (-1024) 0
    (Or.inl rfl) (by rw [List.length_replicate]; decide) (by rw [List.length_replicate]; decide)
    trivial (by intro s hs; cases hs) (by intro s hs; cases hs) (by decide)
  rw [List.length_replicate] at this
  exact this

/-! ## Sync search, sub-header walk, decoder invariant -/

/-- A call of `iec61937_decode_process` whose sync loop ends with sync held goes on with
the pending and payload handling of the state the loop leaves. -/
theorem process_after_sync (k : WireConsts) (h s : DecState) (cap fuel : Nat)
    (hsl : syncLoop k fuel h = some s) (hs : s.syncFound = true) :
    iec61937_decode_process k fuel h cap = some (processSynced s cap) := by
  unfold iec61937_decode_process
  rw [hsl]
  simp only [hs, Bool.not_true, Bool.false_eq_true, if_false]

/-- A call of `iec61937_decode_process` whose sync loop ends without sync returns
`FeedMoreData`. -/
theorem process_no_sync (k : WireConsts) (h s : DecState) (cap fuel : Nat)
    (hsl : syncLoop k fuel h = some s) (hs : s.syncFound = false) :
    iec61937_decode_process k fuel h cap =
      some (DecOut.mk .IECDEC_FEED_MORE_DATA [] 0 0 0 false, s) := by
  unfold iec61937_decode_process
  rw [hsl]
  simp only [hs, Bool.not_false, if_true]

theorem syncLoop_of_sync (k : WireConsts) (h : DecState) (fuel : Nat)
    (hs : h.syncFound = true) : syncLoop k (fuel + 1) h = some h := by
  rw [syncLoop, if_neg (by rw [hs]; simp)]

/-- The two outcomes of `parseIecFrameData`: 1 with the state untouched, or 0 with the
header fields stored. -/
theorem parseIecFrameData_cases (k : WireConsts) (x : DecState) :
    ((parseIecFrameData k x).1 = 1 ∧ (parseIecFrameData k x).2 = x) ∨
    ((parseIecFrameData k x).1 = 0 ∧
      (parseIecFrameData k x).2.workBuffer = x.workBuffer ∧
      (parseIecFrameData k x).2.workBufferBytesAvailable = x.workBufferBytesAvailable ∧
      (parseIecFrameData k x).2.syncCandidateIndex = x.syncCandidateIndex ∧
      (parseIecFrameData k x).2.syncCandidateFound = x.syncCandidateFound ∧
      (parseIecFrameData k x).2.syncFound = x.syncFound ∧
      (parseIecFrameData k x).2.frameBufferPending = x.frameBufferPending ∧
      (parseIecFrameData k x).2.frameBytesPending = x.frameBytesPending ∧
      (parseIecFrameData k x).2.frameBytesMissing = x.frameBytesMissing ∧
      (parseIecFrameData k x).2.pcmOffsetPending = x.pcmOffsetPending ∧
      (parseIecFrameData k x).2.numPayloadHeaders = x.numPayloadHeaders ∧
      (parseIecFrameData k x).2.payloadHeaderIndex = x.payloadHeaderIndex) := by
  unfold parseIecFrameData
  simp only []
  split_ifs <;>
    first
    | exact Or.inl ⟨rfl, rfl⟩
    | exact Or.inr ⟨rfl, rfl, rfl, rfl, rfl, rfl, rfl, rfl, rfl, rfl, rfl, rfl⟩

theorem scanLoop_step (k : WireConsts) (h : DecState) (n i c : Nat) :
    scanLoop k (n + 1) i { h with syncCandidateIndex := c } =
      if peek h.workBuffer (i + 0) = k.SYNC_PREAMBLE_0 ∧
          peek h.workBuffer (i + 1) = k.SYNC_PREAMBLE_1 ∧
          peek h.workBuffer (i + 2) = k.SYNC_PREAMBLE_2 ∧
          peek h.workBuffer (i + 3) = k.SYNC_PREAMBLE_3 then
        if (parseIecFrameData k { h with syncCandidateIndex := i }).1 > 0 then
          scanLoop k n (i + 1) (parseIecFrameData k { h with syncCandidateIndex := i }).2
        else
          { (parseIecFrameData k { h with syncCandidateIndex := i }).2 with
            syncCandidateFound := true }
      else scanLoop k n (i + 1) { h with syncCandidateIndex := c } := rfl

/-- The scan over offsets without a candidate changes nothing but `syncCandidateIndex`. -/
theorem scanLoop_none (k : WireConsts) (h : DecState) :
    ∀ (n i c : Nat), (∀ j, i ≤ j → j < i + n → ¬ acceptedAt k h j) →
      ∃ c2, scanLoop k n i { h with syncCandidateIndex := c } =
        { h with syncCandidateIndex := c2 } := by
  intro n
  induction n with
  | zero => intro i c _; exact ⟨c, rfl⟩
  | succ n ih =>
    intro i c hno
    rw [scanLoop_step]
    by_cases hp : peek h.workBuffer (i + 0) = k.SYNC_PREAMBLE_0 ∧
        peek h.workBuffer (i + 1) = k.SYNC_PREAMBLE_1 ∧
        peek h.workBuffer (i + 2) = k.SYNC_PREAMBLE_2 ∧
        peek h.workBuffer (i + 3) = k.SYNC_PREAMBLE_3
    · rw [if_pos hp]
      have hrej : (parseIecFrameData k { h with syncCandidateIndex := i }).1 ≠ 0 :=
        fun h0 => hno i (Nat.le_refl _) (by omega) ⟨hp.1, hp.2.1, hp.2.2.1, hp.2.2.2, h0⟩
      rcases parseIecFrameData_cases k { h with syncCandidateIndex := i } with ⟨e1, e2⟩ | ⟨e1, _⟩
      · rw [e1, e2, if_pos (by decide)]
        exact ih (i + 1) i (fun j h1 h2 => hno j (by omega) (by omega))
      · exact absurd e1 hrej
    · rw [if_neg hp]
      exact ih (i + 1) c (fun j h1 h2 => hno j (by omega) (by omega))

/-- The scan stops at the first candidate. -/
theorem scanLoop_found (k : WireConsts) (h : DecState) (m : Nat) (hm : acceptedAt k h m) :
    ∀ (n i c : Nat), i ≤ m → m < i + n → (∀ j, i ≤ j → j < m → ¬ acceptedAt k h j) →
      scanLoop k n i { h with syncCandidateIndex := c } =
        { (parseIecFrameData k { h with syncCandidateIndex := m }).2 with
          syncCandidateFound := true } := by
  intro n
  induction n with
  | zero => intro i c h1 h2 _; omega
  | succ n ih =>
    intro i c h1 h2 hno
    rw [scanLoop_step]
    by_cases him : i = m
    · subst him
      rw [if_pos ⟨hm.1, hm.2.1, hm.2.2.1, hm.2.2.2.1⟩, hm.2.2.2.2, if_neg (by decide)]
    · have hno_i : ¬ acceptedAt k h i := hno i (Nat.le_refl _) (by omega)
      by_cases hp : peek h.workBuffer (i + 0) = k.SYNC_PREAMBLE_0 ∧
          peek h.workBuffer (i + 1) = k.SYNC_PREAMBLE_1 ∧
          peek h.workBuffer (i + 2) = k.SYNC_PREAMBLE_2 ∧
          peek h.workBuffer (i + 3) = k.SYNC_PREAMBLE_3
      · rw [if_pos hp]
        have hrej : (parseIecFrameData k { h with syncCandidateIndex := i }).1 ≠ 0 :=
          fun h0 => hno_i ⟨hp.1, hp.2.1, hp.2.2.1, hp.2.2.2, h0⟩
        rcases parseIecFrameData_cases k { h with syncCandidateIndex := i } with
          ⟨e1, e2⟩ | ⟨e1, _⟩
        · rw [e1, e2, if_pos (by decide)]
          exact ih (i + 1) i (by omega) (by omega) (fun j h1 h2 => hno j (by omega) h2)
        · exact absurd e1 hrej
      · rw [if_neg hp]
        exact ih (i + 1) c (by omega) (by omega) (fun j h1 h2 => hno j (by omega) h2)

/-- The inner search loop when the smallest candidate offset is `m`. -/
theorem candidateSearch_found (k : WireConsts) (h : DecState) (m : Nat)
    (hc : h.syncCandidateFound = false)
    (havail : h.workBufferBytesAvailable > IEC_HEADER_SIZE_BYTES)
    (hm : m < h.workBufferBytesAvailable - IEC_HEADER_SIZE_BYTES)
    (hacc : acceptedAt k h m) (hmin : ∀ j, j < m → ¬ acceptedAt k h j) :
    candidateSearch k h =
      { (parseIecFrameData k { h with syncCandidateIndex := m }).2 with
        syncCandidateFound := true,
        workBuffer := memMove h.workBuffer 0 m (h.workBufferBytesAvailable - m),
        workBufferBytesAvailable := h.workBufferBytesAvailable - m,
        syncCandidateIndex := 0 } := by
  have hscan := scanLoop_found k h m hacc (h.workBufferBytesAvailable - IEC_HEADER_SIZE_BYTES) 0
    h.syncCandidateIndex (Nat.zero_le _) (by omega) (fun j _ hj => hmin j hj)
  have heta : ({ h with syncCandidateIndex := h.syncCandidateIndex } : DecState) = h := rfl
  rw [heta] at hscan
  rcases parseIecFrameData_cases k { h with syncCandidateIndex := m } with ⟨e1, _⟩ | ⟨_, e⟩
  · rw [hacc.2.2.2.2] at e1
    cases e1
  · obtain ⟨e1, e2, e3, _⟩ := e
    unfold candidateSearch
    rw [if_pos ⟨by rw [hc]; rfl, havail⟩]
    unfold candidateSearchBody
    simp only [hscan, if_true]
    rw [e1, e2, e3]

/-- The inner search loop when no offset is a candidate. -/
theorem candidateSearch_none (k : WireConsts) (h : DecState)
    (hc : h.syncCandidateFound = false)
    (havail : h.workBufferBytesAvailable > IEC_HEADER_SIZE_BYTES)
    (hno : ∀ j, j < h.workBufferBytesAvailable - IEC_HEADER_SIZE_BYTES → ¬ acceptedAt k h j) :
    candidateSearch k h =
      { h with
        workBuffer := memMove h.workBuffer 0 (h.workBufferBytesAvailable - IEC_HEADER_SIZE_BYTES)
          IEC_HEADER_SIZE_BYTES,
        workBufferBytesAvailable := IEC_HEADER_SIZE_BYTES,
        syncCandidateIndex := 0 } := by
  obtain ⟨c2, hscan⟩ := scanLoop_none k h (h.workBufferBytesAvailable - IEC_HEADER_SIZE_BYTES) 0
    h.syncCandidateIndex (fun j _ hj => hno j (by omega))
  have heta : ({ h with syncCandidateIndex := h.syncCandidateIndex } : DecState) = h := rfl
  rw [heta] at hscan
  unfold candidateSearch
  rw [if_pos ⟨by rw [hc]; rfl, havail⟩]
  unfold candidateSearchBody
  simp only [hscan, hc, Bool.false_eq_true, if_false]

theorem checkPayloadHeadersTrace_succ (h : DecState) (f num phl hp first prev : Nat) :
    checkPayloadHeadersTrace h (f + 1) num phl hp first prev =
      if (parsePayloadHeader h hp).2.1 > 0 ∧ num ≠ 0 ∧ (parsePayloadHeader h hp).1 ≤ prev then
        (some (false, num), [hp])
      else if (parsePayloadHeader h hp).2.1 > 0 ∧ (parsePayloadHeader h hp).1 > h.payloadLength then
        (some (false, num), [hp])
      else if (parsePayloadHeader h hp).2.1 = 0 then
        if num > 0 ∧
            (if (parsePayloadHeader h hp).2.1 > 0 ∧ num = 0 then (parsePayloadHeader h hp).1
              else first) <
              u32 (u32 (phl + h.payloadHeaderSize) + IEC_HEADER_SIZE_BYTES +
                h.frameBytesMissing) then
          (some (false, num), [hp])
        else (some (true, num), [hp])
      else
        ((checkPayloadHeadersTrace h f (u32 (num + 1)) (u32 (phl + h.payloadHeaderSize))
          (hp + h.payloadHeaderSize)
          (if (parsePayloadHeader h hp).2.1 > 0 ∧ num = 0 then (parsePayloadHeader h hp).1
            else first)
          (if (parsePayloadHeader h hp).2.1 > 0 then (parsePayloadHeader h hp).1 else prev)).1,
         hp :: (checkPayloadHeadersTrace h f (u32 (num + 1)) (u32 (phl + h.payloadHeaderSize))
          (hp + h.payloadHeaderSize)
          (if (parsePayloadHeader h hp).2.1 > 0 ∧ num = 0 then (parsePayloadHeader h hp).1
            else first)
          (if (parsePayloadHeader h hp).2.1 > 0 then (parsePayloadHeader h hp).1 else prev)).2) :=
  rfl

/-- The trace computes the result of the loop it instruments. -/
theorem checkPayloadHeadersTrace_result (h : DecState) :
    ∀ (f num phl hp first prev : Nat),
      (checkPayloadHeadersTrace h f num phl hp first prev).1 =
        checkPayloadHeadersLoop h f num phl hp first prev := by
  intro f
  induction f with
  | zero => intro _ _ _ _ _; rfl
  | succ f ih =>
    intro num phl hp first prev
    rw [checkPayloadHeadersTrace_succ, checkPayloadHeadersLoop_succ]
    split_ifs <;> first | rfl | exact ih _ _ _ _ _

theorem checkPayloadHeadersTrace_length (h : DecState) :
    ∀ (f num phl hp first prev : Nat),
      (checkPayloadHeadersTrace h f num phl hp first prev).2.length ≤ f := by
  intro f
  induction f with
  | zero => intro _ _ _ _ _; exact Nat.le_refl _
  | succ f ih =>
    intro num phl hp first prev
    rw [checkPayloadHeadersTrace_succ]
    split_ifs
    all_goals
      first
      | exact Nat.succ_le_succ (Nat.zero_le _)
      | exact Nat.succ_le_succ (ih _ _ _ _ _)

/-- More iterations do not change a result. -/
theorem checkPayloadHeadersLoop_mono (h : DecState) :
    ∀ (f num phl hp first prev : Nat) (r : Bool × Nat),
      checkPayloadHeadersLoop h f num phl hp first prev = some r →
      checkPayloadHeadersLoop h (f + 1) num phl hp first prev = some r := by
  intro f
  induction f with
  | zero => intro _ _ _ _ _ r hr; cases hr
  | succ f ih =>
    intro num phl hp first prev r hr
    rw [checkPayloadHeadersLoop_succ] at hr ⊢
    split_ifs at hr ⊢
    all_goals
      first
      | exact hr
      | exact ih _ _ _ _ _ r hr

theorem checkPayloadHeadersLoop_mono_le (h : DecState) (f num phl hp first prev : Nat)
    (r : Bool × Nat) (hr : checkPayloadHeadersLoop h f num phl hp first prev = some r) :
    ∀ g, f ≤ g → checkPayloadHeadersLoop h g num phl hp first prev = some r := by
  intro g hg
  obtain ⟨d, rfl⟩ : ∃ d, g = f + d := ⟨g - f, by omega⟩
  clear hg
  induction d with
  | zero => exact hr
  | succ d ih => exact checkPayloadHeadersLoop_mono h _ _ _ _ _ _ r ih

/-- The walk ends: accepted offsets increase strictly and are at most `payloadLength`,
so after `j` accepted sub-headers the previous offset is at least `j - 1`. -/
theorem checkPayloadHeadersLoop_total (h : DecState)
    (hPL : h.payloadLength + 2 < 4294967296) :
    ∀ (f j phl hp first prev : Nat), h.payloadLength + 2 ≤ j + f →
      (1 ≤ j → j ≤ prev + 1 ∧ prev ≤ h.payloadLength) →
      ∃ r, checkPayloadHeadersLoop h f j phl hp first prev = some r := by
  intro f
  induction f with
  | zero =>
    intro j phl hp first prev hjf hinv
    have := hinv (by omega)
    omega
  | succ f ih =>
    intro j phl hp first prev hjf hinv
    rw [checkPayloadHeadersLoop_succ]
    by_cases c1 : (parsePayloadHeader h hp).2.1 > 0 ∧ j ≠ 0 ∧ (parsePayloadHeader h hp).1 ≤ prev
    · rw [if_pos c1]; exact ⟨_, rfl⟩
    rw [if_neg c1]
    by_cases c2 : (parsePayloadHeader h hp).2.1 > 0 ∧ (parsePayloadHeader h hp).1 > h.payloadLength
    · rw [if_pos c2]; exact ⟨_, rfl⟩
    rw [if_neg c2]
    by_cases c3 : (parsePayloadHeader h hp).2.1 = 0
    · rw [if_pos c3]
      split_ifs <;> exact ⟨_, rfl⟩
    rw [if_neg c3]
    have hL : (parsePayloadHeader h hp).2.1 > 0 := by omega
    have hj1 : j + 1 < 4294967296 := by
      by_cases hj0 : j = 0
      · omega
      · have := hinv (by omega)
        omega
    rw [u32_of_lt hj1, if_pos hL]
    apply ih (j + 1) _ _ _ _ (by omega)
    intro _
    have hle : (parsePayloadHeader h hp).1 ≤ h.payloadLength := by
      by_contra hgt
      exact c2 ⟨hL, by omega⟩
    refine ⟨?_, hle⟩
    by_cases hj0 : j = 0
    · omega
    · have h1 := hinv (by omega)
      have : ¬ (parsePayloadHeader h hp).1 ≤ prev := fun hle2 => c1 ⟨hL, hj0, hle2⟩
      omega

theorem parseIecFrameData_parsed (k : WireConsts) (x : DecState)
    (hsp : k.IEC_BURST_SPACING_SIZE_BYTES ≤ 3064)
    (h0 : (parseIecFrameData k x).1 = 0) : ParsedHeader k (parseIecFrameData k x).2 := by
  unfold parseIecFrameData at h0 ⊢
  simp only [] at h0 ⊢
  generalize peek x.workBuffer (x.syncCandidateIndex + 4) = b4 at h0 ⊢
  generalize peek x.workBuffer (x.syncCandidateIndex + 5) = b5 at h0 ⊢
  generalize (peek x.workBuffer (x.syncCandidateIndex + 6) * 256) % 65536 +
    peek x.workBuffer (x.syncCandidateIndex + 7) % 65536 = pd at h0 ⊢
  rw [frameLengthOfCode_table] at h0 ⊢
  by_cases hdt : b5 % 32 ≠ 25
  · rw [if_pos hdt] at h0
    exact absurd h0 Nat.one_ne_zero
  rw [if_neg hdt] at h0 ⊢
  by_cases ham : b5 / 32 % 4 > 1
  · rw [if_pos ham] at h0
    exact absurd h0 Nat.one_ne_zero
  rw [if_neg ham] at h0 ⊢
  by_cases hcode : b4 % 8 ≤ 5
  swap
  · have hz : [1024, 2048, 4096, 768, 1536, 3072].getD (b4 % 8) 0 = 0 := by
      have : 6 ≤ b4 % 8 := by omega
      rw [List.getD_eq_getElem?_getD, List.getElem?_eq_none (by simpa using this)]
      rfl
    rw [hz, if_pos (show (0 : Nat) = 0 from rfl)] at h0
    exact absurd h0 Nat.one_ne_zero
  generalize hfl : [1024, 2048, 4096, 768, 1536, 3072].getD (b4 % 8) 0 = fl at h0 ⊢
  have hflc := frameLength_table_cases (b4 % 8) hcode
  rw [hfl] at hflc
  have hfl0 : ¬ fl = 0 := by omega
  rw [if_neg hfl0] at h0 ⊢
  unfold IEC60958_FRAME_SIZE_BYTES IEC_HEADER_SIZE_BYTES at h0 ⊢
  have hrf : b4 / 8 % 4 = 0 ∨ b4 / 8 % 4 = 1 ∨ b4 / 8 % 4 = 2 ∨ b4 / 8 % 4 = 3 := by omega
  have hpow : 2 ^ (b4 / 8 % 4 + 1) = 2 ∨ 2 ^ (b4 / 8 % 4 + 1) = 4 ∨ 2 ^ (b4 / 8 % 4 + 1) = 8 ∨
      2 ^ (b4 / 8 % 4 + 1) = 16 := by
    rcases hrf with e | e | e | e <;> rw [e] <;> simp
  generalize 2 ^ (b4 / 8 % 4 + 1) = pw at hpow h0 ⊢
  have hb1 : fl * 4 * pw ≤ 262144 ∧ 3072 ≤ fl * 4 * pw ∧ (fl * 4 * pw) % 8 = 0 := by
    rcases hflc with e | e | e | e | e | e <;> rcases hpow with e' | e' | e' | e' <;>
      subst e <;> subst e' <;> exact ⟨by decide, by decide, by decide⟩
  have hb0 : fl * 4 ≤ 16384 ∧ 3072 ≤ fl * 4 ∧ (fl * 4) % 8 = 0 := by
    rcases hflc with e | e | e | e | e | e <;> subst e <;> exact ⟨by decide, by decide, by decide⟩
  generalize fl * 4 * pw = p1 at hb1 h0 ⊢
  generalize fl * 4 = p0 at hb0 h0 ⊢
  by_cases hm : b5 / 32 % 4 = 1
  · simp only [hm, if_true, Nat.one_ne_zero, if_false] at h0 ⊢
    have s0 : u32 p1 = p1 := u32_of_lt (by omega)
    have s1 : sub32 p1 8 = p1 - 8 := sub32_of_le (by omega) (by omega)
    have s2 : sub32 (p1 - 8) k.IEC_BURST_SPACING_SIZE_BYTES =
        p1 - 8 - k.IEC_BURST_SPACING_SIZE_BYTES := sub32_of_le (by omega) (by omega)
    rw [s0, s1, s2] at h0 ⊢
    by_cases hle : pd * 8 > p1 - 8 - k.IEC_BURST_SPACING_SIZE_BYTES
    · rw [if_pos hle] at h0
      exact absurd h0 Nat.one_ne_zero
    · rw [if_neg hle]
      exact ⟨by show (1 : Nat) ≤ 1; exact Nat.le_refl _, rfl, hb1.2.2, hb1.1,
        by show pd * 8 + 8 + k.IEC_BURST_SPACING_SIZE_BYTES ≤ p1; omega⟩
  · have hm0 : b5 / 32 % 4 = 0 := by omega
    simp only [hm0, if_true, Nat.zero_ne_one, if_false] at h0 ⊢
    have s1 : sub32 p0 8 = p0 - 8 := sub32_of_le (by omega) (by omega)
    have s2 : sub32 (p0 - 8) k.IEC_BURST_SPACING_SIZE_BYTES =
        p0 - 8 - k.IEC_BURST_SPACING_SIZE_BYTES := sub32_of_le (by omega) (by omega)
    rw [s1, s2] at h0 ⊢
    by_cases hle : pd > p0 - 8 - k.IEC_BURST_SPACING_SIZE_BYTES
    · rw [if_pos hle] at h0
      exact absurd h0 Nat.one_ne_zero
    · rw [if_neg hle]
      exact ⟨by show (0 : Nat) ≤ 1; exact Nat.zero_le _, rfl, hb0.2.2,
        by show p0 ≤ 262144; omega,
        by show pd + 8 + k.IEC_BURST_SPACING_SIZE_BYTES ≤ p0; omega⟩

theorem allZeroFrom_cells (a : List Nat) :
    ∀ (n i : Nat), allZeroFrom a n i = true → ∀ j, i ≤ j → j < i + n → peek a j = 0 := by
  intro n
  induction n with
  | zero => intro i _ j h1 h2; omega
  | succ n ih =>
    intro i hz j h1 h2
    rw [allZeroFrom] at hz
    by_cases hc : peek a i ≠ 0
    · rw [if_pos hc] at hz
      cases hz
    · rw [if_neg hc] at hz
      by_cases hji : j = i
      · rw [hji]
        simpa using hc
      · exact ih (i + 1) hz j (by omega) (by omega)

/-- The cells of the burst-spacing region are zero once `checkBurstSpacing` has passed. -/
theorem checkBurstSpacing_cells (k : WireConsts) (h : DecState)
    (hsp : k.IEC_BURST_SPACING_SIZE_BYTES ≤ h.burstRepetitionPeriod)
    (hci : h.syncCandidateIndex + h.burstRepetitionPeriod < 4294967296)
    (hspace : checkBurstSpacing k h = true) :
    ∀ j, h.syncCandidateIndex + h.burstRepetitionPeriod - k.IEC_BURST_SPACING_SIZE_BYTES ≤ j →
      j < h.syncCandidateIndex + h.burstRepetitionPeriod → peek h.workBuffer j = 0 := by
  intro j h1 h2
  unfold checkBurstSpacing at hspace
  simp only [] at hspace
  rw [u32_of_lt hci, sub32_of_le (by omega) hci] at hspace
  exact allZeroFrom_cells _ _ _ hspace j h1 (by omega)

/-- The walk visits no sub-header behind one whose length field is zero. -/
theorem checkPayloadHeadersTrace_bounded (h : DecState) (base J : Nat)
    (hJ : (parsePayloadHeader h (base + J * h.payloadHeaderSize)).2.1 = 0) :
    ∀ (f j num phl first prev : Nat), j ≤ J →
      ∀ p, p ∈ (checkPayloadHeadersTrace h f num phl (base + j * h.payloadHeaderSize)
          first prev).2 →
        ∃ i, i ≤ J ∧ p = base + i * h.payloadHeaderSize := by
  intro f
  induction f with
  | zero =>
    intro j num phl first prev _ p hp
    cases hp
  | succ f ih =>
    intro j num phl first prev hj p hp
    rw [checkPayloadHeadersTrace_succ] at hp
    by_cases c1 : (parsePayloadHeader h (base + j * h.payloadHeaderSize)).2.1 > 0 ∧ num ≠ 0 ∧
        (parsePayloadHeader h (base + j * h.payloadHeaderSize)).1 ≤ prev
    · rw [if_pos c1] at hp
      exact ⟨j, hj, by simpa using hp⟩
    rw [if_neg c1] at hp
    by_cases c2 : (parsePayloadHeader h (base + j * h.payloadHeaderSize)).2.1 > 0 ∧
        (parsePayloadHeader h (base + j * h.payloadHeaderSize)).1 > h.payloadLength
    · rw [if_pos c2] at hp
      exact ⟨j, hj, by simpa using hp⟩
    rw [if_neg c2] at hp
    by_cases c3 : (parsePayloadHeader h (base + j * h.payloadHeaderSize)).2.1 = 0
    · rw [if_pos c3] at hp
      have : p = base + j * h.payloadHeaderSize := by
        split_ifs at hp <;> simpa using hp
      exact ⟨j, hj, this⟩
    rw [if_neg c3] at hp
    have hjJ : j ≠ J := by
      intro e
      rw [e] at c3
      exact c3 hJ
    rcases List.mem_cons.mp hp with e | hmem
    · exact ⟨j, hj, e⟩
    · have hptr : base + j * h.payloadHeaderSize + h.payloadHeaderSize =
          base + (j + 1) * h.payloadHeaderSize := by
        rw [Nat.succ_mul]
        omega
      rw [hptr] at hmem
      exact ih (j + 1) _ _ _ _ (by omega) p hmem

/-- The last sub-header slot that lies inside the burst has its length field in the
burst-spacing region. -/
theorem lastSlot_terminator (k : WireConsts) (h : DecState) (hp : ParsedHeader k h)
    (hsp8 : 8 ≤ k.IEC_BURST_SPACING_SIZE_BYTES)
    (hci : h.syncCandidateIndex + h.burstRepetitionPeriod < 4294967296)
    (hspace : checkBurstSpacing k h = true) :
    ∃ J, (parsePayloadHeader h
        (h.syncCandidateIndex + IEC_HEADER_SIZE_BYTES + J * h.payloadHeaderSize)).2.1 = 0 ∧
      IEC_HEADER_SIZE_BYTES + (J + 1) * h.payloadHeaderSize ≤ h.burstRepetitionPeriod := by
  have hroom := hp.room
  have hp8 := hp.period8
  have hhs := hp.hs
  unfold IEC_HEADER_SIZE_BYTES at hroom ⊢
  have hz := checkBurstSpacing_cells k h (by omega) hci hspace
  by_cases hm : h.audioMode = 0
  · rw [if_pos hm] at hhs
    refine ⟨(h.burstRepetitionPeriod - 14) / 6, ?_, ?_⟩
    · unfold parsePayloadHeader
      simp only [hm, if_true]
      rw [hhs, hz _ (by omega) (by omega), hz _ (by omega) (by omega)]
    · rw [hhs]
      omega
  · rw [if_neg hm] at hhs
    refine ⟨h.burstRepetitionPeriod / 8 - 2, ?_, ?_⟩
    · unfold parsePayloadHeader
      simp only [hm, if_false]
      rw [hhs, hz _ (by omega) (by omega), hz _ (by omega) (by omega),
        hz _ (by omega) (by omega)]
    · rw [hhs]
      omega

theorem parsePayloadHeader_congr (a b : DecState) (p : Nat)
    (hw : a.workBuffer = b.workBuffer) (hm : a.audioMode = b.audioMode) :
    parsePayloadHeader a p = parsePayloadHeader b p := by
  unfold parsePayloadHeader
  rw [hw, hm]

/-- The candidate search on a buffer that holds one HBR burst. -/
theorem candidateOf_hbrBurst (k : WireConsts) (rc : Nat) (subs : List (Nat × Nat × Int))
    (payload : List Nat) (fm : Nat) (hrc : rc = 1 ∨ rc = 3)
    (hpd : pdField subs.length payload.length * 8 + 8 + k.IEC_BURST_SPACING_SIZE_BYTES ≤
      4096 * 2 ^ (rc + 1))
    (hroom : 8 + (subs.length + 1) * 8 + payload.length + k.IEC_BURST_SPACING_SIZE_BYTES ≤
      4096 * 2 ^ (rc + 1)) :
    candidateOf k (hbrBurst k rc (4096 * 2 ^ (rc + 1)) subs payload) fm =
      { syncedState (hbrBurst k rc (4096 * 2 ^ (rc + 1)) subs payload) (4096 * 2 ^ (rc + 1))
          [] 0 fm 0 rc (pdField subs.length payload.length) 0 0 with syncFound := false } := by
  have hP : 4096 * 2 ^ (rc + 1) = 16384 ∨ 4096 * 2 ^ (rc + 1) = 65536 := by
    rcases hrc with h | h <;> subst h
    · left; rfl
    · right; rfl
  generalize hPdef : 4096 * 2 ^ (rc + 1) = P at *
  generalize hWdef : hbrBurst k rc P subs payload = W
  have hWlen : W.length = P := by
    rw [← hWdef]; exact hbrBurst_length k rc P subs payload (by omega)
  have hpk : ∀ i, i < 8 → peek W i =
      peek [k.SYNC_PREAMBLE_0, k.SYNC_PREAMBLE_1, k.SYNC_PREAMBLE_2, k.SYNC_PREAMBLE_3,
        rc * 8, 57, pdField subs.length payload.length / 256,
        pdField subs.length payload.length % 256] i := fun i hi => by
    rw [← hWdef]; exact hbrBurst_peek_header k rc P subs payload i hi
  have hparse : parseIecFrameData k
      { idleState W P [] 0 fm 0 with syncCandidateIndex := 0 } =
      (0, { syncedState W P [] 0 fm 0 rc (pdField subs.length payload.length) 0 0 with
            syncFound := false, syncCandidateFound := false }) := by
    rw [parseIecFrameData_hbr k _ rc (pdField subs.length payload.length) hrc
      (by show peek W (0 + 4) = _; rw [hpk _ (by omega)]; rfl)
      (by show peek W (0 + 5) = _; rw [hpk _ (by omega)]; rfl)
      (by show peek W (0 + 6) = _; rw [hpk _ (by omega)]; rfl)
      (by show peek W (0 + 7) = _; rw [hpk _ (by omega)]; rfl)
      (by rw [hPdef]; exact hpd)]
    rw [hPdef]
    simp only [idleState, syncedState, hPdef]
  unfold candidateOf
  rw [hWlen]
  rw [candidateSearch_found k (idleState W P [] 0 fm 0) 0 rfl
    (by show P > IEC_HEADER_SIZE_BYTES; unfold IEC_HEADER_SIZE_BYTES; omega)
    (by show 0 < P - IEC_HEADER_SIZE_BYTES; unfold IEC_HEADER_SIZE_BYTES; omega)
    ⟨by show peek W (0 + 0) = _; rw [hpk _ (by omega)]; rfl,
     by show peek W (0 + 1) = _; rw [hpk _ (by omega)]; rfl,
     by show peek W (0 + 2) = _; rw [hpk _ (by omega)]; rfl,
     by show peek W (0 + 3) = _; rw [hpk _ (by omega)]; rfl,
     by rw [hparse]⟩
    (fun j hj => absurd hj (Nat.not_lt_zero _))]
  rw [hparse]
  show ({ syncedState W P [] 0 fm 0 rc (pdField subs.length payload.length) 0 0 with
      syncFound := false, workBuffer := memMove W 0 0 (P - 0),
      workBufferBytesAvailable := P - 0 } : DecState) = _
  rw [memMove_self _ _ (by rw [hWlen]; rfl)]
  rfl

/-- The checks of the decoder on a candidate at index 0 of a work buffer that starts with
an HBR burst (`period'` is the length up to which zeros follow the payload): the spacing
check passes, the sub-header walk returns, and it accepts exactly when every listed
`data_offset` is at most `8 * Pd`. -/
theorem hbrBurst_checks (k : WireConsts) (d : DecState) (rc period' : Nat)
    (subs : List (Nat × Nat × Int)) (payload : List Nat) (hrc : rc = 1 ∨ rc = 3)
    (hpd : pdField subs.length payload.length * 8 + 8 + k.IEC_BURST_SPACING_SIZE_BYTES ≤
      4096 * 2 ^ (rc + 1))
    (hroom : 8 + (subs.length + 1) * 8 + payload.length + k.IEC_BURST_SPACING_SIZE_BYTES ≤
      4096 * 2 ^ (rc + 1))
    (hdw : d.workBuffer = hbrBurst k rc period' subs payload)
    (hdm : d.audioMode = 1) (hdhs : d.payloadHeaderSize = 8) (hdci : d.syncCandidateIndex = 0)
    (hdpl : d.payloadLength = pdField subs.length payload.length * 8)
    (hdP : d.burstRepetitionPeriod = 4096 * 2 ^ (rc + 1))
    (hfm : d.frameBytesMissing ≤ 16777216)
    (off len : Nat → Nat)
    (hent : ∀ j, j < subs.length → ∃ pcm, subs[j]? = some (off j, len j, pcm) ∧
      off j < 16777216 ∧ 1 ≤ len j ∧ len j < 16777216)
    (hinc : ∀ j, j + 1 < subs.length → off j < off (j + 1))
    (hfirst : 1 ≤ subs.length → (subs.length + 1) * 8 + 8 + d.frameBytesMissing ≤ off 0) :
    checkBurstSpacing k d = true ∧
    (∃ r, checkPayloadHeaders d = some r) ∧
    ∀ n, checkPayloadHeaders d = some (true, n) ↔
      (n = subs.length ∧
        ∀ j, j < subs.length → off j ≤ pdField subs.length payload.length * 8) := by
  have hP : 4096 * 2 ^ (rc + 1) = 16384 ∨ 4096 * 2 ^ (rc + 1) = 65536 := by
    rcases hrc with h | h <;> subst h
    · left; rfl
    · right; rfl
  have hsub : ∀ j, j < subs.length → (subHeaderAt d j).1 = off j ∧
      (subHeaderAt d j).2.1 = len j := by
    intro j hj
    obtain ⟨pcm, hget, h1, _, h3⟩ := hent j hj
    have e := burstSubHeader_hbrBurst k rc period' subs payload j _ hget h1 h3
    unfold burstSubHeader at e
    have e2 : subHeaderAt d j = (off j, len j, pcm % 65536) := by
      unfold subHeaderAt
      rw [hdci, hdhs, Nat.zero_add, ← e]
      exact parsePayloadHeader_congr _ _ _ hdw hdm
    rw [e2]
    exact ⟨rfl, rfl⟩
  have hterm : subHeaderAt d subs.length = (0, 0, 0) := by
    unfold subHeaderAt
    rw [hdci, hdhs, Nat.zero_add]
    apply parsePayloadHeader_zero
    intro i hi
    rw [hdw]
    have e := hbrBurst_terminator k rc period' subs payload
    have e2 : peek (memRead (hbrBurst k rc period' subs payload)
        (8 + subs.length * 8) 8) i = peek (List.replicate 8 0) i := by rw [e]
    rw [peek_memRead hi, peek_replicate] at e2
    exact e2
  have hspec := checkPayloadHeadersLoop_spec d (by rw [hdpl]; omega)
    (by rw [hdpl, hdhs]; unfold IEC_HEADER_SIZE_BYTES; omega)
    (d.payloadLength + 2) 0 0 0 (by omega)
    (fun i hi => absurd hi (Nat.not_lt_zero _)) (fun i hi => absurd hi (Nat.not_lt_zero _))
    (fun i hi => absurd hi (Nat.not_lt_zero _)) (fun h0 => absurd h0 (by omega))
  simp only [Nat.zero_mul, Nat.add_zero] at hspec
  have hchk : checkPayloadHeaders d = checkPayloadHeadersLoop d (d.payloadLength + 2) 0 0
      (d.syncCandidateIndex + IEC_HEADER_SIZE_BYTES) 0 0 := rfl
  refine ⟨?_, ?_, ?_⟩
  · unfold checkBurstSpacing
    simp only []
    rw [hdci, hdP, hdw, Nat.zero_add, u32_of_lt (by rcases hP with hP | hP <;> omega),
      sub32_of_le (by omega) (by rcases hP with hP | hP <;> omega)]
    apply allZeroFrom_true
    intro j h1 h2
    exact hbrBurst_peek_tail k rc _ subs payload j (by omega)
  · rw [hchk]; exact hspec.1
  · intro n
    rw [hchk, hspec.2 n]
    unfold headersAccepted
    rw [hdpl, hdhs]
    constructor
    · rintro ⟨h1, h2, _, h4, _⟩
      have hn : n = subs.length := by
        rcases Nat.lt_trichotomy n subs.length with hlt | heq | hgt
        · have := (hsub n hlt).2
          have := (hent n hlt)
          obtain ⟨_, _, _, hl, _⟩ := this
          omega
        · exact heq
        · have := h2 subs.length hgt
          rw [hterm] at this
          exact absurd this (by decide)
      subst hn
      exact ⟨rfl, fun j hj => by rw [← (hsub j hj).1]; exact h4 j hj⟩
    · rintro ⟨hn, h4⟩
      subst hn
      refine ⟨by rw [hterm], fun j hj => ?_, fun j hj h0 => ?_, fun j hj => ?_, fun h1 => ?_⟩
      · rw [(hsub j hj).2]
        obtain ⟨_, _, _, hl, _⟩ := hent j hj
        exact hl
      · rw [(hsub j hj).1, (hsub (j - 1) (by omega)).1]
        have := hinc (j - 1) (by omega)
        rw [Nat.sub_add_cancel h0] at this
        exact this
      · rw [(hsub j hj).1]; exact h4 j hj
      · rw [(hsub 0 (by omega)).1]
        unfold IEC_HEADER_SIZE_BYTES
        exact hfirst h1

/-- The checks of the decoder on the candidate found in a work buffer that holds exactly
one HBR burst. -/
theorem hbrBurst_validation (k : WireConsts) (rc : Nat) (subs : List (Nat × Nat × Int))
    (payload : List Nat) (fm : Nat) (hrc : rc = 1 ∨ rc = 3)
    (hpd : pdField subs.length payload.length * 8 + 8 + k.IEC_BURST_SPACING_SIZE_BYTES ≤
      4096 * 2 ^ (rc + 1))
    (hroom : 8 + (subs.length + 1) * 8 + payload.length + k.IEC_BURST_SPACING_SIZE_BYTES ≤
      4096 * 2 ^ (rc + 1))
    (hfm : fm ≤ 16777216)
    (off len : Nat → Nat)
    (hent : ∀ j, j < subs.length → ∃ pcm, subs[j]? = some (off j, len j, pcm) ∧
      off j < 16777216 ∧ 1 ≤ len j ∧ len j < 16777216)
    (hinc : ∀ j, j + 1 < subs.length → off j < off (j + 1))
    (hfirst : 1 ≤ subs.length → (subs.length + 1) * 8 + 8 + fm ≤ off 0) :
    checkBurstSpacing k
      (candidateOf k (hbrBurst k rc (4096 * 2 ^ (rc + 1)) subs payload) fm) = true ∧
    (∃ r, checkPayloadHeaders
      (candidateOf k (hbrBurst k rc (4096 * 2 ^ (rc + 1)) subs payload) fm) = some r) ∧
    ∀ n, checkPayloadHeaders
      (candidateOf k (hbrBurst k rc (4096 * 2 ^ (rc + 1)) subs payload) fm) = some (true, n) ↔
      (n = subs.length ∧
        ∀ j, j < subs.length → off j ≤ pdField subs.length payload.length * 8) := by
  rw [candidateOf_hbrBurst k rc subs payload fm hrc hpd hroom]
  exact hbrBurst_checks k _ rc _ subs payload hrc hpd hroom rfl rfl rfl rfl rfl rfl hfm
    off len hent hinc hfirst

theorem finishBurst_removed (s x : DecState) (hw : x.workBuffer = s.workBuffer)
    (ha : x.workBufferBytesAvailable = s.workBufferBytesAvailable)
    (hc : x.syncCandidateIndex = s.syncCandidateIndex)
    (hp : x.burstRepetitionPeriod = s.burstRepetitionPeriod)
    (havail : s.burstRepetitionPeriod ≤ s.workBufferBytesAvailable)
    (h32 : s.workBufferBytesAvailable < 4294967296) :
    burstRemoved s (finishBurst x) := by
  have e : sub32 s.workBufferBytesAvailable s.burstRepetitionPeriod =
      s.workBufferBytesAvailable - s.burstRepetitionPeriod := sub32_of_le havail h32
  refine ⟨?_, ?_, rfl, rfl, rfl, rfl, rfl, rfl, rfl, rfl, rfl, rfl, rfl, rfl⟩
  · show sub32 x.workBufferBytesAvailable x.burstRepetitionPeriod = _
    rw [ha, hp, e]
  · intro i hi
    show peek (memMove x.workBuffer 0 (x.syncCandidateIndex + x.burstRepetitionPeriod)
      (sub32 x.workBufferBytesAvailable x.burstRepetitionPeriod)) i = _
    rw [hw, ha, hc, hp, e, peek_memMove_zero, if_pos hi]

/-- An `Ok` return of the payload block of `iec61937_decode_process`. -/
theorem emitPayload_ok (h : DecState) (cap : Nat)
    (hok : (emitPayload h cap).1.result = .IECDEC_OK)
    (havail : h.burstRepetitionPeriod ≤ h.workBufferBytesAvailable)
    (h32 : h.workBufferBytesAvailable < 4294967296) :
    (emitPayload h cap).1.iecFrameLength = h.frameLength ∧
    ((emitPayload h cap).1.iecFrameProcessed = true ↔
      (if h.payloadHeaderIndex < h.numPayloadHeaders then h.payloadHeaderIndex + 1
        else h.payloadHeaderIndex) = h.numPayloadHeaders) ∧
    ((emitPayload h cap).1.iecFrameProcessed = true →
      burstRemoved h (emitPayload h cap).2 ∧
      ((h.payloadHeaderIndex < h.numPayloadHeaders →
          (currentSubHeader h).1 + (currentSubHeader h).2.1 ≤
            IEC_HEADER_SIZE_BYTES + h.payloadLength) →
        (emitPayload h cap).2.frameBytesPending = h.frameBytesPending ∧
        (emitPayload h cap).2.frameBytesMissing = h.frameBytesMissing ∧
        (emitPayload h cap).2.pcmOffsetPending = h.pcmOffsetPending ∧
        (emitPayload h cap).2.frameBufferPending = h.frameBufferPending) ∧
      (h.payloadHeaderIndex < h.numPayloadHeaders →
        (currentSubHeader h).1 + (currentSubHeader h).2.1 >
            IEC_HEADER_SIZE_BYTES + h.payloadLength →
        (emitPayload h cap).2.frameBytesMissing =
          sub32 (currentSubHeader h).2.1
            (u32 (sub32 h.payloadLength (currentSubHeader h).1 + IEC_HEADER_SIZE_BYTES)) ∧
        (emitPayload h cap).2.frameBytesPending =
          sub32 (currentSubHeader h).2.1 (emitPayload h cap).2.frameBytesMissing ∧
        (emitPayload h cap).2.pcmOffsetPending =
          (currentSubHeader h).2.2 - (h.frameLength : Int))) ∧
    ((emitPayload h cap).1.iecFrameProcessed = false →
      (emitPayload h cap).2.workBuffer = h.workBuffer ∧
      (emitPayload h cap).2.workBufferBytesAvailable = h.workBufferBytesAvailable) := by
  unfold currentSubHeader
  unfold emitPayload at hok ⊢
  simp only [] at hok ⊢
  generalize parsePayloadHeader h (h.syncCandidateIndex + IEC_HEADER_SIZE_BYTES +
      h.payloadHeaderIndex * h.payloadHeaderSize) = hdr at hok ⊢
  by_cases hidx : h.payloadHeaderIndex < h.numPayloadHeaders
  · rw [if_pos hidx] at hok ⊢
    rw [if_pos hidx]
    by_cases hcap : hdr.2.1 > cap
    · rw [if_pos hcap] at hok
      cases hok
    rw [if_neg hcap] at hok ⊢
    by_cases hsplit : hdr.1 + hdr.2.1 > IEC_HEADER_SIZE_BYTES + h.payloadLength
    · rw [if_pos hsplit] at hok ⊢
      by_cases hl : h.payloadHeaderIndex + 1 = h.numPayloadHeaders
      · dsimp only
        rw [if_pos hl]
        refine ⟨rfl, ⟨fun _ => hl, fun _ => rfl⟩,
          fun _ => ⟨finishBurst_removed h _ rfl rfl rfl rfl havail h32,
            fun hc => absurd (hc hidx) (by omega), fun _ _ => ⟨rfl, rfl, rfl⟩⟩, fun hc => ?_⟩
        cases hc
      · dsimp only
        rw [if_neg hl]
        exact ⟨rfl, ⟨fun hc => Bool.noConfusion hc, fun hc => absurd hc hl⟩,
          fun hc => Bool.noConfusion hc, fun _ => ⟨rfl, rfl⟩⟩
    · rw [if_neg hsplit] at hok ⊢
      by_cases hl : h.payloadHeaderIndex + 1 = h.numPayloadHeaders
      · dsimp only
        rw [if_pos hl]
        refine ⟨rfl, ⟨fun _ => hl, fun _ => rfl⟩,
          fun _ => ⟨finishBurst_removed h _ rfl rfl rfl rfl havail h32,
            fun _ => ⟨rfl, rfl, rfl, rfl⟩, fun _ hc => absurd hc hsplit⟩, fun hc => ?_⟩
        cases hc
      · dsimp only
        rw [if_neg hl]
        exact ⟨rfl, ⟨fun hc => Bool.noConfusion hc, fun hc => absurd hc hl⟩,
          fun hc => Bool.noConfusion hc, fun _ => ⟨rfl, rfl⟩⟩
  · rw [if_neg hidx] at hok ⊢
    rw [if_neg hidx]
    by_cases hl : h.payloadHeaderIndex = h.numPayloadHeaders
    · dsimp only
      rw [if_pos hl]
      refine ⟨rfl, ⟨fun _ => hl, fun _ => rfl⟩,
        fun _ => ⟨finishBurst_removed h _ rfl rfl rfl rfl havail h32,
          fun _ => ⟨rfl, rfl, rfl, rfl⟩, fun hc => absurd hc hidx⟩, fun hc => ?_⟩
      cases hc
    · dsimp only
      rw [if_neg hl]
      exact ⟨rfl, ⟨fun hc => Bool.noConfusion hc, fun hc => absurd hc hl⟩,
        fun hc => Bool.noConfusion hc, fun _ => ⟨rfl, rfl⟩⟩

/-- Dropping one byte in front of an HBR burst (the `memmove` of the candidate search)
leaves the burst followed by a copy of its last byte, a zero. -/
theorem memMove_junk_hbrBurst (k : WireConsts) (rc P : Nat) (subs : List (Nat × Nat × Int))
    (payload : List Nat) (x : Nat) (hpad : 8 + (subs.length + 1) * 8 + payload.length < P) :
    memMove (x :: hbrBurst k rc P subs payload) 0 1 P = hbrBurst k rc (P + 1) subs payload := by
  have hlen := hbrBurst_length k rc P subs payload (by omega)
  unfold memMove
  rw [memWrite_of_le _ (Nat.zero_le _), memRead_length]
  have e1 : memRead (x :: hbrBurst k rc P subs payload) 1 P = hbrBurst k rc P subs payload := by
    unfold memRead
    rw [List.drop_succ_cons, List.drop_zero, List.take_append_of_le_length (by omega),
      List.take_of_length_le (by omega)]
  rw [e1, List.take_zero, List.nil_append, Nat.zero_add]
  unfold hbrBurst
  obtain ⟨r, hr⟩ : ∃ r, P - (8 + (subs.length + 1) * 8 + payload.length) = r + 1 :=
    ⟨P - (8 + (subs.length + 1) * 8 + payload.length) - 1, by omega⟩
  have hr2 : P + 1 - (8 + (subs.length + 1) * 8 + payload.length) = r + 1 + 1 := by omega
  rw [hr, hr2]
  generalize hX : [k.SYNC_PREAMBLE_0, k.SYNC_PREAMBLE_1, k.SYNC_PREAMBLE_2, k.SYNC_PREAMBLE_3,
    rc * 8, 57, pdField subs.length payload.length / 256,
    pdField subs.length payload.length % 256] ++ subHeaderBytes subs ++ List.replicate 8 0 ++
    payload = X
  have hXlen : X.length + (r + 1) = P := by
    rw [← hX]
    simp only [List.length_append, List.length_cons, List.length_nil, subHeaderBytes_length,
      List.length_replicate]
    omega
  have e2 : List.drop P (x :: (X ++ List.replicate (r + 1) 0)) = [0] := by
    rw [← hXlen, show X.length + (r + 1) = (X.length + r) + 1 from rfl, List.drop_succ_cons,
      List.drop_append, List.drop_replicate]
    simp
  rw [e2, List.replicate_succ' (r + 1), List.append_assoc]

/-- The sync loop on a fresh decoder that was fed one junk byte and an HBR burst: the
candidate search drops the junk byte and the burst is accepted at index 0. -/
theorem syncLoop_junk_hbrBurst (k : WireConsts) (rc : Nat) (subs : List (Nat × Nat × Int))
    (payload : List Nat) (fuel : Nat) (hrc : rc = 1 ∨ rc = 3)
    (hpd : pdField subs.length payload.length * 8 + 8 + k.IEC_BURST_SPACING_SIZE_BYTES ≤
      4096 * 2 ^ (rc + 1))
    (hroom : 8 + (subs.length + 1) * 8 + payload.length + k.IEC_BURST_SPACING_SIZE_BYTES ≤
      4096 * 2 ^ (rc + 1))
    (hpad : 8 + (subs.length + 1) * 8 + payload.length < 4096 * 2 ^ (rc + 1))
    (hk : k.SYNC_PREAMBLE_0 ≠ 0)
    (off len : Nat → Nat)
    (hent : ∀ j, j < subs.length → ∃ pcm, subs[j]? = some (off j, len j, pcm) ∧
      off j < 16777216 ∧ 1 ≤ len j ∧ len j < 16777216)
    (hinc : ∀ j, j + 1 < subs.length → off j < off (j + 1))
    (hfirst : 1 ≤ subs.length → (subs.length + 1) * 8 + 8 + 0 ≤ off 0)
    (hoffs : ∀ j, j < subs.length → off j ≤ pdField subs.length payload.length * 8) :
    syncLoop k (fuel + 2)
      (idleState (0 :: hbrBurst k rc (4096 * 2 ^ (rc + 1)) subs payload)
        (4096 * 2 ^ (rc + 1) + 1) [] 0 0 0) =
    some (syncedState (hbrBurst k rc (4096 * 2 ^ (rc + 1) + 1) subs payload)
      (4096 * 2 ^ (rc + 1)) [] 0 0 0 rc (pdField subs.length payload.length) subs.length 0) := by
  have hP : 4096 * 2 ^ (rc + 1) = 16384 ∨ 4096 * 2 ^ (rc + 1) = 65536 := by
    rcases hrc with h | h <;> subst h
    · left; rfl
    · right; rfl
  have hmm := memMove_junk_hbrBurst k rc (4096 * 2 ^ (rc + 1)) subs payload 0 hpad
  have hchecks := hbrBurst_checks k
    { syncedState (hbrBurst k rc (4096 * 2 ^ (rc + 1) + 1) subs payload) (4096 * 2 ^ (rc + 1))
        [] 0 0 0 rc (pdField subs.length payload.length) 0 0 with syncFound := false }
    rc (4096 * 2 ^ (rc + 1) + 1) subs payload hrc hpd hroom rfl rfl rfl rfl rfl rfl
    (Nat.zero_le _) off len hent hinc hfirst
  generalize hPdef : 4096 * 2 ^ (rc + 1) = P at *
  generalize hWdef : hbrBurst k rc P subs payload = W at *
  generalize hW2def : hbrBurst k rc (P + 1) subs payload = W2 at *
  have hpk : ∀ i, i < 8 → peek W i =
      peek [k.SYNC_PREAMBLE_0, k.SYNC_PREAMBLE_1, k.SYNC_PREAMBLE_2, k.SYNC_PREAMBLE_3,
        rc * 8, 57, pdField subs.length payload.length / 256,
        pdField subs.length payload.length % 256] i := fun i hi => by
    rw [← hWdef]; exact hbrBurst_peek_header k rc P subs payload i hi
  have hparse : parseIecFrameData k
      { idleState (0 :: W) (P + 1) [] 0 0 0 with syncCandidateIndex := 1 } =
      (0, { syncedState (0 :: W) (P + 1) [] 0 0 0 rc (pdField subs.length payload.length) 0 0 with
            syncFound := false, syncCandidateFound := false, syncCandidateIndex := 1 }) := by
    rw [parseIecFrameData_hbr k _ rc (pdField subs.length payload.length) hrc
      (by show peek (0 :: W) (4 + 1) = _; rw [peek_cons_succ, hpk _ (by omega)]; rfl)
      (by show peek (0 :: W) (5 + 1) = _; rw [peek_cons_succ, hpk _ (by omega)]; rfl)
      (by show peek (0 :: W) (6 + 1) = _; rw [peek_cons_succ, hpk _ (by omega)]; rfl)
      (by show peek (0 :: W) (7 + 1) = _; rw [peek_cons_succ, hpk _ (by omega)]; rfl)
      (by rw [hPdef]; exact hpd)]
    rw [hPdef]
    simp only [idleState, syncedState, hPdef]
  have hsearch : candidateSearch k (idleState (0 :: W) (P + 1) [] 0 0 0) =
      { syncedState W2 P [] 0 0 0 rc (pdField subs.length payload.length) 0 0 with
        syncFound := false } := by
    rw [candidateSearch_found k (idleState (0 :: W) (P + 1) [] 0 0 0) 1 rfl
      (by show P + 1 > IEC_HEADER_SIZE_BYTES; unfold IEC_HEADER_SIZE_BYTES; omega)
      (by show 1 < P + 1 - IEC_HEADER_SIZE_BYTES; unfold IEC_HEADER_SIZE_BYTES; omega)
      ⟨by show peek (0 :: W) (0 + 1) = _; rw [peek_cons_succ, hpk _ (by omega)]; rfl,
       by show peek (0 :: W) (1 + 1) = _; rw [peek_cons_succ, hpk _ (by omega)]; rfl,
       by show peek (0 :: W) (2 + 1) = _; rw [peek_cons_succ, hpk _ (by omega)]; rfl,
       by show peek (0 :: W) (3 + 1) = _; rw [peek_cons_succ, hpk _ (by omega)]; rfl,
       by rw [hparse]⟩
      (fun j hj hacc => by
        have hj0 : j = 0 := by omega
        subst hj0
        exact hk hacc.1.symm)]
    rw [hparse]
    show ({ syncedState (0 :: W) (P + 1) [] 0 0 0 rc (pdField subs.length payload.length) 0 0 with
      syncFound := false, workBuffer := memMove (0 :: W) 0 1 (P + 1 - 1),
      workBufferBytesAvailable := P + 1 - 1 } : DecState) = _
    rw [Nat.add_sub_cancel, hmm]
    simp only [syncedState, hPdef]
  obtain ⟨hspace, _, hacc⟩ := hchecks
  have hhdr := (hacc subs.length).2 ⟨rfl, hoffs⟩
  rw [show fuel + 2 = (fuel + 1) + 1 from rfl, syncLoop]
  rw [if_pos (by
      show (!false) = true ∧ P + 1 > IEC_HEADER_SIZE_BYTES
      unfold IEC_HEADER_SIZE_BYTES
      exact ⟨rfl, by rcases hP with hP | hP <;> omega⟩)]
  simp only [hsearch]
  rw [if_pos (show ({ syncedState W2 P [] 0 0 0 rc (pdField subs.length payload.length) 0 0 with
            syncFound := false } : DecState).syncCandidateFound = true from rfl)]
  rw [if_pos (by show P ≥ 0 + 4096 * 2 ^ (rc + 1); rw [hPdef]; omega)]
  rw [hspace, if_pos rfl, hhdr]
  simp only [syncLoop]
  rfl

theorem junkStream2_length : junkStream2.length = 16385 := by
  unfold junkStream2
  rw [List.length_cons, hbrBurst_length _ _ _ _ _ (by decide)]

theorem junkStream1_length : junkStream1.length = 16385 := by
  unfold junkStream1
  rw [List.length_cons, s1Burst_length]

theorem junk2_feed : iec61937_decode_feed iec61937_decode_open junkStream2 =
    (.IECDEC_OK, idleState junkStream2 16385 [] 0 0 0) := by
  have hf := feed_idle [] [] junkStream2 0 0 0 (Nat.zero_le _)
    (by rw [junkStream2_length]; decide)
  rw [← open_idle, junkStream2_length] at hf
  exact hf

theorem junk1_feed : iec61937_decode_feed iec61937_decode_open junkStream1 =
    (.IECDEC_OK, idleState junkStream1 16385 [] 0 0 0) := by
  have hf := feed_idle [] [] junkStream1 0 0 0 (Nat.zero_le _)
    (by rw [junkStream1_length]; decide)
  rw [← open_idle, junkStream1_length] at hf
  exact hf

theorem split_feed : iec61937_decode_feed iec61937_decode_open splitBurst =
    (.IECDEC_OK, idleState splitBurst 16384 [] 0 0 0) := by
  have hf := feed_idle [] [] splitBurst 0 0 0 (Nat.zero_le _)
    (by rw [splitBurst_length]; decide)
  rw [← open_idle, splitBurst_length] at hf
  exact hf

/-- The sync loop drops the junk byte of `junkStream2` and accepts the burst. -/
theorem junk2_sync :
    syncLoop refConsts 2 (iec61937_decode_feed iec61937_decode_open junkStream2).2 =
      some junkSynced2 := by
  rw [junk2_feed]
  exact syncLoop_junk_hbrBurst refConsts 1 [(32, 8, 0), (40, 8, 1024)]
    [1, 2, 3, 4, 5, 6, 7, 8, 9, 10, 11, 12, 13, 14, 15, 16] 0 (Or.inl rfl) (by decide)
    (by decide) (by decide) (by decide)
    (fun j => if j = 0 then 32 else 40) (fun _ => 8)
    (fun j hj => by
      have hj2 : j < 2 := hj
      rcases Nat.lt_or_ge j 1 with h0 | h1
      · have e : j = 0 := by omega
        subst e
        exact ⟨0, rfl, by decide, by decide, by decide⟩
      · have e : j = 1 := by omega
        subst e
        exact ⟨1024, rfl, by decide, by decide, by decide⟩)
    (fun j hj => by
      have hj2 : j + 1 < 2 := hj
      have e : j = 0 := by omega
      subst e
      decide)
    (fun _ => by decide)
    (fun j hj => by
      have hj2 : j < 2 := hj
      rcases Nat.lt_or_ge j 1 with h0 | h1
      · have e : j = 0 := by omega
        subst e
        decide
      · have e : j = 1 := by omega
        subst e
        decide)

/-- The sync loop drops the junk byte of `junkStream1` and accepts the burst. -/
theorem junk1_sync :
    syncLoop refConsts 2 (iec61937_decode_feed iec61937_decode_open junkStream1).2 =
      some junkSynced1 := by
  rw [junk1_feed]
  have := syncLoop_junk_hbrBurst refConsts 1 [(24, 100, 0)] (List.replicate 100 1) 0
    (Or.inl rfl) (by rw [List.length_replicate]; decide) (by rw [List.length_replicate]; decide)
    (by rw [List.length_replicate]; decide) (by decide)
    (fun _ => 24) (fun _ => 100)
    (fun j hj => by
      have hj2 : j < 1 := hj
      have e : j = 0 := by omega
      subst e
      exact ⟨0, rfl, by decide, by decide, by decide⟩)
    (fun j hj => by
      have hj2 : j + 1 < 1 := hj
      omega)
    (fun _ => by decide)
    (fun j hj => by rw [List.length_replicate]; show 24 ≤ pdField 1 100 * 8; decide)
  rw [List.length_replicate] at this
  exact this

theorem parsePayloadHeader_lt (h : DecState) (p : Nat) (hb : ∀ i, peek h.workBuffer i < 256) :
    (parsePayloadHeader h p).1 < 16777216 ∧ (parsePayloadHeader h p).2.1 < 16777216 := by
  unfold parsePayloadHeader
  have h0 := hb (p + 0)
  have h1 := hb (p + 1)
  have h2 := hb (p + 2)
  have h3 := hb (p + 3)
  have h4 := hb (p + 4)
  have h5 := hb (p + 5)
  simp only []
  split
  · exact ⟨by show _ * 256 + _ < 16777216; omega, by show _ * 256 + _ < 16777216; omega⟩
  · exact ⟨by show _ * 65536 + _ * 256 + _ < 16777216; omega,
      by show _ * 65536 + _ * 256 + _ < 16777216; omega⟩

theorem parsePayloadHeader_peek_congr (a b : DecState) (p : Nat)
    (hm : a.audioMode = b.audioMode)
    (hpk : ∀ i, i < 8 → peek a.workBuffer (p + i) = peek b.workBuffer (p + i)) :
    parsePayloadHeader a p = parsePayloadHeader b p := by
  unfold parsePayloadHeader
  simp only []
  rw [hm, hpk 0 (by omega), hpk 1 (by omega), hpk 2 (by omega), hpk 3 (by omega),
    hpk 4 (by omega), hpk 5 (by omega), hpk 6 (by omega), hpk 7 (by omega)]

theorem peek_lt_of_mem (d : List Nat) (hd : ∀ b, b ∈ d → b < 256) (i : Nat) : peek d i < 256 := by
  unfold peek
  rw [List.getD_eq_getElem?_getD]
  by_cases hi : i < d.length
  · rw [List.getElem?_eq_getElem hi]
    exact hd _ (List.getElem_mem hi)
  · rw [List.getElem?_eq_none (by omega)]
    decide

theorem DecInv_open (k : WireConsts) (M : Nat) : DecInv k M iec61937_decode_open :=
  ⟨fun i => by
      show peek [] i < 256
      unfold peek
      simp,
    by decide, fun hc => Bool.noConfusion hc, fun hc => Bool.noConfusion hc,
    Nat.zero_le _, by decide, Nat.zero_le _⟩

/-- The sub-headers of a validated burst lie inside the burst. -/
theorem headersValidated_slot (k : WireConsts) (h : DecState) (hp : ParsedHeader k h)
    (hv : headersValidated h) (j : Nat) (hj : j < h.numPayloadHeaders) :
    IEC_HEADER_SIZE_BYTES + (j + 1) * h.payloadHeaderSize + h.payloadHeaderSize ≤
      h.payloadLength ∧ 6 ≤ h.payloadHeaderSize ∧ h.payloadHeaderSize ≤ 8 := by
  have h1 := hv.1 0 (by omega)
  have h2 := hv.2 (by omega)
  have h3 : (j + 1) * h.payloadHeaderSize + h.payloadHeaderSize ≤
      (h.numPayloadHeaders + 1) * h.payloadHeaderSize := by
    have : (j + 1) + 1 ≤ h.numPayloadHeaders + 1 := by omega
    calc (j + 1) * h.payloadHeaderSize + h.payloadHeaderSize
        = ((j + 1) + 1) * h.payloadHeaderSize := (Nat.succ_mul (j + 1) _).symm
      _ ≤ (h.numPayloadHeaders + 1) * h.payloadHeaderSize := Nat.mul_le_mul_right _ this
  have h4 : 6 ≤ h.payloadHeaderSize ∧ h.payloadHeaderSize ≤ 8 := by
    rw [hp.hs]; split <;> omega
  exact ⟨by omega, h4⟩

theorem DecInv_feed (k : WireConsts) (M : Nat) (h : DecState) (input : List Nat)
    (hi : DecInv k M h) (hin : ∀ b, b ∈ input → b < 256) :
    DecInv k M (iec61937_decode_feed h input).2 := by
  unfold iec61937_decode_feed
  split
  · exact hi
  · rename_i hg
    have hpk : ∀ i, i < h.workBufferBytesAvailable →
        peek (memWrite h.workBuffer h.workBufferBytesAvailable input) i = peek h.workBuffer i := by
      intro i hlt
      rw [peek_memWrite, if_pos hlt]
    refine ⟨fun i => ?_, by show h.workBufferBytesAvailable + input.length ≤ _; omega,
      fun hc => ⟨⟨(hi.cand hc).1.mode, (hi.cand hc).1.hs, (hi.cand hc).1.period8,
        (hi.cand hc).1.periodLe, (hi.cand hc).1.room⟩, (hi.cand hc).2⟩,
      fun hs => ?_, hi.pend, hi.pend24, hi.fbuf⟩
    · show peek (memWrite h.workBuffer h.workBufferBytesAvailable input) i < 256
      rw [peek_memWrite]
      split
      · exact hi.bytes i
      · split
        · exact peek_lt_of_mem input hin _
        · exact hi.bytes i
    · obtain ⟨hc, hP, hv⟩ := hi.sync hs
      obtain ⟨hp, hci⟩ := hi.cand hc
      have hsame : ∀ j, j < h.numPayloadHeaders →
          subHeaderAt { h with
            workBuffer := memWrite h.workBuffer h.workBufferBytesAvailable input,
            workBufferBytesAvailable := h.workBufferBytesAvailable + input.length } j =
          subHeaderAt h j := by
        intro j hj
        obtain ⟨hslot, h6, h8⟩ := headersValidated_slot k h hp hv j hj
        have hroom := hp.room
        unfold subHeaderAt
        show parsePayloadHeader _
          (h.syncCandidateIndex + IEC_HEADER_SIZE_BYTES + j * h.payloadHeaderSize) = _
        refine parsePayloadHeader_peek_congr _ h _ rfl (fun i hlt => ?_)
        apply hpk
        rw [hci]
        have e : (j + 1) * h.payloadHeaderSize = j * h.payloadHeaderSize + h.payloadHeaderSize :=
          Nat.succ_mul _ _
        unfold IEC_HEADER_SIZE_BYTES at hslot hroom ⊢
        omega
      refine ⟨hc, by show h.burstRepetitionPeriod ≤ h.workBufferBytesAvailable + input.length; omega,
        fun j hj => ?_, fun h1 => ?_⟩
      · rw [hsame j hj]; exact hv.1 j hj
      · rw [hsame 0 (by exact h1)]; exact hv.2 h1

theorem DecInv_candidateSearch (k : WireConsts) (M : Nat) (h : DecState)
    (hsp : k.IEC_BURST_SPACING_SIZE_BYTES ≤ 3064) (hi : DecInv k M h)
    (hs : h.syncFound = false) :
    DecInv k M (candidateSearch k h) ∧ (candidateSearch k h).syncFound = false ∧
    (candidateSearch k h).frameBytesPending = h.frameBytesPending ∧
    (candidateSearch k h).frameBytesMissing = h.frameBytesMissing ∧
    (candidateSearch k h).pcmOffsetPending = h.pcmOffsetPending ∧
    (candidateSearch k h).frameBufferPending = h.frameBufferPending := by
  by_cases hcond : !h.syncCandidateFound ∧ h.workBufferBytesAvailable > IEC_HEADER_SIZE_BYTES
  swap
  · have e : candidateSearch k h = h := by
      unfold candidateSearch
      rw [if_neg hcond]
    rw [e]
    exact ⟨hi, hs, rfl, rfl, rfl, rfl⟩
  obtain ⟨hc0, havail⟩ := hcond
  have hc : h.syncCandidateFound = false := by
    cases hcf : h.syncCandidateFound
    · rfl
    · rw [hcf] at hc0; exact absurd hc0 (by decide)
  have hav := hi.avail
  by_cases hex : ∃ m, m < h.workBufferBytesAvailable - IEC_HEADER_SIZE_BYTES ∧ acceptedAt k h m
  · have hspec := Nat.find_spec hex
    have hmin : ∀ j, j < Nat.find hex → ¬ acceptedAt k h j := fun j hj hacc =>
      Nat.find_min hex hj ⟨by omega, hacc⟩
    generalize Nat.find hex = m at hspec hmin
    obtain ⟨hm, hacc⟩ := hspec
    rw [candidateSearch_found k h m hc havail hm hacc hmin]
    have hp := parseIecFrameData_parsed k { h with syncCandidateIndex := m } hsp hacc.2.2.2.2
    rcases parseIecFrameData_cases k { h with syncCandidateIndex := m } with ⟨e1, _⟩ | ⟨_, e⟩
    · rw [hacc.2.2.2.2] at e1
      cases e1
    obtain ⟨ewb, eav, eci, ecf, esf, efb, efp, efm, epcm, enum, eidx⟩ := e
    generalize parseIecFrameData k { h with syncCandidateIndex := m } = r at *
    refine ⟨⟨fun i => ?_, ?_, fun _ => ⟨⟨hp.mode, hp.hs, hp.period8, hp.periodLe, hp.room⟩, rfl⟩,
      fun hsf => ?_, ?_, ?_, ?_⟩, ?_, efp, efm, epcm, efb⟩
    · show peek (memMove h.workBuffer 0 m (h.workBufferBytesAvailable - m)) i < 256
      rw [peek_memMove_zero]
      split
      · exact hi.bytes _
      · exact hi.bytes _
    · show h.workBufferBytesAvailable - m ≤ _
      omega
    · have : r.2.syncFound = true := hsf
      rw [esf] at this
      have : h.syncFound = true := this
      rw [hs] at this
      cases this
    · show r.2.frameBytesPending + r.2.frameBytesMissing ≤ M
      rw [efp, efm]; exact hi.pend
    · show r.2.frameBytesPending + r.2.frameBytesMissing < 16777216
      rw [efp, efm]; exact hi.pend24
    · show r.2.frameBufferPending.length ≤ M
      rw [efb]; exact hi.fbuf
    · show r.2.syncFound = false
      rw [esf]; exact hs
  · rw [candidateSearch_none k h hc havail (fun j hj hacc => hex ⟨j, hj, hacc⟩)]
    refine ⟨⟨fun i => ?_, ?_, fun hcf => ?_, fun hsf => ?_, hi.pend, hi.pend24, hi.fbuf⟩,
      hs, rfl, rfl, rfl, rfl⟩
    · show peek (memMove h.workBuffer 0 (h.workBufferBytesAvailable - IEC_HEADER_SIZE_BYTES)
        IEC_HEADER_SIZE_BYTES) i < 256
      rw [peek_memMove_zero]
      split
      · exact hi.bytes _
      · exact hi.bytes _
    · show IEC_HEADER_SIZE_BYTES ≤ DEC_WORKBUFFER_SIZE_BYTES
      decide
    · have : h.syncCandidateFound = true := hcf
      rw [hc] at this
      cases this
    · have : h.syncFound = true := hsf
      rw [hs] at this
      cases this

theorem DecInv_dropCandidate (k : WireConsts) (M : Nat) (c : DecState) (hi : DecInv k M c)
    (hcf : c.syncCandidateFound = true) :
    (DecInv k M (resetSyncState (dropCandidate c)) ∧
      (resetSyncState (dropCandidate c)).frameBufferPending = c.frameBufferPending ∧
      (resetSyncState (dropCandidate c)).frameBytesPending = c.frameBytesPending ∧
      (resetSyncState (dropCandidate c)).frameBytesMissing = c.frameBytesMissing ∧
      (resetSyncState (dropCandidate c)).pcmOffsetPending = c.pcmOffsetPending) ∧
    (DecInv k M (resetPendingState (resetParsingState (resetSyncState (dropCandidate c)))) ∧
      (resetPendingState (resetParsingState (resetSyncState
        (dropCandidate c)))).frameBufferPending = c.frameBufferPending ∧
      (resetPendingState (resetParsingState (resetSyncState
        (dropCandidate c)))).frameBytesPending = 0 ∧
      (resetPendingState (resetParsingState (resetSyncState
        (dropCandidate c)))).frameBytesMissing = 0 ∧
      (resetPendingState (resetParsingState (resetSyncState
        (dropCandidate c)))).pcmOffsetPending = 0) := by
  have hci := (hi.cand hcf).2
  have hav := hi.avail
  have e : sub32 c.workBufferBytesAvailable c.syncCandidateIndex = c.workBufferBytesAvailable := by
    rw [hci, sub32_of_le (Nat.zero_le _) (by unfold DEC_WORKBUFFER_SIZE_BYTES at hav; omega)]
    rfl
  unfold resetPendingState resetParsingState resetSyncState dropCandidate
  dsimp only
  have hb : ∀ i, peek (memMove c.workBuffer 0 (c.syncCandidateIndex + IEC_HEADER_SIZE_BYTES)
      (sub32 (sub32 c.workBufferBytesAvailable c.syncCandidateIndex) IEC_HEADER_SIZE_BYTES)) i <
        256 := by
    intro i
    rw [peek_memMove_zero]
    split
    · exact hi.bytes _
    · exact hi.bytes _
  have ha : sub32 c.workBufferBytesAvailable c.syncCandidateIndex ≤ DEC_WORKBUFFER_SIZE_BYTES := by
    rw [e]; exact hav
  exact ⟨⟨⟨hb, ha, fun h0 => Bool.noConfusion h0, fun h0 => Bool.noConfusion h0,
      hi.pend, hi.pend24, hi.fbuf⟩, rfl, rfl, rfl, rfl⟩,
    ⟨⟨hb, ha, fun h0 => Bool.noConfusion h0, fun h0 => Bool.noConfusion h0,
      Nat.zero_le _, (by decide : (0 : Nat) + 0 < 16777216), hi.fbuf⟩, rfl, rfl, rfl, rfl⟩⟩

theorem checkPayloadHeaders_accepted (k : WireConsts) (M : Nat) (c : DecState)
    (hi : DecInv k M c) (hcf : c.syncCandidateFound = true) (n : Nat)
    (hacc : checkPayloadHeaders c = some (true, n)) : headersAccepted c n := by
  obtain ⟨hp, hci⟩ := hi.cand hcf
  have hroom := hp.room
  have hle := hp.periodLe
  have h24 := hi.pend24
  have hhs : c.payloadHeaderSize ≤ 8 := by rw [hp.hs]; split <;> omega
  have hmul : (c.payloadLength + 2) * c.payloadHeaderSize ≤ (c.payloadLength + 2) * 8 :=
    Nat.mul_le_mul_left _ hhs
  have hspec := checkPayloadHeadersLoop_spec c (by omega)
    (by unfold IEC_HEADER_SIZE_BYTES; omega)
    (c.payloadLength + 2) 0 0 0 (by omega)
    (fun i hi => absurd hi (Nat.not_lt_zero _)) (fun i hi => absurd hi (Nat.not_lt_zero _))
    (fun i hi => absurd hi (Nat.not_lt_zero _)) (fun h0 => absurd h0 (by omega))
  simp only [Nat.zero_mul, Nat.add_zero] at hspec
  exact (hspec.2 n).1 hacc

theorem DecInv_accept (k : WireConsts) (M : Nat) (c : DecState)
    (hi : DecInv k M c) (hcf : c.syncCandidateFound = true)
    (havail : c.workBufferBytesAvailable ≥ c.syncCandidateIndex + c.burstRepetitionPeriod)
    (n : Nat) (hacc : checkPayloadHeaders c = some (true, n)) :
    DecInv k M { c with syncFound := true, numPayloadHeaders := n, payloadHeaderIndex := 0 } := by
  obtain ⟨hp, hci⟩ := hi.cand hcf
  obtain ⟨_, _, _, h4, h5⟩ := checkPayloadHeaders_accepted k M c hi hcf n hacc
  refine ⟨hi.bytes, hi.avail,
    fun _ => ⟨⟨hp.mode, hp.hs, hp.period8, hp.periodLe, hp.room⟩, hci⟩,
    fun _ => ⟨hcf, ?_, ⟨fun j hj => h4 j hj, fun h1 => ?_⟩⟩, hi.pend, hi.pend24, hi.fbuf⟩
  · show c.burstRepetitionPeriod ≤ c.workBufferBytesAvailable
    omega
  · have := h5 h1
    show IEC_HEADER_SIZE_BYTES + (n + 1) * c.payloadHeaderSize ≤ (subHeaderAt c 0).1
    omega

/-- The sync loop keeps the invariant, leaves the pending buffer alone, and either keeps
or clears the pending state. -/
theorem DecInv_syncLoop (k : WireConsts) (M : Nat)
    (hsp : k.IEC_BURST_SPACING_SIZE_BYTES ≤ 3064) :
    ∀ (fuel : Nat) (h s : DecState), DecInv k M h → syncLoop k fuel h = some s →
      DecInv k M s ∧ s.frameBufferPending = h.frameBufferPending ∧
      ((s.frameBytesPending = h.frameBytesPending ∧ s.frameBytesMissing = h.frameBytesMissing ∧
          s.pcmOffsetPending = h.pcmOffsetPending) ∨
        (s.frameBytesPending = 0 ∧ s.frameBytesMissing = 0 ∧ s.pcmOffsetPending = 0)) := by
  intro fuel
  induction fuel with
  | zero =>
    intro h s _ hsl
    rw [syncLoop] at hsl
    cases hsl
  | succ fuel ih =>
    intro h s hi hsl
    rw [syncLoop] at hsl
    by_cases hcond : !h.syncFound ∧ h.workBufferBytesAvailable > IEC_HEADER_SIZE_BYTES
    swap
    · rw [if_neg hcond] at hsl
      cases hsl
      exact ⟨hi, rfl, Or.inl ⟨rfl, rfl, rfl⟩⟩
    rw [if_pos hcond] at hsl
    have hs : h.syncFound = false := by
      cases hsf : h.syncFound
      · rfl
      · rw [hsf] at hcond; exact absurd hcond.1 (by decide)
    obtain ⟨hic, hcs, efp, efm, epcm, efb⟩ := DecInv_candidateSearch k M h hsp hi hs
    simp only [] at hsl
    generalize candidateSearch k h = c at *
    have comb : ∀ x : DecState, x.frameBufferPending = c.frameBufferPending →
        ((x.frameBytesPending = c.frameBytesPending ∧ x.frameBytesMissing = c.frameBytesMissing ∧
          x.pcmOffsetPending = c.pcmOffsetPending) ∨
        (x.frameBytesPending = 0 ∧ x.frameBytesMissing = 0 ∧ x.pcmOffsetPending = 0)) →
        DecInv k M x → syncLoop k fuel x = some s →
        DecInv k M s ∧ s.frameBufferPending = h.frameBufferPending ∧
        ((s.frameBytesPending = h.frameBytesPending ∧
            s.frameBytesMissing = h.frameBytesMissing ∧
            s.pcmOffsetPending = h.pcmOffsetPending) ∨
          (s.frameBytesPending = 0 ∧ s.frameBytesMissing = 0 ∧ s.pcmOffsetPending = 0)) := by
      intro x hxb hxp hix hx
      obtain ⟨r1, r2, r3⟩ := ih x s hix hx
      refine ⟨r1, by rw [r2, hxb, efb], ?_⟩
      rcases r3 with ⟨a1, a2, a3⟩ | r3
      · rcases hxp with ⟨b1, b2, b3⟩ | ⟨b1, b2, b3⟩
        · exact Or.inl ⟨by rw [a1, b1, efp], by rw [a2, b2, efm], by rw [a3, b3, epcm]⟩
        · exact Or.inr ⟨by rw [a1, b1], by rw [a2, b2], by rw [a3, b3]⟩
      · exact Or.inr r3
    by_cases hcf : c.syncCandidateFound = true
    swap
    · rw [if_neg hcf] at hsl
      exact comb c rfl (Or.inl ⟨rfl, rfl, rfl⟩) hic hsl
    rw [if_pos hcf] at hsl
    by_cases hav : c.workBufferBytesAvailable ≥ c.syncCandidateIndex + c.burstRepetitionPeriod
    swap
    · rw [if_neg hav] at hsl
      cases hsl
      exact ⟨hic, efb, Or.inl ⟨efp, efm, epcm⟩⟩
    rw [if_pos hav] at hsl
    obtain ⟨⟨hd1, d1a, d1b, d1c, d1d⟩, ⟨hd2, d2a, d2b, d2c, d2d⟩⟩ :=
      DecInv_dropCandidate k M c hic hcf
    by_cases hspace : checkBurstSpacing k c = true
    swap
    · rw [if_neg hspace] at hsl
      exact comb (resetSyncState (dropCandidate c)) d1a (Or.inl ⟨d1b, d1c, d1d⟩) hd1 hsl
    rw [if_pos hspace] at hsl
    cases hchk : checkPayloadHeaders c with
    | none =>
      rw [hchk] at hsl
      cases hsl
    | some r =>
      obtain ⟨b, n⟩ := r
      rw [hchk] at hsl
      cases b
      · exact comb (resetPendingState (resetParsingState (resetSyncState (dropCandidate c))))
          d2a (Or.inr ⟨d2b, d2c, d2d⟩) hd2 hsl
      · exact comb { c with syncFound := true, numPayloadHeaders := n, payloadHeaderIndex := 0 }
          rfl (Or.inl ⟨rfl, rfl, rfl⟩) (DecInv_accept k M c hic hcf hav n hchk) hsl

/-- The payload block of `iec61937_decode_process`, branch by branch. -/
theorem emitPayload_eq (h : DecState) (cap : Nat) :
    emitPayload h cap =
      if h.payloadHeaderIndex < h.numPayloadHeaders then
        if (currentSubHeader h).2.1 > cap then
          (DecOut.mk .IECDEC_BUFFER_ERROR [] 0 0 h.frameLength false, h)
        else if (currentSubHeader h).1 + (currentSubHeader h).2.1 >
            IEC_HEADER_SIZE_BYTES + h.payloadLength then
          (DecOut.mk .IECDEC_OK [] 0 0 h.frameLength
              (decide (h.payloadHeaderIndex + 1 = h.numPayloadHeaders)),
            if h.payloadHeaderIndex + 1 = h.numPayloadHeaders then finishBurst (splitState h)
            else splitState h)
        else
          (DecOut.mk .IECDEC_OK
              (memRead h.workBuffer (h.syncCandidateIndex + (currentSubHeader h).1)
                (currentSubHeader h).2.1)
              (currentSubHeader h).2.1 (currentSubHeader h).2.2 h.frameLength
              (decide (h.payloadHeaderIndex + 1 = h.numPayloadHeaders)),
            if h.payloadHeaderIndex + 1 = h.numPayloadHeaders then
              finishBurst { h with payloadHeaderIndex := h.payloadHeaderIndex + 1 }
            else { h with payloadHeaderIndex := h.payloadHeaderIndex + 1 })
      else
        (DecOut.mk .IECDEC_OK [] 0 0 h.frameLength
            (decide (h.payloadHeaderIndex = h.numPayloadHeaders)),
          if h.payloadHeaderIndex = h.numPayloadHeaders then finishBurst h else h) := by
  unfold emitPayload splitState currentSubHeader
  simp only []
  generalize parsePayloadHeader h (h.syncCandidateIndex + IEC_HEADER_SIZE_BYTES +
      h.payloadHeaderIndex * h.payloadHeaderSize) = hdr
  by_cases hidx : h.payloadHeaderIndex < h.numPayloadHeaders
  · rw [if_pos hidx, if_pos hidx]
    by_cases hcap : hdr.2.1 > cap
    · rw [if_pos hcap, if_pos hcap]
    rw [if_neg hcap, if_neg hcap]
    by_cases hsplit : hdr.1 + hdr.2.1 > IEC_HEADER_SIZE_BYTES + h.payloadLength
    · rw [if_pos hsplit, if_pos hsplit]
      dsimp only
      by_cases hl : h.payloadHeaderIndex + 1 = h.numPayloadHeaders
      · rw [if_pos hl, if_pos hl]
        simp only [hl, decide_True]
        rfl
      · rw [if_neg hl, if_neg hl]
        simp only [hl, decide_False]
    · rw [if_neg hsplit, if_neg hsplit]
      dsimp only
      by_cases hl : h.payloadHeaderIndex + 1 = h.numPayloadHeaders
      · rw [if_pos hl, if_pos hl]
        simp only [hl, decide_True]
        rfl
      · rw [if_neg hl, if_neg hl]
        simp only [hl, decide_False]
  · rw [if_neg hidx, if_neg hidx]
    dsimp only
    by_cases hl : h.payloadHeaderIndex = h.numPayloadHeaders
    · rw [if_pos hl, if_pos hl]
      simp only [hl, decide_True]
      rfl
    · rw [if_neg hl, if_neg hl]
      simp only [hl, decide_False]

theorem split_amounts (PL off len : Nat) (hoff : off ≤ PL) (hPL : PL < 2147483648)
    (hlen : len < 4294967296) (hsplit : off + len > IEC_HEADER_SIZE_BYTES + PL) :
    sub32 len (u32 (sub32 PL off + IEC_HEADER_SIZE_BYTES)) = len - (PL + 8 - off) ∧
    sub32 len (sub32 len (u32 (sub32 PL off + IEC_HEADER_SIZE_BYTES))) = PL + 8 - off := by
  unfold u32 sub32 IEC_HEADER_SIZE_BYTES at *
  omega

theorem DecInv_finishBurst (k : WireConsts) (M : Nat) (x : DecState) (hi : DecInv k M x)
    (hs : x.syncFound = true) :
    DecInv k M (finishBurst x) ∧
    (finishBurst x).frameBytesPending = x.frameBytesPending ∧
    (finishBurst x).frameBytesMissing = x.frameBytesMissing ∧
    (finishBurst x).pcmOffsetPending = x.pcmOffsetPending ∧
    (finishBurst x).frameBufferPending = x.frameBufferPending := by
  obtain ⟨_, hP, _⟩ := hi.sync hs
  have hav := hi.avail
  have e : sub32 x.workBufferBytesAvailable x.burstRepetitionPeriod =
      x.workBufferBytesAvailable - x.burstRepetitionPeriod :=
    sub32_of_le hP (by unfold DEC_WORKBUFFER_SIZE_BYTES at hav; omega)
  unfold finishBurst resetParsingState resetSyncState
  dsimp only
  rw [e]
  refine ⟨⟨fun i => ?_, by
      show x.workBufferBytesAvailable - x.burstRepetitionPeriod ≤ DEC_WORKBUFFER_SIZE_BYTES
      omega, fun h0 => Bool.noConfusion h0,
    fun h0 => Bool.noConfusion h0, hi.pend, hi.pend24, hi.fbuf⟩, rfl, rfl, rfl, rfl⟩
  rw [peek_memMove_zero]
  split
  · exact hi.bytes _
  · exact hi.bytes _

theorem DecInv_advance (k : WireConsts) (M : Nat) (s : DecState) (hi : DecInv k M s) :
    DecInv k M { s with payloadHeaderIndex := s.payloadHeaderIndex + 1 } :=
  ⟨hi.bytes, hi.avail,
    fun hc => ⟨⟨(hi.cand hc).1.mode, (hi.cand hc).1.hs, (hi.cand hc).1.period8,
      (hi.cand hc).1.periodLe, (hi.cand hc).1.room⟩, (hi.cand hc).2⟩,
    fun hs => ⟨(hi.sync hs).1, (hi.sync hs).2.1, ⟨fun j hj => (hi.sync hs).2.2.1 j hj,
      fun h1 => (hi.sync hs).2.2.2 h1⟩⟩,
    hi.pend, hi.pend24, hi.fbuf⟩

theorem DecInv_splitState (k : WireConsts) (M : Nat) (s : DecState) (cap : Nat)
    (hi : DecInv k M s) (hs : s.syncFound = true)
    (hidx : s.payloadHeaderIndex < s.numPayloadHeaders)
    (hcap : (currentSubHeader s).2.1 ≤ cap) (hcapM : cap ≤ M)
    (hsplit : (currentSubHeader s).1 + (currentSubHeader s).2.1 >
      IEC_HEADER_SIZE_BYTES + s.payloadLength) :
    DecInv k M (splitState s) ∧ (splitState s).syncFound = true ∧
    (splitState s).frameBytesPending = s.payloadLength + 8 - (currentSubHeader s).1 ∧
    (splitState s).frameBytesMissing =
      (currentSubHeader s).2.1 - (s.payloadLength + 8 - (currentSubHeader s).1) ∧
    0 < (splitState s).frameBytesMissing ∧
    (splitState s).frameBytesPending + (splitState s).frameBytesMissing =
      (currentSubHeader s).2.1 := by
  obtain ⟨hc, hP, hv⟩ := hi.sync hs
  obtain ⟨hp, hci⟩ := hi.cand hc
  have hoff : (currentSubHeader s).1 ≤ s.payloadLength := hv.1 _ hidx
  have hlt := parsePayloadHeader_lt s (s.syncCandidateIndex + IEC_HEADER_SIZE_BYTES +
    s.payloadHeaderIndex * s.payloadHeaderSize) hi.bytes
  have hroom := hp.room
  have hle := hp.periodLe
  have hlen : (currentSubHeader s).2.1 < 16777216 := hlt.2
  obtain ⟨e1, e2⟩ := split_amounts s.payloadLength (currentSubHeader s).1
    (currentSubHeader s).2.1 hoff (by omega) (by omega) hsplit
  rw [e1] at e2
  unfold splitState
  simp only [e1, e2]
  generalize currentSubHeader s = hdr at *
  unfold IEC_HEADER_SIZE_BYTES at hsplit
  refine ⟨⟨hi.bytes, hi.avail,
    fun hc => ⟨⟨(hi.cand hc).1.mode, (hi.cand hc).1.hs, (hi.cand hc).1.period8,
      (hi.cand hc).1.periodLe, (hi.cand hc).1.room⟩, (hi.cand hc).2⟩,
    fun hs => ⟨(hi.sync hs).1, (hi.sync hs).2.1, ⟨fun j hj => (hi.sync hs).2.2.1 j hj,
      fun h1 => (hi.sync hs).2.2.2 h1⟩⟩, ?_, ?_, ?_⟩, hs, trivial, trivial, ?_, ?_⟩
  · show s.payloadLength + 8 - hdr.1 + (hdr.2.1 - (s.payloadLength + 8 - hdr.1)) ≤ M
    omega
  · show s.payloadLength + 8 - hdr.1 + (hdr.2.1 - (s.payloadLength + 8 - hdr.1)) < 16777216
    omega
  · show (memWrite s.frameBufferPending 0 (memRead s.workBuffer (s.syncCandidateIndex + hdr.1)
      (s.payloadLength + 8 - hdr.1))).length ≤ M
    rw [memWrite_length, memRead_length]
    have := hi.fbuf
    omega
  · show 0 < hdr.2.1 - (s.payloadLength + 8 - hdr.1)
    omega
  · show s.payloadLength + 8 - hdr.1 + (hdr.2.1 - (s.payloadLength + 8 - hdr.1)) = hdr.2.1
    omega

/-- The payload block keeps the invariant; it leaves the pending state alone unless it
finds a split sub-header, in which case the bytes kept and the bytes missing add up to
the `data_length` of that sub-header, which the capacity of the call covers. -/
theorem emitPayload_inv (k : WireConsts) (M : Nat) (s : DecState) (cap : Nat)
    (hi : DecInv k M s) (hs : s.syncFound = true) (hcapM : cap ≤ M) :
    DecInv k M (emitPayload s cap).2 ∧
    (((emitPayload s cap).2.frameBytesPending = s.frameBytesPending ∧
        (emitPayload s cap).2.frameBytesMissing = s.frameBytesMissing ∧
        (emitPayload s cap).2.pcmOffsetPending = s.pcmOffsetPending ∧
        (emitPayload s cap).2.frameBufferPending = s.frameBufferPending) ∨
      (s.payloadHeaderIndex < s.numPayloadHeaders ∧ (currentSubHeader s).2.1 ≤ cap ∧
        (currentSubHeader s).1 + (currentSubHeader s).2.1 >
          IEC_HEADER_SIZE_BYTES + s.payloadLength ∧
        (emitPayload s cap).2.frameBytesPending =
          s.payloadLength + 8 - (currentSubHeader s).1 ∧
        (emitPayload s cap).2.frameBytesMissing =
          (currentSubHeader s).2.1 - (s.payloadLength + 8 - (currentSubHeader s).1) ∧
        0 < (emitPayload s cap).2.frameBytesMissing ∧
        (emitPayload s cap).2.frameBytesPending + (emitPayload s cap).2.frameBytesMissing =
          (currentSubHeader s).2.1 ∧
        (emitPayload s cap).1.result = .IECDEC_OK ∧
        (emitPayload s cap).1.outputBufferLength = 0)) := by
  rw [emitPayload_eq]
  by_cases hidx : s.payloadHeaderIndex < s.numPayloadHeaders
  · rw [if_pos hidx]
    by_cases hcap : (currentSubHeader s).2.1 > cap
    · rw [if_pos hcap]
      exact ⟨hi, Or.inl ⟨rfl, rfl, rfl, rfl⟩⟩
    rw [if_neg hcap]
    by_cases hsplit : (currentSubHeader s).1 + (currentSubHeader s).2.1 >
        IEC_HEADER_SIZE_BYTES + s.payloadLength
    · rw [if_pos hsplit]
      obtain ⟨hx, hxs, x1, x2, x3, x4⟩ :=
        DecInv_splitState k M s cap hi hs hidx (by omega) hcapM hsplit
      by_cases hl : s.payloadHeaderIndex + 1 = s.numPayloadHeaders
      · rw [if_pos hl]
        obtain ⟨hf, f1, f2, f3, f4⟩ := DecInv_finishBurst k M _ hx hxs
        refine ⟨hf, Or.inr ⟨hidx, by omega, hsplit, ?_, ?_, ?_, ?_, rfl, rfl⟩⟩
        · show (finishBurst (splitState s)).frameBytesPending = _
          rw [f1, x1]
        · show (finishBurst (splitState s)).frameBytesMissing = _
          rw [f2, x2]
        · show 0 < (finishBurst (splitState s)).frameBytesMissing
          rw [f2]; exact x3
        · show (finishBurst (splitState s)).frameBytesPending +
            (finishBurst (splitState s)).frameBytesMissing = _
          rw [f1, f2]; exact x4
      · rw [if_neg hl]
        exact ⟨hx, Or.inr ⟨hidx, by omega, hsplit, x1, x2, x3, x4, rfl, rfl⟩⟩
    · rw [if_neg hsplit]
      have hx := DecInv_advance k M s hi
      by_cases hl : s.payloadHeaderIndex + 1 = s.numPayloadHeaders
      · rw [if_pos hl]
        obtain ⟨hf, f1, f2, f3, f4⟩ := DecInv_finishBurst k M _ hx hs
        exact ⟨hf, Or.inl ⟨f1, f2, f3, f4⟩⟩
      · rw [if_neg hl]
        exact ⟨hx, Or.inl ⟨rfl, rfl, rfl, rfl⟩⟩
  · rw [if_neg hidx]
    by_cases hl : s.payloadHeaderIndex = s.numPayloadHeaders
    · rw [if_pos hl]
      obtain ⟨hf, f1, f2, f3, f4⟩ := DecInv_finishBurst k M _ hi hs
      exact ⟨hf, Or.inl ⟨f1, f2, f3, f4⟩⟩
    · rw [if_neg hl]
      exact ⟨hi, Or.inl ⟨rfl, rfl, rfl, rfl⟩⟩

theorem DecInv_resetPending (k : WireConsts) (M : Nat) (s : DecState) (hi : DecInv k M s) :
    DecInv k M (resetPendingState s) :=
  ⟨hi.bytes, hi.avail,
    fun hc => ⟨⟨(hi.cand hc).1.mode, (hi.cand hc).1.hs, (hi.cand hc).1.period8,
      (hi.cand hc).1.periodLe, (hi.cand hc).1.room⟩, (hi.cand hc).2⟩,
    fun hs => ⟨(hi.sync hs).1, (hi.sync hs).2.1, ⟨fun j hj => (hi.sync hs).2.2.1 j hj,
      fun h1 => (hi.sync hs).2.2.2 h1⟩⟩,
    Nat.zero_le _, (by decide : (0 : Nat) + 0 < 16777216), hi.fbuf⟩

theorem DecInv_resetAll (k : WireConsts) (M : Nat) (s : DecState) (hi : DecInv k M s) :
    DecInv k M (resetPendingState (resetParsingState (resetSyncState s))) :=
  ⟨hi.bytes, hi.avail, fun h0 => Bool.noConfusion h0, fun h0 => Bool.noConfusion h0,
    Nat.zero_le _, (by decide : (0 : Nat) + 0 < 16777216), hi.fbuf⟩

/-- The handling of a burst on which sync is held keeps the invariant. With an AU
pending, the call keeps the sum of the bytes collected and the bytes missing, or returns
the AU with that sum as its length, or resets the pending state with
`IECDEC_PENDINGDATA_ERROR`. With nothing pending, the pending state is left alone unless
the call finds a split sub-header. -/
theorem processSynced_inv (k : WireConsts) (M : Nat) (s : DecState) (cap : Nat)
    (hi : DecInv k M s) (hs : s.syncFound = true) (hcapM : cap ≤ M) :
    DecInv k M (processSynced s cap).2 ∧
    (s.frameBytesMissing > 0 →
      (0 < (processSynced s cap).2.frameBytesMissing ∧
        (processSynced s cap).2.frameBytesPending + (processSynced s cap).2.frameBytesMissing =
          s.frameBytesPending + s.frameBytesMissing ∧
        (processSynced s cap).1.outputBufferLength = 0) ∨
      ((processSynced s cap).1.result = .IECDEC_OK ∧
        (processSynced s cap).1.outputBufferLength =
          s.frameBytesPending + s.frameBytesMissing ∧
        (processSynced s cap).1.outputBuffer.length =
          s.frameBytesPending + s.frameBytesMissing ∧
        s.frameBytesPending + s.frameBytesMissing ≤ cap ∧
        (processSynced s cap).2.frameBytesPending = 0 ∧
        (processSynced s cap).2.frameBytesMissing = 0) ∨
      ((processSynced s cap).1.result = .IECDEC_PENDINGDATA_ERROR ∧
        (processSynced s cap).1.outputBufferLength = 0 ∧
        (processSynced s cap).2.frameBytesPending = 0 ∧
        (processSynced s cap).2.frameBytesMissing = 0)) ∧
    (s.frameBytesMissing = 0 →
      ((processSynced s cap).2.frameBytesPending = s.frameBytesPending ∧
        (processSynced s cap).2.frameBytesMissing = s.frameBytesMissing ∧
        (processSynced s cap).2.pcmOffsetPending = s.pcmOffsetPending ∧
        (processSynced s cap).2.frameBufferPending = s.frameBufferPending) ∨
      (s.payloadHeaderIndex < s.numPayloadHeaders ∧ (currentSubHeader s).2.1 ≤ cap ∧
        (currentSubHeader s).1 + (currentSubHeader s).2.1 >
          IEC_HEADER_SIZE_BYTES + s.payloadLength ∧
        (processSynced s cap).2.frameBytesPending =
          s.payloadLength + 8 - (currentSubHeader s).1 ∧
        (processSynced s cap).2.frameBytesMissing =
          (currentSubHeader s).2.1 - (s.payloadLength + 8 - (currentSubHeader s).1) ∧
        0 < (processSynced s cap).2.frameBytesMissing ∧
        (processSynced s cap).2.frameBytesPending + (processSynced s cap).2.frameBytesMissing =
          (currentSubHeader s).2.1 ∧
        (processSynced s cap).1.result = .IECDEC_OK ∧
        (processSynced s cap).1.outputBufferLength = 0)) := by
  by_cases hfm : s.frameBytesMissing > 0
  swap
  · have h0 : s.frameBytesMissing = 0 := by omega
    rw [processSynced_of_idle s cap h0]
    obtain ⟨r1, r2⟩ := emitPayload_inv k M s cap hi hs hcapM
    exact ⟨r1, fun hc => absurd hc hfm, fun _ => r2⟩
  have hpend := hi.pend
  have hpend24 := hi.pend24
  have hsum : u32 (s.frameBytesPending + s.frameBytesMissing) =
      s.frameBytesPending + s.frameBytesMissing := u32_of_lt (by omega)
  unfold processSynced
  simp only []
  rw [if_pos hfm, hsum]
  by_cases hnum : s.numPayloadHeaders = 0
  · rw [if_pos hnum]
    by_cases hmore : s.frameBytesMissing > sub32 s.payloadLength s.payloadHeaderSize
    · rw [if_pos hmore]
      have ea : u32 (s.frameBytesPending + sub32 s.payloadLength s.payloadHeaderSize) =
          s.frameBytesPending + sub32 s.payloadLength s.payloadHeaderSize :=
        u32_of_lt (by omega)
      have eb : sub32 s.frameBytesMissing (sub32 s.payloadLength s.payloadHeaderSize) =
          s.frameBytesMissing - sub32 s.payloadLength s.payloadHeaderSize :=
        sub32_of_le (by omega) (by omega)
      rw [ea, eb]
      generalize sub32 s.payloadLength s.payloadHeaderSize = a at *
      generalize hs1 : ({ s with
        frameBufferPending := memWrite s.frameBufferPending s.frameBytesPending
          (memRead s.workBuffer
            (s.syncCandidateIndex + IEC_HEADER_SIZE_BYTES + s.payloadHeaderSize) a),
        frameBytesPending := s.frameBytesPending + a,
        frameBytesMissing := s.frameBytesMissing - a,
        pcmOffsetPending := s.pcmOffsetPending - (s.frameLength : Int) } : DecState) = s1
      have e1 : s1.frameBytesPending = s.frameBytesPending + a := by rw [← hs1]
      have e2 : s1.frameBytesMissing = s.frameBytesMissing - a := by rw [← hs1]
      have e3 : s1.numPayloadHeaders = 0 := by rw [← hs1]; exact hnum
      have e4 : s1.syncFound = true := by rw [← hs1]; exact hs
      have hi1 : DecInv k M s1 := by
        rw [← hs1]
        refine ⟨hi.bytes, hi.avail,
          fun hc => ⟨⟨(hi.cand hc).1.mode, (hi.cand hc).1.hs, (hi.cand hc).1.period8,
            (hi.cand hc).1.periodLe, (hi.cand hc).1.room⟩, (hi.cand hc).2⟩,
          fun hs => ⟨(hi.sync hs).1, (hi.sync hs).2.1, ⟨fun j hj => (hi.sync hs).2.2.1 j hj,
            fun h1 => (hi.sync hs).2.2.2 h1⟩⟩, ?_, ?_, ?_⟩
        · show s.frameBytesPending + a + (s.frameBytesMissing - a) ≤ M
          omega
        · show s.frameBytesPending + a + (s.frameBytesMissing - a) < 16777216
          omega
        · show (memWrite s.frameBufferPending s.frameBytesPending (memRead s.workBuffer
            (s.syncCandidateIndex + IEC_HEADER_SIZE_BYTES + s.payloadHeaderSize) a)).length ≤ M
          rw [memWrite_length, memRead_length]
          have := hi.fbuf
          omega
      obtain ⟨r1, r2⟩ := emitPayload_inv k M s1 cap hi1 e4 hcapM
      have hout : (emitPayload s1 cap).1.outputBufferLength = 0 := by
        rw [emitPayload_eq, if_neg (by rw [e3]; omega)]
      refine ⟨r1, fun _ => Or.inl ?_, fun hc => absurd hc (by omega)⟩
      rcases r2 with ⟨p1, p2, _, _⟩ | ⟨hlt, _⟩
      · rw [p1, p2, e1, e2]
        exact ⟨by omega, by omega, hout⟩
      · rw [e3] at hlt
        exact absurd hlt (Nat.not_lt_zero _)
    · rw [if_neg hmore]
      by_cases hless : s.frameBytesMissing < sub32 s.payloadLength s.payloadHeaderSize
      · rw [if_pos hless]
        exact ⟨hi, fun _ => Or.inl ⟨hfm, rfl, rfl⟩, fun hc => absurd hc (by omega)⟩
      rw [if_neg hless]
      by_cases hc : s.frameBytesPending + s.frameBytesMissing > cap
      · rw [if_pos hc]
        exact ⟨hi, fun _ => Or.inl ⟨hfm, rfl, rfl⟩, fun hc => absurd hc (by omega)⟩
      rw [if_neg hc]
      refine ⟨DecInv_resetPending k M s hi, fun _ => Or.inr (Or.inl ⟨rfl, rfl, ?_, by omega,
        rfl, rfl⟩), fun hc => absurd hc (by omega)⟩
      show (memRead s.frameBufferPending 0 s.frameBytesPending ++ memRead s.workBuffer _
        s.frameBytesMissing).length = _
      rw [List.length_append, memRead_length, memRead_length]
  · rw [if_neg hnum]
    by_cases hc : s.frameBytesPending + s.frameBytesMissing > cap
    · rw [if_pos hc]
      exact ⟨hi, fun _ => Or.inl ⟨hfm, rfl, rfl⟩, fun hc => absurd hc (by omega)⟩
    rw [if_neg hc]
    by_cases hlt : u32 (s.syncCandidateIndex +
        (parsePayloadHeader s (s.syncCandidateIndex + IEC_HEADER_SIZE_BYTES)).1) <
          s.frameBytesMissing
    · rw [if_pos hlt]
      exact ⟨DecInv_resetAll k M s hi, fun _ => Or.inr (Or.inr ⟨rfl, rfl, rfl, rfl⟩),
        fun hc => absurd hc (by omega)⟩
    rw [if_neg hlt]
    refine ⟨DecInv_resetPending k M s hi, fun _ => Or.inr (Or.inl ⟨rfl, rfl, ?_, by omega,
      rfl, rfl⟩), fun hc => absurd hc (by omega)⟩
    show (memRead s.frameBufferPending 0 s.frameBytesPending ++ memRead s.workBuffer _
      s.frameBytesMissing).length = _
    rw [List.length_append, memRead_length, memRead_length]

/-- Every reachable decoder state satisfies the invariant. -/
theorem decReachable_inv {k : WireConsts} {M : Nat} {h : DecState}
    (hsp : k.IEC_BURST_SPACING_SIZE_BYTES ≤ 3064) (hr : DecReachable k M h) : DecInv k M h := by
  induction hr with
  | opened => exact DecInv_open k M
  | feed h input _ hin ih => exact DecInv_feed k M h input ih hin
  | process h fuel cap r _ hcap hproc ih =>
    unfold iec61937_decode_process at hproc
    cases hsl : syncLoop k fuel h with
    | none =>
      rw [hsl] at hproc
      cases hproc
    | some s =>
      rw [hsl] at hproc
      obtain ⟨his, _, _⟩ := DecInv_syncLoop k M hsp fuel h s ih hsl
      by_cases hs : s.syncFound = true
      · simp only [hs, Bool.not_true, Bool.false_eq_true, if_false] at hproc
        cases hproc
        exact (processSynced_inv k M s cap his hs hcap).1
      · have hs2 : s.syncFound = false := by
          cases hsf : s.syncFound
          · rfl
          · exact absurd hsf hs
        simp only [hs2, Bool.not_false, if_true] at hproc
        cases hproc
        exact his

theorem emitPayloadTrace_result (h : DecState) (cap : Nat) :
    (emitPayloadTrace h cap).1 = emitPayload h cap := by
  unfold emitPayloadTrace emitPayload
  simp only []
  generalize parsePayloadHeader h (h.syncCandidateIndex + IEC_HEADER_SIZE_BYTES +
      h.payloadHeaderIndex * h.payloadHeaderSize) = hdr
  by_cases hidx : h.payloadHeaderIndex < h.numPayloadHeaders
  · rw [if_pos hidx, if_pos hidx]
    by_cases hcap : hdr.2.1 > cap
    · rw [if_pos hcap, if_pos hcap]
    rw [if_neg hcap, if_neg hcap]
    by_cases hsplit : hdr.1 + hdr.2.1 > IEC_HEADER_SIZE_BYTES + h.payloadLength
    · rw [if_pos hsplit, if_pos hsplit]
      dsimp only
      split_ifs <;> rfl
    · rw [if_neg hsplit, if_neg hsplit]
      dsimp only
      split_ifs <;> rfl
  · rw [if_neg hidx, if_neg hidx]
    dsimp only
    split_ifs <;> rfl

theorem processSyncedTrace_result (h : DecState) (cap : Nat) :
    (processSyncedTrace h cap).1 = processSynced h cap := by
  unfold processSyncedTrace processSynced
  simp only []
  split_ifs <;> first | rfl | exact emitPayloadTrace_result _ _

/-- The ranges the payload block reads, branch by branch. -/
theorem emitPayloadTrace_reads (h : DecState) (cap : Nat) :
    (emitPayloadTrace h cap).2 =
      if h.payloadHeaderIndex < h.numPayloadHeaders then
        if (currentSubHeader h).2.1 > cap then
          [(h.syncCandidateIndex + IEC_HEADER_SIZE_BYTES +
            h.payloadHeaderIndex * h.payloadHeaderSize, if h.audioMode = 0 then 6 else 8)]
        else if (currentSubHeader h).1 + (currentSubHeader h).2.1 >
            IEC_HEADER_SIZE_BYTES + h.payloadLength then
          [(h.syncCandidateIndex + IEC_HEADER_SIZE_BYTES +
            h.payloadHeaderIndex * h.payloadHeaderSize, if h.audioMode = 0 then 6 else 8),
           (h.syncCandidateIndex + (currentSubHeader h).1,
            sub32 (currentSubHeader h).2.1 (sub32 (currentSubHeader h).2.1
              (u32 (sub32 h.payloadLength (currentSubHeader h).1 + IEC_HEADER_SIZE_BYTES))))]
        else
          [(h.syncCandidateIndex + IEC_HEADER_SIZE_BYTES +
            h.payloadHeaderIndex * h.payloadHeaderSize, if h.audioMode = 0 then 6 else 8),
           (h.syncCandidateIndex + (currentSubHeader h).1, (currentSubHeader h).2.1)]
      else [] := by
  unfold emitPayloadTrace currentSubHeader
  simp only []
  generalize parsePayloadHeader h (h.syncCandidateIndex + IEC_HEADER_SIZE_BYTES +
      h.payloadHeaderIndex * h.payloadHeaderSize) = hdr
  generalize (if h.audioMode = 0 then 6 else 8) = hdrLen
  by_cases hidx : h.payloadHeaderIndex < h.numPayloadHeaders
  · rw [if_pos hidx, if_pos hidx]
    by_cases hcap : hdr.2.1 > cap
    · rw [if_pos hcap, if_pos hcap]
    rw [if_neg hcap, if_neg hcap]
    by_cases hsplit : hdr.1 + hdr.2.1 > IEC_HEADER_SIZE_BYTES + h.payloadLength
    · rw [if_pos hsplit, if_pos hsplit]
      dsimp only
      split_ifs <;> rfl
    · rw [if_neg hsplit, if_neg hsplit]
      dsimp only
      split_ifs <;> rfl
  · rw [if_neg hidx, if_neg hidx]
    dsimp only
    split_ifs <;> rfl

theorem emitPayloadTrace_none (x : DecState) (cap : Nat) (hn : x.numPayloadHeaders = 0) :
    (emitPayloadTrace x cap).2 = [] := by
  rw [emitPayloadTrace_reads, if_neg (by omega)]

theorem emitPayloadTrace_inBounds (k : WireConsts) (M : Nat) (s : DecState) (cap : Nat)
    (hi : DecInv k M s) (hs : s.syncFound = true) :
    ∀ r, r ∈ (emitPayloadTrace s cap).2 →
      r.1 + r.2 ≤ s.burstRepetitionPeriod - k.IEC_BURST_SPACING_SIZE_BYTES := by
  obtain ⟨hc, hP, hv⟩ := hi.sync hs
  obtain ⟨hp, hci⟩ := hi.cand hc
  have hroom := hp.room
  have hle := hp.periodLe
  rw [emitPayloadTrace_reads, ← hp.hs, hci]
  by_cases hidx : s.payloadHeaderIndex < s.numPayloadHeaders
  swap
  · rw [if_neg hidx]
    intro r hr
    cases hr
  rw [if_pos hidx]
  obtain ⟨hslot, _, _⟩ := headersValidated_slot k s hp hv _ hidx
  have hoff : (currentSubHeader s).1 ≤ s.payloadLength := hv.1 _ hidx
  have hlt := parsePayloadHeader_lt s (s.syncCandidateIndex + IEC_HEADER_SIZE_BYTES +
    s.payloadHeaderIndex * s.payloadHeaderSize) hi.bytes
  have hlen : (currentSubHeader s).2.1 < 16777216 := hlt.2
  have emul : (s.payloadHeaderIndex + 1) * s.payloadHeaderSize =
      s.payloadHeaderIndex * s.payloadHeaderSize + s.payloadHeaderSize := Nat.succ_mul _ _
  generalize currentSubHeader s = hdr at *
  generalize s.payloadHeaderIndex * s.payloadHeaderSize = ih at *
  unfold IEC_HEADER_SIZE_BYTES at *
  have hhdr : 0 + 8 + ih + s.payloadHeaderSize ≤
      s.burstRepetitionPeriod - k.IEC_BURST_SPACING_SIZE_BYTES := by omega
  by_cases hcap : hdr.2.1 > cap
  · rw [if_pos hcap]
    intro r hr
    simp only [List.mem_cons, List.mem_singleton, List.not_mem_nil, or_false] at hr
    subst hr
    exact hhdr
  rw [if_neg hcap]
  by_cases hsplit : hdr.1 + hdr.2.1 > 8 + s.payloadLength
  · rw [if_pos hsplit]
    obtain ⟨_, e2⟩ := split_amounts s.payloadLength hdr.1 hdr.2.1 hoff (by omega) (by omega)
      hsplit
    unfold IEC_HEADER_SIZE_BYTES at e2
    rw [e2]
    intro r hr
    simp only [List.mem_cons, List.mem_singleton, List.not_mem_nil, or_false] at hr
    rcases hr with hr | hr
    · subst hr
      exact hhdr
    · subst hr
      show 0 + hdr.1 + (s.payloadLength + 8 - hdr.1) ≤ _
      omega
  · rw [if_neg hsplit]
    intro r hr
    simp only [List.mem_cons, List.mem_singleton, List.not_mem_nil, or_false] at hr
    rcases hr with hr | hr
    · subst hr
      exact hhdr
    · subst hr
      show 0 + hdr.1 + hdr.2.1 ≤ _
      omega

theorem processSyncedTrace_inBounds (k : WireConsts) (M : Nat) (s : DecState) (cap : Nat)
    (hi : DecInv k M s) (hs : s.syncFound = true) :
    ∀ r, r ∈ (processSyncedTrace s cap).2 →
      r.1 + r.2 ≤ s.burstRepetitionPeriod - k.IEC_BURST_SPACING_SIZE_BYTES := by
  obtain ⟨hc, hP, hv⟩ := hi.sync hs
  obtain ⟨hp, hci⟩ := hi.cand hc
  have hroom := hp.room
  have hle := hp.periodLe
  have h24 := hi.pend24
  have hhs : 6 ≤ s.payloadHeaderSize ∧ s.payloadHeaderSize ≤ 8 := by
    rw [hp.hs]; split <;> omega
  unfold processSyncedTrace
  simp only []
  rw [← hp.hs, hci]
  by_cases hfm : s.frameBytesMissing > 0
  swap
  · rw [if_neg hfm]
    have := emitPayloadTrace_inBounds k M s cap hi hs
    exact this
  rw [if_pos hfm]
  by_cases hnum : s.numPayloadHeaders = 0
  · rw [if_pos hnum]
    by_cases hmore : s.frameBytesMissing > sub32 s.payloadLength s.payloadHeaderSize
    · rw [if_pos hmore]
      rw [emitPayloadTrace_none]
      · intro r hr
        simp only [List.mem_cons, List.mem_singleton, List.not_mem_nil, or_false] at hr
        subst hr
        show 0 + IEC_HEADER_SIZE_BYTES + s.payloadHeaderSize +
          sub32 s.payloadLength s.payloadHeaderSize ≤ _
        unfold sub32 IEC_HEADER_SIZE_BYTES at *
        omega
      · exact hnum
    rw [if_neg hmore]
    by_cases hless : s.frameBytesMissing < sub32 s.payloadLength s.payloadHeaderSize
    · rw [if_pos hless]
      intro r hr
      cases hr
    rw [if_neg hless]
    by_cases hcap : u32 (s.frameBytesPending + s.frameBytesMissing) > cap
    · rw [if_pos hcap]
      intro r hr
      cases hr
    rw [if_neg hcap]
    intro r hr
    simp only [List.mem_cons, List.mem_singleton, List.not_mem_nil, or_false] at hr
    subst hr
    show 0 + IEC_HEADER_SIZE_BYTES + s.payloadHeaderSize + s.frameBytesMissing ≤ _
    unfold sub32 IEC_HEADER_SIZE_BYTES at *
    omega
  · rw [if_neg hnum]
    by_cases hcap : u32 (s.frameBytesPending + s.frameBytesMissing) > cap
    · rw [if_pos hcap]
      intro r hr
      cases hr
    rw [if_neg hcap]
    obtain ⟨hslot, _, _⟩ := headersValidated_slot k s hp hv 0 (by omega)
    have hoff : (parsePayloadHeader s (0 + IEC_HEADER_SIZE_BYTES)).1 ≤ s.payloadLength := by
      have := hv.1 0 (by omega)
      unfold subHeaderAt at this
      rw [hci, Nat.zero_mul, Nat.add_zero] at this
      exact this
    generalize (parsePayloadHeader s (0 + IEC_HEADER_SIZE_BYTES)).1 = d0 at *
    have hhdr : 0 + IEC_HEADER_SIZE_BYTES + s.payloadHeaderSize ≤
        s.burstRepetitionPeriod - k.IEC_BURST_SPACING_SIZE_BYTES := by
      unfold IEC_HEADER_SIZE_BYTES at *
      omega
    by_cases hlt : u32 (0 + d0) < s.frameBytesMissing
    · rw [if_pos hlt]
      intro r hr
      simp only [List.mem_cons, List.mem_singleton, List.not_mem_nil, or_false] at hr
      subst hr
      exact hhdr
    rw [if_neg hlt]
    intro r hr
    simp only [List.mem_cons, List.mem_singleton, List.not_mem_nil, or_false] at hr
    rcases hr with hr | hr
    · subst hr
      exact hhdr
    · subst hr
      show sub32 (u32 (0 + d0)) s.frameBytesMissing + s.frameBytesMissing ≤ _
      unfold sub32 u32 IEC_HEADER_SIZE_BYTES at *
      omega

theorem subHeaderBytes_bytes : ∀ (subs : List (Nat × Nat × Int)) (b : Nat),
    b ∈ subHeaderBytes subs → b < 256 := by
  intro subs
  induction subs with
  | nil => intro b hb; cases hb
  | cons x rest ih =>
    intro b hb
    unfold subHeaderBytes at hb
    rw [List.mem_append] at hb
    rcases hb with hb | hb
    · unfold payloadHeaderBytes at hb
      simp only [if_true, List.mem_append, List.mem_cons, List.mem_singleton,
        List.not_mem_nil, or_false] at hb
      have hu : ∀ y, u8 y < 256 := fun y => by unfold u8; omega
      have hi : ∀ y, u8i y < 256 := fun y => by unfold u8i; omega
      rcases hb with (((hb | hb | hb) | hb) | hb | hb) | hb | hb <;> subst hb <;>
        first | exact hu _ | exact hi _
    · exact ih b hb

/-- An HBR burst whose header fields and payload are bytes consists of bytes. -/
theorem hbrBurst_bytes (k : WireConsts) (rc P : Nat) (subs : List (Nat × Nat × Int))
    (payload : List Nat)
    (hk : k.SYNC_PREAMBLE_0 < 256 ∧ k.SYNC_PREAMBLE_1 < 256 ∧ k.SYNC_PREAMBLE_2 < 256 ∧
      k.SYNC_PREAMBLE_3 < 256)
    (hrc : rc * 8 < 256) (hpd : pdField subs.length payload.length < 65536)
    (hpay : ∀ b, b ∈ payload → b < 256) :
    ∀ b, b ∈ hbrBurst k rc P subs payload → b < 256 := by
  intro b hb
  unfold hbrBurst at hb
  generalize pdField subs.length payload.length = pd at hb hpd
  generalize P - (8 + (subs.length + 1) * 8 + payload.length) = n at hb
  simp only [List.mem_append, List.mem_cons, List.mem_replicate, List.not_mem_nil,
    or_false] at hb
  rcases hb with (((hb | hb) | hb) | hb) | hb
  · rcases hb with hb | hb | hb | hb | hb | hb | hb | hb <;> subst hb <;> omega
  · exact subHeaderBytes_bytes subs b hb
  · rw [hb.2]; decide
  · exact hpay b hb
  · rw [hb.2]; decide

theorem s1Burst_bytes : ∀ b, b ∈ s1Burst → b < 256 :=
  hbrBurst_bytes refConsts 1 16384 _ _ (by decide) (by decide)
    (by rw [List.length_replicate]; decide)
    (fun b hb => by rw [List.eq_of_mem_replicate hb]; decide)

theorem encode_process_empty (k : WireConsts) (h : EncState) (duration cap : Nat)
    (hcap : h.burstRepetitionPeriod ≤ cap) (hd : duration ≤ MAX_MPEGH_FRAME_DURATION) :
    iec61937_encode_process k h [] duration cap =
      emitBurst k h (getNumBuffersToWrite k h) false := by
  rw [encode_process_eq, if_neg (by omega), if_neg (by omega)]
  rw [if_neg (by
    intro hne
    apply hne
    split <;> rfl)]

theorem getNumBuffersToWrite_negative (k : WireConsts) (h : EncState)
    (hneg : h.overallDuration < 0) : getNumBuffersToWrite k h = 0 := by
  unfold getNumBuffersToWrite
  cases h.framesStoredCount with
  | zero => rfl
  | succ n =>
    simp only [getNumBuffersLoop]
    rw [if_neg (by intro hh; omega)]

theorem emitBurst_output_wrapped (k : WireConsts) (h : EncState) (c : Bool)
    (hp : h.auPending = true) (hm : h.audioMode = 1) :
    (emitBurst k h 0 c).1.outputBuffer.length ≥ 8 + 4294967295 * 8 := by
  show (writeIecFrame k h _ _ 0).1.length ≥ _
  unfold writeIecFrame
  simp only [List.length_append]
  have h1 : (burstHeader k h (sumCells h.frameLength 0) (numAvailableBytes k h 0) 0).length = 8 :=
    rfl
  have h2 : (burstSubHeaders h 0).1.length = 4294967295 * 8 := by
    unfold burstSubHeaders
    simp only []
    rw [writePayloadHeaders_length h hm]
    unfold numPayloadHeaders
    rw [if_pos hp]
    rfl
  omega

/-- The demo loop never ends on a zero-length AU. -/
theorem encodeAu_empty (k : WireConsts) (duration : Nat)
    (hd : duration ≤ MAX_MPEGH_FRAME_DURATION) :
    ∀ (fuel : Nat) (h : EncState), h.burstRepetitionPeriod ≤ MAX_IEC61937_FRAME_SIZE_BYTES →
      encodeAu k fuel h [] duration = none := by
  intro fuel
  induction fuel with
  | zero => intro h _; rfl
  | succ f ih =>
    intro h hP
    unfold encodeAu
    simp only []
    rw [encode_process_empty k h duration _ hP hd]
    rw [if_neg (by
      intro hh
      rcases hh with hh | hh
      · exact hh rfl
      · cases hh)]
    rw [ih (emitBurst k h (getNumBuffersToWrite k h) false).2 hP]

/-- The zero-length scenario: the AU of 16452 bytes (duration 0) is stored, the first
zero-length call writes a burst and leaves 100 bytes pending with `overallDuration`
-1024. -/
theorem zeroLen_facts :
    zeroLenState2.auPending = true ∧ zeroLenState2.overallDuration = -1024 ∧
    zeroLenState2.audioMode = 1 ∧ zeroLenState2.burstRepetitionPeriod = 16384 ∧
    zeroLenState2.framesStoredCount = 1 := by
  have hi0 := encInit_inv 1 (Or.inl rfl)
  have hlen0 : (List.replicate 16452 1).length = 16452 := List.length_replicate _ _
  obtain ⟨a1, a2, a3⟩ := accept_call refConsts (encInit 1 1) (List.replicate 16452 1) 0 16384
    hi0 (by decide) (by intro e; rw [e] at hlen0; cases hlen0) (by decide) (by decide)
    (by decide) (by decide) (by rw [hlen0]; decide)
  have hst : zeroLenState1 = storeFrame (encInit 1 1) (List.replicate 16452 1) 0 := by
    unfold zeroLenState1
    rw [a3, if_pos (by decide)]
  have hfl : (storeFrame (encInit 1 1) (List.replicate 16452 1) 0).frameLength =
      [16452, 0, 0, 0, 0] := by
    rw [storeFrame_frameLength, hlen0]
    rfl
  have hcnt : (storeFrame (encInit 1 1) (List.replicate 16452 1) 0).framesStoredCount = 1 := rfl
  have hnb : getNumBuffersToWrite refConsts
      (storeFrame (encInit 1 1) (List.replicate 16452 1) 0) = 1 := by
    have h1 := getNumBuffersToWrite_le refConsts
      (storeFrame (encInit 1 1) (List.replicate 16452 1) 0)
    rw [hcnt] at h1
    omega
  have hcall : iec61937_encode_process refConsts zeroLenState1 [] 0 16384 =
      emitBurst refConsts (storeFrame (encInit 1 1) (List.replicate 16452 1) 0) 1 false := by
    rw [encode_process_empty refConsts zeroLenState1 0 16384 (by rw [hst]; decide) (by decide),
      hst, hnb]
  obtain ⟨f1, f2, _⟩ := emitBurst_frames refConsts _ 1 false a1 (by decide)
    (by rw [hcnt])
  have hA := numAvailableBytes_eq refConsts _ a1 (by decide) 1 (by decide)
  have hA2 : numAvailableBytes refConsts
      (storeFrame (encInit 1 1) (List.replicate 16452 1) 0) 1 = 16352 := by
    rw [hA]
    rfl
  have htot : psum (storeFrame (encInit 1 1) (List.replicate 16452 1) 0).frameLength 1 =
      16452 := by
    rw [hfl]
    rfl
  rw [hA2, htot] at f1 f2
  unfold zeroLenState2
  rw [hcall]
  refine ⟨?_, rfl, rfl, rfl, ?_⟩
  · rw [f1]
    decide
  · rw [f2, hcnt]
    decide

theorem splitBurst_bytes : ∀ b, b ∈ splitBurst → b < 256 :=
  hbrBurst_bytes refConsts 1 16384 _ _ (by decide) (by decide)
    (by rw [List.length_replicate]; decide)
    (fun b hb => by rw [List.eq_of_mem_replicate hb]; decide)

/-! ## The split store and the append store -/

/-- The completion block leaves the pending state alone. -/
theorem finishBurst_pending (x : DecState) :
    (finishBurst x).frameBytesPending = x.frameBytesPending ∧
    (finishBurst x).frameBytesMissing = x.frameBytesMissing ∧
    (finishBurst x).pcmOffsetPending = x.pcmOffsetPending ∧
    (finishBurst x).frameBufferPending = x.frameBufferPending := by
  unfold finishBurst resetParsingState resetSyncState
  exact ⟨rfl, rfl, rfl, rfl⟩

/-- A call that holds sync with nothing pending and reads a split sub-header that the
capacity covers. -/
theorem process_split (k : WireConsts) (h : DecState) (cap fuel : Nat)
    (hs : h.syncFound = true) (hfm : h.frameBytesMissing = 0)
    (hidx : h.payloadHeaderIndex < h.numPayloadHeaders)
    (hcap : (currentSubHeader h).2.1 ≤ cap)
    (hsplit : (currentSubHeader h).1 + (currentSubHeader h).2.1 >
      IEC_HEADER_SIZE_BYTES + h.payloadLength) :
    iec61937_decode_process k (fuel + 1) h cap =
      some (DecOut.mk .IECDEC_OK [] 0 0 h.frameLength
          (decide (h.payloadHeaderIndex + 1 = h.numPayloadHeaders)),
        if h.payloadHeaderIndex + 1 = h.numPayloadHeaders then finishBurst (splitState h)
        else splitState h) := by
  rw [process_of_sync k h cap fuel hs, processSynced_of_idle h cap hfm, emitPayload_eq,
    if_pos hidx, if_neg (by omega), if_pos hsplit]

/-- The pending buffer after the split store starts with the bytes copied from the work
buffer. -/
theorem splitState_bytes (h : DecState) :
    memRead (splitState h).frameBufferPending 0 (splitState h).frameBytesPending =
      memRead h.workBuffer (h.syncCandidateIndex + (currentSubHeader h).1)
        (splitState h).frameBytesPending := by
  unfold splitState
  dsimp only
  generalize sub32 (currentSubHeader h).2.1 (sub32 (currentSubHeader h).2.1
    (u32 (sub32 h.payloadLength (currentSubHeader h).1 + IEC_HEADER_SIZE_BYTES))) = n
  have e := memRead_memWrite_same h.frameBufferPending 0
    (memRead h.workBuffer (h.syncCandidateIndex + (currentSubHeader h).1) n)
  rw [memRead_length] at e
  exact e

/-- The byte counts of the split store when the sub-header starts inside the payload. -/
theorem splitState_amounts (h : DecState)
    (hoff : (currentSubHeader h).1 ≤ h.payloadLength + IEC_HEADER_SIZE_BYTES)
    (hsplit : (currentSubHeader h).1 + (currentSubHeader h).2.1 >
      IEC_HEADER_SIZE_BYTES + h.payloadLength)
    (hlen : (currentSubHeader h).2.1 < 4294967296)
    (hpl : h.payloadLength + IEC_HEADER_SIZE_BYTES < 4294967296) :
    (splitState h).frameBytesPending = h.payloadLength + 8 - (currentSubHeader h).1 ∧
    (splitState h).frameBytesMissing =
      (currentSubHeader h).2.1 - (h.payloadLength + 8 - (currentSubHeader h).1) := by
  unfold splitState
  dsimp only
  generalize currentSubHeader h = hdr at *
  unfold u32 sub32 IEC_HEADER_SIZE_BYTES at *
  constructor <;> omega

/-! ## The claims -/

/-- C7: every successful `iec61937_encode_process` call on a reachable encoder state
with a non-empty AU reports an output length of 0 or `burstRepetitionPeriod`; in the
second case the bytes written are exactly `burstRepetitionPeriod` many: 8 header
bytes, `numPayloadHeaders` sub-headers and the terminator (`payloadHeaderSize` bytes
each), `payloadDataLength` payload bytes, the padding and the burst spacing. -/
theorem C7_fixed_length_bursts (k : WireConsts) (h : EncState) (au : List Nat)
    (duration cap : Nat) (hsp : k.IEC_BURST_SPACING_SIZE_BYTES ≤ 16320)
    (hr : EncReachable k h) (hau : au ≠ [])
    (hok : (iec61937_encode_process k h au duration cap).1.result = .IECENC_OK) :
    ((iec61937_encode_process k h au duration cap).1.outputBufferLength = 0 ∧
      (iec61937_encode_process k h au duration cap).1.outputBuffer = []) ∨
    ((iec61937_encode_process k h au duration cap).1.outputBufferLength = h.burstRepetitionPeriod ∧
      (iec61937_encode_process k h au duration cap).1.outputBuffer.length = h.burstRepetitionPeriod ∧
      ∃ header subs payload : List Nat,
        header.length = IEC_HEADER_SIZE_BYTES ∧
        subs.length =
          numPayloadHeaders (burstState h au duration)
            (getNumBuffersToWrite k (burstState h au duration)) * h.payloadHeaderSize ∧
        payload.length =
          payloadDataLength
            (sumCells (burstState h au duration).frameLength
              (getNumBuffersToWrite k (burstState h au duration)))
            (numAvailableBytes k (burstState h au duration)
              (getNumBuffersToWrite k (burstState h au duration))) ∧
        (iec61937_encode_process k h au duration cap).1.outputBuffer =
          header ++ subs ++ List.replicate h.payloadHeaderSize 0 ++ payload ++
            List.replicate
              (numAvailableBytes k (burstState h au duration)
                  (getNumBuffersToWrite k (burstState h au duration)) -
                sumCells (burstState h au duration).frameLength
                  (getNumBuffersToWrite k (burstState h au duration))) 0 ++
            List.replicate k.IEC_BURST_SPACING_SIZE_BYTES 0) := by
  have hi := hr.inv hsp
  by_cases hne : (iec61937_encode_process k h au duration cap).1.outputBufferLength = 0
  · left
    refine ⟨hne, ?_⟩
    rcases encode_process_ok k h au duration cap hi hsp hau hok with ⟨he, _⟩ | ⟨he, hib, _, _⟩
    · rw [he]
    · rw [he] at hne
      have hP : (burstState h au duration).burstRepetitionPeriod = 0 := hne
      rcases hib.rate with ⟨_, hP'⟩ | ⟨_, hP'⟩ <;> omega
  · right
    obtain ⟨h1, h2, h3, h4⟩ := encode_process_burst k h au duration cap hi hsp hau hok hne
    exact ⟨h1, h2, _, _, _, burstHeader_length _ _ _ _ _, h3, memRead_length _ _ _, h4⟩

/-- C8: in every burst the encoder emits (reachable state, non-empty AU), every byte
after the 8-byte header, the sub-headers with their terminator and the copied payload
bytes is zero; in particular the last `IEC_BURST_SPACING_SIZE_BYTES` bytes of the
burst are zero. -/
theorem C8_zero_after_payload (k : WireConsts) (h : EncState) (au : List Nat)
    (duration cap : Nat) (hsp : k.IEC_BURST_SPACING_SIZE_BYTES ≤ 16320)
    (hr : EncReachable k h) (hau : au ≠ [])
    (hok : (iec61937_encode_process k h au duration cap).1.result = .IECENC_OK)
    (hne : (iec61937_encode_process k h au duration cap).1.outputBufferLength ≠ 0) :
    (iec61937_encode_process k h au duration cap).1.outputBuffer.drop
        (IEC_HEADER_SIZE_BYTES +
          (numPayloadHeaders (burstState h au duration)
            (getNumBuffersToWrite k (burstState h au duration)) + 1) * h.payloadHeaderSize +
          payloadDataLength
            (sumCells (burstState h au duration).frameLength
              (getNumBuffersToWrite k (burstState h au duration)))
            (numAvailableBytes k (burstState h au duration)
              (getNumBuffersToWrite k (burstState h au duration)))) =
      List.replicate
        (h.burstRepetitionPeriod -
          (IEC_HEADER_SIZE_BYTES +
            (numPayloadHeaders (burstState h au duration)
              (getNumBuffersToWrite k (burstState h au duration)) + 1) * h.payloadHeaderSize +
            payloadDataLength
              (sumCells (burstState h au duration).frameLength
                (getNumBuffersToWrite k (burstState h au duration)))
              (numAvailableBytes k (burstState h au duration)
                (getNumBuffersToWrite k (burstState h au duration))))) 0 ∧
    (iec61937_encode_process k h au duration cap).1.outputBuffer.drop
        (h.burstRepetitionPeriod - k.IEC_BURST_SPACING_SIZE_BYTES) =
      List.replicate k.IEC_BURST_SPACING_SIZE_BYTES 0 := by
  have hi := hr.inv hsp
  obtain ⟨_, h2, h3, h4⟩ := encode_process_burst k h au duration cap hi hsp hau hok hne
  rw [h4] at h2 ⊢
  rw [hi.hs] at h2 h3 ⊢
  simp only [List.length_append, List.length_replicate, burstHeader_length, memRead_length,
    h3] at h2
  unfold IEC_HEADER_SIZE_BYTES
  constructor
  · rw [drop_zero_tail _ _ _ _ (by
      simp only [List.length_append, List.length_replicate, burstHeader_length, memRead_length, h3]
      omega)]
    congr 1
    omega
  · rw [show h.burstRepetitionPeriod - k.IEC_BURST_SPACING_SIZE_BYTES =
      ((burstHeader k (burstState h au duration)
          (sumCells (burstState h au duration).frameLength
            (getNumBuffersToWrite k (burstState h au duration)))
          (numAvailableBytes k (burstState h au duration)
            (getNumBuffersToWrite k (burstState h au duration)))
          (getNumBuffersToWrite k (burstState h au duration)) ++
        (burstSubHeaders (burstState h au duration)
          (getNumBuffersToWrite k (burstState h au duration))).1 ++
        List.replicate 8 0 ++
        memRead (burstState h au duration).workBuffer (burstState h au duration).pWorkBufferRead
          (payloadDataLength
            (sumCells (burstState h au duration).frameLength
              (getNumBuffersToWrite k (burstState h au duration)))
            (numAvailableBytes k (burstState h au duration)
              (getNumBuffersToWrite k (burstState h au duration)))) ++
        List.replicate
          (numAvailableBytes k (burstState h au duration)
              (getNumBuffersToWrite k (burstState h au duration)) -
            sumCells (burstState h au duration).frameLength
              (getNumBuffersToWrite k (burstState h au duration))) 0).length) from by
      simp only [List.length_append, List.length_replicate, burstHeader_length, memRead_length, h3]
      omega]
    rw [List.drop_left]


theorem C7_witness :
    (iec61937_encode_process refConsts (encInit 1 1) [1, 2, 3] 1024 16384).1.outputBuffer.length
      = 16384 := by
  rcases C7_fixed_length_bursts refConsts (encInit 1 1) [1, 2, 3] 1024 16384 (by decide)
    (EncReachable.opened 4 _ rfl) (by decide) (by decide) with ⟨h0, _⟩ | ⟨_, h1, _⟩
  · exact absurd h0 (by decide)
  · exact h1

/-- C9: in every burst the encoder emits (reachable state, non-empty AU), the
data_offset fields of consecutive sub-headers increase strictly, every listed
sub-header has a non-zero data_length, and the list ends with a terminator of
`payloadHeaderSize` zero bytes. -/
theorem C9_sub_header_offsets (k : WireConsts) (h : EncState) (au : List Nat)
    (duration cap : Nat) (hsp : k.IEC_BURST_SPACING_SIZE_BYTES ≤ 16320)
    (hr : EncReachable k h) (hau : au ≠ [])
    (hok : (iec61937_encode_process k h au duration cap).1.result = .IECENC_OK)
    (hne : (iec61937_encode_process k h au duration cap).1.outputBufferLength ≠ 0) :
    (∀ j, j + 1 < numPayloadHeaders (burstState h au duration)
        (getNumBuffersToWrite k (burstState h au duration)) →
      (burstSubHeader h.audioMode (iec61937_encode_process k h au duration cap).1.outputBuffer j).1 <
        (burstSubHeader h.audioMode
          (iec61937_encode_process k h au duration cap).1.outputBuffer (j + 1)).1) ∧
    (∀ j, j < numPayloadHeaders (burstState h au duration)
        (getNumBuffersToWrite k (burstState h au duration)) →
      (burstSubHeader h.audioMode
        (iec61937_encode_process k h au duration cap).1.outputBuffer j).2.1 ≠ 0) ∧
    memRead (iec61937_encode_process k h au duration cap).1.outputBuffer
        (IEC_HEADER_SIZE_BYTES +
          numPayloadHeaders (burstState h au duration)
            (getNumBuffersToWrite k (burstState h au duration)) * h.payloadHeaderSize)
        h.payloadHeaderSize =
      List.replicate h.payloadHeaderSize 0 := by
  have hi := hr.inv hsp
  obtain ⟨hib, hp, hn, hout⟩ := encode_process_layout k h au duration cap hi hsp hau hok hne
  have hnb := getNumBuffersToWrite_le k (burstState h au duration)
  rw [hout, hn, hi.mode, hi.hs]
  have key : ∀ j, j < getNumBuffersToWrite k (burstState h au duration) -
      (if (burstState h au duration).auPending then 1 else 0) →
      ∃ off len pcm,
        burstSubHeader 1 (hbrBurst k h.rateFactor h.burstRepetitionPeriod
          (subHeaderEntries (burstState h au duration).frameLength
            (burstState h au duration).frameDuration
            (getNumBuffersToWrite k (burstState h au duration) -
              (if (burstState h au duration).auPending then 1 else 0))
            (if (burstState h au duration).auPending then 1 else 0)
            (8 + (getNumBuffersToWrite k (burstState h au duration) -
              (if (burstState h au duration).auPending then 1 else 0) + 1) * 8 +
              (if (burstState h au duration).auPending then
                peek (burstState h au duration).frameLength 0 else 0))
            (burstState h au duration).pcmOffset)
          (memRead (burstState h au duration).workBuffer 0
            (min (psum (burstState h au duration).frameLength
                (getNumBuffersToWrite k (burstState h au duration)))
              (numAvailableBytes k (burstState h au duration)
                (getNumBuffersToWrite k (burstState h au duration)))))) j = (off, len, pcm) ∧
        off = 8 + (getNumBuffersToWrite k (burstState h au duration) -
            (if (burstState h au duration).auPending then 1 else 0) + 1) * 8 +
          psum (burstState h au duration).frameLength
            ((if (burstState h au duration).auPending then 1 else 0) + j) ∧
        len = peek (burstState h au duration).frameLength
          ((if (burstState h au duration).auPending then 1 else 0) + j) ∧ 1 ≤ len := by
    intro j hj
    obtain ⟨off, pcm, e1, e2, e3, e4, e5⟩ := emitBurst_entries _ _ hib hnb j hj
    exact ⟨off, _, _, burstSubHeader_hbrBurst k _ _ _ _ j _ e1 e3 e5, e2, rfl, e4⟩
  refine ⟨?_, ?_, ?_⟩
  · intro j hj
    obtain ⟨o1, l1, p1, a1, a2, a3, a4⟩ := key j (by omega)
    obtain ⟨o2, l2, p2, b1, b2, b3, b4⟩ := key (j + 1) hj
    rw [a1, b1]
    show o1 < o2
    rw [a2, b2]
    have e : psum (burstState h au duration).frameLength
        ((if (burstState h au duration).auPending then 1 else 0) + (j + 1)) =
        psum (burstState h au duration).frameLength
          ((if (burstState h au duration).auPending then 1 else 0) + j) +
        peek (burstState h au duration).frameLength
          ((if (burstState h au duration).auPending then 1 else 0) + j) := rfl
    rw [e]
    omega
  · intro j hj
    obtain ⟨o1, l1, p1, a1, a2, a3, a4⟩ := key j hj
    rw [a1]
    show l1 ≠ 0
    omega
  · have := hbrBurst_terminator k h.rateFactor h.burstRepetitionPeriod
      (subHeaderEntries (burstState h au duration).frameLength
        (burstState h au duration).frameDuration
        (getNumBuffersToWrite k (burstState h au duration) -
          (if (burstState h au duration).auPending then 1 else 0))
        (if (burstState h au duration).auPending then 1 else 0)
        (8 + (getNumBuffersToWrite k (burstState h au duration) -
          (if (burstState h au duration).auPending then 1 else 0) + 1) * 8 +
          (if (burstState h au duration).auPending then
            peek (burstState h au duration).frameLength 0 else 0))
        (burstState h au duration).pcmOffset)
      (memRead (burstState h au duration).workBuffer 0
        (min (psum (burstState h au duration).frameLength
            (getNumBuffersToWrite k (burstState h au duration)))
          (numAvailableBytes k (burstState h au duration)
            (getNumBuffersToWrite k (burstState h au duration)))))
    rw [subHeaderEntries_length] at this
    exact this


/-- C10: the 8 header bytes of an emitted burst are the preamble, `rate_code << 3`,
`(audio_mode << 5) | 25` and `Pd` big-endian; `parseIecFrameData` applied to them
accepts and recovers data type 25, audio mode 1, the encoder's rate code, frame length
1024, the encoder's burst repetition period and the payload length `8 * Pd`. -/
theorem C10_header_agreement (k : WireConsts) (h : EncState) (au : List Nat)
    (duration cap : Nat) (hsp : k.IEC_BURST_SPACING_SIZE_BYTES ≤ 16320)
    (hsp8 : k.IEC_BURST_SPACING_SIZE_BYTES % 8 = 0)
    (hr : EncReachable k h) (hau : au ≠ [])
    (hok : (iec61937_encode_process k h au duration cap).1.result = .IECENC_OK)
    (hne : (iec61937_encode_process k h au duration cap).1.outputBufferLength ≠ 0) :
    (iec61937_encode_process k h au duration cap).1.outputBuffer.take 8 =
      [k.SYNC_PREAMBLE_0, k.SYNC_PREAMBLE_1, k.SYNC_PREAMBLE_2, k.SYNC_PREAMBLE_3,
        u8 (h.rateFactor * 8), u8 (h.audioMode * 32 + 25),
        u8 (dataBurstLength (burstState h au duration)
          (sumCells (burstState h au duration).frameLength
            (getNumBuffersToWrite k (burstState h au duration)))
          (numAvailableBytes k (burstState h au duration)
            (getNumBuffersToWrite k (burstState h au duration)))
          (getNumBuffersToWrite k (burstState h au duration)) / 256),
        u8 (dataBurstLength (burstState h au duration)
          (sumCells (burstState h au duration).frameLength
            (getNumBuffersToWrite k (burstState h au duration)))
          (numAvailableBytes k (burstState h au duration)
            (getNumBuffersToWrite k (burstState h au duration)))
          (getNumBuffersToWrite k (burstState h au duration)))] ∧
    ∀ d : DecState,
      memRead d.workBuffer d.syncCandidateIndex 8 =
        (iec61937_encode_process k h au duration cap).1.outputBuffer.take 8 →
      parseIecFrameData k d =
        (0, { d with
              dataType := 25, audioMode := 1, rateFactor := h.rateFactor, frameLength := 1024,
              payloadLength :=
                dataBurstLength (burstState h au duration)
                  (sumCells (burstState h au duration).frameLength
                    (getNumBuffersToWrite k (burstState h au duration)))
                  (numAvailableBytes k (burstState h au duration)
                    (getNumBuffersToWrite k (burstState h au duration)))
                  (getNumBuffersToWrite k (burstState h au duration)) * 8,
              burstRepetitionPeriod := h.burstRepetitionPeriod,
              payloadHeaderSize := 8 }) := by
  have hi := hr.inv hsp
  obtain ⟨_, _, _, h4⟩ := encode_process_burst k h au duration cap hi hsp hau hok hne
  obtain ⟨hib, hp, _, _⟩ := encode_process_layout k h au duration cap hi hsp hau hok hne
  have hnb := getNumBuffersToWrite_le k (burstState h au duration)
  obtain ⟨hd1, hd2⟩ := dataBurstLength_eq k _ _ hib hsp hnb hp
  rw [burstState_period] at hd2
  have htake : (iec61937_encode_process k h au duration cap).1.outputBuffer.take 8 =
      [k.SYNC_PREAMBLE_0, k.SYNC_PREAMBLE_1, k.SYNC_PREAMBLE_2, k.SYNC_PREAMBLE_3,
        u8 (h.rateFactor * 8), u8 (h.audioMode * 32 + 25),
        u8 (dataBurstLength (burstState h au duration)
          (sumCells (burstState h au duration).frameLength
            (getNumBuffersToWrite k (burstState h au duration)))
          (numAvailableBytes k (burstState h au duration)
            (getNumBuffersToWrite k (burstState h au duration)))
          (getNumBuffersToWrite k (burstState h au duration)) / 256),
        u8 (dataBurstLength (burstState h au duration)
          (sumCells (burstState h au duration).frameLength
            (getNumBuffersToWrite k (burstState h au duration)))
          (numAvailableBytes k (burstState h au duration)
            (getNumBuffersToWrite k (burstState h au duration)))
          (getNumBuffersToWrite k (burstState h au duration)))] := by
    rw [h4]
    simp only [List.append_assoc]
    rw [List.take_left' (burstHeader_length _ _ _ _ _)]
    unfold burstHeader
    simp only [burstState_rateFactor, burstState_audioMode]
  refine ⟨htake, ?_⟩
  intro d hd
  rw [htake] at hd
  have hpeek : ∀ i, i < 8 → peek d.workBuffer (d.syncCandidateIndex + i) =
      peek (memRead d.workBuffer d.syncCandidateIndex 8) i := fun i hi' => (peek_memRead hi').symm
  have hrf : h.rateFactor = 1 ∨ h.rateFactor = 3 := by
    rcases hi.rate with ⟨hr, _⟩ | ⟨hr, _⟩
    · exact Or.inl hr
    · exact Or.inr hr
  have hP : h.burstRepetitionPeriod = 4096 * 2 ^ (h.rateFactor + 1) := by
    rcases hi.rate with ⟨hr, hP⟩ | ⟨hr, hP⟩ <;> rw [hr, hP] <;> rfl
  have hPv : h.burstRepetitionPeriod = 16384 ∨ h.burstRepetitionPeriod = 65536 := by
    rcases hi.rate with ⟨_, hP⟩ | ⟨_, hP⟩
    · exact Or.inl hP
    · exact Or.inr hP
  rw [hsp8, Nat.add_zero] at hd2
  have hpdlt : pdField (getNumBuffersToWrite k (burstState h au duration) -
      (if (burstState h au duration).auPending then 1 else 0))
      (min (psum (burstState h au duration).frameLength
        (getNumBuffersToWrite k (burstState h au duration)))
        (numAvailableBytes k (burstState h au duration)
          (getNumBuffersToWrite k (burstState h au duration)))) < 65536 := by
    rcases hPv with hP | hP <;> omega
  rw [hd1] at hd ⊢
  rw [hP]
  apply parseIecFrameData_hbr k d _ _ hrf
  · rw [hpeek 4 (by omega), hd]
    show u8 (h.rateFactor * 8) = _
    unfold u8; rcases hrf with hr | hr <;> rw [hr]
  · rw [hpeek 5 (by omega), hd, hi.mode]; rfl
  · rw [hpeek 6 (by omega), hd]
    show u8 _ = _
    unfold u8; omega
  · rw [hpeek 7 (by omega), hd]; rfl
  · rw [← hP]; exact hd2

theorem C10_witness :
    (parseIecFrameData refConsts
      { iec61937_decode_open with workBuffer := [248, 114, 78, 31, 8, 57, 0, 3] }).1 = 0 :=
  congrArg Prod.fst
    ((C10_header_agreement refConsts (encInit 1 1) [1, 2, 3] 1024 16384 (by decide) (by decide)
      (EncReachable.opened 4 _ rfl) (by decide) (by decide) (by decide)).2
      { iec61937_decode_open with workBuffer := [248, 114, 78, 31, 8, 57, 0, 3] } (by decide))

theorem C8_witness :
    (iec61937_encode_process refConsts (encInit 1 1) [1, 2, 3] 1024 16384).1.outputBuffer.drop
      (16384 - 8) = List.replicate 8 0 :=
  (C8_zero_after_payload refConsts (encInit 1 1) [1, 2, 3] 1024 16384 (by decide)
    (EncReachable.opened 4 _ rfl) (by decide) (by decide) (by decide)).2

theorem C9_witness :
    memRead (iec61937_encode_process refConsts (encInit 1 1) [1, 2, 3] 1024 16384).1.outputBuffer
      16 8 = List.replicate 8 0 :=
  (C9_sub_header_offsets refConsts (encInit 1 1) [1, 2, 3] 1024 16384 (by decide)
    (EncReachable.opened 4 _ rfl) (by decide) (by decide) (by decide)).2.2

/-- C3: `iec61937_decode_process` does not return on a state reached by one feed. A
fresh decoder accepts the 3072 bytes of `loopStream` (a valid burst header, 384 times
over); the call that follows has not returned after any number `fuel` of iterations
of its sync loop: the candidate at offset 0 fails the burst-spacing check, the buffer
is shifted by 8 bytes while `workBufferBytesAvailable` stays at 3072, and the loop is
back in the state it started from. -/
theorem C3_process_never_returns (k : WireConsts)
    (hsp0 : 0 < k.IEC_BURST_SPACING_SIZE_BYTES) (hsp : k.IEC_BURST_SPACING_SIZE_BYTES ≤ 3063)
    (fuel cap : Nat) :
    (iec61937_decode_feed iec61937_decode_open (loopStream k)).1 = .IECDEC_OK ∧
    iec61937_decode_process k fuel
      (iec61937_decode_feed iec61937_decode_open (loopStream k)).2 cap = none := by
  rw [feed_open _ (by rw [loopStream_length]; decide)]
  refine ⟨rfl, ?_⟩
  unfold iec61937_decode_process
  rw [stuck_forever k hsp0 hsp fuel _ ⟨rfl, loopStream_length k, rfl, rfl, rfl⟩]

theorem C3_witness :
    iec61937_decode_process refConsts 1000000
      (iec61937_decode_feed iec61937_decode_open (loopStream refConsts)).2 65536 = none :=
  (C3_process_never_returns refConsts (by decide) (by decide) 1000000 65536).2

/-- C5 (scenario S1): an encoder opened with factor 4 and given one AU of 100 bytes with
duration 1024 consumes it and returns one burst of 16384 bytes: the preamble, `Pc` with
data type 25 (0x39 with the audio mode), `Pd` 15, the sub-header (data_offset 24,
data_length 100, pcm_offset 0), the zero terminator, the AU and zeros to the end. A
fresh decoder accepts that burst in one feed and its first `iec61937_decode_process`
call (any sync-loop bound of at least 2) returns `IECDEC_OK` with the same 100 bytes,
pcm offset 0, IEC frame length 1024 and the frame reported as processed. -/
theorem C5_scenario_s1 (k : WireConsts) (hsp : k.IEC_BURST_SPACING_SIZE_BYTES ≤ 16256)
    (h0 : EncState) (hopen : iec61937_encode_open 4 = some h0)
    (au : List Nat) (hlen : au.length = 100) (cap dcap fuel : Nat)
    (hcap : 16384 ≤ cap) (hdcap : 100 ≤ dcap) (hfuel : 2 ≤ fuel) :
    (iec61937_encode_process k h0 au 1024 cap).1 =
      EncOut.mk .IECENC_OK true
        ([k.SYNC_PREAMBLE_0, k.SYNC_PREAMBLE_1, k.SYNC_PREAMBLE_2, k.SYNC_PREAMBLE_3, 8, 57, 0, 15] ++
          [0, 0, 24, 0, 0, 100, 0, 0] ++ List.replicate 8 0 ++ au ++ List.replicate 16260 0)
        16384 ∧
    (iec61937_encode_process k h0 au 1024 cap).1.outputBuffer.length = 16384 ∧
    (iec61937_decode_feed iec61937_decode_open
        (iec61937_encode_process k h0 au 1024 cap).1.outputBuffer).1 = .IECDEC_OK ∧
    ∃ d, iec61937_decode_process k fuel
        (iec61937_decode_feed iec61937_decode_open
          (iec61937_encode_process k h0 au 1024 cap).1.outputBuffer).2 dcap =
      some (DecOut.mk .IECDEC_OK au 100 0 1024 true, d) := by
  have h0eq : h0 = encInit 1 1 := by
    unfold iec61937_encode_open at hopen
    simp only [if_true] at hopen
    exact (Option.some.inj hopen).symm
  subst h0eq
  have hau : au ≠ [] := by intro h; rw [h] at hlen; cases hlen
  have hi := encInit_inv 1 (Or.inl rfl)
  have hsf : EncInv (storeFrame (encInit 1 1) au 1024) :=
    storeFrame_inv _ au 1024 hi hau (by decide) (by
      show ¬ 0 + au.length > ENC_WORKBUFFER_SIZE_BYTES
      rw [hlen]; decide)
  have hnb : getNumBuffersToWrite k (storeFrame (encInit 1 1) au 1024) = 1 := by
    have h1 := getNumBuffersToWrite_le k (storeFrame (encInit 1 1) au 1024)
    have h2 := getNumBuffersToWrite_pos k (storeFrame (encInit 1 1) au 1024)
      (availableBytes_pos k _ hsf (by omega)) hsf.dur (Nat.le_refl 1)
    have : (storeFrame (encInit 1 1) au 1024).framesStoredCount = 1 := rfl
    omega
  have hcall : iec61937_encode_process k (encInit 1 1) au 1024 cap =
      emitBurst k (storeFrame (encInit 1 1) au 1024) 1 true := by
    rw [encode_process_eq]
    rw [if_neg (by show ¬ cap < 16384; omega), if_neg (by decide)]
    rw [if_pos (by rw [if_neg (by decide), hlen]; decide)]
    rw [if_neg (by decide), if_neg (by show ¬ 0 + au.length > ENC_WORKBUFFER_SIZE_BYTES; rw [hlen]; decide)]
    have hov : (storeFrame (encInit 1 1) au 1024).overallDuration = 1024 := rfl
    rw [hnb, hov, hsf.afl, if_neg (by omega)]
  have hout := emitBurst_output k (storeFrame (encInit 1 1) au 1024) 1 true hsf (by omega)
    (Nat.le_refl 1) (fun _ => Nat.le_refl 1)
  have e1 : (storeFrame (encInit 1 1) au 1024).rateFactor = 1 := rfl
  have e2 : (storeFrame (encInit 1 1) au 1024).burstRepetitionPeriod = 16384 := rfl
  have e3 : (storeFrame (encInit 1 1) au 1024).auPending = false := rfl
  have e4 : (storeFrame (encInit 1 1) au 1024).frameLength = [100, 0, 0, 0, 0] := by
    show (List.replicate 5 0).set 0 au.length = _
    rw [hlen]; rfl
  have e5 : (storeFrame (encInit 1 1) au 1024).frameDuration = [1024, 0, 0, 0, 0] := rfl
  have e6 : (storeFrame (encInit 1 1) au 1024).workBuffer = au := memWrite_nil au
  have e7 : (storeFrame (encInit 1 1) au 1024).pcmOffset = 0 := rfl
  have e8 := numAvailableBytes_eq k (storeFrame (encInit 1 1) au 1024) hsf (by omega) 1 (by omega)
  rw [e2, e3] at e8
  simp only [Bool.false_eq_true, if_false] at e8
  have e9 : min (psum [100, 0, 0, 0, 0] 1) (numAvailableBytes k (storeFrame (encInit 1 1) au 1024) 1) = 100 := by
    rw [e8]
    have : psum [100, 0, 0, 0, 0] 1 = 100 := rfl
    rw [this]
    omega
  rw [e1, e2, e3, e4, e5, e6, e7, e9] at hout
  simp only [Bool.false_eq_true, if_false, Nat.sub_zero, Nat.add_zero] at hout
  have e10 : memRead au 0 100 = au := by rw [← hlen]; exact memRead_all au
  have e11 : subHeaderEntries [100, 0, 0, 0, 0] [1024, 0, 0, 0, 0] 1 0 (8 + (1 + 1) * 8) 0 =
      [(24, 100, 0)] := rfl
  rw [e10, e11] at hout
  have hB : hbrBurst k 1 16384 [(24, 100, 0)] au =
      [k.SYNC_PREAMBLE_0, k.SYNC_PREAMBLE_1, k.SYNC_PREAMBLE_2, k.SYNC_PREAMBLE_3, 8, 57, 0, 15] ++
        [0, 0, 24, 0, 0, 100, 0, 0] ++ List.replicate 8 0 ++ au ++ List.replicate 16260 0 := by
    unfold hbrBurst
    rw [hlen]
    rfl
  have hBlen : (hbrBurst k 1 16384 [(24, 100, 0)] au).length = 16384 :=
    hbrBurst_length k 1 16384 _ au (by rw [hlen]; decide)
  rw [hcall, hout]
  refine ⟨by rw [hB], hBlen, ?_, ?_⟩
  · rw [feed_open _ (by rw [hBlen]; decide)]
  · obtain ⟨f, rfl⟩ : ∃ f, fuel = f + 2 := ⟨fuel - 2, by omega⟩
    rw [feed_open _ (by rw [hBlen]; decide)]
    show ∃ d, iec61937_decode_process k (f + 2)
      (idleState (hbrBurst k 1 16384 [(24, 100, 0)] au)
        (hbrBurst k 1 16384 [(24, 100, 0)] au).length [] 0 0 0) dcap = _
    rw [hBlen]
    have hp := process_first k 1 [(24, 100, 0)] au [] 0 0 0 dcap f (Or.inl rfl)
      (by rw [hlen]; show 15 * 8 + 8 + _ ≤ 16384; omega)
      (by rw [hlen]; show 8 + (1 + 1) * 8 + 100 + _ ≤ 16384; omega)
      ⟨by decide, by decide, by decide, by decide, trivial⟩
      (by intro s hs; rw [hlen]; simp at hs; subst hs; decide)
      (by intro s hs; simp at hs; subst hs; decide)
      (by decide)
    rw [show 4096 * 2 ^ (1 + 1) = 16384 from rfl] at hp
    rw [hp, processSynced_idle]
    have he := emitPayload_whole k 1 [(24, 100, 0)] au [] 16384 0 0 0
      (pdField [(24, 100, (0:Int))].length au.length) 0 dcap (24, 100, 0) rfl (Or.inl rfl) rfl
      (by decide) (by decide) hdcap (by rw [hlen]; decide)
    rw [he]
    have hrd : memRead (hbrBurst k 1 16384 [(24, 100, 0)] au) 24 100 = au := by
      have := hbrBurst_payload k 1 16384 [(24, 100, 0)] au 0 100 (by omega)
      rw [e10] at this
      exact this
    exact ⟨_, by
      show some (DecOut.mk .IECDEC_OK (memRead (hbrBurst k 1 16384 [(24, 100, 0)] au) 24 100) 100
        (0 % 65536) 1024 (decide (0 + 1 = 1)), _) = _
      rw [hrd]; rfl⟩


theorem C5_witness :
    (iec61937_encode_process refConsts (encInit 1 1) (List.replicate 100 7) 1024
      16384).1.outputBuffer.length = 16384 :=
  (C5_scenario_s1 refConsts (by decide) (encInit 1 1) rfl (List.replicate 100 7)
    (List.length_replicate 100 7) 16384 65536 2 (by decide) (by decide) (by decide)).2.1

/-- C6: the split-AU scenario ends in `IECDEC_PENDINGDATA_ERROR` when the remainder is
not a multiple of 8. A factor-4 encoder is given an AU that is `r` bytes longer than
the free payload of a one-sub-header burst (`16360 - IEC_BURST_SPACING_SIZE_BYTES`),
with duration 2048, so that the next call emits a burst before it stores anything:
the first burst carries the prefix under the sub-header (24, |AU|, 0), the second has
no sub-header and carries exactly the last `r` bytes. A fresh decoder takes the first
burst (one `Ok` call without output, then `FeedMoreData`) and, fed the second one,
returns `IECDEC_PENDINGDATA_ERROR` instead of the AU. -/
theorem C6_split_au_pending_error (k : WireConsts)
    (hsp8 : k.IEC_BURST_SPACING_SIZE_BYTES % 8 = 0) (hsp : k.IEC_BURST_SPACING_SIZE_BYTES ≤ 8360)
    (h0 : EncState) (hopen : iec61937_encode_open 4 = some h0)
    (au next : List Nat) (r d2 cap fuel : Nat)
    (hr1 : 1 ≤ r) (hr8 : r % 8 ≠ 0) (hr : r ≤ 8000)
    (hlen : au.length = 16360 - k.IEC_BURST_SPACING_SIZE_BYTES + r)
    (hd2 : d2 ≤ 4096) (hcap : au.length ≤ cap) (hfuel : 2 ≤ fuel) :
    (iec61937_encode_process k h0 au 2048 16384).1 =
      EncOut.mk .IECENC_OK true
        (hbrBurst k 1 16384 [(24, au.length, 0)]
          (au.take (16360 - k.IEC_BURST_SPACING_SIZE_BYTES))) 16384 ∧
    (iec61937_encode_process k (iec61937_encode_process k h0 au 2048 16384).2 next d2 16384).1 =
      EncOut.mk .IECENC_OK false
        (hbrBurst k 1 16384 [] (au.drop (16360 - k.IEC_BURST_SPACING_SIZE_BYTES))) 16384 ∧
    ∃ s1 s2 s3 s4,
      iec61937_decode_process k fuel
          (iec61937_decode_feed iec61937_decode_open
            (iec61937_encode_process k h0 au 2048 16384).1.outputBuffer).2 cap =
        some (DecOut.mk .IECDEC_OK [] 0 0 1024 true, s1) ∧
      iec61937_decode_process k fuel s1 cap =
        some (DecOut.mk .IECDEC_FEED_MORE_DATA [] 0 0 0 false, s2) ∧
      iec61937_decode_feed s2
          (iec61937_encode_process k (iec61937_encode_process k h0 au 2048 16384).2
            next d2 16384).1.outputBuffer = (.IECDEC_OK, s3) ∧
      iec61937_decode_process k fuel s3 cap =
        some (DecOut.mk .IECDEC_PENDINGDATA_ERROR [] 0 0 1024 false, s4) := by
  have h0eq : h0 = encInit 1 1 := by
    unfold iec61937_encode_open at hopen
    simp only [if_true] at hopen
    exact (Option.some.inj hopen).symm
  subst h0eq
  obtain ⟨f, rfl⟩ : ∃ f, fuel = f + 2 := ⟨fuel - 2, by omega⟩
  obtain ⟨c1, c2, c3, c4, c5, c6, c7, c8, c9⟩ := split_first_call k au
    (16360 - k.IEC_BURST_SPACING_SIZE_BYTES) r (by omega) (by omega) hlen hr1 hr
  have hcont := continuation_call k (iec61937_encode_process k (encInit 1 1) au 2048 16384).2
    next d2 r hsp c2 c3 c4 c5 hr c7 c8 c9 hd2
  rw [c6, memRead_memMove_tail au _ r hlen] at hcont
  refine ⟨c1, hcont, ?_⟩
  rw [c1, hcont]
  exact decode_split_excess k au (au.drop (16360 - k.IEC_BURST_SPACING_SIZE_BYTES))
    (16360 - k.IEC_BURST_SPACING_SIZE_BYTES) r cap f (by omega) (by omega) (by omega) hlen hr1 hr
    hr8 (by rw [List.length_drop]; omega) hcap

theorem C6_witness :
    (iec61937_encode_process refConsts (encInit 1 1) (List.replicate 16452 1) 2048 16384).1.result =
      .IECENC_OK :=
  congrArg EncOut.result
    (C6_split_au_pending_error refConsts (by decide) (by decide) (encInit 1 1) rfl
      (List.replicate 16452 1) [1] 100 1024 65536 2 (by decide) (by decide) (by decide)
      (List.length_replicate 16452 1) (by decide) (by rw [List.length_replicate]; decide)
      (by decide)).1

/-- C11: whenever `iec61937_decode_process` returns a result other than `IECDEC_OK`
(`FeedMoreData`, `BufferError` or `PendingDataError`), from any decoder state and for any
capacity, it hands back no bytes, output length 0, pcm offset 0 and
`iecFrameProcessed = false`. -/
theorem C11_no_output_on_error (k : WireConsts) (fuel : Nat) (h : DecState) (cap : Nat)
    (o : DecOut) (h1 : DecState)
    (hp : iec61937_decode_process k fuel h cap = some (o, h1))
    (hne : o.result ≠ .IECDEC_OK) :
    o.outputBuffer = [] ∧ o.outputBufferLength = 0 ∧ o.pcmOffset = 0 ∧
      o.iecFrameProcessed = false := by
  unfold iec61937_decode_process at hp
  cases hs : syncLoop k fuel h with
  | none => rw [hs] at hp; cases hp
  | some s =>
    rw [hs] at hp
    simp only [] at hp
    by_cases hsync : (!s.syncFound) = true
    · rw [if_pos hsync] at hp
      cases hp
      exact ⟨rfl, rfl, rfl, rfl⟩
    · rw [if_neg hsync] at hp
      have e := Option.some.inj hp
      have e1 : (processSynced s cap).1 = o := congrArg Prod.fst e
      rw [← e1] at hne ⊢
      exact processSynced_error s cap hne

theorem C11_witness :
    (DecOut.mk .IECDEC_FEED_MORE_DATA [] 0 0 0 false).outputBufferLength = 0 :=
  (C11_no_output_on_error refConsts 1 iec61937_decode_open 65536
    (DecOut.mk .IECDEC_FEED_MORE_DATA [] 0 0 0 false) iec61937_decode_open rfl (by decide)).2.1

/-- C12: `IECDEC_PENDINGDATA_ERROR` from the branch for bursts without sub-headers
leaves the decoder as it was. On the two bursts of the split-AU scenario (factor 4, an
AU `r` bytes longer than the free payload of a one-sub-header burst, `r` not a
multiple of 8, duration 2048) the call on the second burst returns
`IECDEC_PENDINGDATA_ERROR` with sync still held (`syncFound`, `syncCandidateFound`),
the parsed header still in place (frame length 1024, payload header size 8) and the
pending AU untouched (`frameBytesMissing = r`), and the next call returns
`IECDEC_PENDINGDATA_ERROR` again from the same state. -/
theorem C12_pending_error_keeps_state (k : WireConsts)
    (hsp8 : k.IEC_BURST_SPACING_SIZE_BYTES % 8 = 0) (hsp : k.IEC_BURST_SPACING_SIZE_BYTES ≤ 8360)
    (h0 : EncState) (hopen : iec61937_encode_open 4 = some h0)
    (au next : List Nat) (r d2 cap fuel : Nat)
    (hr1 : 1 ≤ r) (hr8 : r % 8 ≠ 0) (hr : r ≤ 8000)
    (hlen : au.length = 16360 - k.IEC_BURST_SPACING_SIZE_BYTES + r)
    (hd2 : d2 ≤ 4096) (hcap : au.length ≤ cap) (hfuel : 2 ≤ fuel) :
    ∃ s1 s3 s4,
      iec61937_decode_process k fuel
          (iec61937_decode_feed iec61937_decode_open
            (iec61937_encode_process k h0 au 2048 16384).1.outputBuffer).2 cap =
        some (DecOut.mk .IECDEC_OK [] 0 0 1024 true, s1) ∧
      iec61937_decode_feed s1
          (iec61937_encode_process k (iec61937_encode_process k h0 au 2048 16384).2
            next d2 16384).1.outputBuffer = (.IECDEC_OK, s3) ∧
      iec61937_decode_process k fuel s3 cap =
        some (DecOut.mk .IECDEC_PENDINGDATA_ERROR [] 0 0 1024 false, s4) ∧
      s4.syncFound = true ∧ s4.syncCandidateFound = true ∧ s4.frameLength = 1024 ∧
      s4.payloadHeaderSize = 8 ∧ s4.frameBytesMissing = r ∧
      iec61937_decode_process k fuel s4 cap =
        some (DecOut.mk .IECDEC_PENDINGDATA_ERROR [] 0 0 1024 false, s4) := by
  have h0eq : h0 = encInit 1 1 := by
    unfold iec61937_encode_open at hopen
    simp only [if_true] at hopen
    exact (Option.some.inj hopen).symm
  subst h0eq
  obtain ⟨f, rfl⟩ : ∃ f, fuel = f + 2 := ⟨fuel - 2, by omega⟩
  obtain ⟨c1, c2, c3, c4, c5, c6, c7, c8, c9⟩ := split_first_call k au
    (16360 - k.IEC_BURST_SPACING_SIZE_BYTES) r (by omega) (by omega) hlen hr1 hr
  have hcont := continuation_call k (iec61937_encode_process k (encInit 1 1) au 2048 16384).2
    next d2 r hsp c2 c3 c4 c5 hr c7 c8 c9 hd2
  rw [c6, memRead_memMove_tail au _ r hlen] at hcont
  rw [c1, hcont]
  obtain ⟨d1, d2', d3, d4⟩ := decode_split_states k au
    (au.drop (16360 - k.IEC_BURST_SPACING_SIZE_BYTES))
    (16360 - k.IEC_BURST_SPACING_SIZE_BYTES) r cap f (by omega) (by omega) (by omega) hlen hr1 hr
    hr8 (by rw [List.length_drop]; omega) hcap
  have d4' := (process_synced k (hbrBurst k 1 16384 [] (au.drop (16360 - k.IEC_BURST_SPACING_SIZE_BYTES)))
    (memWrite [] 0 (memRead (hbrBurst k 1 16384 [(24, au.length, 0)]
      (au.take (16360 - k.IEC_BURST_SPACING_SIZE_BYTES))) 24 (16360 - k.IEC_BURST_SPACING_SIZE_BYTES)))
    16384 (16360 - k.IEC_BURST_SPACING_SIZE_BYTES) r (0 % 65536 - 1024) 1
    (pdField ([] : List (Nat × Nat × Int)).length
      (au.drop (16360 - k.IEC_BURST_SPACING_SIZE_BYTES)).length) 0 0 cap (f + 1)).trans
    ((process_synced k _ _ _ _ _ _ _ _ _ _ cap f).symm.trans d4)
  exact ⟨_, _, _, d1, d2', d3, rfl, rfl, rfl, rfl, rfl, d4'⟩

theorem C12_witness :
    ∃ s4 : DecState, s4.syncFound = true ∧ s4.frameBytesMissing = 100 := by
  obtain ⟨_, _, s4, _, _, _, h1, _, _, _, h2, _⟩ :=
    C12_pending_error_keeps_state refConsts (by decide) (by decide) (encInit 1 1) rfl
      (List.replicate 16452 1) [1] 100 1024 65536 2 (by decide) (by decide) (by decide)
      (List.length_replicate 16452 1) (by decide) (by rw [List.length_replicate]; decide)
      (by decide)
  exact ⟨s4, h1, h2⟩

/-- C13: `iec61937_decode_feed` returns `IECDEC_BUFFER_ERROR` exactly when
`workBufferBytesAvailable` plus the input length exceeds 786432, and then the decoder is
unchanged; otherwise it returns `IECDEC_OK`, the only fields that change are the work
buffer and `workBufferBytesAvailable` (which grows by the input length), the first
`workBufferBytesAvailable` bytes of the work buffer are the old ones and the input
bytes follow them. -/
theorem C13_feed (h : DecState) (input : List Nat) :
    ((iec61937_decode_feed h input).1 = .IECDEC_BUFFER_ERROR ↔
      h.workBufferBytesAvailable + input.length > 786432) ∧
    (h.workBufferBytesAvailable + input.length > 786432 → (iec61937_decode_feed h input).2 = h) ∧
    (¬ h.workBufferBytesAvailable + input.length > 786432 →
      (iec61937_decode_feed h input).1 = .IECDEC_OK ∧
      (iec61937_decode_feed h input).2 =
        { h with workBuffer := (iec61937_decode_feed h input).2.workBuffer,
                 workBufferBytesAvailable := h.workBufferBytesAvailable + input.length } ∧
      memRead (iec61937_decode_feed h input).2.workBuffer 0 h.workBufferBytesAvailable =
        memRead h.workBuffer 0 h.workBufferBytesAvailable ∧
      memRead (iec61937_decode_feed h input).2.workBuffer h.workBufferBytesAvailable input.length =
        input) := by
  unfold iec61937_decode_feed DEC_WORKBUFFER_SIZE_BYTES
  by_cases hc : h.workBufferBytesAvailable + input.length > 786432
  · rw [if_pos (Or.inr hc)]
    exact ⟨⟨fun _ => hc, fun _ => rfl⟩, fun _ => rfl, fun h' => absurd hc h'⟩
  · rw [if_neg (by omega)]
    refine ⟨⟨fun he => (by cases he), fun h' => absurd h' hc⟩, fun h' => absurd h' hc,
      fun _ => ⟨rfl, rfl, ?_, ?_⟩⟩
    · exact memRead_memWrite_below _ _ _ _ _ (by omega)
    · exact memRead_memWrite_same _ _ _

/-- C14 (amended): with sync held, no AU pending and a next sub-header whose
data_length exceeds the caller's capacity, `iec61937_decode_process` returns
`IECDEC_BUFFER_ERROR` and the decoder state is exactly the state on entry. A call from
that state with capacity at least data_length returns `IECDEC_OK` with that AU (its
bytes, length and pcm offset) when the AU lies wholly in the burst
(`data_offset + data_length <= 8 + payloadLength`). When the AU is cut at the end of
the burst and the store stays inside the pending state (`splitStoreFits`: the part in
the burst has at most `MAX_MPEGH_FRAME_SIZE` bytes), the call returns `IECDEC_OK`
without output and keeps the bytes as pending: the state afterwards is `splitState h`,
with the burst finished when that was its last sub-header, the pending buffer starts
with the bytes of the work buffer from `data_offset` on, and `frameBytesPending` and
`frameBytesMissing` are `payloadLength + 8 - data_offset` and the rest of
`data_length` when `data_offset <= payloadLength + 8`. -/
theorem C14_buffer_error_keeps_cursor (k : WireConsts) (h : DecState) (cap cap2 fuel : Nat)
    (hs : h.syncFound = true) (hfm : h.frameBytesMissing = 0)
    (hidx : h.payloadHeaderIndex < h.numPayloadHeaders)
    (hbig : (parsePayloadHeader h (h.syncCandidateIndex + IEC_HEADER_SIZE_BYTES +
      h.payloadHeaderIndex * h.payloadHeaderSize)).2.1 > cap)
    (hcap2 : (parsePayloadHeader h (h.syncCandidateIndex + IEC_HEADER_SIZE_BYTES +
      h.payloadHeaderIndex * h.payloadHeaderSize)).2.1 ≤ cap2) :
    iec61937_decode_process k (fuel + 1) h cap =
      some (DecOut.mk .IECDEC_BUFFER_ERROR [] 0 0 h.frameLength false, h) ∧
    ((parsePayloadHeader h (h.syncCandidateIndex + IEC_HEADER_SIZE_BYTES +
        h.payloadHeaderIndex * h.payloadHeaderSize)).1 +
      (parsePayloadHeader h (h.syncCandidateIndex + IEC_HEADER_SIZE_BYTES +
        h.payloadHeaderIndex * h.payloadHeaderSize)).2.1 ≤ IEC_HEADER_SIZE_BYTES + h.payloadLength →
      (iec61937_decode_process k (fuel + 1) h cap2).map Prod.fst =
        some (DecOut.mk .IECDEC_OK
          (memRead h.workBuffer (h.syncCandidateIndex +
            (parsePayloadHeader h (h.syncCandidateIndex + IEC_HEADER_SIZE_BYTES +
              h.payloadHeaderIndex * h.payloadHeaderSize)).1)
            (parsePayloadHeader h (h.syncCandidateIndex + IEC_HEADER_SIZE_BYTES +
              h.payloadHeaderIndex * h.payloadHeaderSize)).2.1)
          (parsePayloadHeader h (h.syncCandidateIndex + IEC_HEADER_SIZE_BYTES +
            h.payloadHeaderIndex * h.payloadHeaderSize)).2.1
          (parsePayloadHeader h (h.syncCandidateIndex + IEC_HEADER_SIZE_BYTES +
            h.payloadHeaderIndex * h.payloadHeaderSize)).2.2
          h.frameLength (decide (h.payloadHeaderIndex + 1 = h.numPayloadHeaders)))) ∧
    ((parsePayloadHeader h (h.syncCandidateIndex + IEC_HEADER_SIZE_BYTES +
        h.payloadHeaderIndex * h.payloadHeaderSize)).1 +
      (parsePayloadHeader h (h.syncCandidateIndex + IEC_HEADER_SIZE_BYTES +
        h.payloadHeaderIndex * h.payloadHeaderSize)).2.1 > IEC_HEADER_SIZE_BYTES + h.payloadLength →
      splitStoreFits h →
      ∃ r, iec61937_decode_process k (fuel + 1) h cap2 = some r ∧
        r.1 = DecOut.mk .IECDEC_OK [] 0 0 h.frameLength
          (decide (h.payloadHeaderIndex + 1 = h.numPayloadHeaders)) ∧
        r.2 = (if h.payloadHeaderIndex + 1 = h.numPayloadHeaders then
          finishBurst (splitState h) else splitState h) ∧
        r.2.frameBytesPending = (splitState h).frameBytesPending ∧
        r.2.frameBytesMissing = (splitState h).frameBytesMissing ∧
        r.2.pcmOffsetPending = (currentSubHeader h).2.2 - (h.frameLength : Int) ∧
        r.2.frameBytesPending ≤ MAX_MPEGH_FRAME_SIZE ∧
        memRead r.2.frameBufferPending 0 r.2.frameBytesPending =
          memRead h.workBuffer (h.syncCandidateIndex + (currentSubHeader h).1)
            r.2.frameBytesPending ∧
        ((currentSubHeader h).1 ≤ h.payloadLength + IEC_HEADER_SIZE_BYTES →
          (currentSubHeader h).2.1 < 4294967296 →
          h.payloadLength + IEC_HEADER_SIZE_BYTES < 4294967296 →
          r.2.frameBytesPending = h.payloadLength + 8 - (currentSubHeader h).1 ∧
          r.2.frameBytesMissing =
            (currentSubHeader h).2.1 - (h.payloadLength + 8 - (currentSubHeader h).1))) := by
  have hps : ∀ c, processSynced h c = emitPayload h c :=
    fun c => processSynced_of_idle h c hfm
  refine ⟨?_, ?_, ?_⟩
  · generalize hhdr : parsePayloadHeader h (h.syncCandidateIndex + IEC_HEADER_SIZE_BYTES +
        h.payloadHeaderIndex * h.payloadHeaderSize) = hdr at *
    rw [process_of_sync k h cap fuel hs, hps]
    unfold emitPayload
    simp only [hhdr]
    rw [if_pos hidx, if_pos hbig]
  · generalize hhdr : parsePayloadHeader h (h.syncCandidateIndex + IEC_HEADER_SIZE_BYTES +
        h.payloadHeaderIndex * h.payloadHeaderSize) = hdr at *
    intro hfit
    rw [process_of_sync k h cap2 fuel hs, hps]
    unfold emitPayload
    simp only [hhdr]
    rw [if_pos hidx, if_neg (by omega), if_neg (by omega)]
    simp only []
    by_cases hl : h.payloadHeaderIndex + 1 = h.numPayloadHeaders
    · rw [if_pos hl]; simp [hl]
    · rw [if_neg hl]; simp [hl]
  · intro hsplit hfit
    have hpend : ∀ x : DecState,
        x = (if h.payloadHeaderIndex + 1 = h.numPayloadHeaders then
          finishBurst (splitState h) else splitState h) →
        x.frameBytesPending = (splitState h).frameBytesPending ∧
        x.frameBytesMissing = (splitState h).frameBytesMissing ∧
        x.pcmOffsetPending = (splitState h).pcmOffsetPending ∧
        x.frameBufferPending = (splitState h).frameBufferPending := by
      intro x hx
      by_cases hl : h.payloadHeaderIndex + 1 = h.numPayloadHeaders
      · rw [if_pos hl] at hx
        rw [hx]
        exact finishBurst_pending (splitState h)
      · rw [if_neg hl] at hx
        rw [hx]
        exact ⟨rfl, rfl, rfl, rfl⟩
    obtain ⟨p1, p2, p3, p4⟩ := hpend _ rfl
    refine ⟨_, process_split k h cap2 fuel hs hfm hidx hcap2 hsplit, rfl, rfl, p1, p2,
      p3, ?_, ?_, fun hoff hlen hpl => ?_⟩
    · show DecState.frameBytesPending _ ≤ _
      rw [p1]
      exact hfit.1
    · show memRead (DecState.frameBufferPending _) 0 (DecState.frameBytesPending _) =
        memRead h.workBuffer _ (DecState.frameBytesPending _)
      rw [p1, p4]
      exact splitState_bytes h
    · obtain ⟨a1, a2⟩ := splitState_amounts h hoff hsplit hlen hpl
      exact ⟨p1.trans a1, p2.trans a2⟩

theorem C14_witness :
    iec61937_decode_process refConsts 1 splitSynced 100 =
      some (DecOut.mk .IECDEC_BUFFER_ERROR [] 0 0 1024 false, splitSynced) ∧
    ∃ r, iec61937_decode_process refConsts 1 splitSynced 65536 = some r ∧
      r.1 = DecOut.mk .IECDEC_OK [] 0 0 1024 true ∧
      r.2.frameBytesPending = 16352 ∧ r.2.frameBytesMissing = 100 ∧
      memRead r.2.frameBufferPending 0 r.2.frameBytesPending =
        memRead splitSynced.workBuffer 24 r.2.frameBytesPending := by
  have hw := C14_buffer_error_keeps_cursor refConsts splitSynced 100 65536 0 rfl rfl
    (by decide) (by decide) (by decide)
  obtain ⟨r, h1, h2, _, _, _, _, _, h8, h9⟩ := hw.2.2 (by decide) (by decide)
  obtain ⟨a1, a2⟩ := h9 (by decide) (by decide) (by decide)
  exact ⟨hw.1, r, h1, h2, a1.trans (by decide), a2.trans (by decide), h8⟩

/-- C14, as stated, fails for an AU that is cut at the end of its burst. The first burst
of the split-AU scenario (factor 4, AU of 16452 bytes, duration 2048) is fed to a fresh
decoder; a call with capacity 100 finds the sync and returns `IECDEC_BUFFER_ERROR`, sync
is held, nothing is pending and the next sub-header announces 16452 bytes; a second call
with capacity 100 returns `IECDEC_BUFFER_ERROR` again without changing the state; the
call with capacity 65536 that follows returns `IECDEC_OK` with output length 0, not
the AU. -/
theorem C14_counterexample :
    ∃ s : DecState,
      iec61937_decode_process refConsts 2
          (iec61937_decode_feed iec61937_decode_open
            (iec61937_encode_process refConsts (encInit 1 1) (List.replicate 16452 1) 2048
              16384).1.outputBuffer).2 100 =
        some (DecOut.mk .IECDEC_BUFFER_ERROR [] 0 0 1024 false, s) ∧
      s.syncFound = true ∧ s.frameBytesMissing = 0 ∧
      s.payloadHeaderIndex < s.numPayloadHeaders ∧
      (parsePayloadHeader s (s.syncCandidateIndex + IEC_HEADER_SIZE_BYTES +
        s.payloadHeaderIndex * s.payloadHeaderSize)).2.1 = 16452 ∧
      iec61937_decode_process refConsts 2 s 100 =
        some (DecOut.mk .IECDEC_BUFFER_ERROR [] 0 0 1024 false, s) ∧
      (iec61937_decode_process refConsts 2 s 65536).map Prod.fst =
        some (DecOut.mk .IECDEC_OK [] 0 0 1024 true) := by
  have c1 := (split_first_call refConsts (List.replicate 16452 1) 16352 100 (by decide)
    (by decide) (by rw [List.length_replicate]) (by decide) (by decide)).1
  obtain ⟨d1, d2, d3, d4⟩ := decode_split_small_cap refConsts (List.replicate 16452 1) 16352 100
    100 65536 0 (by decide) (by decide) (by decide) (by rw [List.length_replicate]) (by decide)
    (by decide) (by rw [List.length_replicate]; decide) (by rw [List.length_replicate]; decide)
  rw [c1]
  refine ⟨_, d1, rfl, rfl, by decide, ?_, ?_, ?_⟩
  · exact d2
  · exact (process_synced refConsts _ _ _ _ _ _ _ _ _ _ 100 1).trans
      ((process_synced refConsts _ _ _ _ _ _ _ _ _ _ 100 0).symm.trans d3)
  · exact (congrArg (Option.map Prod.fst)
      ((process_synced refConsts _ _ _ _ _ _ _ _ _ _ 65536 1).trans
        (process_synced refConsts _ _ _ _ _ _ _ _ _ _ 65536 0).symm)).trans d4

/-- C15: `iec61937_encode_open r` returns an encoder exactly for `r = 4` and `r = 16`.
For 4 the state has rate code 1, audio mode 1, sub-header size 8, audio frame length
1024 and burst repetition period 16384; for 16 rate code 3, audio mode 1, sub-header
size 8, audio frame length 1024 and period 65536. In both states pcm offset and overall
duration are 0, no AU is stored (count 0, both cursors at 0, all table entries 0) and
no AU is pending. -/
theorem C15_encode_open (r : Nat) :
    ((iec61937_encode_open r).isSome = true ↔ (r = 4 ∨ r = 16)) ∧
    (iec61937_encode_open 4).map (fun h =>
        (h.rateFactor, h.audioMode, h.payloadHeaderSize, h.audioFrameLength,
          h.burstRepetitionPeriod, h.pcmOffset, h.overallDuration, h.framesStoredCount,
          h.pWorkBufferWrite, h.pWorkBufferRead, h.frameLength, h.frameDuration, h.auPending)) =
      some (1, 1, 8, 1024, 16384, 0, 0, 0, 0, 0, [0, 0, 0, 0, 0], [0, 0, 0, 0, 0], false) ∧
    (iec61937_encode_open 16).map (fun h =>
        (h.rateFactor, h.audioMode, h.payloadHeaderSize, h.audioFrameLength,
          h.burstRepetitionPeriod, h.pcmOffset, h.overallDuration, h.framesStoredCount,
          h.pWorkBufferWrite, h.pWorkBufferRead, h.frameLength, h.frameDuration, h.auPending)) =
      some (3, 1, 8, 1024, 65536, 0, 0, 0, 0, 0, [0, 0, 0, 0, 0], [0, 0, 0, 0, 0], false) := by
  refine ⟨?_, rfl, rfl⟩
  unfold iec61937_encode_open
  by_cases h4 : r = 4
  · simp [h4]
  · by_cases h16 : r = 16
    · simp [h16]
    · simp [h4, h16]

/-- C16: argument validation of `iec61937_encode_process`. With an output capacity
below `burstRepetitionPeriod` the call returns `IECENC_BUFFER_ERROR`; otherwise it
returns `IECENC_DURATION_ERROR` exactly when `duration > 4096`. In both error cases the
encoder state is the state on entry. -/
theorem C16_argument_validation (k : WireConsts) (h : EncState) (au : List Nat)
    (duration cap : Nat) :
    (cap < h.burstRepetitionPeriod →
      (iec61937_encode_process k h au duration cap).1.result = .IECENC_BUFFER_ERROR ∧
      (iec61937_encode_process k h au duration cap).2 = h) ∧
    (¬ cap < h.burstRepetitionPeriod →
      ((iec61937_encode_process k h au duration cap).1.result = .IECENC_DURATION_ERROR ↔
        duration > 4096) ∧
      (duration > 4096 → (iec61937_encode_process k h au duration cap).2 = h)) := by
  rw [encode_process_eq]
  constructor
  · intro hc
    rw [if_pos hc]
    exact ⟨rfl, rfl⟩
  · intro hc
    rw [if_neg hc]
    unfold MAX_MPEGH_FRAME_DURATION
    by_cases hd : duration > 4096
    · rw [if_pos hd]
      exact ⟨⟨fun _ => hd, fun _ => rfl⟩, fun _ => rfl⟩
    · rw [if_neg hd]
      refine ⟨⟨fun he => ?_, fun h' => absurd h' hd⟩, fun h' => absurd h' hd⟩
      exfalso
      by_cases h1 : (if h.overallDuration ≥ h.audioFrameLength then 0 else au.length) ≠ 0
      · rw [if_pos h1] at he
        by_cases h2 : h.framesStoredCount + 1 ≥ MAX_NUM_MPEGH_FRAMES
        · rw [if_pos h2] at he; cases he
        · rw [if_neg h2] at he
          by_cases h3 : h.pWorkBufferWrite + au.length > ENC_WORKBUFFER_SIZE_BYTES
          · rw [if_pos h3] at he; cases he
          · rw [if_neg h3] at he
            by_cases h4 : (storeFrame h au duration).overallDuration <
                (storeFrame h au duration).audioFrameLength ∨
                getNumBuffersToWrite k (storeFrame h au duration) = 0
            · rw [if_pos h4] at he; cases he
            · rw [if_neg h4, emitBurst_result] at he; cases he
      · rw [if_neg h1, emitBurst_result] at he; cases he

/-- C17: the stored-AU table is full at four. In every reachable encoder state
`framesStoredCount` is at most 4 (hence never above `MAX_NUM_MPEGH_FRAMES = 5`). A
non-empty AU offered with valid arguments while `overallDuration < audioFrameLength`
is rejected with `IECENC_BUFFER_ERROR`, the state unchanged, as soon as 4 AUs are
stored; with fewer than 4 stored and room in the work buffer it is accepted (`Ok`,
input consumed). -/
theorem C17_table_full_at_four (k : WireConsts) (h : EncState) (au : List Nat)
    (duration cap : Nat) (hsp : k.IEC_BURST_SPACING_SIZE_BYTES ≤ 16320)
    (hr : EncReachable k h) (hau : au ≠ []) (hcap : ¬ cap < h.burstRepetitionPeriod)
    (hd : duration ≤ 4096) (hov : h.overallDuration < h.audioFrameLength) :
    h.framesStoredCount ≤ 4 ∧
    (h.framesStoredCount = 4 →
      iec61937_encode_process k h au duration cap =
        (EncOut.mk .IECENC_BUFFER_ERROR false [] 0, h)) ∧
    (h.framesStoredCount < 4 → h.pWorkBufferWrite + au.length ≤ ENC_WORKBUFFER_SIZE_BYTES →
      (iec61937_encode_process k h au duration cap).1.result = .IECENC_OK ∧
      (iec61937_encode_process k h au duration cap).1.inputBufferProcessed = true) := by
  have hlen : au.length ≠ 0 := by
    cases au with
    | nil => exact absurd rfl hau
    | cons a t => simp
  refine ⟨(hr.inv hsp).count, ?_, ?_⟩
  · intro hfour
    rw [encode_process_eq, if_neg hcap, if_neg (by unfold MAX_MPEGH_FRAME_DURATION; omega),
      if_pos (by rw [if_neg (by omega)]; exact hlen),
      if_pos (by unfold MAX_NUM_MPEGH_FRAMES; omega)]
  · intro hlt hroom
    rw [encode_process_eq, if_neg hcap, if_neg (by unfold MAX_MPEGH_FRAME_DURATION; omega),
      if_pos (by rw [if_neg (by omega)]; exact hlen),
      if_neg (by unfold MAX_NUM_MPEGH_FRAMES; omega), if_neg (by omega)]
    split
    · exact ⟨rfl, rfl⟩
    · exact ⟨rfl, rfl⟩

theorem C17_witness :
    fourStored.framesStoredCount = 4 ∧ fourStored.pWorkBufferWrite = 4 ∧
    iec61937_encode_process refConsts fourStored [5] 0 16384 =
      (EncOut.mk .IECENC_BUFFER_ERROR false [] 0, fourStored) :=
  ⟨by decide, by decide,
    (C17_table_full_at_four refConsts fourStored [5] 0 16384 (by decide)
      (EncReachable.step _ _ _ _ (EncReachable.step _ _ _ _ (EncReachable.step _ _ _ _
        (EncReachable.step _ _ _ _ (EncReachable.opened 4 _ rfl) (by decide)) (by decide))
        (by decide)) (by decide))
      (by decide) (by decide) (by decide) (by decide)).2.1 (by decide)⟩

/-- C18: deferral. When `iec61937_encode_process` is entered on a reachable encoder
with valid arguments and `overallDuration >= audioFrameLength`, it returns `Ok` with
`input_consumed = false`, emits exactly one burst (output length and byte count equal
to `burstRepetitionPeriod`), lowers `overallDuration` by exactly 1024, and neither the
number of stored AUs nor the number of stored bytes grows: the offered AU is not
stored. -/
theorem C18_deferral (k : WireConsts) (h : EncState) (au : List Nat) (duration cap : Nat)
    (hsp : k.IEC_BURST_SPACING_SIZE_BYTES ≤ 16320) (hr : EncReachable k h)
    (hcap : ¬ cap < h.burstRepetitionPeriod) (hd : duration ≤ 4096)
    (hov : h.overallDuration ≥ h.audioFrameLength) :
    (iec61937_encode_process k h au duration cap).1.result = .IECENC_OK ∧
    (iec61937_encode_process k h au duration cap).1.inputBufferProcessed = false ∧
    (iec61937_encode_process k h au duration cap).1.outputBufferLength = h.burstRepetitionPeriod ∧
    (iec61937_encode_process k h au duration cap).1.outputBuffer.length = h.burstRepetitionPeriod ∧
    (iec61937_encode_process k h au duration cap).2.overallDuration = h.overallDuration - 1024 ∧
    (iec61937_encode_process k h au duration cap).2.framesStoredCount ≤ h.framesStoredCount ∧
    (iec61937_encode_process k h au duration cap).2.pWorkBufferWrite ≤ h.pWorkBufferWrite := by
  have hi := hr.inv hsp
  have hnb := getNumBuffersToWrite_le k h
  have hp := pending_selected k h hi hsp
  have hcall : iec61937_encode_process k h au duration cap =
      emitBurst k h (getNumBuffersToWrite k h) false := by
    rw [encode_process_eq, if_neg hcap, if_neg (by unfold MAX_MPEGH_FRAME_DURATION; omega),
      if_neg (by rw [if_pos hov]; simp)]
  obtain ⟨_, f2, _, _, _, _, f7, _⟩ :=
    emitBurst_frames k h (getNumBuffersToWrite k h) false hi hsp hnb
  rw [hcall]
  refine ⟨rfl, rfl, ?_, emitBurst_output_length k h _ false hi hsp hnb hp, ?_, ?_, ?_⟩
  · rw [emitBurst_output k h _ false hi hsp hnb hp]
  · rw [emitBurst_duration, hi.afl]
  · rw [f2]; omega
  · rw [f7, hi.wr]; omega

theorem C18_witness :
    (iec61937_encode_process refConsts
      (iec61937_encode_process refConsts (encInit 1 1) [1, 2, 3] 2048 16384).2 [4, 5] 1024
      16384).1.inputBufferProcessed = false :=
  (C18_deferral refConsts
    (iec61937_encode_process refConsts (encInit 1 1) [1, 2, 3] 2048 16384).2 [4, 5] 1024 16384
    (by decide) (EncReachable.step _ _ _ _ (EncReachable.opened 4 _ rfl) (by decide))
    (by decide) (by decide) (by decide)).2.1

/-- C19: accumulation. A non-empty AU accepted by a reachable encoder (valid arguments,
`overallDuration < 1024`, a free table entry, room in the work buffer) with the
accumulated duration still below 1024 afterwards gives `Ok`, output length 0 and
`input_consumed = true`, the AU stored. The call at which the accumulated duration
reaches 1024 consumes the AU and emits one burst of `burstRepetitionPeriod` bytes whose
sub-headers are the entries of the first `nb >= 1` stored frames in table (arrival)
order, the pending one excepted, followed by their bytes. Scenario S3: at factor 16,
four AUs of 500 bytes with duration 256 give output length 0 three times and then one
burst of 65536 bytes with the sub-headers (48, 500, 0), (548, 500, 256),
(1048, 500, 512), (1548, 500, 768), the terminator and the four AUs in order. -/
theorem C19_accumulation (k : WireConsts) (hsp : k.IEC_BURST_SPACING_SIZE_BYTES ≤ 16320) :
    (∀ (h : EncState) (au : List Nat) (duration cap : Nat),
      EncReachable k h → au ≠ [] → ¬ cap < h.burstRepetitionPeriod → duration ≤ 4096 →
      h.overallDuration < h.audioFrameLength → h.framesStoredCount < 4 →
      h.pWorkBufferWrite + au.length ≤ ENC_WORKBUFFER_SIZE_BYTES →
      (h.overallDuration + duration < 1024 →
        iec61937_encode_process k h au duration cap =
          (EncOut.mk .IECENC_OK true [] 0, storeFrame h au duration)) ∧
      (1024 ≤ h.overallDuration + duration →
        1 ≤ getNumBuffersToWrite k (storeFrame h au duration) ∧
        getNumBuffersToWrite k (storeFrame h au duration) ≤ h.framesStoredCount + 1 ∧
        (iec61937_encode_process k h au duration cap).1 =
          EncOut.mk .IECENC_OK true
            (hbrBurst k h.rateFactor h.burstRepetitionPeriod
              (subHeaderEntries (storeFrame h au duration).frameLength
                (storeFrame h au duration).frameDuration
                (getNumBuffersToWrite k (storeFrame h au duration) -
                  (if h.auPending then 1 else 0))
                (if h.auPending then 1 else 0)
                (8 + (getNumBuffersToWrite k (storeFrame h au duration) -
                  (if h.auPending then 1 else 0) + 1) * 8 +
                  (if h.auPending then peek (storeFrame h au duration).frameLength 0 else 0))
                h.pcmOffset)
              (memRead (storeFrame h au duration).workBuffer 0
                (min (psum (storeFrame h au duration).frameLength
                    (getNumBuffersToWrite k (storeFrame h au duration)))
                  (numAvailableBytes k (storeFrame h au duration)
                    (getNumBuffersToWrite k (storeFrame h au duration))))))
            h.burstRepetitionPeriod)) ∧
    (∀ (h0 : EncState) (a1 a2 a3 a4 : List Nat) (cap : Nat),
      iec61937_encode_open 16 = some h0 →
      a1.length = 500 → a2.length = 500 → a3.length = 500 → a4.length = 500 → 65536 ≤ cap →
      (iec61937_encode_process k h0 a1 256 cap).1 = EncOut.mk .IECENC_OK true [] 0 ∧
      (iec61937_encode_process k (iec61937_encode_process k h0 a1 256 cap).2 a2 256 cap).1 =
        EncOut.mk .IECENC_OK true [] 0 ∧
      (iec61937_encode_process k
        (iec61937_encode_process k (iec61937_encode_process k h0 a1 256 cap).2 a2 256 cap).2
        a3 256 cap).1 = EncOut.mk .IECENC_OK true [] 0 ∧
      (iec61937_encode_process k
        (iec61937_encode_process k
          (iec61937_encode_process k (iec61937_encode_process k h0 a1 256 cap).2 a2 256 cap).2
          a3 256 cap).2 a4 256 cap).1 =
        EncOut.mk .IECENC_OK true
          (hbrBurst k 3 65536
            [(48, 500, 0), (548, 500, 256), (1048, 500, 512), (1548, 500, 768)]
            (a1 ++ a2 ++ a3 ++ a4)) 65536 ∧
      (hbrBurst k 3 65536 [(48, 500, 0), (548, 500, 256), (1048, 500, 512), (1548, 500, 768)]
        (a1 ++ a2 ++ a3 ++ a4)).length = 65536) := by
  constructor
  · intro h au duration cap hr hau hcap hd hov hfree hroom
    have hi := hr.inv hsp
    obtain ⟨hsf, hnb, hcall⟩ := accept_call k h au duration cap hi hsp hau hcap hd hov hfree hroom
    constructor
    · intro hlt
      rw [hcall, if_pos hlt]
    · intro hge
      have hle := getNumBuffersToWrite_le k (storeFrame h au duration)
      refine ⟨hnb, hle, ?_⟩
      rw [hcall, if_neg (by omega),
        emitBurst_output k _ _ true hsf hsp hle (fun _ => hnb)]
      rfl
  · intro h0 a1 a2 a3 a4 cap hopen h1 h2 h3 h4 hcap
    have h0eq : h0 = encInit 1 3 := by
      unfold iec61937_encode_open at hopen
      simp only [if_true, show ¬ (16 = 4) by decide, if_false] at hopen
      exact (Option.some.inj hopen).symm
    subst h0eq
    obtain ⟨c1, c2, c3, c4⟩ := s3_calls k hsp a1 a2 a3 a4 h1 h2 h3 h4 cap hcap
    rw [c1, c2, c3, c4]
    refine ⟨rfl, rfl, rfl, rfl, ?_⟩
    apply hbrBurst_length
    simp only [List.length_append, List.length_cons, List.length_nil, h1, h2, h3, h4]
    decide

theorem C19_witness :
    (iec61937_encode_process refConsts (encInit 1 3) (List.replicate 500 1) 256 65536).1 =
      EncOut.mk .IECENC_OK true [] 0 :=
  ((C19_accumulation refConsts (by decide)).2 (encInit 1 3) (List.replicate 500 1)
    (List.replicate 500 2) (List.replicate 500 3) (List.replicate 500 4) 65536 rfl
    (List.length_replicate _ _) (List.length_replicate _ _) (List.length_replicate _ _)
    (List.length_replicate _ _) (by decide)).1

/-- C20: `parseIecFrameData` agrees with the reference header decode of the spec
(`referenceHeaderDecode`) on the bytes 4..7 of the candidate: it returns 1 and leaves
the decoder state untouched when the reference rejects the header, and returns 0 with
exactly the seven header fields of the reference stored (all other fields untouched)
when the reference accepts it. The cells `Pd` is read from hold bytes and the burst
spacing is at most 3064, so that `period - 8 - spacing` does not wrap. -/
theorem C20_header_decode (k : WireConsts) (h : DecState)
    (hsp : k.IEC_BURST_SPACING_SIZE_BYTES ≤ 3064)
    (h6 : peek h.workBuffer (h.syncCandidateIndex + 6) < 256)
    (h7 : peek h.workBuffer (h.syncCandidateIndex + 7) < 256) :
    parseIecFrameData k h =
      match referenceHeaderDecode k (peek h.workBuffer (h.syncCandidateIndex + 4))
          (peek h.workBuffer (h.syncCandidateIndex + 5))
          (peek h.workBuffer (h.syncCandidateIndex + 6))
          (peek h.workBuffer (h.syncCandidateIndex + 7)) with
      | none => (1, h)
      | some f =>
        (0, { h with dataType := f.dataType, audioMode := f.audioMode,
                     rateFactor := f.rateFactor, frameLength := f.frameLength,
                     payloadLength := f.payloadLength,
                     burstRepetitionPeriod := f.burstRepetitionPeriod,
                     payloadHeaderSize := f.payloadHeaderSize }) := by
  unfold parseIecFrameData referenceHeaderDecode
  generalize peek h.workBuffer (h.syncCandidateIndex + 4) = b4
  generalize peek h.workBuffer (h.syncCandidateIndex + 5) = b5
  generalize peek h.workBuffer (h.syncCandidateIndex + 6) = b6 at h6 ⊢
  generalize peek h.workBuffer (h.syncCandidateIndex + 7) = b7 at h7 ⊢
  simp only []
  have e67 : (b6 * 256) % 65536 + b7 % 65536 = b6 * 256 + b7 := by omega
  rw [e67, frameLengthOfCode_table]
  by_cases hdt : b5 % 32 = 25
  swap
  · rw [if_pos (show b5 % 32 ≠ 25 from hdt),
      if_neg (show ¬ (b5 % 32 = 25 ∧ b5 / 32 % 4 ≤ 1 ∧ b4 % 8 ≤ 5) from fun hc => hdt hc.1)]
  rw [if_neg (show ¬ b5 % 32 ≠ 25 from fun hc => hc hdt)]
  by_cases ham : b5 / 32 % 4 > 1
  · rw [if_pos ham,
      if_neg (show ¬ (b5 % 32 = 25 ∧ b5 / 32 % 4 ≤ 1 ∧ b4 % 8 ≤ 5) from fun hc => by omega)]
  rw [if_neg ham]
  by_cases hcode : b4 % 8 ≤ 5
  swap
  · have hz : [1024, 2048, 4096, 768, 1536, 3072].getD (b4 % 8) 0 = 0 := by
      have : 6 ≤ b4 % 8 := by omega
      rw [List.getD_eq_getElem?_getD, List.getElem?_eq_none (by simpa using this)]
      rfl
    rw [hz, if_pos (show (0 : Nat) = 0 from rfl),
      if_neg (show ¬ (b5 % 32 = 25 ∧ b5 / 32 % 4 ≤ 1 ∧ b4 % 8 ≤ 5) from fun hc => hcode hc.2.2)]
  rw [if_pos (show b5 % 32 = 25 ∧ b5 / 32 % 4 ≤ 1 ∧ b4 % 8 ≤ 5 from ⟨hdt, by omega, hcode⟩)]
  generalize hfl : [1024, 2048, 4096, 768, 1536, 3072].getD (b4 % 8) 0 = fl
  have hflc := frameLength_table_cases (b4 % 8) hcode
  rw [hfl] at hflc
  have hfl0 : ¬ fl = 0 := by omega
  rw [if_neg hfl0]
  unfold IEC60958_FRAME_SIZE_BYTES IEC_HEADER_SIZE_BYTES
  have hrf : b4 / 8 % 4 = 0 ∨ b4 / 8 % 4 = 1 ∨ b4 / 8 % 4 = 2 ∨ b4 / 8 % 4 = 3 := by omega
  have hpow : 2 ^ (b4 / 8 % 4 + 1) = 2 ∨ 2 ^ (b4 / 8 % 4 + 1) = 4 ∨ 2 ^ (b4 / 8 % 4 + 1) = 8 ∨
      2 ^ (b4 / 8 % 4 + 1) = 16 := by
    rcases hrf with e | e | e | e <;> rw [e] <;> simp
  generalize 2 ^ (b4 / 8 % 4 + 1) = pw at hpow
  have hb1 : fl * 4 * pw ≤ 262144 ∧ 3072 ≤ fl * 4 * pw := by
    rcases hflc with e | e | e | e | e | e <;> rcases hpow with e' | e' | e' | e' <;>
      subst e <;> subst e' <;> exact ⟨by decide, by decide⟩
  have hb0 : fl * 4 ≤ 16384 ∧ 3072 ≤ fl * 4 := by omega
  generalize fl * 4 * pw = p1 at hb1 ⊢
  generalize fl * 4 = p0 at hb0 ⊢
  by_cases hm : b5 / 32 % 4 = 1
  · simp only [hm, if_true, Nat.one_ne_zero, if_false]
    have s0 : u32 p1 = p1 := u32_of_lt (by omega)
    have s1 : sub32 p1 8 = p1 - 8 := sub32_of_le (by omega) (by omega)
    have s2 : sub32 (p1 - 8) k.IEC_BURST_SPACING_SIZE_BYTES =
        p1 - 8 - k.IEC_BURST_SPACING_SIZE_BYTES := sub32_of_le (by omega) (by omega)
    rw [s0, s1, s2]
    by_cases hle : (b6 * 256 + b7) * 8 ≤ p1 - 8 - k.IEC_BURST_SPACING_SIZE_BYTES
    · rw [if_neg (by omega), if_pos hle]
    · rw [if_pos (by omega), if_neg hle]
  · have hm0 : b5 / 32 % 4 = 0 := by omega
    simp only [hm0, if_true, Nat.zero_ne_one, if_false]
    have s1 : sub32 p0 8 = p0 - 8 := sub32_of_le (by omega) (by omega)
    have s2 : sub32 (p0 - 8) k.IEC_BURST_SPACING_SIZE_BYTES =
        p0 - 8 - k.IEC_BURST_SPACING_SIZE_BYTES := sub32_of_le (by omega) (by omega)
    rw [s1, s2]
    by_cases hle : b6 * 256 + b7 ≤ p0 - 8 - k.IEC_BURST_SPACING_SIZE_BYTES
    · rw [if_neg (by omega), if_pos hle]
    · rw [if_pos (by omega), if_neg hle]

theorem C20_witness :
    (parseIecFrameData refConsts
      { iec61937_decode_open with workBuffer := [248, 114, 78, 31, 8, 57, 0, 3] }).1 = 0 := by
  rw [C20_header_decode refConsts _ (by decide) (by decide) (by decide)]
  rfl

/-- C1 (amended): round trip. For each rate factor accepted by `iec61937_encode_open`
(4 and 16), every burst spacing that is a multiple of 8 (at most 16320) and every
finite sequence of (AU, duration) pairs with `1 <= |AU| <= 65536` and
`duration <= 4096`, the encoder demo's loop (each AU presented to
`iec61937_encode_process` until it is consumed, five calls at most) ends with a run of
calls; if no call of the run returned an error and every emitted burst is regular (its
last `data_offset` is at most `8 * Pd`, and a burst without sub-headers that completes
the pending AU carries a multiple of 8 bytes), then feeding the bursts in order, one
per `iec61937_decode_feed`, to a fresh decoder and calling `iec61937_decode_process`
until `FeedMoreData` succeeds without any error, and the non-empty outputs are, in
order and byte for byte, the AUs the encoder has completely emitted: all AUs of the
sequence but the last `framesStoredCount` ones. -/
theorem C1_round_trip (k : WireConsts) (rateFactor : Nat) (h0 : EncState)
    (pairs : List (List Nat × Nat)) (cap fe fd : Nat)
    (hsp : k.IEC_BURST_SPACING_SIZE_BYTES ≤ 16320)
    (hsp8 : k.IEC_BURST_SPACING_SIZE_BYTES % 8 = 0)
    (hopen : iec61937_encode_open rateFactor = some h0)
    (hpairs : ∀ p, p ∈ pairs → 1 ≤ p.1.length ∧ p.1.length ≤ 65536 ∧ p.2 ≤ 4096)
    (hcap : 65536 ≤ cap) :
    ∃ t hf, encodeAll k (fe + 5) h0 pairs = some (t, hf) ∧
      ((∀ e, e ∈ t → e.2.result = .IECENC_OK) → regularRun k t →
        ∃ os d, decodeChunks k cap (fd + 7) iec61937_decode_open (burstsOf t) = some (os, d) ∧
          ausOf os = (pairs.map Prod.fst).take (pairs.length - hf.framesStoredCount)) := by
  have hi : EncInv h0 := EncReachable.inv hsp (EncReachable.opened rateFactor h0 hopen)
  have hne : ∀ p, p ∈ pairs → p.1 ≠ [] := by
    intro p hp hnil
    have := (hpairs p hp).1
    rw [hnil] at this
    exact absurd this (by decide)
  have hinit : h0.framesStoredCount = 0 ∧ h0.auPending = false ∧ h0.overallDuration = 0 := by
    unfold iec61937_encode_open at hopen
    split at hopen
    · cases hopen
      exact ⟨rfl, rfl, rfl⟩
    · split at hopen
      · cases hopen
        exact ⟨rfl, rfl, rfl⟩
      · cases hopen
  obtain ⟨hc0, hp0, hd0⟩ := hinit
  obtain ⟨t, hf, henc⟩ := encodeAll_total k fe hsp pairs h0 hi (by rw [hd0]; decide) hne
  refine ⟨t, hf, henc, ?_⟩
  intro hall hreg
  have hS : Sim h0 iec61937_decode_open [] := by
    refine ⟨[], [], 0, 0, 0, open_idle, Nat.zero_le _, ?_, ?_, fun _ => ⟨rfl, rfl⟩, ?_, ?_⟩
    · rw [hc0]
      rfl
    · intro i hilt
      rw [hc0] at hilt
      exact absurd hilt (Nat.not_lt_zero _)
    · intro hpe
      rw [hp0] at hpe
      cases hpe
    · rw [hd0]
      decide
  obtain ⟨os, d2, q2, e1, e2, e3⟩ := all_step k cap fd (fe + 5) hsp hsp8 hcap pairs h0
    iec61937_decode_open [] t hf hi hS
    (fun p hp => ⟨hne p hp, (hpairs p hp).2.1, (hpairs p hp).2.2⟩) henc hall hreg
  refine ⟨os, d2, e1, ?_⟩
  obtain ⟨_, _, _, _, _, _, _, hH⟩ := e2
  have hq2 : q2.length = hf.framesStoredCount := by
    rw [hH.eq, List.length_map, List.length_range]
  rw [List.nil_append] at e3
  have hl : pairs.length = (ausOf os).length + q2.length := by
    have := congrArg List.length e3
    rw [List.length_map, List.length_append] at this
    exact this
  rw [e3, ← hq2, hl, Nat.add_sub_cancel, List.take_left]

theorem C1_witness :
    ∃ t hf, encodeAll refConsts 5 (encInit 1 1) [([1, 2, 3, 4, 5, 6, 7, 8], 1024)] =
        some (t, hf) ∧
      (∀ e, e ∈ t → e.2.result = .IECENC_OK) ∧ regularRun refConsts t ∧
      ∃ os d, decodeChunks refConsts 65536 7 iec61937_decode_open (burstsOf t) = some (os, d) ∧
        ausOf os = [[1, 2, 3, 4, 5, 6, 7, 8]] := by
  obtain ⟨t, hf, henc, himp⟩ := C1_round_trip refConsts 4 (encInit 1 1)
    [([1, 2, 3, 4, 5, 6, 7, 8], 1024)] 65536 0 0 (by decide) (by decide) rfl
    (by
      intro p hp
      rw [List.mem_singleton] at hp
      rw [hp]
      decide)
    (by decide)
  have hT : encodeAll refConsts 5 (encInit 1 1) [([1, 2, 3, 4, 5, 6, 7, 8], 1024)] =
      some ([(burstState (encInit 1 1) [1, 2, 3, 4, 5, 6, 7, 8] 1024,
          (iec61937_encode_process refConsts (encInit 1 1) [1, 2, 3, 4, 5, 6, 7, 8] 1024
            MAX_IEC61937_FRAME_SIZE_BYTES).1)],
        (iec61937_encode_process refConsts (encInit 1 1) [1, 2, 3, 4, 5, 6, 7, 8] 1024
            MAX_IEC61937_FRAME_SIZE_BYTES).2) := rfl
  have hpair := Option.some.inj (henc.symm.trans hT)
  have ht : t = [(burstState (encInit 1 1) [1, 2, 3, 4, 5, 6, 7, 8] 1024,
          (iec61937_encode_process refConsts (encInit 1 1) [1, 2, 3, 4, 5, 6, 7, 8] 1024
            MAX_IEC61937_FRAME_SIZE_BYTES).1)] := congrArg Prod.fst hpair
  have hhf : hf = (iec61937_encode_process refConsts (encInit 1 1) [1, 2, 3, 4, 5, 6, 7, 8] 1024
            MAX_IEC61937_FRAME_SIZE_BYTES).2 := congrArg Prod.snd hpair
  have hall : ∀ e, e ∈ t → e.2.result = .IECENC_OK := by
    intro e he
    rw [ht, List.mem_singleton] at he
    rw [he]
    decide
  have hreg : regularRun refConsts t := by
    intro e he _
    rw [ht, List.mem_singleton] at he
    rw [he]
    decide
  have hcount : hf.framesStoredCount = 0 := by
    rw [hhf]
    decide
  obtain ⟨os, d, h1, h2⟩ := himp hall hreg
  rw [hcount] at h2
  exact ⟨t, hf, henc, hall, hreg, os, d, h1, h2⟩

/-- C1, counterexample to "no call returns an error": a factor-4 encoder driven as the
encoder demo does with six one-byte AUs of duration 0 (all within the bounds of the
claim) stores the first four without emitting anything, since no audio frame's worth
of duration is ever accumulated, and returns `IECENC_BUFFER_ERROR` on the fifth call,
which ends the run. -/
theorem C1_counterexample :
    (encodeAll refConsts 5 (encInit 1 1)
      [([1], 0), ([2], 0), ([3], 0), ([4], 0), ([5], 0), ([6], 0)]).map
        (fun r => r.1.map (fun e => e.2.result)) =
      some [.IECENC_OK, .IECENC_OK, .IECENC_OK, .IECENC_OK, .IECENC_BUFFER_ERROR] := by
  decide

/-- C21: `parsePayloadHeader` against the reference decode. On the 8 bytes at the
position of a sub-header, `data_offset` and `data_length` are the big-endian unsigned
fields of the reference decode (2 bytes each in audio mode 0, 3 bytes each otherwise);
the pcm offset is the big-endian 2-byte field read as an unsigned number, never
negative: it is the reference value when that is non-negative and the reference value
plus 65536 when the sign bit of the field is set. -/
theorem C21_parse_sub_header (h : DecState) (p : Nat)
    (hb : ∀ i, peek h.workBuffer i < 256) :
    (parsePayloadHeader h p).1 =
      (referenceSubHeader h.audioMode (memRead h.workBuffer p 8)).1 ∧
    (parsePayloadHeader h p).2.1 =
      (referenceSubHeader h.audioMode (memRead h.workBuffer p 8)).2.1 ∧
    (parsePayloadHeader h p).2.2 =
      (referenceSubHeader h.audioMode (memRead h.workBuffer p 8)).2.2 +
        (if 0 ≤ (referenceSubHeader h.audioMode (memRead h.workBuffer p 8)).2.2 then 0
         else 65536) ∧
    0 ≤ (parsePayloadHeader h p).2.2 := by
  have hm : memRead h.workBuffer p 8 =
      [peek h.workBuffer (p + 0), peek h.workBuffer (p + 1), peek h.workBuffer (p + 2),
        peek h.workBuffer (p + 3), peek h.workBuffer (p + 4), peek h.workBuffer (p + 5),
        peek h.workBuffer (p + 6), peek h.workBuffer (p + 7)] := by
    apply List.ext_getElem
    · rw [memRead_length]; rfl
    · intro i h1 h2
      rw [memRead_length] at h1
      rw [← peek_eq_getElem _ _ (by rw [memRead_length]; exact h1), peek_memRead h1]
      have hi : i = 0 ∨ i = 1 ∨ i = 2 ∨ i = 3 ∨ i = 4 ∨ i = 5 ∨ i = 6 ∨ i = 7 := by omega
      rcases hi with e | e | e | e | e | e | e | e <;> subst e <;> rfl
  have b4 := hb (p + 4)
  have b5 := hb (p + 5)
  have b6 := hb (p + 6)
  have b7 := hb (p + 7)
  rw [hm]
  unfold parsePayloadHeader referenceSubHeader
  by_cases h0 : h.audioMode = 0
  · simp only [h0, if_true, List.take, List.drop, bigEndian, List.length, signed16]
    refine ⟨by omega, by omega, ?_, by omega⟩
    split <;> split <;> omega
  · simp only [h0, if_false, List.take, List.drop, bigEndian, List.length, signed16]
    refine ⟨by omega, by omega, ?_, by omega⟩
    split <;> split <;> omega

theorem C21_witness :
    parsePayloadHeader negativePcmState 0 = (32, 100, 65024) ∧
    referenceSubHeader 1 (memRead negativePcmState.workBuffer 0 8) = (32, 100, -512) ∧
    (parsePayloadHeader negativePcmState 0).2.2 =
      (referenceSubHeader negativePcmState.audioMode
        (memRead negativePcmState.workBuffer 0 8)).2.2 + 65536 :=
  ⟨by decide, by decide,
    (C21_parse_sub_header negativePcmState 0 (by
      intro i
      have hi : i < 8 ∨ 8 ≤ i := by omega
      rcases hi with hi | hi
      · have : i = 0 ∨ i = 1 ∨ i = 2 ∨ i = 3 ∨ i = 4 ∨ i = 5 ∨ i = 6 ∨ i = 7 := by omega
        rcases this with e | e | e | e | e | e | e | e <;> subst e <;> decide
      · rw [peek_of_length_le (by exact hi)]
        decide)).2.2.1.trans (by decide)⟩

/-- C22 (amended): the `Pd` field of an emitted burst. For every call of
`iec61937_encode_process` on a reachable encoder that returns `Ok` with a burst, bytes 6
and 7 of the burst are the big-endian value `ceil(data_burst_length_bytes / 8)`, where
`data_burst_length_bytes = payload_data_length + (num_sub_headers + 1) * sub_header_size`,
`num_sub_headers = num_buffers_to_write - (au_pending ? 1 : 0)` and
`payload_data_length = min(sum of the selected frame lengths, free_bytes)` with
`free_bytes = burst_repetition_period - IEC_HEADER_SIZE_BYTES -
IEC_BURST_SPACING_SIZE_BYTES - (au_pending ? 0 : sub_header_size) -
num_buffers_to_write * sub_header_size`: the sub-headers of the selected frames are
taken off the bytes available for payload. All quantities are those of the state from
which the burst is planned. -/
theorem C22_pd_field (k : WireConsts) (h : EncState) (au : List Nat) (duration cap : Nat)
    (hsp : k.IEC_BURST_SPACING_SIZE_BYTES ≤ 16320) (hr : EncReachable k h) (hau : au ≠ [])
    (hok : (iec61937_encode_process k h au duration cap).1.result = .IECENC_OK)
    (hne : (iec61937_encode_process k h au duration cap).1.outputBufferLength ≠ 0) :
    peek (iec61937_encode_process k h au duration cap).1.outputBuffer 6 < 256 ∧
    peek (iec61937_encode_process k h au duration cap).1.outputBuffer 7 < 256 ∧
    peek (iec61937_encode_process k h au duration cap).1.outputBuffer 6 * 256 +
        peek (iec61937_encode_process k h au duration cap).1.outputBuffer 7 =
      (min (psum (burstState h au duration).frameLength
            (getNumBuffersToWrite k (burstState h au duration)))
          ((burstState h au duration).burstRepetitionPeriod - IEC_HEADER_SIZE_BYTES -
            k.IEC_BURST_SPACING_SIZE_BYTES -
            (if (burstState h au duration).auPending then 0
             else (burstState h au duration).payloadHeaderSize) -
            getNumBuffersToWrite k (burstState h au duration) *
              (burstState h au duration).payloadHeaderSize) +
        (getNumBuffersToWrite k (burstState h au duration) -
            (if (burstState h au duration).auPending then 1 else 0) + 1) *
          (burstState h au duration).payloadHeaderSize + 7) / 8 := by
  have hi := hr.inv hsp
  obtain ⟨hib, hpn, _, hout⟩ := encode_process_layout k h au duration cap hi hsp hau hok hne
  have hnb := getNumBuffersToWrite_le k (burstState h au duration)
  have hcnt := hib.count
  have hA := numAvailableBytes_eq k (burstState h au duration) hib hsp
    (getNumBuffersToWrite k (burstState h au duration)) (by omega)
  have hroom := emitBurst_room k (burstState h au duration) _ hib hsp hnb hpn
  rw [hout, hbrBurst_peek_header _ _ _ _ _ 6 (by decide),
    hbrBurst_peek_header _ _ _ _ _ 7 (by decide), subHeaderEntries_length, memRead_length]
  show pdField _ _ / 256 < 256 ∧ pdField _ _ % 256 < 256 ∧
    pdField _ _ / 256 * 256 + pdField _ _ % 256 = _
  rw [hib.hs]
  unfold IEC_HEADER_SIZE_BYTES
  rw [hA] at hroom ⊢
  have hP : (burstState h au duration).burstRepetitionPeriod ≤ 65536 := by
    rcases hib.rate with ⟨_, h2⟩ | ⟨_, h2⟩ <;> omega
  generalize psum (burstState h au duration).frameLength
    (getNumBuffersToWrite k (burstState h au duration)) = total at *
  generalize (burstState h au duration).burstRepetitionPeriod - 8 -
    k.IEC_BURST_SPACING_SIZE_BYTES -
      (if (burstState h au duration).auPending = true then 0 else 8) -
      getNumBuffersToWrite k (burstState h au duration) * 8 = A at *
  have hm : min total A ≤ A := Nat.min_le_right _ _
  generalize min total A = m at *
  unfold pdField
  omega

theorem C22_witness :
    peek (iec61937_encode_process refConsts (encInit 1 1) [1, 2, 3, 4, 5, 6, 7, 8] 1024
        16384).1.outputBuffer 6 * 256 +
      peek (iec61937_encode_process refConsts (encInit 1 1) [1, 2, 3, 4, 5, 6, 7, 8] 1024
        16384).1.outputBuffer 7 = 3 :=
  (C22_pd_field refConsts (encInit 1 1) [1, 2, 3, 4, 5, 6, 7, 8] 1024 16384 (by decide)
    (EncReachable.opened 4 _ rfl) (by decide) (by decide) (by decide)).2.2.trans (by decide)

/-- C22, as stated, fails for a burst that splits an AU. The first call of a factor-4
encoder on an AU of 16452 bytes (duration 2048) writes a burst whose `Pd` field is 2046:
the burst carries 16352 AU bytes, the 16368 bytes left after header and spacing less the
sub-header and the terminator. The spec formula takes
`available_payload_bytes = 16384 - 8 - 8 - 8 = 16360` and gives
`ceil((16360 + 16) / 8) = 2047`. -/
theorem C22_counterexample :
    peek (iec61937_encode_process refConsts (encInit 1 1) (List.replicate 16452 1) 2048
        16384).1.outputBuffer 6 * 256 +
      peek (iec61937_encode_process refConsts (encInit 1 1) (List.replicate 16452 1) 2048
        16384).1.outputBuffer 7 = 2046 ∧
    claimedPd refConsts (burstState (encInit 1 1) (List.replicate 16452 1) 2048)
      (getNumBuffersToWrite refConsts
        (burstState (encInit 1 1) (List.replicate 16452 1) 2048)) = 2047 := by
  obtain ⟨f1, f2, f3, f4, f5, f6, f7, f8⟩ := splitPlan_facts
  constructor
  · rw [splitBurst_encoded]
    unfold splitBurst
    rw [hbrBurst_peek_header _ _ _ _ _ 6 (by decide),
      hbrBurst_peek_header _ _ _ _ _ 7 (by decide), List.length_replicate]
    decide
  · unfold claimedPd
    rw [f8, f1, f3, f4, f5]
    decide

/-- C23 (amended): `getNumBuffersToWrite` returns the smallest `k <= framesStoredCount`
at which the loop stops: no `j < k` has the sum over `i < j` of
`frameLength[i] + sub_header_size` at or above `available_payload_bytes` or the sum over
`i < j` of `frameDuration[i]` above `overall_duration`, and `k = framesStoredCount`, or
the byte sum of the first `k` frames is `>= available_payload_bytes`, or their duration
sum is `> overall_duration`. The limits are tested before a frame is added, so the
result is the largest `k` of the spec or one more (the frame that crosses a limit is
selected too). `available_payload_bytes = burst_repetition_period -
IEC_HEADER_SIZE_BYTES - IEC_BURST_SPACING_SIZE_BYTES - (au_pending ? 0 : sub_header_size)`;
the hypotheses exclude 32-bit wrap-around of the period and of the byte sum, and a
sub-header size of 0. -/
theorem C23_num_buffers (k : WireConsts) (h : EncState)
    (hP : h.burstRepetitionPeriod < 4294967296)
    (hroom : IEC_HEADER_SIZE_BYTES + k.IEC_BURST_SPACING_SIZE_BYTES + h.payloadHeaderSize ≤
      h.burstRepetitionPeriod)
    (hb : psum h.frameLength h.framesStoredCount + h.framesStoredCount * h.payloadHeaderSize <
      4294967296)
    (hhs : 0 < h.payloadHeaderSize) :
    getNumBuffersToWrite k h ≤ h.framesStoredCount ∧
    (∀ j, j < getNumBuffersToWrite k h →
      psum h.frameLength j + j * h.payloadHeaderSize < availablePayloadBytes k h ∧
      ((psum h.frameDuration j : Nat) : Int) ≤ h.overallDuration) ∧
    (getNumBuffersToWrite k h = h.framesStoredCount ∨
      psum h.frameLength (getNumBuffersToWrite k h) +
        getNumBuffersToWrite k h * h.payloadHeaderSize ≥ availablePayloadBytes k h ∨
      ((psum h.frameDuration (getNumBuffersToWrite k h) : Nat) : Int) > h.overallDuration) ∧
    referenceNumBuffers k h ≤ getNumBuffersToWrite k h ∧
    getNumBuffersToWrite k h ≤ referenceNumBuffers k h + 1 := by
  have hspec := getNumBuffersLoop_spec h (availablePayloadBytes k h) hb h.framesStoredCount 0
    (Nat.zero_add _)
  have e0 : psum h.frameLength 0 + 0 * h.payloadHeaderSize = 0 := by
    rw [Nat.zero_mul]; rfl
  have e1 : ((psum h.frameDuration 0 : Nat) : Int) = 0 := rfl
  rw [e0, e1] at hspec
  have hdef : getNumBuffersToWrite k h =
      getNumBuffersLoop h (availablePayloadBytes k h) h.framesStoredCount 0 0 0 := by
    unfold getNumBuffersToWrite
    rw [availableBytes_spec k h hP hroom]
  rw [← hdef] at hspec
  obtain ⟨-, a2, a3, a4⟩ := hspec
  refine ⟨a2, fun j hj => a3 j (Nat.zero_le _) hj, a4, ?_, ?_⟩
  · rcases largestUpTo_sat (fun j =>
      decide (psum h.frameLength j + j * h.payloadHeaderSize ≤ availablePayloadBytes k h ∧
        ((psum h.frameDuration j : Nat) : Int) ≤ h.overallDuration)) h.framesStoredCount
      with h0 | hs
    · unfold referenceNumBuffers
      rw [h0]
      exact Nat.zero_le _
    · have hle := largestUpTo_le (fun j =>
        decide (psum h.frameLength j + j * h.payloadHeaderSize ≤ availablePayloadBytes k h ∧
          ((psum h.frameDuration j : Nat) : Int) ≤ h.overallDuration)) h.framesStoredCount
      change decide (psum h.frameLength (referenceNumBuffers k h) +
        referenceNumBuffers k h * h.payloadHeaderSize ≤ availablePayloadBytes k h ∧
        ((psum h.frameDuration (referenceNumBuffers k h) : Nat) : Int) ≤ h.overallDuration) =
        true at hs
      change referenceNumBuffers k h ≤ h.framesStoredCount at hle
      have hs2 := of_decide_eq_true hs
      by_contra hgt
      have hlt : getNumBuffersToWrite k h < referenceNumBuffers k h := by omega
      have hm1 : psum h.frameLength (getNumBuffersToWrite k h) ≤
          psum h.frameLength (referenceNumBuffers k h) := psum_mono _ (by omega)
      have hm2 : psum h.frameDuration (getNumBuffersToWrite k h) ≤
          psum h.frameDuration (referenceNumBuffers k h) := psum_mono _ (by omega)
      have hm3 : getNumBuffersToWrite k h * h.payloadHeaderSize ≤
          referenceNumBuffers k h * h.payloadHeaderSize := Nat.mul_le_mul_right _ (by omega)
      have hm4 : (getNumBuffersToWrite k h + 1) * h.payloadHeaderSize ≤
          referenceNumBuffers k h * h.payloadHeaderSize := Nat.mul_le_mul_right _ (by omega)
      have hm5 : (getNumBuffersToWrite k h + 1) * h.payloadHeaderSize =
          getNumBuffersToWrite k h * h.payloadHeaderSize + h.payloadHeaderSize :=
        Nat.succ_mul _ _
      rcases a4 with c1 | c2 | c3
      · omega
      · omega
      · omega
  · by_cases h0 : getNumBuffersToWrite k h = 0
    · omega
    · have hj := a3 (getNumBuffersToWrite k h - 1) (Nat.zero_le _) (by omega)
      have := largestUpTo_ge (fun j =>
        decide (psum h.frameLength j + j * h.payloadHeaderSize ≤ availablePayloadBytes k h ∧
          ((psum h.frameDuration j : Nat) : Int) ≤ h.overallDuration)) h.framesStoredCount
        (getNumBuffersToWrite k h - 1) (by omega)
        (decide_eq_true ⟨Nat.le_of_lt hj.1, hj.2⟩)
      change getNumBuffersToWrite k h - 1 ≤ referenceNumBuffers k h at this
      omega

theorem C23_witness :
    getNumBuffersToWrite refConsts (burstState (encInit 1 1) [1, 2, 3, 4, 5, 6, 7, 8] 1024) = 1 ∧
    referenceNumBuffers refConsts (burstState (encInit 1 1) [1, 2, 3, 4, 5, 6, 7, 8] 1024) = 1 ∧
    referenceNumBuffers refConsts (burstState (encInit 1 1) [1, 2, 3, 4, 5, 6, 7, 8] 1024) ≤
      getNumBuffersToWrite refConsts (burstState (encInit 1 1) [1, 2, 3, 4, 5, 6, 7, 8] 1024) :=
  ⟨by decide, by decide,
   (C23_num_buffers refConsts (burstState (encInit 1 1) [1, 2, 3, 4, 5, 6, 7, 8] 1024)
    (by decide) (by decide) (by decide) (by decide)).2.2.2.1⟩

/-- C23, as stated, fails when the next stored frame does not fit. With one stored AU of
16452 bytes (duration 2048) in a factor-4 encoder, `available_payload_bytes` is
`16384 - 8 - 8 - 8 = 16360` and `16452 + 8 > 16360`, so the largest `k` of the spec is
0; `getNumBuffersToWrite` returns 1, the frame being selected for splitting. -/
theorem C23_counterexample :
    getNumBuffersToWrite refConsts
      (burstState (encInit 1 1) (List.replicate 16452 1) 2048) = 1 ∧
    referenceNumBuffers refConsts
      (burstState (encInit 1 1) (List.replicate 16452 1) 2048) = 0 ∧
    (burstState (encInit 1 1) (List.replicate 16452 1) 2048).framesStoredCount = 1 ∧
    availablePayloadBytes refConsts
      (burstState (encInit 1 1) (List.replicate 16452 1) 2048) = 16360 ∧
    peek (burstState (encInit 1 1) (List.replicate 16452 1) 2048).frameLength 0 = 16452 := by
  obtain ⟨f1, f2, f3, f4, f5, f6, f7, f8⟩ := splitPlan_facts
  refine ⟨f8, ?_, f2, ?_, ?_⟩
  · unfold referenceNumBuffers availablePayloadBytes
    rw [f1, f2, f3, f4, f5, f6, f7]
    decide
  · unfold availablePayloadBytes
    rw [f3, f4, f5]
    decide
  · rw [f1]
    decide

/-- C24: the sub-headers of an emitted burst. For a call of `iec61937_encode_process`
on a reachable encoder that returns `Ok` with a burst of `n` sub-headers
(`n = num_buffers_to_write - (au_pending ? 1 : 0)`, sub-header size 8), the `j`-th
sub-header, read as three big-endian fields, carries
`data_offset = 8 + (n + 1) * 8 + c + sum of len_i for i < j`, `data_length = len_j` and,
in its pcm offset field, the low 16 bits of `p + sum of dur_i for i < j`, where `c` is the
length of the pending continuation at the head of the frame table (0 when no AU is
pending), `p` the encoder's `pcmOffset` on entry and `len`, `dur` the lengths and
durations of the selected frames behind the pending one. After the call the encoder's
`pcmOffset` is `p + sum of dur_i for i < n - 1024`. -/
theorem C24_sub_header_fields (k : WireConsts) (h : EncState) (au : List Nat)
    (duration cap : Nat)
    (hsp : k.IEC_BURST_SPACING_SIZE_BYTES ≤ 16320) (hr : EncReachable k h) (hau : au ≠ [])
    (hok : (iec61937_encode_process k h au duration cap).1.result = .IECENC_OK)
    (hne : (iec61937_encode_process k h au duration cap).1.outputBufferLength ≠ 0) :
    (∀ j, j < getNumBuffersToWrite k (burstState h au duration) -
          (if h.auPending then 1 else 0) →
      burstSubHeader 1 (iec61937_encode_process k h au duration cap).1.outputBuffer j =
        (8 + (getNumBuffersToWrite k (burstState h au duration) -
              (if h.auPending then 1 else 0) + 1) * 8 +
            (if h.auPending then peek (burstState h au duration).frameLength 0 else 0) +
            (psum (burstState h au duration).frameLength ((if h.auPending then 1 else 0) + j) -
              psum (burstState h au duration).frameLength (if h.auPending then 1 else 0)),
          peek (burstState h au duration).frameLength ((if h.auPending then 1 else 0) + j),
          (h.pcmOffset +
            ((psum (burstState h au duration).frameDuration
                ((if h.auPending then 1 else 0) + j) -
              psum (burstState h au duration).frameDuration
                (if h.auPending then 1 else 0) : Nat) : Int)) % 65536)) ∧
    (iec61937_encode_process k h au duration cap).2.pcmOffset =
      h.pcmOffset +
        ((psum (burstState h au duration).frameDuration
            ((if h.auPending then 1 else 0) +
              (getNumBuffersToWrite k (burstState h au duration) -
                (if h.auPending then 1 else 0))) -
          psum (burstState h au duration).frameDuration
            (if h.auPending then 1 else 0) : Nat) : Int) - 1024 := by
  have hi := hr.inv hsp
  obtain ⟨hib, hpn, _, hout⟩ := encode_process_layout k h au duration cap hi hsp hau hok hne
  have hnb := getNumBuffersToWrite_le k (burstState h au duration)
  have hcnt := hib.count
  have hpe := burstState_auPending h au duration
  have hpc := burstState_pcmOffset h au duration
  rw [hpe] at hout hpn
  rw [hpc] at hout
  constructor
  · intro j hj
    rw [hout]
    have hg := subHeaderEntries_get (burstState h au duration).frameLength
      (burstState h au duration).frameDuration
      (getNumBuffersToWrite k (burstState h au duration) - (if h.auPending then 1 else 0))
      (if h.auPending then 1 else 0)
      (8 + (getNumBuffersToWrite k (burstState h au duration) -
        (if h.auPending then 1 else 0) + 1) * 8 +
        (if h.auPending then peek (burstState h au duration).frameLength 0 else 0))
      h.pcmOffset j hj
    obtain ⟨off, pcm, e1, e2, e3, e4, e5⟩ := emitBurst_entries (burstState h au duration)
      (getNumBuffersToWrite k (burstState h au duration)) hib hnb j (by rw [hpe]; exact hj)
    rw [hpe, hpc, hg] at e1
    have e6 := Option.some.inj e1
    have e7 : 8 + (getNumBuffersToWrite k (burstState h au duration) -
        (if h.auPending then 1 else 0) + 1) * 8 +
        (if h.auPending then peek (burstState h au duration).frameLength 0 else 0) +
        (psum (burstState h au duration).frameLength ((if h.auPending then 1 else 0) + j) -
          psum (burstState h au duration).frameLength (if h.auPending then 1 else 0)) = off :=
      congrArg Prod.fst e6
    rw [hpe] at e5
    exact burstSubHeader_hbrBurst k _ _ _ _ j _ hg (by rw [e7]; exact e3) e5
  · rcases encode_process_ok k h au duration cap hi hsp hau hok with ⟨he, _⟩ | ⟨he, _, _, _⟩
    · rw [he] at hne
      exact absurd rfl hne
    · rw [he, emitBurst_pcmOffset k _ _ _ (by omega) (by rw [hpe]; exact hpn), hpe, hpc, hib.afl]

theorem C24_witness :
    burstSubHeader 1 (iec61937_encode_process refConsts (encInit 1 1) [1, 2, 3, 4, 5, 6, 7, 8]
      1024 16384).1.outputBuffer 0 = (24, 8, 0) :=
  ((C24_sub_header_fields refConsts (encInit 1 1) [1, 2, 3, 4, 5, 6, 7, 8] 1024 16384
    (by decide) (EncReachable.opened 4 _ rfl) (by decide) (by decide) (by decide)).1 0
    (by decide)).trans (by decide)

/-- C25 (what the code does): the bookkeeping of `iec61937_encode_process` after it has
written a burst. `S` is the state from which the burst is planned, `nb` the number of
selected frames, `total` their length and `free` the free payload bytes of the burst.
If `total > free`: `auPending` is true, the first table entry is `(total - free, 0)`,
the selected frames but the last are removed; when the frames before the last selected
one fit the free bytes, the remainder is the unsent tail of the last selected frame;
when they do not, the remainder is longer than the last selected frame (it holds unsent
bytes of an earlier frame as well). If `total <= free`: `auPending` is false and the
selected frames are removed. In both cases the stored bytes are the payload written to
the burst followed by the bytes stored afterwards, and the write cursor is the sum of
the remaining frame lengths. -/
theorem C25_split_bookkeeping (k : WireConsts) (h : EncState) (au : List Nat)
    (duration cap : Nat) (hsp : k.IEC_BURST_SPACING_SIZE_BYTES ≤ 16320)
    (hr : EncReachable k h) (hau : au ≠ [])
    (hok : (iec61937_encode_process k h au duration cap).1.result = .IECENC_OK)
    (hne : (iec61937_encode_process k h au duration cap).1.outputBufferLength ≠ 0) :
    let S := burstState h au duration
    let nb := getNumBuffersToWrite k S
    let total := psum S.frameLength nb
    let free := numAvailableBytes k S nb
    let h2 := (iec61937_encode_process k h au duration cap).2
    (total > free →
      h2.auPending = true ∧
      h2.framesStoredCount = S.framesStoredCount - (nb - 1) ∧
      peek h2.frameLength 0 = total - free ∧
      peek h2.frameDuration 0 = 0 ∧
      (∀ t, 1 ≤ t → t < h2.framesStoredCount →
        peek h2.frameLength t = peek S.frameLength (nb - 1 + t) ∧
        peek h2.frameDuration t = peek S.frameDuration (nb - 1 + t)) ∧
      (psum S.frameLength (nb - 1) ≤ free →
        frameBytes h2 0 = (frameBytes S (nb - 1)).drop (free - psum S.frameLength (nb - 1))) ∧
      (free < psum S.frameLength (nb - 1) → peek S.frameLength (nb - 1) < total - free)) ∧
    (total ≤ free →
      h2.auPending = false ∧
      h2.framesStoredCount = S.framesStoredCount - nb ∧
      ∀ t, t < h2.framesStoredCount →
        peek h2.frameLength t = peek S.frameLength (nb + t) ∧
        peek h2.frameDuration t = peek S.frameDuration (nb + t)) ∧
    memRead S.workBuffer 0 (psum S.frameLength S.framesStoredCount) =
      memRead S.workBuffer 0 (min total free) ++
        memRead h2.workBuffer 0 (psum h2.frameLength h2.framesStoredCount) ∧
    h2.pWorkBufferWrite = psum h2.frameLength h2.framesStoredCount ∧
    ∃ subs, (iec61937_encode_process k h au duration cap).1.outputBuffer =
      hbrBurst k h.rateFactor h.burstRepetitionPeriod subs
        (memRead S.workBuffer 0 (min total free)) := by
  intro S nb total free h2
  have hi := hr.inv hsp
  obtain ⟨_, _, _, hout⟩ := encode_process_layout k h au duration cap hi hsp hau hok hne
  rcases encode_process_ok k h au duration cap hi hsp hau hok with ⟨he, _⟩ | ⟨he, hib, _, hp⟩
  · rw [he] at hne
    exact absurd rfl hne
  · obtain ⟨g1, g2, g3, g4⟩ := emitBurst_bookkeeping k S nb
      (decide (h.overallDuration < h.audioFrameLength)) hib hsp
      (getNumBuffersToWrite_le k S) hp
    have hh : h2 = (emitBurst k S nb (decide (h.overallDuration < h.audioFrameLength))).2 := by
      show (iec61937_encode_process k h au duration cap).2 = _
      rw [he]
    rw [hh]
    exact ⟨g1, g2, g3, g4, _, hout⟩

/-- The mis-split scenario (factor 4, AU 0 of 16350 bytes, AU 1 of 100 bytes, duration
512 each): the burst written by the second call selects both AUs, carries 16344 payload
bytes, and the remainder kept as the pending AU is 106 bytes long, more than the 100
bytes of the last selected AU. -/
theorem C25_witness :
    getNumBuffersToWrite refConsts (burstState misSplitState (List.replicate 100 1) 512) = 2 ∧
    peek (burstState misSplitState (List.replicate 100 1) 512).frameLength 1 = 100 ∧
    (iec61937_encode_process refConsts misSplitState (List.replicate 100 1) 512
      16384).2.auPending = true ∧
    peek (iec61937_encode_process refConsts misSplitState (List.replicate 100 1) 512
      16384).2.frameLength 0 = 106 := by
  obtain ⟨m1, m2, m3, m4, m5, m6, m7, m8, m9, m10⟩ := misSplit_facts
  have hr : EncReachable refConsts misSplitState :=
    EncReachable.step _ _ _ _ (EncReachable.opened 4 _ rfl) (by
      intro e
      have := congrArg List.length e
      rw [List.length_replicate] at this
      cases this)
  have hau : List.replicate 100 1 ≠ [] := by
    intro e
    have := congrArg List.length e
    rw [List.length_replicate] at this
    cases this
  have key := C25_split_bookkeeping refConsts misSplitState (List.replicate 100 1) 512 16384
    (by decide) hr hau m9 (by rw [m10]; decide)
  simp only [m3, m7, m8, m5] at key ⊢
  obtain ⟨k1, -⟩ := key
  obtain ⟨k2, -, k3, -⟩ := k1 (by decide)
  exact ⟨trivial, by decide, k2, k3.trans (by decide)⟩

/-- C26: what the two restart branches of the sync loop do. When the sync loop holds a
candidate at index 0 whose burst is complete in the work buffer and the burst fails
validation (a non-zero byte in the burst-spacing region, or `checkPayloadHeaders`
returns false), the loop goes on from a state whose sync state is reset and whose work
buffer holds, in its first `workBufferBytesAvailable - 8` cells, the previous bytes from
index 8 on; `workBufferBytesAvailable` itself is unchanged, not 8 smaller, so the last
8 bytes of the buffer are counted twice. -/
theorem C26_restart_keeps_count (k : WireConsts) (h : DecState) (fuel : Nat)
    (hsf : h.syncFound = false) (hc : h.syncCandidateFound = true)
    (hidx : h.syncCandidateIndex = 0)
    (havail : h.workBufferBytesAvailable > IEC_HEADER_SIZE_BYTES)
    (h32 : h.workBufferBytesAvailable < 4294967296)
    (hper : h.workBufferBytesAvailable ≥ h.syncCandidateIndex + h.burstRepetitionPeriod)
    (hfail : checkBurstSpacing k h = false ∨
      (checkBurstSpacing k h = true ∧ ∃ n, checkPayloadHeaders h = some (false, n))) :
    ∃ h2, syncLoop k (fuel + 1) h = syncLoop k fuel h2 ∧
      h2.workBuffer = memMove h.workBuffer 0 8 (h.workBufferBytesAvailable - 8) ∧
      (∀ i, i < h.workBufferBytesAvailable - 8 → peek h2.workBuffer i = peek h.workBuffer (8 + i)) ∧
      h2.workBufferBytesAvailable = h.workBufferBytesAvailable ∧
      h2.syncFound = false ∧ h2.syncCandidateFound = false ∧ h2.syncCandidateIndex = 0 := by
  unfold IEC_HEADER_SIZE_BYTES at havail
  have hsearch : candidateSearch k h = h := by
    unfold candidateSearch
    rw [if_neg (by rw [hc]; simp)]
  have hwb : (dropCandidate h).workBuffer =
      memMove h.workBuffer 0 8 (h.workBufferBytesAvailable - 8) := by
    show memMove h.workBuffer 0 (h.syncCandidateIndex + IEC_HEADER_SIZE_BYTES)
      (sub32 (sub32 h.workBufferBytesAvailable h.syncCandidateIndex) IEC_HEADER_SIZE_BYTES) = _
    rw [hidx, sub32_of_le (Nat.zero_le _) h32, Nat.sub_zero,
      sub32_of_le (by unfold IEC_HEADER_SIZE_BYTES; omega) h32]
    rfl
  have hav : (dropCandidate h).workBufferBytesAvailable = h.workBufferBytesAvailable := by
    show sub32 h.workBufferBytesAvailable h.syncCandidateIndex = _
    rw [hidx, sub32_of_le (Nat.zero_le _) h32, Nat.sub_zero]
  have hpeek : ∀ i, i < h.workBufferBytesAvailable - 8 →
      peek (memMove h.workBuffer 0 8 (h.workBufferBytesAvailable - 8)) i =
        peek h.workBuffer (8 + i) := by
    intro i hi
    rw [peek_memMove_zero, if_pos hi]
  have hstep : syncLoop k (fuel + 1) h =
      if checkBurstSpacing k h then
        match checkPayloadHeaders h with
        | none => none
        | some (true, numPayloadHeaders) =>
          syncLoop k fuel
            { h with syncFound := true, numPayloadHeaders := numPayloadHeaders,
                     payloadHeaderIndex := 0 }
        | some (false, _) =>
          syncLoop k fuel (resetPendingState (resetParsingState (resetSyncState (dropCandidate h))))
      else syncLoop k fuel (resetSyncState (dropCandidate h)) := by
    rw [syncLoop, if_pos (by rw [hsf]; exact ⟨by simp, havail⟩)]
    simp only [hsearch, hc, if_true]
    rw [if_pos hper]
  rcases hfail with hsp | ⟨hsp, n, hn⟩
  · refine ⟨resetSyncState (dropCandidate h), ?_, hwb, ?_, hav, rfl, rfl, rfl⟩
    · rw [hstep, hsp]
      simp
    · intro i hi
      show peek (dropCandidate h).workBuffer i = _
      rw [hwb]
      exact hpeek i hi
  · refine ⟨resetPendingState (resetParsingState (resetSyncState (dropCandidate h))), ?_, hwb, ?_,
      hav, rfl, rfl, rfl⟩
    · rw [hstep, hsp, hn]
      simp
    · intro i hi
      show peek (dropCandidate h).workBuffer i = _
      rw [hwb]
      exact hpeek i hi

theorem C26_witness :
    ∃ h2, syncLoop refConsts 1 heldLoop = syncLoop refConsts 0 h2 ∧
      h2.workBufferBytesAvailable = 3072 := by
  obtain ⟨h2, e1, _, _, e4, _⟩ := C26_restart_keeps_count refConsts heldLoop 0 rfl rfl rfl
    (by decide) (by decide) (by decide) (Or.inl heldLoop_spacing)
  exact ⟨h2, e1, e4⟩

/-- C27: `checkPayloadHeaders` returns, and it returns true reporting `n` iff the
sub-headers read from burst offset 8 on have their first terminator (`data_length = 0`)
at entry `n` and the `n` entries before it satisfy: every entry after the first has a
`data_offset` greater than its predecessor's, every entry has `data_offset <=
payloadLength`, and, when `n >= 1`, the first `data_offset` is at least
`(n + 1) * payloadHeaderSize + IEC_HEADER_SIZE_BYTES + frameBytesMissing`. The
hypotheses exclude 32-bit wrap-around of the counters. -/
theorem C27_check_payload_headers (h : DecState)
    (hPL : h.payloadLength + 2 < 4294967296)
    (hnw : (h.payloadLength + 2) * h.payloadHeaderSize + IEC_HEADER_SIZE_BYTES +
      h.frameBytesMissing < 4294967296) :
    (∃ r, checkPayloadHeaders h = some r) ∧
    ∀ n, checkPayloadHeaders h = some (true, n) ↔ headersAccepted h n := by
  have hspec := checkPayloadHeadersLoop_spec h hPL hnw (h.payloadLength + 2) 0 0 0
    (Nat.zero_add _) (fun i hi => absurd hi (Nat.not_lt_zero _))
    (fun i hi => absurd hi (Nat.not_lt_zero _)) (fun i hi => absurd hi (Nat.not_lt_zero _))
    (fun h0 => absurd h0 (by decide))
  rw [Nat.zero_mul, Nat.add_zero] at hspec
  exact hspec

theorem C27_witness :
    headersAccepted twoHeaderState 2 ∧ checkPayloadHeaders twoHeaderState = some (true, 2) ∧
    ¬ headersAccepted twoHeaderState 1 :=
  ⟨((C27_check_payload_headers twoHeaderState (by decide) (by decide)).2 2).mp (by decide),
   by decide, by decide⟩

/-- C28 (amended): sub-header emission, unsplit case. With sync held, nothing pending,
the cursor on a sub-header, `data_length <= capacity` and
`data_offset + data_length <= IEC_HEADER_SIZE_BYTES + payload_length`,
`iec61937_decode_process` returns `Ok` with `out_len = data_length`, the output equal to
the burst bytes `[data_offset, data_offset + data_length)`, the pcm offset as parsed and
the IEC frame length; the cursor is advanced by one, and when that was the last
sub-header the burst is finished in the same call: `iec_frame_processed` is true, the
burst is removed from the work buffer and sync and parser state are reset, so that the
cursor is 0 afterwards. -/
theorem C28_emit_whole_au (k : WireConsts) (h : DecState) (cap fuel : Nat)
    (hs : h.syncFound = true) (hfm : h.frameBytesMissing = 0)
    (hidx : h.payloadHeaderIndex < h.numPayloadHeaders)
    (hcap : (currentSubHeader h).2.1 ≤ cap)
    (hfit : (currentSubHeader h).1 + (currentSubHeader h).2.1 ≤
      IEC_HEADER_SIZE_BYTES + h.payloadLength) :
    iec61937_decode_process k (fuel + 1) h cap =
      some (DecOut.mk .IECDEC_OK
          (memRead h.workBuffer (h.syncCandidateIndex + (currentSubHeader h).1)
            (currentSubHeader h).2.1)
          (currentSubHeader h).2.1 (currentSubHeader h).2.2 h.frameLength
          (decide (h.payloadHeaderIndex + 1 = h.numPayloadHeaders)),
        if h.payloadHeaderIndex + 1 = h.numPayloadHeaders then
          finishBurst { h with payloadHeaderIndex := h.payloadHeaderIndex + 1 }
        else { h with payloadHeaderIndex := h.payloadHeaderIndex + 1 }) ∧
    (h.payloadHeaderIndex + 1 = h.numPayloadHeaders →
      (finishBurst { h with payloadHeaderIndex := h.payloadHeaderIndex + 1 }).payloadHeaderIndex
        = 0) := by
  refine ⟨?_, fun _ => rfl⟩
  rw [process_of_sync k h cap fuel hs, processSynced_of_idle h cap hfm]
  unfold currentSubHeader at hcap hfit ⊢
  generalize hhdr : parsePayloadHeader h (h.syncCandidateIndex + IEC_HEADER_SIZE_BYTES +
      h.payloadHeaderIndex * h.payloadHeaderSize) = hdr at hcap hfit ⊢
  unfold emitPayload
  simp only [hhdr]
  rw [if_pos hidx, if_neg (by omega), if_neg (by omega)]
  simp only []
  by_cases hl : h.payloadHeaderIndex + 1 = h.numPayloadHeaders
  · rw [if_pos hl, if_pos hl]
    simp only [hl, decide_True]
    rfl
  · rw [if_neg hl, if_neg hl]
    simp only [hl, decide_False]

theorem C28_witness :
    (iec61937_decode_process refConsts 1 s1Synced 65536).map
      (fun r => (r.1.outputBufferLength, r.2.payloadHeaderIndex)) = some (100, 0) := by
  rw [(C28_emit_whole_au refConsts s1Synced 65536 0 rfl rfl (by decide) (by decide)
    (by decide)).1]
  decide

/-- C28, as stated, fails on the last sub-header of a burst. The S1 burst (one
sub-header (24, 100, 0), AU of 100 bytes) is fed to a fresh decoder and the sync loop
accepts it: sync is held, nothing is pending, the cursor (0) is below the number of
sub-headers (1), the AU fits the capacity and lies whole in the burst. The call returns
`Ok` with the 100 bytes, and the sub-header cursor afterwards is 0, not 1. -/
theorem C28_counterexample :
    syncLoop refConsts 2 (iec61937_decode_feed iec61937_decode_open s1Burst).2 =
      some s1Synced ∧
    s1Synced.syncFound = true ∧ s1Synced.frameBytesMissing = 0 ∧
    s1Synced.payloadHeaderIndex = 0 ∧ s1Synced.numPayloadHeaders = 1 ∧
    currentSubHeader s1Synced = (24, 100, 0) ∧
    24 + 100 ≤ IEC_HEADER_SIZE_BYTES + s1Synced.payloadLength ∧
    (iec61937_decode_process refConsts 1 s1Synced 65536).map
      (fun r => (r.1.result, r.1.outputBufferLength, r.2.payloadHeaderIndex)) =
      some (.IECDEC_OK, 100, 0) :=
  ⟨s1_sync, rfl, rfl, rfl, rfl, by decide, by decide, by decide⟩

/-- C29 (amended): sub-header emission, split case. With sync held, nothing pending,
the cursor on a sub-header with `data_length <= capacity`,
`data_offset <= payload_length + 8` and
`data_offset + data_length > IEC_HEADER_SIZE_BYTES + payload_length`, and the store
inside the pending state (`splitStoreFits`: the prefix has at most
`MAX_MPEGH_FRAME_SIZE` bytes, the size of the pending buffer),
`iec61937_decode_process` copies the `payload_length + 8 - data_offset` bytes at burst
offset `data_offset` to the start of the pending buffer, sets `frameBytesPending` to that
number, `frameBytesMissing` to `data_length` less that number and `pcmOffsetPending` to
the parsed pcm offset less the frame length, and returns `Ok` with `out_len = 0`; the
cursor is advanced by one, and when that was the last sub-header the burst is finished
in the same call (`iec_frame_processed` true, burst removed, sync and parser state
reset, cursor 0). The bytes kept are at most `MAX_MPEGH_FRAME_SIZE`. -/
theorem C29_emit_split_au (k : WireConsts) (h : DecState) (cap fuel : Nat)
    (hs : h.syncFound = true) (hfm : h.frameBytesMissing = 0)
    (hidx : h.payloadHeaderIndex < h.numPayloadHeaders)
    (hcap : (currentSubHeader h).2.1 ≤ cap)
    (hoff : (currentSubHeader h).1 ≤ h.payloadLength + IEC_HEADER_SIZE_BYTES)
    (hsplit : (currentSubHeader h).1 + (currentSubHeader h).2.1 >
      IEC_HEADER_SIZE_BYTES + h.payloadLength)
    (hlen : (currentSubHeader h).2.1 < 4294967296)
    (hpl : h.payloadLength + IEC_HEADER_SIZE_BYTES < 4294967296)
    (hfit : splitStoreFits h) :
    iec61937_decode_process k (fuel + 1) h cap =
      some (DecOut.mk .IECDEC_OK [] 0 0 h.frameLength
          (decide (h.payloadHeaderIndex + 1 = h.numPayloadHeaders)),
        if h.payloadHeaderIndex + 1 = h.numPayloadHeaders then
          finishBurst { h with
            frameBytesPending := h.payloadLength + 8 - (currentSubHeader h).1,
            frameBytesMissing :=
              (currentSubHeader h).2.1 - (h.payloadLength + 8 - (currentSubHeader h).1),
            frameBufferPending := memWrite h.frameBufferPending 0
              (memRead h.workBuffer (h.syncCandidateIndex + (currentSubHeader h).1)
                (h.payloadLength + 8 - (currentSubHeader h).1)),
            pcmOffsetPending := (currentSubHeader h).2.2 - (h.frameLength : Int),
            payloadHeaderIndex := h.payloadHeaderIndex + 1 }
        else
          { h with
            frameBytesPending := h.payloadLength + 8 - (currentSubHeader h).1,
            frameBytesMissing :=
              (currentSubHeader h).2.1 - (h.payloadLength + 8 - (currentSubHeader h).1),
            frameBufferPending := memWrite h.frameBufferPending 0
              (memRead h.workBuffer (h.syncCandidateIndex + (currentSubHeader h).1)
                (h.payloadLength + 8 - (currentSubHeader h).1)),
            pcmOffsetPending := (currentSubHeader h).2.2 - (h.frameLength : Int),
            payloadHeaderIndex := h.payloadHeaderIndex + 1 }) ∧
    h.payloadLength + 8 - (currentSubHeader h).1 ≤ MAX_MPEGH_FRAME_SIZE := by
  obtain ⟨a1, a2⟩ := splitState_amounts h hoff hsplit hlen hpl
  have hst : splitState h =
      { h with
        frameBytesPending := h.payloadLength + 8 - (currentSubHeader h).1,
        frameBytesMissing :=
          (currentSubHeader h).2.1 - (h.payloadLength + 8 - (currentSubHeader h).1),
        frameBufferPending := memWrite h.frameBufferPending 0
          (memRead h.workBuffer (h.syncCandidateIndex + (currentSubHeader h).1)
            (h.payloadLength + 8 - (currentSubHeader h).1)),
        pcmOffsetPending := (currentSubHeader h).2.2 - (h.frameLength : Int),
        payloadHeaderIndex := h.payloadHeaderIndex + 1 } := by
    unfold splitState at a1 a2 ⊢
    dsimp only at a1 a2 ⊢
    rw [a1, a2]
  refine ⟨?_, a1 ▸ hfit.1⟩
  rw [process_split k h cap fuel hs hfm hidx hcap hsplit, hst]

theorem C29_witness :
    (iec61937_decode_process refConsts 1 splitSynced 65536).map
      (fun r => (r.1.outputBufferLength, r.2.frameBytesPending, r.2.frameBytesMissing)) =
      some (0, 16352, 100) := by
  rw [(C29_emit_split_au refConsts splitSynced 65536 0 rfl rfl (by decide) (by decide)
    (by decide) (by decide) (by decide) (by decide) (by decide)).1]
  decide

/-- C29, as stated, fails on the last sub-header of a burst, which is where the encoder
puts a split AU. `splitBurst`, the first burst the encoder writes for an AU of 16452
bytes, is fed to a fresh decoder and accepted: sync is held, nothing is pending, the
cursor (0) is below the number of sub-headers (1), and the sub-header (24, 16452, 0)
reaches beyond the payload (`24 + 16452 > 8 + 16368`). The call returns `Ok` with
`out_len = 0` and keeps 16352 bytes as pending with 100 missing; the sub-header cursor
afterwards is 0, not 1. -/
theorem C29_counterexample :
    (iec61937_encode_process refConsts (encInit 1 1) (List.replicate 16452 1) 2048
      16384).1.outputBuffer = splitBurst ∧
    syncLoop refConsts 2 (iec61937_decode_feed iec61937_decode_open splitBurst).2 =
      some splitSynced ∧
    splitSynced.syncFound = true ∧ splitSynced.frameBytesMissing = 0 ∧
    splitSynced.payloadHeaderIndex = 0 ∧ splitSynced.numPayloadHeaders = 1 ∧
    currentSubHeader splitSynced = (24, 16452, 0) ∧
    24 + 16452 > IEC_HEADER_SIZE_BYTES + splitSynced.payloadLength ∧
    (iec61937_decode_process refConsts 1 splitSynced 65536).map
      (fun r => (r.1.result, r.1.outputBufferLength, r.2.frameBytesPending,
        r.2.frameBytesMissing, r.2.payloadHeaderIndex)) =
      some (.IECDEC_OK, 0, 16352, 100, 0) :=
  ⟨splitBurst_encoded, split_sync, rfl, rfl, rfl, rfl, by decide, by decide, by decide⟩

/-- C30 (amended): pending reassembly, continuation-only burst that does not complete
the AU. With sync held on a burst without sub-headers (cursor 0), `frameBytesMissing > 0`
and `frameBytesMissing > payload_length - sub_header_size` (the unsigned difference the
code computes), and the store inside the pending state (`appendStoreFits`: the appended
bytes end inside the `MAX_MPEGH_FRAME_SIZE` bytes of the pending buffer and the new
`pcmOffsetPending` is an `int32_t` value), `iec61937_decode_process` appends the
`payload_length - sub_header_size` bytes that follow the terminator to the pending
buffer, decreases `frameBytesMissing` by that number and `pcmOffsetPending` by the
frame length, and returns `Ok` with `out_len = 0`; the same call finishes the burst:
`iec_frame_processed` is true, the burst is removed from the work buffer and sync and
parser state are reset. -/
theorem C30_continuation_burst (k : WireConsts) (h : DecState) (cap fuel : Nat)
    (hs : h.syncFound = true) (hnum : h.numPayloadHeaders = 0)
    (hidx : h.payloadHeaderIndex = 0) (hfm : h.frameBytesMissing > 0)
    (hmore : h.frameBytesMissing > sub32 h.payloadLength h.payloadHeaderSize)
    (hfm32 : h.frameBytesMissing < 4294967296)
    (hfit : appendStoreFits h) :
    iec61937_decode_process k (fuel + 1) h cap =
      some (DecOut.mk .IECDEC_OK [] 0 0 h.frameLength true,
        finishBurst { h with
          frameBufferPending := memWrite h.frameBufferPending h.frameBytesPending
            (memRead h.workBuffer
              (h.syncCandidateIndex + IEC_HEADER_SIZE_BYTES + h.payloadHeaderSize)
              (sub32 h.payloadLength h.payloadHeaderSize)),
          frameBytesPending := h.frameBytesPending + sub32 h.payloadLength h.payloadHeaderSize,
          frameBytesMissing := h.frameBytesMissing - sub32 h.payloadLength h.payloadHeaderSize,
          pcmOffsetPending := h.pcmOffsetPending - (h.frameLength : Int) }) := by
  have e : u32 (h.frameBytesPending + sub32 h.payloadLength h.payloadHeaderSize) =
      h.frameBytesPending + sub32 h.payloadLength h.payloadHeaderSize := by
    have h1 := hfit.1
    unfold MAX_MPEGH_FRAME_SIZE at h1
    unfold u32
    omega
  rw [process_of_sync k h cap fuel hs]
  unfold processSynced
  rw [if_pos hfm, if_pos hnum, if_pos hmore, sub32_of_le (by omega) hfm32, e]
  unfold emitPayload
  simp only [hnum, hidx, Nat.lt_irrefl, if_false, if_true]
  rfl

theorem C30_witness :
    (iec61937_decode_process refConsts 1 contSynced 65536).map
      (fun r => (r.1.iecFrameProcessed, r.2.frameBytesPending, r.2.frameBytesMissing,
        r.2.workBufferBytesAvailable)) = some (true, 32712, 7288, 0) := by
  rw [C30_continuation_burst refConsts contSynced 65536 0 rfl rfl rfl (by decide) (by decide)
    (by decide) (by decide)]
  decide

/-- C30, as stated, fails: the call that appends a continuation-only burst to the
pending AU also finishes the burst. `contBurst`, the second burst of an AU of 40000
bytes, is fed to an idle decoder with an empty work buffer that holds 16352 pending
bytes with 23648 missing, and the sync loop accepts it
(`23648 > 16368 - 8`); the call returns `Ok` with `out_len = 0`, 7288 bytes still
missing, and `iec_frame_processed = true` with the work buffer emptied: nothing of the
burst is left for a next call. -/
theorem C30_counterexample :
    syncLoop refConsts 2
      (iec61937_decode_feed (idleState [] 0 (List.replicate 16352 1) 16352 23648 (-1024))
        contBurst).2 = some contSynced ∧
    contSynced.syncFound = true ∧ contSynced.numPayloadHeaders = 0 ∧
    contSynced.frameBytesMissing = 23648 ∧
    contSynced.payloadLength - contSynced.payloadHeaderSize = 16360 ∧
    (iec61937_decode_process refConsts 1 contSynced 65536).map
      (fun r => (r.1.result, r.1.outputBufferLength, r.1.iecFrameProcessed,
        r.2.frameBytesMissing, r.2.workBufferBytesAvailable, r.2.syncFound)) =
      some (.IECDEC_OK, 0, true, 7288, 0, false) :=
  ⟨cont_sync, rfl, rfl, rfl, by decide, by decide⟩

/-- C31: pending completion. `s` is the state with sync held from which the call handles
the burst (the state on entry when sync is held on entry, the state its sync loop
leaves otherwise). With `frameBytesMissing > 0`, a capacity of at least
`frameBytesPending + frameBytesMissing`, and either a burst without sub-headers and
`frameBytesMissing = payloadLength - payloadHeaderSize`, or a burst with sub-headers
whose first `data_offset` `d` is at least `frameBytesMissing`, the call returns `Ok`
with the pending bytes followed by the `frameBytesMissing` bytes at burst offset
`8 + payloadHeaderSize` (first case) or `d - frameBytesMissing` (second case),
`out_len = frameBytesPending + frameBytesMissing`, the pcm offset of the pending AU
and `iec_frame_processed = false`; the state afterwards is `s` with the pending state
cleared, the sub-header cursor and the work buffer as they were. -/
theorem C31_pending_completion (k : WireConsts) (h s : DecState) (cap fuel : Nat)
    (hsl : syncLoop k fuel h = some s) (hs : s.syncFound = true)
    (hfm : 0 < s.frameBytesMissing)
    (hsum : s.frameBytesPending + s.frameBytesMissing < 4294967296)
    (hcap : s.frameBytesPending + s.frameBytesMissing ≤ cap)
    (hcase : (s.numPayloadHeaders = 0 ∧
        s.frameBytesMissing = sub32 s.payloadLength s.payloadHeaderSize) ∨
      (s.numPayloadHeaders ≠ 0 ∧
        s.frameBytesMissing ≤ s.syncCandidateIndex +
          (parsePayloadHeader s (s.syncCandidateIndex + IEC_HEADER_SIZE_BYTES)).1 ∧
        s.syncCandidateIndex +
          (parsePayloadHeader s (s.syncCandidateIndex + IEC_HEADER_SIZE_BYTES)).1 <
            4294967296)) :
    iec61937_decode_process k fuel h cap =
      some (DecOut.mk .IECDEC_OK
          (memRead s.frameBufferPending 0 s.frameBytesPending ++
            memRead s.workBuffer
              (if s.numPayloadHeaders = 0 then
                s.syncCandidateIndex + IEC_HEADER_SIZE_BYTES + s.payloadHeaderSize
               else s.syncCandidateIndex +
                (parsePayloadHeader s (s.syncCandidateIndex + IEC_HEADER_SIZE_BYTES)).1 -
                  s.frameBytesMissing)
              s.frameBytesMissing)
          (s.frameBytesPending + s.frameBytesMissing) s.pcmOffsetPending s.frameLength false,
        resetPendingState s) ∧
    (memRead s.frameBufferPending 0 s.frameBytesPending ++
        memRead s.workBuffer
          (if s.numPayloadHeaders = 0 then
            s.syncCandidateIndex + IEC_HEADER_SIZE_BYTES + s.payloadHeaderSize
           else s.syncCandidateIndex +
            (parsePayloadHeader s (s.syncCandidateIndex + IEC_HEADER_SIZE_BYTES)).1 -
              s.frameBytesMissing)
          s.frameBytesMissing).length = s.frameBytesPending + s.frameBytesMissing ∧
    (resetPendingState s).frameBytesPending = 0 ∧
    (resetPendingState s).frameBytesMissing = 0 ∧
    (resetPendingState s).pcmOffsetPending = 0 ∧
    (resetPendingState s).payloadHeaderIndex = s.payloadHeaderIndex ∧
    (resetPendingState s).numPayloadHeaders = s.numPayloadHeaders ∧
    (resetPendingState s).workBuffer = s.workBuffer ∧
    (resetPendingState s).syncFound = true := by
  refine ⟨?_, ?_, rfl, rfl, rfl, rfl, rfl, rfl, hs⟩
  · rw [process_after_sync k h s cap fuel hsl hs]
    unfold processSynced
    rw [if_pos hfm, u32_of_lt hsum]
    rcases hcase with ⟨hn, he⟩ | ⟨hn, hle, hlt⟩
    · rw [if_pos hn, if_pos hn, if_neg (by omega), if_neg (by omega), if_neg (by omega)]
    · rw [if_neg hn, if_neg hn, if_neg (by omega)]
      simp only []
      rw [u32_of_lt hlt, if_neg (by omega), sub32_of_le hle hlt]
  · rw [List.length_append, memRead_length, memRead_length]

theorem C31_witness :
    iec61937_decode_process refConsts 1 pendingDoneState 65536 =
      some (DecOut.mk .IECDEC_OK [9, 9, 9, 9, 1, 2, 3, 4, 5, 6, 7, 8] 12 (-1024) 1024 false,
        resetPendingState pendingDoneState) :=
  (C31_pending_completion refConsts pendingDoneState pendingDoneState 65536 1
    (syncLoop_of_sync refConsts pendingDoneState 0 rfl) rfl (by decide) (by decide) (by decide)
    (Or.inl ⟨rfl, by decide⟩)).1.trans (by decide)

/-- C32 (amended): burst completion, relative to the state `s` in which the sync loop of
the call leaves the decoder (sync held, the burst inside the available bytes). For a call
that returns `Ok`: `iec_frame_length` is the frame length of the burst;
`iec_frame_processed` is true exactly when the call is not a pending completion and the
sub-header cursor, advanced over the sub-header the call handles, equals the number of
sub-headers. In that case `burstRepetitionPeriod` bytes are removed from the front of the
work buffer of `s` with the following bytes kept in order, sync state and parser state
are reset, and the completion does not touch the pending state: it is that of `s` when
the call neither kept a split prefix nor appended a continuation, and what the split
handling or the append wrote otherwise. In every other `Ok` return `iec_frame_processed`
is false and work buffer and available bytes are those of `s`. The stores of the call
into the pending state are taken to stay inside it: `splitStoreFits s` when the call
keeps a split prefix and `appendStoreFits s` when it appends a continuation (at most
`MAX_MPEGH_FRAME_SIZE` bytes in the pending buffer, `pcmOffsetPending` an `int32_t`
value); the bytes collected are then at most `MAX_MPEGH_FRAME_SIZE`. -/
theorem C32_burst_completion (k : WireConsts) (h s : DecState) (cap fuel : Nat)
    (hsl : syncLoop k fuel h = some s) (hs : s.syncFound = true)
    (havail : s.burstRepetitionPeriod ≤ s.workBufferBytesAvailable)
    (h32 : s.workBufferBytesAvailable < 4294967296)
    (hok : (processSynced s cap).1.result = .IECDEC_OK)
    (hsplitfit : s.frameBytesMissing = 0 → s.payloadHeaderIndex < s.numPayloadHeaders →
      (currentSubHeader s).2.1 ≤ cap →
      (currentSubHeader s).1 + (currentSubHeader s).2.1 >
        IEC_HEADER_SIZE_BYTES + s.payloadLength → splitStoreFits s)
    (happfit : s.frameBytesMissing > 0 → s.numPayloadHeaders = 0 →
      s.frameBytesMissing > sub32 s.payloadLength s.payloadHeaderSize → appendStoreFits s) :
    iec61937_decode_process k fuel h cap = some (processSynced s cap) ∧
    (processSynced s cap).1.iecFrameLength = s.frameLength ∧
    ((processSynced s cap).1.iecFrameProcessed = true ↔
      ((s.frameBytesMissing = 0 ∨ (s.numPayloadHeaders = 0 ∧
          s.frameBytesMissing > sub32 s.payloadLength s.payloadHeaderSize)) ∧
        (if s.payloadHeaderIndex < s.numPayloadHeaders then s.payloadHeaderIndex + 1
          else s.payloadHeaderIndex) = s.numPayloadHeaders)) ∧
    ((processSynced s cap).1.iecFrameProcessed = true →
      burstRemoved s (processSynced s cap).2 ∧
      (s.frameBytesMissing = 0 →
        (s.payloadHeaderIndex < s.numPayloadHeaders →
          (currentSubHeader s).1 + (currentSubHeader s).2.1 ≤
            IEC_HEADER_SIZE_BYTES + s.payloadLength) →
        (processSynced s cap).2.frameBytesPending = s.frameBytesPending ∧
        (processSynced s cap).2.frameBytesMissing = s.frameBytesMissing ∧
        (processSynced s cap).2.pcmOffsetPending = s.pcmOffsetPending ∧
        (processSynced s cap).2.frameBufferPending = s.frameBufferPending) ∧
      (s.frameBytesMissing = 0 → s.payloadHeaderIndex < s.numPayloadHeaders →
        (currentSubHeader s).1 + (currentSubHeader s).2.1 >
            IEC_HEADER_SIZE_BYTES + s.payloadLength →
        (processSynced s cap).2.frameBytesMissing =
          sub32 (currentSubHeader s).2.1
            (u32 (sub32 s.payloadLength (currentSubHeader s).1 + IEC_HEADER_SIZE_BYTES)) ∧
        (processSynced s cap).2.frameBytesPending =
          sub32 (currentSubHeader s).2.1 (processSynced s cap).2.frameBytesMissing ∧
        (processSynced s cap).2.pcmOffsetPending =
          (currentSubHeader s).2.2 - (s.frameLength : Int) ∧
        (processSynced s cap).2.frameBytesPending ≤ MAX_MPEGH_FRAME_SIZE) ∧
      (s.frameBytesMissing > 0 →
        (processSynced s cap).2.frameBytesPending =
          s.frameBytesPending + sub32 s.payloadLength s.payloadHeaderSize ∧
        (processSynced s cap).2.frameBytesMissing =
          sub32 s.frameBytesMissing (sub32 s.payloadLength s.payloadHeaderSize) ∧
        (processSynced s cap).2.pcmOffsetPending =
          s.pcmOffsetPending - (s.frameLength : Int) ∧
        (processSynced s cap).2.frameBytesPending ≤ MAX_MPEGH_FRAME_SIZE)) ∧
    ((processSynced s cap).1.iecFrameProcessed = false →
      (processSynced s cap).2.workBuffer = s.workBuffer ∧
      (processSynced s cap).2.workBufferBytesAvailable = s.workBufferBytesAvailable) := by
  refine ⟨process_after_sync k h s cap fuel hsl hs, ?_⟩
  by_cases hfm : s.frameBytesMissing > 0
  · unfold processSynced at hok ⊢
    simp only [] at hok ⊢
    rw [if_pos hfm] at hok ⊢
    by_cases hnum : s.numPayloadHeaders = 0
    · rw [if_pos hnum] at hok ⊢
      by_cases hmore : s.frameBytesMissing > sub32 s.payloadLength s.payloadHeaderSize
      · rw [if_pos hmore] at hok ⊢
        obtain ⟨e1, e2, e3, e4⟩ := emitPayload_ok _ cap hok havail h32
        refine ⟨e1, ⟨fun hp => ⟨Or.inr ⟨hnum, hmore⟩, e2.1 hp⟩, fun hp => e2.2 hp.2⟩,
          fun hp => ?_, e4⟩
        obtain ⟨r1, r2, _⟩ := e3 hp
        obtain ⟨p1, p2, p3, _⟩ := r2 (fun hc => by
          have : s.payloadHeaderIndex < s.numPayloadHeaders := hc
          omega)
        have hf := (happfit hfm hnum hmore).1
        have eu : u32 (s.frameBytesPending + sub32 s.payloadLength s.payloadHeaderSize) =
            s.frameBytesPending + sub32 s.payloadLength s.payloadHeaderSize := by
          unfold MAX_MPEGH_FRAME_SIZE at hf
          unfold u32
          omega
        exact ⟨r1, fun h0 => absurd h0 (by omega), fun h0 => absurd h0 (by omega),
          fun _ => ⟨p1.trans eu, p2, p3, by rw [p1, eu]; exact hf⟩⟩
      · rw [if_neg hmore] at hok ⊢
        by_cases hless : s.frameBytesMissing < sub32 s.payloadLength s.payloadHeaderSize
        · rw [if_pos hless] at hok
          cases hok
        rw [if_neg hless] at hok ⊢
        by_cases hc : u32 (s.frameBytesPending + s.frameBytesMissing) > cap
        · rw [if_pos hc] at hok
          cases hok
        rw [if_neg hc]
        exact ⟨rfl, ⟨fun hp => Bool.noConfusion hp, fun hp => by
            rcases hp.1 with h0 | ⟨_, h1⟩
            · omega
            · exact absurd h1 hmore⟩,
          fun hp => Bool.noConfusion hp, fun _ => ⟨rfl, rfl⟩⟩
    · rw [if_neg hnum] at hok ⊢
      by_cases hc : u32 (s.frameBytesPending + s.frameBytesMissing) > cap
      · rw [if_pos hc] at hok
        cases hok
      rw [if_neg hc] at hok ⊢
      by_cases hlt : u32 (s.syncCandidateIndex +
          (parsePayloadHeader s (s.syncCandidateIndex + IEC_HEADER_SIZE_BYTES)).1) <
            s.frameBytesMissing
      · rw [if_pos hlt] at hok
        cases hok
      rw [if_neg hlt]
      exact ⟨rfl, ⟨fun hp => Bool.noConfusion hp, fun hp => by
          rcases hp.1 with h0 | ⟨h1, _⟩
          · omega
          · exact absurd h1 hnum⟩,
        fun hp => Bool.noConfusion hp, fun _ => ⟨rfl, rfl⟩⟩
  · have h0 : s.frameBytesMissing = 0 := by omega
    rw [processSynced_of_idle s cap h0] at hok ⊢
    obtain ⟨e1, e2, e3, e4⟩ := emitPayload_ok s cap hok havail h32
    refine ⟨e1, ⟨fun hp => ⟨Or.inl h0, e2.1 hp⟩, fun hp => e2.2 hp.2⟩, fun hp => ?_, e4⟩
    obtain ⟨r1, r2, r3⟩ := e3 hp
    refine ⟨r1, fun _ => r2, fun _ hidx hsplit => ?_, fun hc => absurd hc hfm⟩
    obtain ⟨q1, q2, q3⟩ := r3 hidx hsplit
    have hcapok : (currentSubHeader s).2.1 ≤ cap := by
      by_contra hc
      rw [emitPayload_eq, if_pos hidx, if_pos (by omega)] at hok
      cases hok
    refine ⟨q1, q2, q3, ?_⟩
    rw [q2, q1]
    exact (hsplitfit h0 hidx hcapok hsplit).1

theorem C32_witness :
    (processSynced s1Synced 65536).1.result = .IECDEC_OK ∧
    (processSynced s1Synced 65536).1.iecFrameProcessed = true ∧
    (processSynced s1Synced 65536).2.workBufferBytesAvailable = 0 ∧
    (processSynced s1Synced 65536).2.syncFound = false ∧
    (processSynced s1Synced 65536).2.frameBytesMissing = 0 :=
  have hw := C32_burst_completion refConsts
    (iec61937_decode_feed iec61937_decode_open s1Burst).2 s1Synced 65536 2 s1_sync rfl
    (by decide) (by decide) (by decide) (fun _ _ _ hc => absurd hc (by decide))
    (fun hc => absurd hc (by decide))
  have hp : (processSynced s1Synced 65536).1.iecFrameProcessed = true :=
    hw.2.2.1.2 ⟨Or.inl rfl, by decide⟩
  ⟨by decide, hp, (hw.2.2.2.1 hp).1.1, (hw.2.2.2.1 hp).1.2.2.1,
    ((hw.2.2.2.1 hp).2.1 rfl (fun _ => by decide)).2.1⟩

/-- C32, as stated, fails in two ways. (1) `splitBurst`, fed to a fresh decoder whose
pending state is clear: the call returns `Ok` and completes the burst
(`iec_frame_processed` true), and the pending state afterwards is 16352 bytes collected,
100 missing, pcm offset -1024. (2) One junk byte in front of a burst: for `junkStream2`
(16385 bytes fed) the first call returns `Ok` with the first AU and
`iec_frame_processed` false, and 16384 bytes are available afterwards with the preamble
in cell 0, where the junk byte was; for `junkStream1` the call returns `Ok` and completes
the burst, and no byte is available afterwards: 16385 bytes are gone, not 16384. -/
theorem C32_counterexample :
    ((iec61937_decode_feed iec61937_decode_open splitBurst).2.frameBytesPending = 0 ∧
      (iec61937_decode_feed iec61937_decode_open splitBurst).2.frameBytesMissing = 0 ∧
      (iec61937_decode_feed iec61937_decode_open splitBurst).2.pcmOffsetPending = 0 ∧
      (iec61937_decode_process refConsts 2
        (iec61937_decode_feed iec61937_decode_open splitBurst).2 65536).map
          (fun r => (r.1.result, r.1.iecFrameProcessed, r.2.frameBytesPending,
            r.2.frameBytesMissing, r.2.pcmOffsetPending)) =
        some (.IECDEC_OK, true, 16352, 100, -1024)) ∧
    ((iec61937_decode_feed iec61937_decode_open junkStream2).2.workBufferBytesAvailable =
        16385 ∧
      peek (iec61937_decode_feed iec61937_decode_open junkStream2).2.workBuffer 0 = 0 ∧
      (iec61937_decode_process refConsts 2
        (iec61937_decode_feed iec61937_decode_open junkStream2).2 65536).map
          (fun r => (r.1.result, r.1.iecFrameProcessed, r.1.outputBuffer,
            r.2.workBufferBytesAvailable, peek r.2.workBuffer 0)) =
        some (.IECDEC_OK, false, [1, 2, 3, 4, 5, 6, 7, 8], 16384, 248)) ∧
    ((iec61937_decode_feed iec61937_decode_open junkStream1).2.workBufferBytesAvailable =
        16385 ∧
      (iec61937_decode_process refConsts 2
        (iec61937_decode_feed iec61937_decode_open junkStream1).2 65536).map
          (fun r => (r.1.result, r.1.iecFrameProcessed, r.1.outputBufferLength,
            r.2.workBufferBytesAvailable)) =
        some (.IECDEC_OK, true, 100, 0)) := by
  refine ⟨⟨?_, ?_, ?_, ?_⟩, ⟨?_, ?_, ?_⟩, ⟨?_, ?_⟩⟩
  · rw [split_feed]; rfl
  · rw [split_feed]; rfl
  · rw [split_feed]; rfl
  · rw [process_after_sync _ _ _ _ _ split_sync rfl]
    decide
  · rw [junk2_feed]; rfl
  · rw [junk2_feed]; rfl
  · rw [process_after_sync _ _ _ _ _ junk2_sync rfl]
    decide
  · rw [junk1_feed]; rfl
  · rw [process_after_sync _ _ _ _ _ junk1_sync rfl]
    decide

/-- C33: the sync search. With no candidate and no sync held and more than 8 bytes
buffered: if `m` is the smallest offset below `workBufferBytesAvailable - 8` at which
the four preamble bytes stand and `parseIecFrameData` accepts, the search loop stores
the header parsed at `m`, marks the candidate and drops the `m` bytes before it, so
that the candidate sits at offset 0 (and the call returns `FeedMoreData` with this
state when the burst is not yet complete in the buffer); if there is no such offset,
the loop keeps the last 8 bytes of the buffer (the offsets not examined) and the call
returns `FeedMoreData`. -/
theorem C33_sync_search (k : WireConsts) (h : DecState)
    (hc : h.syncCandidateFound = false) (hsf : h.syncFound = false)
    (havail : h.workBufferBytesAvailable > IEC_HEADER_SIZE_BYTES) :
    (∀ m, m < h.workBufferBytesAvailable - IEC_HEADER_SIZE_BYTES → acceptedAt k h m →
      (∀ j, j < m → ¬ acceptedAt k h j) →
      candidateSearch k h =
        { (parseIecFrameData k { h with syncCandidateIndex := m }).2 with
          syncCandidateFound := true,
          workBuffer := memMove h.workBuffer 0 m (h.workBufferBytesAvailable - m),
          workBufferBytesAvailable := h.workBufferBytesAvailable - m,
          syncCandidateIndex := 0 } ∧
      (∀ t, t < h.workBufferBytesAvailable - m →
        peek (candidateSearch k h).workBuffer t = peek h.workBuffer (m + t)) ∧
      (h.workBufferBytesAvailable - m <
          (parseIecFrameData k { h with syncCandidateIndex := m }).2.burstRepetitionPeriod →
        ∀ fuel cap, iec61937_decode_process k (fuel + 1) h cap =
          some (DecOut.mk .IECDEC_FEED_MORE_DATA [] 0 0 0 false, candidateSearch k h))) ∧
    ((∀ j, j < h.workBufferBytesAvailable - IEC_HEADER_SIZE_BYTES → ¬ acceptedAt k h j) →
      candidateSearch k h =
        { h with
          workBuffer := memMove h.workBuffer 0
            (h.workBufferBytesAvailable - IEC_HEADER_SIZE_BYTES) IEC_HEADER_SIZE_BYTES,
          workBufferBytesAvailable := IEC_HEADER_SIZE_BYTES,
          syncCandidateIndex := 0 } ∧
      (∀ t, t < IEC_HEADER_SIZE_BYTES →
        peek (candidateSearch k h).workBuffer t =
          peek h.workBuffer (h.workBufferBytesAvailable - IEC_HEADER_SIZE_BYTES + t)) ∧
      ∀ fuel cap, iec61937_decode_process k (fuel + 2) h cap =
        some (DecOut.mk .IECDEC_FEED_MORE_DATA [] 0 0 0 false, candidateSearch k h)) := by
  constructor
  · intro m hm hacc hmin
    have hcs := candidateSearch_found k h m hc havail hm hacc hmin
    rcases parseIecFrameData_cases k { h with syncCandidateIndex := m } with ⟨e1, _⟩ | ⟨_, e⟩
    · rw [hacc.2.2.2.2] at e1
      cases e1
    obtain ⟨_, _, _, _, e5, _⟩ := e
    refine ⟨hcs, ?_, ?_⟩
    · intro t ht
      rw [hcs]
      show peek (memMove h.workBuffer 0 m (h.workBufferBytesAvailable - m)) t = _
      rw [peek_memMove_zero, if_pos ht]
    · intro hshort fuel cap
      apply process_no_sync
      · rw [syncLoop, if_pos ⟨by rw [hsf]; rfl, havail⟩]
        simp only []
        rw [if_pos (by rw [hcs])]
        rw [if_neg (by
          rw [hcs]
          show ¬ h.workBufferBytesAvailable - m ≥
            0 + (parseIecFrameData k { h with syncCandidateIndex := m }).2.burstRepetitionPeriod
          omega)]
      · rw [hcs]
        show (parseIecFrameData k { h with syncCandidateIndex := m }).2.syncFound = false
        rw [e5]
        exact hsf
  · intro hno
    have hcs := candidateSearch_none k h hc havail hno
    refine ⟨hcs, ?_, ?_⟩
    · intro t ht
      rw [hcs]
      show peek (memMove h.workBuffer 0 (h.workBufferBytesAvailable - IEC_HEADER_SIZE_BYTES)
        IEC_HEADER_SIZE_BYTES) t = _
      rw [peek_memMove_zero, if_pos ht]
    · intro fuel cap
      apply process_no_sync
      · rw [syncLoop, if_pos ⟨by rw [hsf]; rfl, havail⟩]
        simp only []
        rw [if_neg (by rw [hcs]; show ¬ h.syncCandidateFound = true; rw [hc]; decide)]
        rw [syncLoop, if_neg (by
          rw [hcs]
          show ¬ ((!h.syncFound) = true ∧ IEC_HEADER_SIZE_BYTES > IEC_HEADER_SIZE_BYTES)
          intro hh
          exact Nat.lt_irrefl _ hh.2)]
      · rw [hcs]
        exact hsf

theorem C33_witness :
    (candidateSearch refConsts searchState).workBufferBytesAvailable = 16 ∧
    (candidateSearch refConsts searchState).burstRepetitionPeriod = 3072 ∧
    (candidateSearch refConsts searchState).workBuffer.take 16 =
      [248, 114, 78, 31, 3, 25, 0, 1, 2, 3, 4, 5, 6, 7, 8, 9] ∧
    iec61937_decode_process refConsts 2 noCandidateState 65536 =
      some (DecOut.mk .IECDEC_FEED_MORE_DATA [] 0 0 0 false,
        candidateSearch refConsts noCandidateState) ∧
    (candidateSearch refConsts noCandidateState).workBufferBytesAvailable = 8 ∧
    (candidateSearch refConsts noCandidateState).workBuffer.take 8 = [0, 10, 0, 0, 1, 2, 3, 4] := by
  have h1 := ((C33_sync_search refConsts searchState rfl rfl (by decide)).1 9 (by decide)
    (by decide) (by decide)).1
  have h2 := ((C33_sync_search refConsts noCandidateState rfl rfl (by decide)).2
    (by decide)).2.2 0 65536
  refine ⟨?_, ?_, ?_, h2, ?_, ?_⟩
  · rw [h1]; rfl
  · rw [h1]; rfl
  · rw [h1]; rfl
  · decide
  · decide

/-- C34: agreement of the encoder with the validation of the decoder, for a burst
written by a call with a non-empty AU from a reachable encoder state (spacing a
multiple of 8, at most 16320). The decoder candidate holds the burst and
`frameBytesMissing` is the length of the pending AU the burst starts with (0 if none).
`checkBurstSpacing` passes and `checkPayloadHeaders` returns; it accepts, reporting the
number of sub-headers written by `writeIecFrame`, exactly when the burst has no
sub-header or the payload bytes in front of the last listed frame, plus 8, do not exceed
the payload rounded up to a multiple of 8 (its `data_offset` is at most `8 * Pd`); it
never accepts with another count, and otherwise it rejects the burst. -/
theorem C34_validation_agreement (k : WireConsts) (h : EncState) (au : List Nat)
    (duration cap : Nat) (hsp : k.IEC_BURST_SPACING_SIZE_BYTES ≤ 16320)
    (hsp8 : k.IEC_BURST_SPACING_SIZE_BYTES % 8 = 0)
    (hr : EncReachable k h) (hau : au ≠ [])
    (hok : (iec61937_encode_process k h au duration cap).1.result = .IECENC_OK)
    (hne : (iec61937_encode_process k h au duration cap).1.outputBufferLength ≠ 0) :
    checkBurstSpacing k
      (candidateOf k (iec61937_encode_process k h au duration cap).1.outputBuffer
        (if (burstState h au duration).auPending then
          peek (burstState h au duration).frameLength 0 else 0)) = true ∧
    (∃ r, checkPayloadHeaders
      (candidateOf k (iec61937_encode_process k h au duration cap).1.outputBuffer
        (if (burstState h au duration).auPending then
          peek (burstState h au duration).frameLength 0 else 0)) = some r) ∧
    (checkPayloadHeaders
      (candidateOf k (iec61937_encode_process k h au duration cap).1.outputBuffer
        (if (burstState h au duration).auPending then
          peek (burstState h au duration).frameLength 0 else 0)) =
        some (true, numPayloadHeaders (burstState h au duration)
          (getNumBuffersToWrite k (burstState h au duration))) ↔
      (1 ≤ getNumBuffersToWrite k (burstState h au duration) -
          (if (burstState h au duration).auPending then 1 else 0) →
        psum (burstState h au duration).frameLength
            (getNumBuffersToWrite k (burstState h au duration) - 1) + 8 ≤
          8 * ((min (psum (burstState h au duration).frameLength
              (getNumBuffersToWrite k (burstState h au duration)))
            (numAvailableBytes k (burstState h au duration)
              (getNumBuffersToWrite k (burstState h au duration))) + 7) / 8))) ∧
    (∀ n, checkPayloadHeaders
      (candidateOf k (iec61937_encode_process k h au duration cap).1.outputBuffer
        (if (burstState h au duration).auPending then
          peek (burstState h au duration).frameLength 0 else 0)) = some (true, n) →
      n = numPayloadHeaders (burstState h au duration)
        (getNumBuffersToWrite k (burstState h au duration))) ∧
    (¬ (1 ≤ getNumBuffersToWrite k (burstState h au duration) -
          (if (burstState h au duration).auPending then 1 else 0) →
        psum (burstState h au duration).frameLength
            (getNumBuffersToWrite k (burstState h au duration) - 1) + 8 ≤
          8 * ((min (psum (burstState h au duration).frameLength
              (getNumBuffersToWrite k (burstState h au duration)))
            (numAvailableBytes k (burstState h au duration)
              (getNumBuffersToWrite k (burstState h au duration))) + 7) / 8)) →
      ∃ m, checkPayloadHeaders
        (candidateOf k (iec61937_encode_process k h au duration cap).1.outputBuffer
          (if (burstState h au duration).auPending then
            peek (burstState h au duration).frameLength 0 else 0)) = some (false, m)) := by
  have hi := hr.inv hsp
  obtain ⟨hib, hp, hnph, hout⟩ := encode_process_layout k h au duration cap hi hsp hau hok hne
  rw [hout, hnph]
  have hper := (burstState_period h au duration).symm
  have hrf := (burstState_rateFactor h au duration).symm
  generalize burstState h au duration = S at *
  have hnb := getNumBuffersToWrite_le k S
  generalize getNumBuffersToWrite k S = nb at *
  obtain ⟨⟨hrc, hP⟩, ⟨hA8, hAeq⟩, hlen, _, _, hps⟩ :=
    plan_facts k S nb (if S.auPending then 1 else 0) hib hsp hsp8 hnb hp rfl
  rw [hper, hrf, hP]
  have hcnt := hib.count
  have hwr := hib.wr
  have hwrLe := hib.wrLe
  have hple : (if S.auPending then 1 else 0) ≤ nb := by
    cases hpe : S.auPending
    · exact Nat.zero_le _
    · exact hp hpe
  generalize hpdef : (if S.auPending then 1 else 0) = p at *
  have hp1 : p ≤ 1 := by rw [← hpdef]; split <;> omega
  have hfmle : (if S.auPending then peek S.frameLength 0 else 0) ≤ 327680 := by
    rw [← hps]
    have := psum_mono S.frameLength (show p ≤ S.framesStoredCount by omega)
    omega
  generalize hfmdef : (if S.auPending then peek S.frameLength 0 else 0) = fm at *
  generalize hsubs : subHeaderEntries S.frameLength S.frameDuration (nb - p) p
    (8 + (nb - p + 1) * 8 + fm) S.pcmOffset = subs at *
  generalize hmdef : min (psum S.frameLength nb) (numAvailableBytes k S nb) = m at *
  have hmle : m ≤ numAvailableBytes k S nb := by rw [← hmdef]; exact Nat.min_le_right _ _
  have hroom : 8 + (subs.length + 1) * 8 + (memRead S.workBuffer 0 m).length +
      k.IEC_BURST_SPACING_SIZE_BYTES ≤ 4096 * 2 ^ (S.rateFactor + 1) := by
    rw [memRead_length, hlen, ← hP]; omega
  have hP8 : (4096 * 2 ^ (S.rateFactor + 1)) % 8 = 0 := by
    rcases hrc with e | e <;> rw [e] <;> rfl
  have hv := hbrBurst_validation k S.rateFactor subs (memRead S.workBuffer 0 m) fm hrc
    (pdField_fits _ _ _ _ hsp8 hP8 hroom) hroom (by omega)
    (fun j => 8 + (nb - p + 1) * 8 + psum S.frameLength (p + j))
    (fun j => peek S.frameLength (p + j))
    (fun j hj => by
      rw [hlen] at hj
      have e := emitBurst_entries S nb hib hnb j (by rw [hpdef]; exact hj)
      rw [hpdef, hfmdef, hsubs] at e
      obtain ⟨off, pcm, e1, e2, e3, e4, e5⟩ := e
      subst e2
      exact ⟨pcm, e1, e3, e4, e5⟩)
    (fun j hj => by
      rw [hlen] at hj
      have := hib.flPos (p + j) (by omega)
      have e : psum S.frameLength (p + (j + 1)) =
        psum S.frameLength (p + j) + peek S.frameLength (p + j) := rfl
      show 8 + (nb - p + 1) * 8 + psum S.frameLength (p + j) <
        8 + (nb - p + 1) * 8 + psum S.frameLength (p + (j + 1))
      omega)
    (fun h1 => by
      show _ ≤ 8 + (nb - p + 1) * 8 + psum S.frameLength p
      rw [hlen, hps]; omega)
  rw [hlen, memRead_length] at hv
  obtain ⟨hv1, hv2, hv3⟩ := hv
  have hcond : (∀ j, j < nb - p → 8 + (nb - p + 1) * 8 + psum S.frameLength (p + j) ≤
      pdField (nb - p) m * 8) ↔
      (1 ≤ nb - p → psum S.frameLength (nb - 1) + 8 ≤ 8 * ((m + 7) / 8)) := by
    unfold pdField
    constructor
    · intro hall h1
      have := hall (nb - p - 1) (by omega)
      have e : p + (nb - p - 1) = nb - 1 := by omega
      rw [e] at this
      omega
    · intro hc j hj
      have := hc (by omega)
      have := psum_mono S.frameLength (show p + j ≤ nb - 1 by omega)
      omega
  refine ⟨hv1, hv2, ?_, ?_, ?_⟩
  · rw [hv3, ← hcond]
    exact ⟨fun x => x.2, fun x => ⟨rfl, x⟩⟩
  · intro n hn
    exact ((hv3 n).1 hn).1
  · intro hnc
    obtain ⟨r, hr2⟩ := hv2
    obtain ⟨b, m2⟩ := r
    cases b
    · exact ⟨m2, hr2⟩
    · exact absurd (hcond.1 ((hv3 m2).1 hr2).2) hnc

theorem C34_witness :
    (iec61937_encode_process refConsts oneByteStored [9] 512 16384).1.result = .IECENC_OK ∧
    (iec61937_encode_process refConsts oneByteStored [9] 512 16384).1.outputBufferLength =
      16384 ∧
    numPayloadHeaders (burstState oneByteStored [9] 512)
      (getNumBuffersToWrite refConsts (burstState oneByteStored [9] 512)) = 2 ∧
    (burstState oneByteStored [9] 512).auPending = false ∧
    ∃ m, checkPayloadHeaders (candidateOf refConsts
      (iec61937_encode_process refConsts oneByteStored [9] 512 16384).1.outputBuffer 0) =
        some (false, m) :=
  ⟨by decide, by decide, by decide, by decide,
   (C34_validation_agreement refConsts oneByteStored [9] 512 16384 (by decide) (by decide)
      (EncReachable.step _ _ _ _ (EncReachable.opened 4 _ rfl) (by decide)) (by decide)
      (by decide) (by decide)).2.2.2.2 (by decide)⟩

/-- C35: the sub-header walk stays inside the candidate burst. For a candidate whose
header fields are those `parseIecFrameData` stores (`ParsedHeader`), whose burst is
complete in the work buffer and has passed `checkBurstSpacing`, with a burst spacing of
at least 8 bytes: `checkPayloadHeaders` returns, and every index `p` at which it reads a
sub-header (`payloadHeaderSize` bytes from `p` on) satisfies
`syncCandidateIndex + 8 <= p` and `p + payloadHeaderSize <= syncCandidateIndex +
burstRepetitionPeriod`, hence lies below `workBufferBytesAvailable` and the size of the
work buffer. `checkPayloadHeadersTrace` is the loop of `checkPayloadHeaders` with the
read positions recorded. -/
theorem C35_walk_in_burst (k : WireConsts) (h : DecState) (hp : ParsedHeader k h)
    (hsp8 : 8 ≤ k.IEC_BURST_SPACING_SIZE_BYTES)
    (havail : h.syncCandidateIndex + h.burstRepetitionPeriod ≤ h.workBufferBytesAvailable)
    (hwb : h.workBufferBytesAvailable ≤ DEC_WORKBUFFER_SIZE_BYTES)
    (hspace : checkBurstSpacing k h = true) :
    (checkPayloadHeadersTrace h (h.payloadLength + 2) 0 0
      (h.syncCandidateIndex + IEC_HEADER_SIZE_BYTES) 0 0).1 = checkPayloadHeaders h ∧
    (∃ r, checkPayloadHeaders h = some r) ∧
    ∀ p, p ∈ checkPayloadHeadersReads h →
      h.syncCandidateIndex + IEC_HEADER_SIZE_BYTES ≤ p ∧
      p + h.payloadHeaderSize ≤ h.syncCandidateIndex + h.burstRepetitionPeriod ∧
      p + h.payloadHeaderSize ≤ h.workBufferBytesAvailable ∧
      p + h.payloadHeaderSize ≤ DEC_WORKBUFFER_SIZE_BYTES := by
  have hci : h.syncCandidateIndex + h.burstRepetitionPeriod < 4294967296 := by
    unfold DEC_WORKBUFFER_SIZE_BYTES at hwb
    omega
  have hroom := hp.room
  have hple := hp.periodLe
  obtain ⟨J, hJ, hJle⟩ := lastSlot_terminator k h hp hsp8 hci hspace
  refine ⟨checkPayloadHeadersTrace_result h _ _ _ _ _ _, ?_, ?_⟩
  · exact checkPayloadHeadersLoop_total h (by omega) (h.payloadLength + 2) 0 0
      (h.syncCandidateIndex + IEC_HEADER_SIZE_BYTES) 0 0 (by omega)
      (fun h0 => absurd h0 (by decide))
  · intro p hmem
    have hb := checkPayloadHeadersTrace_bounded h
      (h.syncCandidateIndex + IEC_HEADER_SIZE_BYTES) J hJ (h.payloadLength + 2) 0 0 0 0 0
      (Nat.zero_le _) p (by
        rw [Nat.zero_mul, Nat.add_zero]
        exact hmem)
    obtain ⟨i, hi, hpi⟩ := hb
    have hmul : (i + 1) * h.payloadHeaderSize ≤ (J + 1) * h.payloadHeaderSize :=
      Nat.mul_le_mul_right _ (by omega)
    have hsucc : (i + 1) * h.payloadHeaderSize = i * h.payloadHeaderSize + h.payloadHeaderSize :=
      Nat.succ_mul _ _
    unfold IEC_HEADER_SIZE_BYTES at hpi hJle ⊢
    omega

theorem C35_witness :
    checkPayloadHeadersReads walkState = [8, 14, 20] ∧
    checkPayloadHeaders walkState = some (false, 2) ∧
    ∀ p, p ∈ checkPayloadHeadersReads walkState → p + 6 ≤ 3072 :=
  ⟨by decide, by decide, fun p hp =>
    ((C35_walk_in_burst refConsts walkState
      ⟨by decide, by decide, by decide, by decide, by decide⟩ (by decide) (by decide)
      (by decide) (allZeroFrom_true _ _ _ (fun j h1 h2 =>
        peek_of_length_le (by
          show 26 ≤ j
          have e : sub32 (u32 (walkState.syncCandidateIndex + walkState.burstRepetitionPeriod))
            refConsts.IEC_BURST_SPACING_SIZE_BYTES = 3064 := by decide
          rw [e] at h1
          omega)))).2.2 p hp).2.1⟩

/-- C36: in-bounds handling of a validated burst, for callers whose output capacity
never exceeds `MAX_MPEGH_FRAME_SIZE`. `h` is a decoder state reached from
`iec61937_decode_open` by feeding bytes and calling `iec61937_decode_process` with
capacities of at most `M <= MAX_MPEGH_FRAME_SIZE` (spacing at most 3064), and `s` the
state in which the sync loop of a further call with such a capacity leaves the decoder
with sync held. The pending state is inside its objects in `s` and after the call
(bytes collected plus bytes missing, and the cells of the pending buffer written so
far, at most `MAX_MPEGH_FRAME_SIZE`), the candidate is at index 0, the whole burst is
available (`workBufferBytesAvailable >= burstRepetitionPeriod`, inside the work
buffer), and every
range the call reads while it handles the burst, as listed by `processSyncedTrace`
(the sub-header at `8 + index * sub_header_size`, unsplit AU data, a split prefix, the
continuation of a pending AU in both branches), ends at or before
`burstRepetitionPeriod - IEC_BURST_SPACING_SIZE_BYTES`. -/
theorem C36_reads_in_burst (k : WireConsts) (M : Nat) (h s : DecState) (cap fuel : Nat)
    (hsp : k.IEC_BURST_SPACING_SIZE_BYTES ≤ 3064) (hM : M ≤ MAX_MPEGH_FRAME_SIZE)
    (hr : DecReachable k M h) (hcap : cap ≤ M)
    (hsl : syncLoop k fuel h = some s) (hs : s.syncFound = true) :
    s.frameBytesPending + s.frameBytesMissing ≤ MAX_MPEGH_FRAME_SIZE ∧
    s.frameBufferPending.length ≤ MAX_MPEGH_FRAME_SIZE ∧
    (processSyncedTrace s cap).1.2.frameBytesPending +
      (processSyncedTrace s cap).1.2.frameBytesMissing ≤ MAX_MPEGH_FRAME_SIZE ∧
    (processSyncedTrace s cap).1.2.frameBufferPending.length ≤ MAX_MPEGH_FRAME_SIZE ∧
    s.syncCandidateIndex = 0 ∧
    s.burstRepetitionPeriod ≤ s.workBufferBytesAvailable ∧
    s.workBufferBytesAvailable ≤ DEC_WORKBUFFER_SIZE_BYTES ∧
    k.IEC_BURST_SPACING_SIZE_BYTES + IEC_HEADER_SIZE_BYTES ≤ s.burstRepetitionPeriod ∧
    iec61937_decode_process k fuel h cap = some (processSyncedTrace s cap).1 ∧
    ∀ r, r ∈ (processSyncedTrace s cap).2 →
      r.1 + r.2 ≤ s.burstRepetitionPeriod - k.IEC_BURST_SPACING_SIZE_BYTES := by
  obtain ⟨hi, _, _⟩ := DecInv_syncLoop k M hsp fuel h s (decReachable_inv hsp hr) hsl
  obtain ⟨hc, hP, _⟩ := hi.sync hs
  obtain ⟨hp, hci⟩ := hi.cand hc
  have hroom := hp.room
  have hcall : iec61937_decode_process k fuel h cap = some (processSyncedTrace s cap).1 := by
    rw [processSyncedTrace_result]
    exact process_after_sync k h s cap fuel hsl hs
  have hafter := decReachable_inv hsp (DecReachable.process h fuel cap _ hr hcap hcall)
  exact ⟨Nat.le_trans hi.pend hM, Nat.le_trans hi.fbuf hM, Nat.le_trans hafter.pend hM,
    Nat.le_trans hafter.fbuf hM, hci, hP, hi.avail, by omega, hcall,
    processSyncedTrace_inBounds k M s cap hi hs⟩

theorem C36_witness :
    (processSyncedTrace s1Synced 65536).2 = [(8, 8), (24, 100)] ∧
    s1Synced.burstRepetitionPeriod - refConsts.IEC_BURST_SPACING_SIZE_BYTES = 16376 ∧
    ∀ r, r ∈ (processSyncedTrace s1Synced 65536).2 → r.1 + r.2 ≤ 16376 :=
  ⟨by decide, by decide,
    (C36_reads_in_burst refConsts 65536 (iec61937_decode_feed iec61937_decode_open s1Burst).2
      s1Synced 65536 2 (by decide) (by decide)
      (DecReachable.feed _ _ DecReachable.opened s1Burst_bytes) (by decide) s1_sync
      rfl).2.2.2.2.2.2.2.2.2⟩

/-- C37: the guards of the encoder when every AU passed to it is non-empty. In every
reachable state `overall_duration >= 0`; a call writes a burst (its output is not
empty) only with result `Ok` and from a planning state with `overall_duration >= 1024`;
and when the burst is written with `au_pending` set at least one frame is selected, so
that `numPayloadHeaders = numBuffersToWrite - 1` is computed without wrap-around
(`numPayloadHeaders` of `writeIecFrame` equals the difference on natural numbers). -/
theorem C37_encoder_guards (k : WireConsts) (h : EncState) (au : List Nat)
    (duration cap : Nat) (hsp : k.IEC_BURST_SPACING_SIZE_BYTES ≤ 16320)
    (hr : EncReachable k h) (hau : au ≠ []) :
    0 ≤ h.overallDuration ∧
    0 ≤ (iec61937_encode_process k h au duration cap).2.overallDuration ∧
    ((iec61937_encode_process k h au duration cap).1.outputBuffer ≠ [] →
      (iec61937_encode_process k h au duration cap).1.result = .IECENC_OK ∧
      iec61937_encode_process k h au duration cap =
        emitBurst k (burstState h au duration)
          (getNumBuffersToWrite k (burstState h au duration))
          (decide (h.overallDuration < h.audioFrameLength)) ∧
      1024 ≤ (burstState h au duration).overallDuration ∧
      ((burstState h au duration).auPending = true →
        1 ≤ getNumBuffersToWrite k (burstState h au duration)) ∧
      numPayloadHeaders (burstState h au duration)
          (getNumBuffersToWrite k (burstState h au duration)) =
        getNumBuffersToWrite k (burstState h au duration) -
          (if (burstState h au duration).auPending then 1 else 0)) := by
  have hi := hr.inv hsp
  have hi2 := (EncReachable.step h au duration cap hr hau).inv hsp
  refine ⟨hi.dur, hi2.dur, fun hne => ?_⟩
  have hok : (iec61937_encode_process k h au duration cap).1.result = .IECENC_OK := by
    rw [encode_process_eq] at hne ⊢
    by_cases h1 : cap < h.burstRepetitionPeriod
    · rw [if_pos h1] at hne; exact absurd rfl hne
    rw [if_neg h1] at hne ⊢
    by_cases h2 : duration > MAX_MPEGH_FRAME_DURATION
    · rw [if_pos h2] at hne; exact absurd rfl hne
    rw [if_neg h2] at hne ⊢
    by_cases h3 : (if h.overallDuration ≥ h.audioFrameLength then 0 else au.length) ≠ 0
    · rw [if_pos h3] at hne ⊢
      by_cases h4 : h.framesStoredCount + 1 ≥ MAX_NUM_MPEGH_FRAMES
      · rw [if_pos h4] at hne; exact absurd rfl hne
      rw [if_neg h4] at hne ⊢
      by_cases h5 : h.pWorkBufferWrite + au.length > ENC_WORKBUFFER_SIZE_BYTES
      · rw [if_pos h5] at hne; exact absurd rfl hne
      rw [if_neg h5] at hne ⊢
      by_cases h6 : (storeFrame h au duration).overallDuration <
          (storeFrame h au duration).audioFrameLength ∨
          getNumBuffersToWrite k (storeFrame h au duration) = 0
      · rw [if_pos h6] at hne; exact absurd rfl hne
      · rw [if_neg h6]
        rfl
    · rw [if_neg h3]
      rfl
  rcases encode_process_ok k h au duration cap hi hsp hau hok with ⟨he, _⟩ | ⟨he, hib, hd, hp⟩
  · rw [he] at hne
    exact absurd rfl hne
  · have hnb := getNumBuffersToWrite_le k (burstState h au duration)
    have hcnt := hib.count
    exact ⟨hok, he, hd, hp, numPayloadHeaders_eq _ _ (by omega) hp⟩

theorem C37_witness :
    (0 : Int) ≤ (encInit 1 1).overallDuration ∧
    (iec61937_encode_process refConsts (encInit 1 1) [1, 2, 3, 4, 5, 6, 7, 8] 1024
      16384).1.outputBuffer ≠ [] ∧
    (1024 : Int) ≤ (burstState (encInit 1 1) [1, 2, 3, 4, 5, 6, 7, 8] 1024).overallDuration :=
  ⟨(C37_encoder_guards refConsts (encInit 1 1) [1, 2, 3, 4, 5, 6, 7, 8] 1024 16384 (by decide)
      (EncReachable.opened 4 _ rfl) (by decide)).1,
   by decide,
   ((C37_encoder_guards refConsts (encInit 1 1) [1, 2, 3, 4, 5, 6, 7, 8] 1024 16384 (by decide)
      (EncReachable.opened 4 _ rfl) (by decide)).2.2 (by decide)).2.2.1⟩

/-- C38 (what the code does): a call of `iec61937_encode_process` with a zero-length AU
(capacity at least the burst repetition period, duration at most 4096). In every
encoder state the call stores nothing (it runs the burst-writing half on the entry
state), returns `Ok` with `input_consumed = false` and `out_len = burstRepetitionPeriod`,
and leaves the period unchanged, so the demo loop that re-presents the AU until it is
consumed never ends. In a state reachable with non-empty AUs the bytes written are a
burst of `burstRepetitionPeriod` bytes. In a state with `au_pending` set and a negative
`overall_duration` (audio mode 1) no frame is selected, `numPayloadHeaders` wraps to
4294967295 and the bytes written are more than `8 + 4294967295 * 8`. -/
theorem C38_zero_length_au (k : WireConsts) (h : EncState) (duration cap : Nat)
    (hcap : h.burstRepetitionPeriod ≤ cap) (hd : duration ≤ MAX_MPEGH_FRAME_DURATION) :
    iec61937_encode_process k h [] duration cap =
      emitBurst k h (getNumBuffersToWrite k h) false ∧
    (iec61937_encode_process k h [] duration cap).1.result = .IECENC_OK ∧
    (iec61937_encode_process k h [] duration cap).1.inputBufferProcessed = false ∧
    (iec61937_encode_process k h [] duration cap).1.outputBufferLength =
      h.burstRepetitionPeriod ∧
    (iec61937_encode_process k h [] duration cap).2.burstRepetitionPeriod =
      h.burstRepetitionPeriod ∧
    (h.burstRepetitionPeriod ≤ MAX_IEC61937_FRAME_SIZE_BYTES →
      ∀ fuel, encodeAu k fuel h [] duration = none) ∧
    (k.IEC_BURST_SPACING_SIZE_BYTES ≤ 16320 → EncReachable k h →
      (iec61937_encode_process k h [] duration cap).1.outputBuffer.length =
        h.burstRepetitionPeriod) ∧
    (h.auPending = true → h.overallDuration < 0 → h.audioMode = 1 →
      getNumBuffersToWrite k h = 0 ∧
      numPayloadHeaders h (getNumBuffersToWrite k h) = 4294967295 ∧
      (iec61937_encode_process k h [] duration cap).1.outputBuffer.length ≥
        8 + 4294967295 * 8) := by
  have he := encode_process_empty k h duration cap hcap hd
  rw [he]
  refine ⟨rfl, rfl, rfl, rfl, rfl, fun hP fuel => encodeAu_empty k duration hd fuel h hP, ?_, ?_⟩
  · intro hsp hr
    have hi := hr.inv hsp
    exact emitBurst_output_length k h _ false hi hsp (getNumBuffersToWrite_le k h)
      (fun hp => getNumBuffersToWrite_pos k h (availableBytes_pos k h hi hsp) hi.dur (hi.pend hp))
  · intro hp hneg hm
    have hnb := getNumBuffersToWrite_negative k h hneg
    rw [hnb]
    refine ⟨rfl, ?_, emitBurst_output_wrapped k h false hp hm⟩
    unfold numPayloadHeaders
    rw [if_pos hp]
    rfl

/-- The failing run: after an AU of 16452 bytes (duration 0) and one zero-length call,
the next zero-length call selects no frame while an AU is pending, and writes more than
`8 + 4294967295 * 8` bytes for a burst of 16384. -/
theorem C38_witness :
    zeroLenState2.burstRepetitionPeriod = 16384 ∧
    numPayloadHeaders zeroLenState2 (getNumBuffersToWrite refConsts zeroLenState2) =
      4294967295 ∧
    (iec61937_encode_process refConsts zeroLenState2 [] 0 16384).1.outputBufferLength =
      zeroLenState2.burstRepetitionPeriod ∧
    (iec61937_encode_process refConsts zeroLenState2 [] 0 16384).1.outputBuffer.length ≥
      8 + 4294967295 * 8 := by
  obtain ⟨z1, z2, z3, z4, _⟩ := zeroLen_facts
  have key := C38_zero_length_au refConsts zeroLenState2 0 16384 (by rw [z4]) (by decide)
  obtain ⟨_, _, _, k4, _, _, _, k8⟩ := key
  obtain ⟨_, w2, w3⟩ := k8 z1 (by rw [z2]; decide) z3
  exact ⟨z4, w2, k4, w3⟩

/-- C39: the pending invariant of the decoder. `h` is reached from `iec61937_decode_open`
by feeding bytes and by calls of `iec61937_decode_process` with capacities of at most `M`,
`M <= MAX_MPEGH_FRAME_SIZE` (spacing at most 3064); a further call with capacity
`cap <= M` returns `r`, and `s` is the state its sync loop leaves. In `h` and after the
call the pending buffer has been written up to at most `MAX_MPEGH_FRAME_SIZE` cells and
`frameBytesPending + frameBytesMissing` is at most `MAX_MPEGH_FRAME_SIZE`; feeding leaves
the pending state alone; the sync loop keeps the pending state or resets it. When the
call sets a pending state (`frameBytesMissing` was 0 in `s` and is positive afterwards),
sync is held on a split sub-header and `frameBytesPending + frameBytesMissing` is its
`data_length`, which is at most `cap`. When an AU is pending in `s`, the call keeps
`frameBytesPending + frameBytesMissing` and returns no AU, or returns `Ok` with an AU of
exactly that many bytes and clears the pending state, or resets the pending state with
`IECDEC_PENDINGDATA_ERROR`. -/
theorem C39_pending_invariant (k : WireConsts) (M : Nat) (h s : DecState) (cap fuel : Nat)
    (r : DecOut × DecState) (hsp : k.IEC_BURST_SPACING_SIZE_BYTES ≤ 3064)
    (hM : M ≤ MAX_MPEGH_FRAME_SIZE) (hr : DecReachable k M h) (hcap : cap ≤ M)
    (hsl : syncLoop k fuel h = some s)
    (hp : iec61937_decode_process k fuel h cap = some r) :
    (h.frameBufferPending.length ≤ MAX_MPEGH_FRAME_SIZE ∧
      h.frameBytesPending + h.frameBytesMissing ≤ MAX_MPEGH_FRAME_SIZE ∧
      r.2.frameBufferPending.length ≤ MAX_MPEGH_FRAME_SIZE ∧
      r.2.frameBytesPending + r.2.frameBytesMissing ≤ MAX_MPEGH_FRAME_SIZE) ∧
    (∀ input, (iec61937_decode_feed h input).2.frameBytesPending = h.frameBytesPending ∧
      (iec61937_decode_feed h input).2.frameBytesMissing = h.frameBytesMissing ∧
      (iec61937_decode_feed h input).2.frameBufferPending = h.frameBufferPending) ∧
    ((s.frameBytesPending = h.frameBytesPending ∧ s.frameBytesMissing = h.frameBytesMissing) ∨
      (s.frameBytesPending = 0 ∧ s.frameBytesMissing = 0)) ∧
    (s.frameBytesMissing = 0 → 0 < r.2.frameBytesMissing →
      s.syncFound = true ∧ s.payloadHeaderIndex < s.numPayloadHeaders ∧
      (currentSubHeader s).1 + (currentSubHeader s).2.1 >
        IEC_HEADER_SIZE_BYTES + s.payloadLength ∧
      r.2.frameBytesPending + r.2.frameBytesMissing = (currentSubHeader s).2.1 ∧
      (currentSubHeader s).2.1 ≤ cap ∧ r.1.result = .IECDEC_OK ∧
      r.1.outputBufferLength = 0) ∧
    (s.frameBytesMissing > 0 →
      (0 < r.2.frameBytesMissing ∧
        r.2.frameBytesPending + r.2.frameBytesMissing =
          s.frameBytesPending + s.frameBytesMissing ∧
        r.1.outputBufferLength = 0) ∨
      (r.1.result = .IECDEC_OK ∧
        r.1.outputBufferLength = s.frameBytesPending + s.frameBytesMissing ∧
        r.1.outputBuffer.length = s.frameBytesPending + s.frameBytesMissing ∧
        s.frameBytesPending + s.frameBytesMissing ≤ cap ∧
        r.2.frameBytesPending = 0 ∧ r.2.frameBytesMissing = 0) ∨
      (r.1.result = .IECDEC_PENDINGDATA_ERROR ∧ r.1.outputBufferLength = 0 ∧
        r.2.frameBytesPending = 0 ∧ r.2.frameBytesMissing = 0)) := by
  have hi := decReachable_inv hsp hr
  have hi2 := decReachable_inv hsp (DecReachable.process h fuel cap r hr hcap hp)
  obtain ⟨his, _, hpend⟩ := DecInv_syncLoop k M hsp fuel h s hi hsl
  have hfb := hi.fbuf
  have hpe := hi.pend
  have hfb2 := hi2.fbuf
  have hpe2 := hi2.pend
  refine ⟨⟨by omega, by omega, by omega, by omega⟩, fun input => ?_, ?_, ?_, ?_⟩
  · unfold iec61937_decode_feed
    split
    · exact ⟨rfl, rfl, rfl⟩
    · exact ⟨rfl, rfl, rfl⟩
  · rcases hpend with ⟨a, b, _⟩ | ⟨a, b, _⟩
    · exact Or.inl ⟨a, b⟩
    · exact Or.inr ⟨a, b⟩
  · intro h0 hpos
    by_cases hs : s.syncFound = true
    · rw [process_after_sync k h s cap fuel hsl hs] at hp
      cases hp
      rcases (processSynced_inv k M s cap his hs hcap).2.2 h0 with ⟨_, p2, _, _⟩ | hsplit
      · rw [p2, h0] at hpos
        exact absurd hpos (Nat.lt_irrefl _)
      · obtain ⟨x1, x2, x3, _, _, _, x7, x8, x9⟩ := hsplit
        exact ⟨hs, x1, x3, x7, x2, x8, x9⟩
    · have hs2 : s.syncFound = false := by
        cases hsf : s.syncFound
        · rfl
        · exact absurd hsf hs
      rw [process_no_sync k h s cap fuel hsl hs2] at hp
      cases hp
      rw [h0] at hpos
      exact absurd hpos (Nat.lt_irrefl _)
  · intro hfm
    by_cases hs : s.syncFound = true
    · rw [process_after_sync k h s cap fuel hsl hs] at hp
      cases hp
      exact (processSynced_inv k M s cap his hs hcap).2.1 hfm
    · have hs2 : s.syncFound = false := by
        cases hsf : s.syncFound
        · rfl
        · exact absurd hsf hs
      rw [process_no_sync k h s cap fuel hsl hs2] at hp
      cases hp
      exact Or.inl ⟨hfm, rfl, rfl⟩

theorem C39_witness :
    (processSynced splitSynced 65536).2.frameBytesPending +
      (processSynced splitSynced 65536).2.frameBytesMissing = 16452 ∧
    (currentSubHeader splitSynced).2.1 = 16452 ∧
    (processSynced splitSynced 65536).2.frameBufferPending.length ≤ MAX_MPEGH_FRAME_SIZE :=
  have hw := C39_pending_invariant refConsts 65536
    (iec61937_decode_feed iec61937_decode_open splitBurst).2 splitSynced 65536 2
    (processSynced splitSynced 65536) (by decide) (by decide)
    (DecReachable.feed _ _ DecReachable.opened splitBurst_bytes) (by decide) split_sync
    (process_after_sync _ _ _ _ _ split_sync rfl)
  ⟨(by decide : (currentSubHeader splitSynced).2.1 = 16452) ▸
      (hw.2.2.2.1 rfl (by decide)).2.2.2.1,
    by decide, hw.1.2.2.1⟩

/-- C40: `checkPayloadHeaders` terminates on every buffer content. For every decoder
state (with `payloadLength + 2 < 2^32`) the walk returns a result after visiting at
most `payloadLength + 2` sub-headers: the loop run with `payloadLength + 2` iterations
returns, every larger bound gives the same result, and the list of sub-headers visited
has at most `payloadLength + 2` entries. -/
theorem C40_walk_terminates (h : DecState) (hPL : h.payloadLength + 2 < 4294967296) :
    (∃ r, checkPayloadHeaders h = some r) ∧
    (∀ fuel, h.payloadLength + 2 ≤ fuel →
      checkPayloadHeadersLoop h fuel 0 0 (h.syncCandidateIndex + IEC_HEADER_SIZE_BYTES) 0 0 =
        checkPayloadHeaders h) ∧
    (checkPayloadHeadersTrace h (h.payloadLength + 2) 0 0
      (h.syncCandidateIndex + IEC_HEADER_SIZE_BYTES) 0 0).1 = checkPayloadHeaders h ∧
    (checkPayloadHeadersReads h).length ≤ h.payloadLength + 2 := by
  obtain ⟨r, hr⟩ := checkPayloadHeadersLoop_total h hPL (h.payloadLength + 2) 0 0
    (h.syncCandidateIndex + IEC_HEADER_SIZE_BYTES) 0 0 (by omega) (fun h0 => absurd h0 (by decide))
  refine ⟨⟨r, hr⟩, ?_, checkPayloadHeadersTrace_result h _ _ _ _ _ _,
    checkPayloadHeadersTrace_length h _ _ _ _ _ _⟩
  intro fuel hf
  rw [checkPayloadHeadersLoop_mono_le h _ _ _ _ _ _ r hr fuel hf]
  exact hr.symm

theorem C40_witness :
    checkPayloadHeaders twoHeaderState = some (true, 2) ∧
    checkPayloadHeadersLoop twoHeaderState 1000 0 0 8 0 0 = checkPayloadHeaders twoHeaderState ∧
    checkPayloadHeadersReads twoHeaderState = [8, 16, 24] :=
  ⟨by decide,
   (C40_walk_terminates twoHeaderState (by decide)).2.1 1000 (by decide),
   by decide⟩

end Iec61937
